import Mathlib

/-!
# quic-go: variable-length integers, packet numbers, flow control, configuration, queues

A shallow embedding of `quicvarint/varint.go`, of
`internal/ackhandler/packet_number_generator.go`, of
`internal/flowcontrol/connection_flow_controller.go`, of
`internal/wire/stop_sending_frame.go`, of `config.go` and of
`datagram_queue.go`, and models of the sent packet handler and the received
packet history of `internal/ackhandler` and of the connection ID generator of
the package `quic`, with the properties the specification states about them.

Conventions of the embedding:

* a byte is a natural number; `uint8 x` is the conversion `uint8(x)` of Go,
  i.e. reduction modulo 256;
* a `bytes.Buffer` is the list of the bytes written so far, oldest first;
* an `io.ByteReader` is the list of the bytes not yet read;
* a Go `panic` is an explicit outcome: for the functions that write to a buffer
  it records the buffer contents at the moment of the panic, for the others it
  is the result `none`;
* `protocol.ByteCount` and `protocol.PacketNumber` are 64-bit signed integer
  types, represented by `Int`; where the result of an arithmetic operation of
  the source can leave the range of the type (the packet number generators,
  `IncrementHighestReceived`), it is reduced by `protocol.int64`, so that an
  overflow wraps around as it does in Go. The components that are modelled from
  the specification compute with the integers of the specification.
-/

namespace quicvarint

/-! ## Constants (taken from the QUIC draft) -/

def maxVarInt1 : Nat := 63
def maxVarInt2 : Nat := 16383
def maxVarInt4 : Nat := 1073741823
def maxVarInt8 : Nat := 4611686018427387903

/-- Conversion `uint8(x)`: keeps the low eight bits. -/
def uint8 (x : Nat) : Nat := x % 256

/-- Conversion to `uint64` after an arithmetic operation: keeps the low 64 bits. -/
def uint64 (x : Nat) : Nat := x % 2 ^ 64

/-- Errors of a byte source. `EOF` is `io.EOF`, which `bytes.Reader.ReadByte`
returns when no byte is left (the specification calls it UnexpectedEnd). -/
inductive Error where
  | EOF
  deriving DecidableEq, Repr

/-- The method `ReadByte` of a byte source holding the unread bytes `b`: the next
byte and the remaining source, or `io.EOF` when the source is exhausted. -/
def ReadByte (b : List Nat) : Except Error (Nat × List Nat) :=
  match b with
  | [] => Except.error Error.EOF
  | x :: rest => Except.ok (x, rest)

/-- The function `Read` of `varint.go`: reads a number in the QUIC varint format.
Returns the number and the unread rest of the source. -/
def Read (b : List Nat) : Except Error (Nat × List Nat) :=
  match ReadByte b with
  | Except.error err => Except.error err
  | Except.ok (firstByte, b) =>
    -- the first two bits of the first byte encode the length
    let len := 1 <<< ((firstByte &&& 0xc0) >>> 6)
    let b1 := firstByte &&& (0xff - 0xc0)
    if len = 1 then Except.ok (b1, b) else
    match ReadByte b with
    | Except.error err => Except.error err
    | Except.ok (b2, b) =>
      if len = 2 then Except.ok (uint64 (b2 + uint64 (b1 <<< 8)), b) else
      match ReadByte b with
      | Except.error err => Except.error err
      | Except.ok (b3, b) =>
        match ReadByte b with
        | Except.error err => Except.error err
        | Except.ok (b4, b) =>
          if len = 4 then
            Except.ok (uint64 (uint64 (uint64 (b4 + uint64 (b3 <<< 8)) + uint64 (b2 <<< 16))
              + uint64 (b1 <<< 24)), b)
          else
          match ReadByte b with
          | Except.error err => Except.error err
          | Except.ok (b5, b) =>
            match ReadByte b with
            | Except.error err => Except.error err
            | Except.ok (b6, b) =>
              match ReadByte b with
              | Except.error err => Except.error err
              | Except.ok (b7, b) =>
                match ReadByte b with
                | Except.error err => Except.error err
                | Except.ok (b8, b) =>
                  Except.ok (uint64 (uint64 (uint64 (uint64 (uint64 (uint64 (uint64 (b8
                    + uint64 (b7 <<< 8)) + uint64 (b6 <<< 16)) + uint64 (b5 <<< 24))
                    + uint64 (b4 <<< 32)) + uint64 (b3 <<< 40)) + uint64 (b2 <<< 48))
                    + uint64 (b1 <<< 56)), b)

/-- Outcome of a function that writes to a `bytes.Buffer` and may panic. Either
way the outcome carries the contents of the buffer when the function stops. -/
inductive Outcome where
  | returned (buf : List Nat)
  | panicked (buf : List Nat)
  deriving DecidableEq, Repr

/-- The method `WriteByte` of `bytes.Buffer`. -/
def WriteByte (b : List Nat) (c : Nat) : List Nat := b ++ [c]

/-- The method `Write` of `bytes.Buffer`. -/
def bufWrite (b : List Nat) (p : List Nat) : List Nat := b ++ p

/-- The function `Write` of `varint.go`: writes a number in the QUIC varint format. -/
def Write (b : List Nat) (i : Nat) : Outcome :=
  if i ≤ maxVarInt1 then
    Outcome.returned (WriteByte b (uint8 i))
  else if i ≤ maxVarInt2 then
    Outcome.returned (bufWrite b [uint8 (i >>> 8) ||| 0x40, uint8 i])
  else if i ≤ maxVarInt4 then
    Outcome.returned (bufWrite b [uint8 (i >>> 24) ||| 0x80, uint8 (i >>> 16), uint8 (i >>> 8),
      uint8 i])
  else if i ≤ maxVarInt8 then
    Outcome.returned (bufWrite b [
      uint8 (i >>> 56) ||| 0xc0, uint8 (i >>> 48), uint8 (i >>> 40), uint8 (i >>> 32),
      uint8 (i >>> 24), uint8 (i >>> 16), uint8 (i >>> 8), uint8 i])
  else
    Outcome.panicked b

/-- The function `Len` of `varint.go`: the number of bytes needed to write a
number; `none` is the panic for a value that does not fit into 62 bits. The
result is a `protocol.ByteCount`, a signed integer. -/
def Len (i : Nat) : Option Int :=
  if i ≤ maxVarInt1 then some 1
  else if i ≤ maxVarInt2 then some 2
  else if i ≤ maxVarInt4 then some 4
  else if i ≤ maxVarInt8 then some 8
  else none

/-- The function `WriteWithLen` of `varint.go`: writes a number in the QUIC
varint format, with the desired length. The two loops of the source run over
`j = 1, ..., length-l-1` and over `j = 0, ..., l-1`. -/
def WriteWithLen (b : List Nat) (i : Nat) (length : Int) : Outcome :=
  if length ≠ 1 ∧ length ≠ 2 ∧ length ≠ 4 ∧ length ≠ 8 then
    Outcome.panicked b
  else
    match Len i with
    | none => Outcome.panicked b
    | some l =>
      if l = length then Write b i
      else if l > length then Outcome.panicked b
      else
        let b1 :=
          if length = 2 then WriteByte b 0b01000000
          else if length = 4 then WriteByte b 0b10000000
          else if length = 8 then WriteByte b 0b11000000
          else b
        let b2 := (List.range' 1 (length - l - 1).toNat).foldl (fun buf _ => WriteByte buf 0) b1
        let b3 := (List.range l.toNat).foldl
          (fun buf j => WriteByte buf (uint8 (i >>> (8 * (l.toNat - 1 - j))))) b2
        Outcome.returned b3

/-- The bytes `w` are an encoding of `v` of length `L`: they are `L` bytes, the top
two bits of the first one select the length `L`, and `Read` decodes them to `v`. -/
def IsEncoding (w : List Nat) (v : Nat) (L : Int) : Prop :=
  (w.length : Int) = L
    ∧ (∃ f rest, w = f :: rest ∧ f < 256 ∧ ((1 <<< ((f &&& 0xc0) >>> 6) : Nat) : Int) = L)
    ∧ ∀ s, Read (w ++ s) = Except.ok (v, s)

end quicvarint

namespace protocol

/-- Modelled from the spec: the types `protocol.PacketNumber` and
`protocol.ByteCount` are declared in `internal/protocol`, outside the sources at
hand; they are 64-bit signed integer types (`generateNewSkip` converts a packet
number from and to `int64`). `int64 x` is the value that an arithmetic operation
of such a type yields when its exact result is `x`: the low 64 bits of `x`, read
in two's complement. -/
def int64 (x : Int) : Int := (x + 2 ^ 63) % 2 ^ 64 - 2 ^ 63

/-- The exact result `x` of an arithmetic operation is a value of the 64-bit
signed type: the operation does not overflow. -/
def fitsInt64 (x : Int) : Bool := decide (-2 ^ 63 ≤ x ∧ x < 2 ^ 63)

end protocol

namespace ackhandler

/-! ## Packet number generators (`internal/ackhandler/packet_number_generator.go`)

A packet number is represented by an `Int`, and every arithmetic operation of
the generators is followed by the reduction `protocol.int64` to the range of the
machine type, so that the wrap-around of an overflowing operation is part of
the description. -/

/-- The pseudo-random source `*mrand.Rand` of a generator, as an oracle: `src k`
determines the `k`-th number the source hands out, `pos` counts the numbers
handed out so far. Quantifying over `src` covers every sequence of draws. -/
structure Rand where
  src : Nat → Nat
  pos : Nat

/-- The method `Int63n` of `math/rand`: it panics (`none`) if `n ≤ 0`, and otherwise
returns a non-negative number in the half-open interval `[0, n)` and advances the
source. Every element of `[0, n)` is a possible result: it is `src pos % n`. -/
def Rand.Int63n (r : Rand) (n : Int) : Option (Int × Rand) :=
  if n ≤ 0 then none
  else some (((r.src r.pos : Nat) : Int) % n, { src := r.src, pos := r.pos + 1 })

/-- Modelled from the spec: `utils.MinPacketNumber` is declared in `internal/utils`,
outside the sources at hand. The specification says of the call in
`generateNewSkip` that the period "is doubled (capped at max_period)": the
function returns the smaller of its two arguments. -/
def MinPacketNumber (a b : Int) : Int := if a < b then a else b

/-- The struct `sequentialPacketNumberGenerator`. -/
structure sequentialPacketNumberGenerator where
  next : Int

/-- The function `newSequentialPacketNumberGenerator`. -/
def newSequentialPacketNumberGenerator (initial : Int) : sequentialPacketNumberGenerator :=
  { next := initial }

/-- The method `Peek` of the sequential generator. -/
def sequentialPacketNumberGenerator.Peek (p : sequentialPacketNumberGenerator) : Int :=
  p.next

/-- The method `Pop` of the sequential generator: the returned packet number and
the generator afterwards. -/
def sequentialPacketNumberGenerator.Pop (p : sequentialPacketNumberGenerator) :
    Int × sequentialPacketNumberGenerator :=
  let next := p.next
  (next, { next := protocol.int64 (p.next + 1) })

/-- The struct `skippingPacketNumberGenerator`. -/
structure skippingPacketNumberGenerator where
  rand : Rand
  period : Int
  maxPeriod : Int
  next : Int
  nextToSkip : Int

/-- The method `generateNewSkip`; `none` is the panic of `Int63n`. -/
def skippingPacketNumberGenerator.generateNewSkip (p : skippingPacketNumberGenerator) :
    Option skippingPacketNumberGenerator :=
  -- make sure that there are never two consecutive packet numbers that are skipped
  match p.rand.Int63n (protocol.int64 (2 * p.period)) with
  | none => none
  | some (r, rand) =>
    some { rand := rand
           next := p.next
           maxPeriod := p.maxPeriod
           nextToSkip := protocol.int64 (protocol.int64 (p.next + 2) + r)
           period := MinPacketNumber (protocol.int64 (2 * p.period)) p.maxPeriod }

/-- The function `newSkippingPacketNumberGenerator`. The argument `src` stands for
the pseudo-random source that the constructor seeds from `crypto/rand`. -/
def newSkippingPacketNumberGenerator (src : Nat → Nat) (initial initialPeriod maxPeriod : Int) :
    Option skippingPacketNumberGenerator :=
  skippingPacketNumberGenerator.generateNewSkip
    { rand := { src := src, pos := 0 }
      next := initial
      period := initialPeriod
      maxPeriod := maxPeriod
      nextToSkip := 0 }

/-- The method `Peek` of the skipping generator. -/
def skippingPacketNumberGenerator.Peek (p : skippingPacketNumberGenerator) : Int :=
  p.next

/-- The method `Pop` of the skipping generator: the returned packet number and the
generator afterwards; `none` is a panic. -/
def skippingPacketNumberGenerator.Pop (p : skippingPacketNumberGenerator) :
    Option (Int × skippingPacketNumberGenerator) :=
  let next := p.next
  -- generate a new packet number for the next packet
  let p1 : skippingPacketNumberGenerator := { p with next := protocol.int64 (p.next + 1) }
  if p1.next = p1.nextToSkip then
    let p2 : skippingPacketNumberGenerator :=
      { p1 with next := protocol.int64 (p1.next + 1) }
    match p2.generateNewSkip with
    | none => none
    | some p3 => some (next, p3)
  else
    some (next, p1)

/-- The results of `n` successive calls of `Pop` on a skipping generator, in order,
and the generator afterwards. -/
def skippingPacketNumberGenerator.popN :
    Nat → skippingPacketNumberGenerator → Option (List Int × skippingPacketNumberGenerator)
  | 0, p => some ([], p)
  | n + 1, p =>
    match p.Pop with
    | none => none
    | some (pn, p1) =>
      match popN n p1 with
      | none => none
      | some (pns, p2) => some (pn :: pns, p2)

/-- The results of `n` successive calls of `Pop` on a sequential generator, in
order, and the generator afterwards. -/
def sequentialPacketNumberGenerator.popN :
    Nat → sequentialPacketNumberGenerator → List Int × sequentialPacketNumberGenerator
  | 0, p => ([], p)
  | n + 1, p =>
    let r := popN n p.Pop.2
    (p.Pop.1 :: r.1, r.2)

/-- The packet numbers skipped between the results of successive calls of `Pop`,
found the way the test "generates a new packet number to skip" finds them: `last`
is the previous result, and a result `next > last + 1` reveals that `next - 1` was
skipped. -/
def skippedNumbers : Int → List Int → List Int
  | _, [] => []
  | last, next :: rest =>
    if next > last + 1 then (next - 1) :: skippedNumbers next rest
    else skippedNumbers next rest

/-- No arithmetic operation of a call of `generateNewSkip` overflows: the exact
values of `2*p.period`, of `p.next + 2` and of the sum of `p.next + 2` and the
number drawn are values of the machine type. -/
def skippingPacketNumberGenerator.generateNewSkipExact (p : skippingPacketNumberGenerator) :
    Bool :=
  protocol.fitsInt64 (2 * p.period) && protocol.fitsInt64 (p.next + 2) &&
    match p.rand.Int63n (2 * p.period) with
    | none => true
    | some (r, _) => protocol.fitsInt64 (p.next + 2 + r)

/-- No arithmetic operation of a call of `Pop` overflows: the exact value of
`p.next + 1` is a value of the machine type, and when this is the number to
skip, so are `p.next + 2` and the values that `generateNewSkip` computes. -/
def skippingPacketNumberGenerator.PopExact (p : skippingPacketNumberGenerator) : Bool :=
  protocol.fitsInt64 (p.next + 1) &&
    (if p.next + 1 = p.nextToSkip then
      protocol.fitsInt64 (p.next + 2)
        && skippingPacketNumberGenerator.generateNewSkipExact { p with next := p.next + 2 }
    else true)

/-- No arithmetic operation of the next `n` calls of `Pop` overflows. -/
def skippingPacketNumberGenerator.popNExact : Nat → skippingPacketNumberGenerator → Bool
  | 0, _ => true
  | n + 1, p =>
    p.PopExact &&
      match p.Pop with
      | none => true
      | some (_, q) => popNExact n q

/-- No arithmetic operation overflows in the creation of a skipping generator
and in its first `n` calls of `Pop`. -/
def newSkippingPacketNumberGeneratorExact (src : Nat → Nat)
    (initial initialPeriod maxPeriod : Int) (n : Nat) : Bool :=
  skippingPacketNumberGenerator.generateNewSkipExact
      { rand := { src := src, pos := 0 }
        next := initial
        period := initialPeriod
        maxPeriod := maxPeriod
        nextToSkip := 0 } &&
    match newSkippingPacketNumberGenerator src initial initialPeriod maxPeriod with
    | none => true
    | some g => g.popNExact n

end ackhandler

namespace ackhandler

/-- A call of one of the two methods of the interface `packetNumberGenerator`. -/
inductive generatorCall where
  | Peek
  | Pop
  deriving DecidableEq, Repr

/-- The return values of a sequence of `Peek` and `Pop` calls on a sequential
generator, each with the call that returned it, and the generator afterwards. -/
def sequentialPacketNumberGenerator.run :
    List generatorCall → sequentialPacketNumberGenerator →
      List (generatorCall × Int) × sequentialPacketNumberGenerator
  | [], p => ([], p)
  | generatorCall.Peek :: calls, p =>
    let r := run calls p
    ((generatorCall.Peek, p.Peek) :: r.1, r.2)
  | generatorCall.Pop :: calls, p =>
    let r := run calls p.Pop.2
    ((generatorCall.Pop, p.Pop.1) :: r.1, r.2)

/-- The values returned by the `Pop` calls among the results of a run, in order. -/
def popResults (results : List (generatorCall × Int)) : List Int :=
  (results.filter (fun r => r.1 = generatorCall.Pop)).map (fun r => r.2)

end ackhandler

namespace qerr

/-- Modelled from the spec: the package `internal/qerr` is outside the sources at
hand. These are the two transport error codes that the functions below return,
named as in the list of error wire codes of the specification
(FLOW_CONTROL_ERROR, PROTOCOL_VIOLATION). -/
inductive ErrorCode where
  | FlowControlError
  | ProtocolViolation
  deriving DecidableEq, Repr

/-- Modelled from the spec: an error made by `qerr.NewError`, an error code with
a message. -/
structure QuicError where
  ErrorCode : ErrorCode
  ErrorMessage : String
  deriving DecidableEq, Repr

/-- Modelled from the spec: the function `qerr.NewError`. -/
def NewError (code : ErrorCode) (message : String) : QuicError :=
  { ErrorCode := code, ErrorMessage := message }

end qerr

namespace flowcontrol

/-! ## Connection flow controller (`internal/flowcontrol/connection_flow_controller.go`)

A byte count (`protocol.ByteCount`) is represented by an `Int`; the addition of
`IncrementHighestReceived` is followed by the reduction `protocol.int64` to the
range of the machine type, so that its wrap-around is part of the description.
The methods of the base controller, which are modelled from the specification,
compute with the integers of the specification. Points in time and durations are
integers as well (a number of nanoseconds): a method that reads the clock or the
smoothed round-trip time of the shared `rttStats` gets the value it would read as
an argument. The logger has no effect on the state and is left out. -/

/-- Modelled from the spec: `utils.MinByteCount` is declared in `internal/utils`,
outside the sources at hand. The specification says of the window size that it is
"capped at max_receive_window_size": the function returns the smaller of its two
arguments. -/
def MinByteCount (a b : Int) : Int := if a < b then a else b

/-- Modelled from the spec: the struct `baseFlowController` is declared in
`base_flow_controller.go`, outside the sources at hand. The fields are those of
the data model of the specification: "bytes_sent, send_window; bytes_read,
highest_received, receive_window, receive_window_size, max_receive_window_size;
last_window_update_time, epoch_start_time, epoch_start_offset". -/
structure baseFlowController where
  bytesSent : Int
  sendWindow : Int
  bytesRead : Int
  highestReceived : Int
  receiveWindow : Int
  receiveWindowSize : Int
  maxReceiveWindowSize : Int
  lastWindowUpdateTime : Int
  epochStartTime : Int
  epochStartOffset : Int
  deriving DecidableEq, Repr

/-- Modelled from the spec: the method `sendWindowSize` of the base controller.
"`SendWindowSize()` returns `send_window − bytes_sent`." -/
def baseFlowController.sendWindowSize (c : baseFlowController) : Int :=
  c.sendWindow - c.bytesSent

/-- Modelled from the spec: the method `AddBytesSent` of the base controller.
"`AddBytesSent(n)` increases the counter". -/
def baseFlowController.AddBytesSent (c : baseFlowController) (n : Int) : baseFlowController :=
  { c with bytesSent := c.bytesSent + n }

/-- Modelled from the spec: the method `UpdateSendWindow` of the base controller.
"`UpdateSendWindow(off)` raises send_window (never lowers it)." -/
def baseFlowController.UpdateSendWindow (c : baseFlowController) (offset : Int) :
    baseFlowController :=
  if offset > c.sendWindow then { c with sendWindow := offset } else c

/-- Modelled from the spec: the method `checkFlowControlViolation` of the base
controller. "If `highest_received` ever exceeds `receive_window`, the controller
fails with `FLOW_CONTROL_ERROR`." -/
def baseFlowController.checkFlowControlViolation (c : baseFlowController) : Bool :=
  decide (c.highestReceived > c.receiveWindow)

/-- Modelled from the spec: the method `addBytesRead` of the base controller; it
advances `bytes_read`. -/
def baseFlowController.addBytesRead (c : baseFlowController) (n : Int) : baseFlowController :=
  { c with bytesRead := c.bytesRead + n }

/-- Modelled from the spec: the method `hasWindowUpdate` of the base controller.
"When `bytes_read` crosses receive_window − receive_window_size/2, emit a window
update." -/
def baseFlowController.hasWindowUpdate (c : baseFlowController) : Bool :=
  decide (c.receiveWindow - c.receiveWindowSize / 2 ≤ c.bytesRead)

/-- Modelled from the spec: the method `startNewAutoTuningEpoch` of the base
controller; it resets the epoch (`epoch_start_time`, `epoch_start_offset`). -/
def baseFlowController.startNewAutoTuningEpoch (c : baseFlowController) (now : Int) :
    baseFlowController :=
  { c with epochStartTime := now, epochStartOffset := c.bytesRead }

/-- Modelled from the spec: the method `getWindowUpdate` of the base controller.
"If the delta from the last update arrived within 2·smoothed_rtt, double
receive_window_size (capped at max_receive_window_size) and reset the epoch.
`GetWindowUpdate()` returns 0 to mean no update needed else the new offset". The
receive window is an absolute offset: the new one lies `receive_window_size` bytes
beyond the bytes read. -/
def baseFlowController.getWindowUpdate (c : baseFlowController) (now smoothedRTT : Int) :
    Int × baseFlowController :=
  if !c.hasWindowUpdate then (0, c)
  else
    let c1 :=
      if now - c.lastWindowUpdateTime ≤ 2 * smoothedRTT then
        ({ c with receiveWindowSize :=
            MinByteCount (2 * c.receiveWindowSize) c.maxReceiveWindowSize }
          ).startNewAutoTuningEpoch now
      else c
    let c2 := { c1 with receiveWindow := c1.bytesRead + c1.receiveWindowSize,
                        lastWindowUpdateTime := now }
    (c2.receiveWindow, c2)

/-- The struct `connectionFlowController`: the embedded base controller and the
callback `queueWindowUpdate`, which is represented by the number of times it has
been called. -/
structure connectionFlowController where
  baseFlowController : baseFlowController
  queueWindowUpdate : Nat
  deriving DecidableEq, Repr

/-- The function `NewConnectionFlowController`; the fields that the source does not
set have their zero value. -/
def NewConnectionFlowController (receiveWindow maxReceiveWindow : Int) :
    connectionFlowController :=
  { baseFlowController :=
      { bytesSent := 0
        sendWindow := 0
        bytesRead := 0
        highestReceived := 0
        receiveWindow := receiveWindow
        receiveWindowSize := receiveWindow
        maxReceiveWindowSize := maxReceiveWindow
        lastWindowUpdateTime := 0
        epochStartTime := 0
        epochStartOffset := 0 }
    queueWindowUpdate := 0 }

/-- The method `SendWindowSize`. -/
def connectionFlowController.SendWindowSize (c : connectionFlowController) : Int :=
  c.baseFlowController.sendWindowSize

/-- The method `IncrementHighestReceived`: adds an increment to the highestReceived
value (`c.highestReceived += increment`, an addition of the 64-bit signed type).
Returns the error, if any, and the controller afterwards. -/
def connectionFlowController.IncrementHighestReceived (c : connectionFlowController)
    (increment : Int) : Option qerr.QuicError × connectionFlowController :=
  let b : flowcontrol.baseFlowController :=
    { c.baseFlowController with
        highestReceived :=
          protocol.int64 (c.baseFlowController.highestReceived + increment) }
  let c1 : connectionFlowController := { c with baseFlowController := b }
  if b.checkFlowControlViolation then
    (some (qerr.NewError qerr.ErrorCode.FlowControlError
      ("Received " ++ toString b.highestReceived ++ " bytes for the connection, allowed "
        ++ toString b.receiveWindow ++ " bytes")), c1)
  else (none, c1)

/-- The method `AddBytesRead`. -/
def connectionFlowController.AddBytesRead (c : connectionFlowController) (n : Int) :
    connectionFlowController :=
  let c1 : connectionFlowController :=
    { c with baseFlowController := c.baseFlowController.addBytesRead n }
  let shouldQueueWindowUpdate := c1.baseFlowController.hasWindowUpdate
  if shouldQueueWindowUpdate then { c1 with queueWindowUpdate := c1.queueWindowUpdate + 1 }
  else c1

/-- The method `GetWindowUpdate`: the offset returned and the controller
afterwards. -/
def connectionFlowController.GetWindowUpdate (c : connectionFlowController)
    (now smoothedRTT : Int) : Int × connectionFlowController :=
  let r := c.baseFlowController.getWindowUpdate now smoothedRTT
  (r.1, { c with baseFlowController := r.2 })

/-- The method `EnsureMinimumWindowSize`: sets a minimum window size. -/
def connectionFlowController.EnsureMinimumWindowSize (c : connectionFlowController)
    (inc now : Int) : connectionFlowController :=
  if inc > c.baseFlowController.receiveWindowSize then
    let b : flowcontrol.baseFlowController :=
      { c.baseFlowController with
          receiveWindowSize := MinByteCount inc c.baseFlowController.maxReceiveWindowSize }
    { c with baseFlowController := b.startNewAutoTuningEpoch now }
  else c

/-- A call of one of the operations of the connection flow controller, with its
arguments (and with the clock and round-trip time it reads). -/
inductive Call where
  | IncrementHighestReceived (increment : Int)
  | AddBytesRead (n : Int)
  | GetWindowUpdate (now smoothedRTT : Int)
  | EnsureMinimumWindowSize (inc now : Int)
  | AddBytesSent (n : Int)
  | UpdateSendWindow (offset : Int)
  deriving DecidableEq, Repr

/-- One call: the error it returned, if any, and the controller afterwards. -/
def connectionFlowController.call (c : connectionFlowController) :
    Call → Option qerr.QuicError × connectionFlowController
  | Call.IncrementHighestReceived increment => c.IncrementHighestReceived increment
  | Call.AddBytesRead n => (none, c.AddBytesRead n)
  | Call.GetWindowUpdate now smoothedRTT => (none, (c.GetWindowUpdate now smoothedRTT).2)
  | Call.EnsureMinimumWindowSize inc now => (none, c.EnsureMinimumWindowSize inc now)
  | Call.AddBytesSent n =>
    (none, { c with baseFlowController := c.baseFlowController.AddBytesSent n })
  | Call.UpdateSendWindow offset =>
    (none, { c with baseFlowController := c.baseFlowController.UpdateSendWindow offset })

/-- A sequence of calls: the controller afterwards and the errors that the calls
returned, in order. -/
def connectionFlowController.run :
    List Call → connectionFlowController → connectionFlowController × List qerr.QuicError
  | [], c => (c, [])
  | k :: calls, c =>
    let r := c.call k
    let rest := run calls r.2
    (rest.1, (match r.1 with | none => [] | some e => [e]) ++ rest.2)

end flowcontrol

namespace ackhandler

/-! ## Sent packet handler

The file `sent_packet_handler.go` is outside the sources at hand, as are the
packet history and the declarations of `Packet`, of the ACK frame and of the RTT
statistics: only the tests of the handler are there. The handler is modelled
from section 4.4 and the data model of the specification, with the names that
the tests use. Points in time
and durations are integers (nanoseconds), the zero time is 0, and a method that
reads the clock gets the time as an argument. A frame is represented by a
number, and a call of one of its callbacks by an entry in the list `callbacks`
of the handler. -/

/-- Modelled from the spec: `protocol.EncryptionLevel`. "Three [packet-number
spaces] exist: Initial, Handshake, AppData. 0-RTT and 1-RTT share the AppData
space." -/
inductive EncryptionLevel where
  | EncryptionInitial
  | EncryptionHandshake
  | Encryption0RTT
  | Encryption1RTT
  deriving DecidableEq, Repr

/-- Modelled from the spec: `protocol.Perspective`, server or client. -/
inductive Perspective where
  | PerspectiveServer
  | PerspectiveClient
  deriving DecidableEq, Repr

/-- Modelled from the spec: the send modes. "Returns one of `{None, Ack, Any,
PTOInitial, PTOHandshake, PTOAppData}`." -/
inductive SendMode where
  | SendNone
  | SendAck
  | SendAny
  | SendPTOInitial
  | SendPTOHandshake
  | SendPTOAppData
  deriving DecidableEq, Repr

/-- Modelled from the spec: `protocol.InvalidPacketNumber`, the value of
`largestSent` and `largestAcked` in a packet number space in which nothing was
sent or acknowledged yet (the tests use the packet number 0). -/
def InvalidPacketNumber : Int := -1

/-- Modelled from the spec: the struct `Packet`. "Sent packet. Fields: PN;
encryption level; length in bytes on the wire; send time; [...] the largest PN it
acknowledged (for ACK-of-ACK tracking); a list of per-frame handles [...]; flags
declared-lost, skipped." A packet is ack-eliciting, and counts as in flight, when
it carries frames (in the tests the packets that are not ack-eliciting have no
frames). -/
structure Packet where
  PacketNumber : Int
  Frames : List Nat
  LargestAcked : Int
  Length : Int
  EncryptionLevel : EncryptionLevel
  SendTime : Int
  declaredLost : Bool
  skippedPacket : Bool
  deriving DecidableEq, Repr

/-- One call of a callback of a frame handle: `OnAcked` (or else `OnLost`) of the
frame `Frame` of the packet with the given encryption level and packet number. -/
structure Callback where
  OnAcked : Bool
  EncryptionLevel : EncryptionLevel
  PacketNumber : Int
  Frame : Nat
  deriving DecidableEq, Repr

/-- The calls of `OnAcked` for the frames of a packet, in the order of the frames. -/
def onAckedCallbacks (p : Packet) : List Callback :=
  p.Frames.map (fun f =>
    { OnAcked := true, EncryptionLevel := p.EncryptionLevel, PacketNumber := p.PacketNumber,
      Frame := f })

/-- The calls of `OnLost` for the frames of a packet, in the order of the frames. -/
def onLostCallbacks (p : Packet) : List Callback :=
  p.Frames.map (fun f =>
    { OnAcked := false, EncryptionLevel := p.EncryptionLevel, PacketNumber := p.PacketNumber,
      Frame := f })

/-- The callbacks in a list that belong to the packet with the given encryption
level and packet number. -/
def callbacksOf (level : EncryptionLevel) (pn : Int) (callbacks : List Callback) :
    List Callback :=
  callbacks.filter (fun c => c.EncryptionLevel = level ∧ c.PacketNumber = pn)

/-- A packet of the history is outstanding when it is neither declared lost nor a
placeholder for a skipped packet number. -/
def Packet.outstanding (p : Packet) : Bool := !p.declaredLost && !p.skippedPacket

/-- Modelled from the spec: what the processing of an event does to a packet of
the history. "For each newly acknowledged ack-eliciting packet, remove from
history, subtract its byte count from bytes-in-flight, invoke its on-acked
callbacks" (`acked`); a packet declared lost keeps its place with the flag
declared-lost, leaves the bytes in flight, and has its on-lost callbacks invoked
(`lost`); "`DropPackets(level)`. Remove all packets at that level from history;
do NOT invoke on-lost" (`dropped`); "If dropping 0-RTT: invoke on-lost"
(`retransmitted`). -/
inductive Fate where
  | keep
  | acked
  | lost
  | dropped
  | retransmitted
  deriving DecidableEq, Repr

/-- Modelled from the spec: one pass over a history, in the order of the packet
numbers. Returns the history afterwards, the number of bytes that leave the bytes
in flight, and the callbacks invoked, in order. Only an outstanding packet leaves
the bytes in flight and has callbacks invoked: "a packet is delivered to at most
one of on-acked / on-lost; skipped packets are never acked nor lost". -/
def settle (fate : Packet → Fate) : List Packet → List Packet × Int × List Callback
  | [] => ([], 0, [])
  | p :: history =>
    let r := settle fate history
    match fate p with
    | Fate.keep => (p :: r.1, r.2.1, r.2.2)
    | Fate.acked =>
      if p.outstanding then (r.1, p.Length + r.2.1, onAckedCallbacks p ++ r.2.2)
      else (r.1, r.2.1, r.2.2)
    | Fate.lost =>
      if p.outstanding then
        ({ p with declaredLost := true } :: r.1, p.Length + r.2.1, onLostCallbacks p ++ r.2.2)
      else (p :: r.1, r.2.1, r.2.2)
    | Fate.dropped =>
      if p.outstanding then (r.1, p.Length + r.2.1, r.2.2) else (r.1, r.2.1, r.2.2)
    | Fate.retransmitted =>
      if p.outstanding then (r.1, p.Length + r.2.1, onLostCallbacks p ++ r.2.2)
      else (r.1, r.2.1, r.2.2)

/-- Modelled from the spec: "Bytes in flight. Sum of the wire lengths of
ack-eliciting sent packets not yet acked or lost", for the packets of one
history. -/
def bytesOutstanding (history : List Packet) : Int :=
  ((history.filter (fun p => p.outstanding)).map (fun p => p.Length)).sum

/-- Modelled from the spec: the RTT state. "min_rtt (monotone non-increasing
sentinel: set on first sample), latest_rtt, smoothed_rtt, rtt_var, max_ack_delay".
The field `hasMeasurement` tells whether a sample was taken. -/
structure RTTStats where
  hasMeasurement : Bool
  minRTT : Int
  latestRTT : Int
  smoothedRTT : Int
  meanDeviation : Int
  maxAckDelay : Int
  deriving DecidableEq, Repr

/-- Modelled from the spec: what the specification names without fixing it: the
timer granularity `kGranularity`, and the way in which a sample changes
`smoothed_rtt` and `rtt_var` (`estimator smoothedRTT meanDeviation sample` is
the new pair). -/
structure Parameters where
  kGranularity : Int
  estimator : Int → Int → Int → Int × Int

/-- Modelled from the spec: the method `PTO` of the RTT state. "PTO = smoothed_rtt
+ max(4·rtt_var, kGranularity) + (includeMaxAckDelay ? max_ack_delay : 0)". -/
def RTTStats.PTO (r : RTTStats) (params : Parameters) (includeMaxAckDelay : Bool) : Int :=
  r.smoothedRTT + max (4 * r.meanDeviation) params.kGranularity
    + (if includeMaxAckDelay then r.maxAckDelay else 0)

/-- Modelled from the spec: the method `UpdateRTT` of the RTT state, for a sample
`sendDelta = rcv_time − send_time`. "latest = rcv_time − send_time; if [...]
smoothed_rtt has a minimum, subtract peer-reported ack-delay"; `min_rtt` is "set
on first sample" and does not increase. -/
def RTTStats.UpdateRTT (r : RTTStats) (params : Parameters) (sendDelta ackDelay : Int) :
    RTTStats :=
  let minRTT := if r.hasMeasurement then min r.minRTT sendDelta else sendDelta
  let sample := if r.hasMeasurement ∧ sendDelta - minRTT ≥ ackDelay then sendDelta - ackDelay
    else sendDelta
  let e := params.estimator r.smoothedRTT r.meanDeviation sample
  { hasMeasurement := true
    minRTT := minRTT
    latestRTT := sample
    smoothedRTT := e.1
    meanDeviation := e.2
    maxAckDelay := r.maxAckDelay }

/-- Modelled from the spec: the time threshold of the loss detection.
"time_threshold = max(9/8·max(smoothed_rtt, latest_rtt), kGranularity)". -/
def timeThreshold (r : RTTStats) (params : Parameters) : Int :=
  max (9 * max r.smoothedRTT r.latestRTT / 8) params.kGranularity

/-- Modelled from the spec: the packet threshold of the loss detection,
"packet_threshold (3)". -/
def packetThreshold : Int := 3

end ackhandler

namespace ackhandler

/-- Modelled from the spec: a range of an ACK frame (`wire.AckRange`), the packet
numbers from `Smallest` to `Largest`. -/
structure AckRange where
  Smallest : Int
  Largest : Int
  deriving DecidableEq, Repr

/-- Modelled from the spec: an ACK frame (`wire.AckFrame`): its ranges, "ordered
highest-first, matching wire layout", and the ack delay reported by the peer. -/
structure AckFrame where
  AckRanges : List AckRange
  DelayTime : Int
  deriving DecidableEq, Repr

/-- Modelled from the spec: the method `LargestAcked` of an ACK frame, the largest
packet number of its first range. -/
def AckFrame.LargestAcked (ack : AckFrame) : Int :=
  match ack.AckRanges with
  | [] => InvalidPacketNumber
  | r :: _ => r.Largest

/-- Modelled from the spec: the method `AcksPacket` of an ACK frame: whether one of
the ranges contains the packet number. -/
def AckFrame.AcksPacket (ack : AckFrame) (pn : Int) : Bool :=
  ack.AckRanges.any (fun r => decide (r.Smallest ≤ pn ∧ pn ≤ r.Largest))

/-- Modelled from the spec: the struct `packetNumberSpace`. "Each space owns: [...]
a sent-packet history, [...] a largest-acked PN, a loss-detection time, and a
last-ack-eliciting send time." The history holds the ack-eliciting packets that
were sent and are not acknowledged, and placeholders for the skipped packet
numbers, in the order of the packet numbers; `largestSent` is the largest packet
number sent. The packet number generator of the space is not part of this
model. -/
structure packetNumberSpace where
  history : List Packet
  lossTime : Int
  lastAckElicitingPacketTime : Int
  largestAcked : Int
  largestSent : Int
  deriving DecidableEq, Repr

/-- Modelled from the spec: the function `newPacketNumberSpace`. -/
def newPacketNumberSpace : packetNumberSpace :=
  { history := []
    lossTime := 0
    lastAckElicitingPacketTime := 0
    largestAcked := InvalidPacketNumber
    largestSent := InvalidPacketNumber }

/-- Modelled from the spec: the struct `sentPacketHandler`. The packet number
spaces of Initial and Handshake are `none` once they are dropped. `callbacks`
lists the calls of frame callbacks made so far, oldest first. -/
structure sentPacketHandler where
  perspective : Perspective
  params : Parameters
  rttStats : RTTStats
  initialPackets : Option packetNumberSpace
  handshakePackets : Option packetNumberSpace
  appDataPackets : packetNumberSpace
  handshakeConfirmed : Bool
  peerAddressValidated : Bool
  peerCompletedAddressValidation : Bool
  bytesReceived : Int
  bytesSent : Int
  bytesInFlight : Int
  lowestNotConfirmedAcked : Int
  ptoCount : Nat
  ptoMode : SendMode
  numProbesToSend : Nat
  alarm : Int
  callbacks : List Callback

/-- Modelled from the spec: the function `newSentPacketHandler`. A client treats
the address of the server as validated; a server has nothing to wait for from
the peer's address validation. -/
def newSentPacketHandler (rttStats : RTTStats) (pers : Perspective) (params : Parameters) :
    sentPacketHandler :=
  { perspective := pers
    params := params
    rttStats := rttStats
    initialPackets := some newPacketNumberSpace
    handshakePackets := some newPacketNumberSpace
    appDataPackets := newPacketNumberSpace
    handshakeConfirmed := false
    peerAddressValidated := decide (pers = Perspective.PerspectiveClient)
    peerCompletedAddressValidation := decide (pers = Perspective.PerspectiveServer)
    bytesReceived := 0
    bytesSent := 0
    bytesInFlight := 0
    lowestNotConfirmedAcked := 0
    ptoCount := 0
    ptoMode := SendMode.SendNone
    numProbesToSend := 0
    alarm := 0
    callbacks := [] }

/-- Modelled from the spec: the method `getPacketNumberSpace`. "0-RTT and 1-RTT
share the AppData space." -/
def sentPacketHandler.getPacketNumberSpace (h : sentPacketHandler) :
    EncryptionLevel → Option packetNumberSpace
  | EncryptionLevel.EncryptionInitial => h.initialPackets
  | EncryptionLevel.EncryptionHandshake => h.handshakePackets
  | EncryptionLevel.Encryption0RTT => some h.appDataPackets
  | EncryptionLevel.Encryption1RTT => some h.appDataPackets

/-- Replaces the packet number space of an encryption level. -/
def sentPacketHandler.setPacketNumberSpace (h : sentPacketHandler) (sp : packetNumberSpace) :
    EncryptionLevel → sentPacketHandler
  | EncryptionLevel.EncryptionInitial => { h with initialPackets := some sp }
  | EncryptionLevel.EncryptionHandshake => { h with handshakePackets := some sp }
  | EncryptionLevel.Encryption0RTT => { h with appDataPackets := sp }
  | EncryptionLevel.Encryption1RTT => { h with appDataPackets := sp }

/-- Modelled from the spec: one pass over the history of the packet number space
of an encryption level (`settle`): the bytes of the packets that are acknowledged,
lost or dropped leave the bytes in flight, and the callbacks are invoked. -/
def sentPacketHandler.settlePackets (h : sentPacketHandler) (level : EncryptionLevel)
    (fate : Packet → Fate) : sentPacketHandler :=
  match h.getPacketNumberSpace level with
  | none => h
  | some sp =>
    let r := settle fate sp.history
    { (h.setPacketNumberSpace { sp with history := r.1 } level) with
        bytesInFlight := h.bytesInFlight - r.2.1
        callbacks := h.callbacks ++ r.2.2 }

/-- Modelled from the spec: the loss criterion. "A packet is declared lost when
either: (a) its PN is ≤ largest-acked − packet_threshold (3); or (b) its
send_time ≤ now − time_threshold"; the time criterion concerns the "in-flight
unacked packets below largest-acked". -/
def isLost (largestAcked threshold now : Int) (p : Packet) : Bool :=
  decide (p.PacketNumber ≤ largestAcked - packetThreshold)
    || decide (p.PacketNumber < largestAcked ∧ p.SendTime ≤ now - threshold)

/-- The earliest of a list of points in time, the zero time if there is none. -/
def earliestTime : List Int → Int
  | [] => 0
  | t :: ts => if ts = [] then t else min t (earliestTime ts)

/-- Modelled from the spec: the fate of a packet when losses are detected at the
time `now`: declared lost, or kept. -/
def lossFate (largestAcked threshold now : Int) (p : Packet) : Fate :=
  if isLost largestAcked threshold now p then Fate.lost else Fate.keep

/-- Modelled from the spec: the method `detectLostPackets`. "Detect losses in this
PN space (see below), invoke on-lost for each." "The next loss_time in a space is
the earliest send_time+time_threshold among in-flight unacked packets below
largest-acked." -/
def sentPacketHandler.detectLostPackets (h : sentPacketHandler) (now : Int)
    (level : EncryptionLevel) : sentPacketHandler :=
  match h.getPacketNumberSpace level with
  | none => h
  | some sp =>
    let threshold := timeThreshold h.rttStats h.params
    let h1 := h.settlePackets level (lossFate sp.largestAcked threshold now)
    match h1.getPacketNumberSpace level with
    | none => h1
    | some sp1 =>
      let candidates := sp1.history.filter
        (fun p => p.outstanding && decide (p.PacketNumber < sp1.largestAcked))
      let lossTime := earliestTime (candidates.map (fun p => p.SendTime + threshold))
      h1.setPacketNumberSpace { sp1 with lossTime := lossTime } level

end ackhandler

namespace ackhandler

/-- The entry with the earliest time in a list of points in time that are tagged
with an encryption level (among equals, the first). -/
def earliest : List (Int × EncryptionLevel) → Option (Int × EncryptionLevel)
  | [] => none
  | c :: cs =>
    match earliest cs with
    | none => some c
    | some d => if d.1 < c.1 then some d else some c

/-- Modelled from the spec: the method `getLossTimeAndSpace`: "the earliest non-zero
loss_time across spaces". -/
def sentPacketHandler.getLossTimeAndSpace (h : sentPacketHandler) :
    Option (Int × EncryptionLevel) :=
  let initial := match h.initialPackets with
    | some sp => [(sp.lossTime, EncryptionLevel.EncryptionInitial)]
    | none => []
  let handshake := match h.handshakePackets with
    | some sp => [(sp.lossTime, EncryptionLevel.EncryptionHandshake)]
    | none => []
  let appData := [(h.appDataPackets.lossTime, EncryptionLevel.Encryption1RTT)]
  earliest ((initial ++ handshake ++ appData).filter (fun c => c.1 ≠ 0))

/-- Whether a packet number space has in-flight ack-eliciting packets. -/
def packetNumberSpace.hasOutstandingPackets (sp : packetNumberSpace) : Bool :=
  sp.history.any (fun p => p.outstanding)

/-- Modelled from the spec: the method `getPTOTimeAndSpace`. "PTO deadline =
earliest_ack_eliciting_send_time_in_eligible_space + PTO · 2^pto_count. Eligible
means: if not handshake-confirmed, choose the earliest of Initial/Handshake (with
Initial ignored before the server has received bytes to validate it); if
handshake-confirmed, AppData only. If there are no in-flight ack-eliciting packets
AND the peer is not address-validated [...], still arm a PTO to probe and unblock
address validation." The send time of a space is its last-ack-eliciting send
time; the maximum ack delay is part of the PTO of the AppData space only. -/
def sentPacketHandler.getPTOTimeAndSpace (h : sentPacketHandler) (now : Int) :
    Option (Int × EncryptionLevel) :=
  if h.handshakeConfirmed then
    if h.appDataPackets.hasOutstandingPackets then
      some (h.appDataPackets.lastAckElicitingPacketTime
        + h.rttStats.PTO h.params true * 2 ^ h.ptoCount, EncryptionLevel.Encryption1RTT)
    else none
  else
    let backoff := h.rttStats.PTO h.params false * 2 ^ h.ptoCount
    let ignoreInitial : Bool := decide (h.perspective = Perspective.PerspectiveServer)
      && !h.peerAddressValidated && decide (h.bytesReceived = 0)
    let initial := match h.initialPackets with
      | some sp =>
        if sp.hasOutstandingPackets && !ignoreInitial then
          [(sp.lastAckElicitingPacketTime + backoff, EncryptionLevel.EncryptionInitial)]
        else []
      | none => []
    let handshake := match h.handshakePackets with
      | some sp =>
        if sp.hasOutstandingPackets then
          [(sp.lastAckElicitingPacketTime + backoff, EncryptionLevel.EncryptionHandshake)]
        else []
      | none => []
    match earliest (initial ++ handshake) with
    | some c => some c
    | none =>
      if h.peerCompletedAddressValidation then none
      else if h.initialPackets.isSome then
        some (now + backoff, EncryptionLevel.EncryptionInitial)
      else if h.handshakePackets.isSome then
        some (now + backoff, EncryptionLevel.EncryptionHandshake)
      else none

/-- Modelled from the spec: the method `setLossDetectionTimer`. The alarm is "in
order of preference: the earliest non-zero loss_time across spaces; otherwise the
PTO deadline", and the zero time if there is neither. -/
def sentPacketHandler.setLossDetectionTimer (h : sentPacketHandler) (now : Int) :
    sentPacketHandler :=
  match h.getLossTimeAndSpace with
  | some c => { h with alarm := c.1 }
  | none =>
    match h.getPTOTimeAndSpace now with
    | some c => { h with alarm := c.1 }
    | none => { h with alarm := 0 }

/-- Modelled from the spec: the method `GetLossDetectionTimeout`. -/
def sentPacketHandler.GetLossDetectionTimeout (h : sentPacketHandler) : Int := h.alarm

/-- Modelled from the spec: the method `SetHandshakeConfirmed`; the timer is armed
anew, since the AppData space becomes eligible for the PTO. -/
def sentPacketHandler.SetHandshakeConfirmed (h : sentPacketHandler) (now : Int) :
    sentPacketHandler :=
  ({ h with handshakeConfirmed := true }).setLossDetectionTimer now

/-- Modelled from the spec: the method `ReceivedBytes`. -/
def sentPacketHandler.ReceivedBytes (h : sentPacketHandler) (n : Int) : sentPacketHandler :=
  { h with bytesReceived := h.bytesReceived + n }

/-- Modelled from the spec: the method `ReceivedPacket`. "Until the peer's address
is validated (first Handshake packet received completes validation [...])". -/
def sentPacketHandler.ReceivedPacket (h : sentPacketHandler) (level : EncryptionLevel) :
    sentPacketHandler :=
  if h.perspective = Perspective.PerspectiveServer
      ∧ level = EncryptionLevel.EncryptionHandshake then
    { h with peerAddressValidated := true }
  else h

/-- The PTO send mode of an encryption level. -/
def ptoModeOf : EncryptionLevel → SendMode
  | EncryptionLevel.EncryptionInitial => SendMode.SendPTOInitial
  | EncryptionLevel.EncryptionHandshake => SendMode.SendPTOHandshake
  | EncryptionLevel.Encryption0RTT => SendMode.SendPTOAppData
  | EncryptionLevel.Encryption1RTT => SendMode.SendPTOAppData

/-- Modelled from the spec: the method `dropPackets`. "Remove all packets at that
level from history; do NOT invoke on-lost (the peer cannot ACK them anyway). If
dropping 0-RTT: invoke on-lost (the application data must be retransmitted at
1-RTT). Reset pto_count and clear the PTO mode if it targeted the dropped
level." The packet number space of Initial or Handshake is gone afterwards (the
tests expect `initialPackets` and `handshakePackets` to be nil). -/
def sentPacketHandler.dropPackets (h : sentPacketHandler) (level : EncryptionLevel) :
    sentPacketHandler :=
  match level with
  | EncryptionLevel.EncryptionInitial =>
    let h1 := h.settlePackets level (fun _ => Fate.dropped)
    { h1 with
        initialPackets := none
        ptoCount := 0
        numProbesToSend := if h1.ptoMode = ptoModeOf level then 0 else h1.numProbesToSend
        ptoMode := if h1.ptoMode = ptoModeOf level then SendMode.SendNone else h1.ptoMode }
  | EncryptionLevel.EncryptionHandshake =>
    let h1 := h.settlePackets level (fun _ => Fate.dropped)
    { h1 with
        handshakePackets := none
        ptoCount := 0
        numProbesToSend := if h1.ptoMode = ptoModeOf level then 0 else h1.numProbesToSend
        ptoMode := if h1.ptoMode = ptoModeOf level then SendMode.SendNone else h1.ptoMode }
  | EncryptionLevel.Encryption0RTT =>
    let h1 := h.settlePackets level
      (fun p => if p.EncryptionLevel = level then Fate.retransmitted else Fate.keep)
    { h1 with ptoCount := 0 }
  | EncryptionLevel.Encryption1RTT =>
    let h1 := h.settlePackets level
      (fun p => if p.EncryptionLevel = level then Fate.dropped else Fate.keep)
    { h1 with ptoCount := 0 }

/-- Modelled from the spec: the method `DropPackets`. A client ignores the call
for the Initial level: "For a client, dropping Initial is triggered by sending any
Handshake packet." -/
def sentPacketHandler.DropPackets (h : sentPacketHandler) (level : EncryptionLevel)
    (now : Int) : sentPacketHandler :=
  if h.perspective = Perspective.PerspectiveClient
      ∧ level = EncryptionLevel.EncryptionInitial then h
  else (h.dropPackets level).setLossDetectionTimer now

/-- The placeholders for the packet numbers that were skipped when `packet` is
sent after the packet number `largestSent`. -/
def skippedPackets (largestSent : Int) (packet : Packet) : List Packet :=
  (List.range (packet.PacketNumber - largestSent - 1).toNat).map (fun i : Nat =>
    { PacketNumber := largestSent + 1 + (i : Int)
      Frames := []
      LargestAcked := InvalidPacketNumber
      Length := 0
      EncryptionLevel := packet.EncryptionLevel
      SendTime := packet.SendTime
      declaredLost := false
      skippedPacket := true })

/-- Modelled from the spec: the first part of the method `SentPacket`. The bytes
sent are counted, and "for a client, dropping Initial is triggered by sending any
Handshake packet". -/
def sentPacketHandler.countSentPacket (h : sentPacketHandler) (packet : Packet) :
    sentPacketHandler :=
  if h.perspective = Perspective.PerspectiveClient
      ∧ packet.EncryptionLevel = EncryptionLevel.EncryptionHandshake
      ∧ h.initialPackets.isSome then
    ({ h with bytesSent := h.bytesSent + packet.Length }).dropPackets
      EncryptionLevel.EncryptionInitial
  else { h with bytesSent := h.bytesSent + packet.Length }

/-- Modelled from the spec: the method `sentPacketImpl`, for a packet sent in the
packet number space `sp`. The packet numbers left out are recorded as skipped.
An ack-eliciting packet joins the history and the bytes in flight, counts as a
probe packet, and sets the last-ack-eliciting send time of its space. -/
def sentPacketHandler.sentPacketImpl (h : sentPacketHandler) (sp : packetNumberSpace)
    (packet : Packet) : sentPacketHandler :=
  let isAckEliciting : Bool := !packet.Frames.isEmpty
  let sent : List Packet :=
    if isAckEliciting then [{ packet with declaredLost := false, skippedPacket := false }]
    else []
  let sp1 : packetNumberSpace :=
    { sp with
        largestSent := packet.PacketNumber
        history := sp.history ++ skippedPackets sp.largestSent packet ++ sent
        lastAckElicitingPacketTime :=
          if isAckEliciting then packet.SendTime else sp.lastAckElicitingPacketTime }
  { (h.setPacketNumberSpace sp1 packet.EncryptionLevel) with
      bytesInFlight := if isAckEliciting then h.bytesInFlight + packet.Length
        else h.bytesInFlight
      numProbesToSend := if isAckEliciting then h.numProbesToSend - 1
        else h.numProbesToSend }

/-- Modelled from the spec: the method `SentPacket`. The packet numbers of a space
are sent in increasing order ("PNs within one space are strictly monotonic"); the
result is `none` when this, or the presence of the packet number space, fails. -/
def sentPacketHandler.SentPacket (h : sentPacketHandler) (packet : Packet) (now : Int) :
    Option sentPacketHandler :=
  match (h.countSentPacket packet).getPacketNumberSpace packet.EncryptionLevel with
  | none => none
  | some sp =>
    if packet.PacketNumber ≤ sp.largestSent then none
    else some (((h.countSentPacket packet).sentPacketImpl sp packet).setLossDetectionTimer now)

end ackhandler

namespace ackhandler

/-- The outstanding packets of a packet number space that an ACK frame
acknowledges. -/
def packetNumberSpace.newlyAcked (sp : packetNumberSpace) (ack : AckFrame) : List Packet :=
  sp.history.filter (fun p => p.outstanding && ack.AcksPacket p.PacketNumber)

/-- Modelled from the spec: the largest acknowledged packet number of the space
`sp` of the level after an ACK frame. -/
def sentPacketHandler.setLargestAcked (h : sentPacketHandler) (sp : packetNumberSpace)
    (ack : AckFrame) (level : EncryptionLevel) : sentPacketHandler :=
  h.setPacketNumberSpace { sp with largestAcked := max sp.largestAcked ack.LargestAcked } level

/-- Modelled from the spec: an ACK at the Handshake or 1-RTT level tells a client
that the server completed address validation. -/
def sentPacketHandler.peerValidated (h : sentPacketHandler) (level : EncryptionLevel) :
    sentPacketHandler :=
  if h.perspective = Perspective.PerspectiveClient
      ∧ (level = EncryptionLevel.EncryptionHandshake
        ∨ level = EncryptionLevel.Encryption1RTT) then
    { h with peerCompletedAddressValidation := true }
  else h

/-- Modelled from the spec: step 2 of "ACK processing". "For each newly
acknowledged ack-eliciting packet, remove from history, subtract its byte count
from bytes-in-flight, invoke its on-acked callbacks". -/
def sentPacketHandler.removeAckedPackets (h : sentPacketHandler) (ack : AckFrame)
    (level : EncryptionLevel) : sentPacketHandler :=
  h.settlePackets level
    (fun p => if ack.AcksPacket p.PacketNumber then Fate.acked else Fate.keep)

/-- Modelled from the spec: the end of step 2 of "ACK processing": "remember the
largest PN acked (for ACK-of-ACK)". -/
def sentPacketHandler.confirmAcked (h : sentPacketHandler) (acked : List Packet)
    (level : EncryptionLevel) : sentPacketHandler :=
  if level = EncryptionLevel.Encryption1RTT then
    { h with lowestNotConfirmedAcked :=
        (acked.map (fun p => p.LargestAcked + 1)).foldl max h.lowestNotConfirmedAcked }
  else h

/-- Modelled from the spec: step 3 of "ACK processing". "If the ACK advances
largest-acked and the packet with that PN was ack-eliciting [...], update RTT:
latest = rcv_time − send_time; if encryption level is AppData and smoothed_rtt
has a minimum, subtract peer-reported ack-delay (clamped to max_ack_delay).
Initial/Handshake MUST NOT apply ack-delay." -/
def sentPacketHandler.updateRTT (h : sentPacketHandler) (acked : List Packet)
    (advanced : Bool) (ack : AckFrame) (level : EncryptionLevel) (rcvTime : Int) :
    sentPacketHandler :=
  let ackDelay : Int :=
    if level = EncryptionLevel.Encryption1RTT then min ack.DelayTime h.rttStats.maxAckDelay
    else 0
  match acked.find? (fun p => decide (p.PacketNumber = ack.LargestAcked)) with
  | some p =>
    if advanced then
      { h with rttStats := h.rttStats.UpdateRTT h.params (rcvTime - p.SendTime) ackDelay }
    else h
  | none => h

/-- Modelled from the spec: step 5 of "ACK processing". "Reset PTO count on a
1-RTT ACK that newly acknowledges an ack-eliciting packet (not on
Initial/Handshake ACKs — those do not reset)." -/
def sentPacketHandler.resetPTOCount (h : sentPacketHandler) (acked : List Packet)
    (level : EncryptionLevel) : sentPacketHandler :=
  if level = EncryptionLevel.Encryption1RTT ∧ acked ≠ [] then
    { h with ptoCount := 0, numProbesToSend := 0 }
  else h

/-- Modelled from the spec: the steps of "ACK processing" for an ACK frame that
is accepted, where `sp` is the state of the packet number space of the level
before the ACK. Losses are detected at the time `rcvTime`. -/
def sentPacketHandler.processAck (h : sentPacketHandler) (sp : packetNumberSpace)
    (ack : AckFrame) (level : EncryptionLevel) (rcvTime : Int) : sentPacketHandler :=
  ((((((h.setLargestAcked sp ack level).peerValidated level).removeAckedPackets
    ack level).confirmAcked (sp.newlyAcked ack) level).updateRTT (sp.newlyAcked ack)
    (decide (sp.largestAcked < ack.LargestAcked)) ack level rcvTime).detectLostPackets
    rcvTime level).resetPTOCount (sp.newlyAcked ack) level

/-- Modelled from the spec: the method `ReceivedAck` (section "ACK processing").
The result is `none` when the packet number space of the level was dropped;
otherwise it is the error, if any, and the handler after the call. An ACK for an
unsent or for a skipped packet number is a protocol violation and leaves the
handler as it was (the message for a skipped packet number is given without the
number). Otherwise the steps of "ACK processing" follow, and the timer is armed
anew. -/
def sentPacketHandler.ReceivedAck (h : sentPacketHandler) (ack : AckFrame)
    (level : EncryptionLevel) (rcvTime now : Int) :
    Option (Option qerr.QuicError × sentPacketHandler) :=
  match h.getPacketNumberSpace level with
  | none => none
  | some sp =>
    if sp.largestSent < ack.LargestAcked then
      some (some (qerr.NewError qerr.ErrorCode.ProtocolViolation
        "Received ACK for an unsent packet"), h)
    else if sp.history.any (fun p => p.skippedPacket && ack.AcksPacket p.PacketNumber) then
      some (some (qerr.NewError qerr.ErrorCode.ProtocolViolation
        "received an ACK for skipped packet number"), h)
    else some (none, (h.processAck sp ack level rcvTime).setLossDetectionTimer now)

/-- Modelled from the spec: the method `OnLossDetectionTimeout` (section "On
timer"). "If a loss_time fired, declare losses and re-arm. Else, increment
pto_count, select the PN space that armed the timer, set numProbesToSend := 2 and
ptoMode := SendPTO<Level>." -/
def sentPacketHandler.OnLossDetectionTimeout (h : sentPacketHandler) (now : Int) :
    sentPacketHandler :=
  match h.getLossTimeAndSpace with
  | some c => (h.detectLostPackets now c.2).setLossDetectionTimer now
  | none =>
    match h.getPTOTimeAndSpace now with
    | none => h
    | some c =>
      ({ h with
          ptoCount := h.ptoCount + 1
          numProbesToSend := 2
          ptoMode := ptoModeOf c.2 }).setLossDetectionTimer now

/-- Modelled from the spec: the method `ResetForRetry`. "Invoke on-lost for every
in-flight packet (both Initial and 0-RTT), clear bytes-in-flight, reset pto_count
and the loss-detection timer. If the retry arrived before any retransmission of
the client's first Initial, use its round-trip as the initial RTT sample." The
packets declared lost are those the specification names: the packets of the
Initial space and the 0-RTT packets of the application data space; a Handshake
or 1-RTT packet stays as it is. The packet numbers keep increasing afterwards
(the tests expect so), hence the packet number spaces stay. -/
def sentPacketHandler.ResetForRetry (h : sentPacketHandler) (now : Int) : sentPacketHandler :=
  let firstPacketSendTime : Option Int :=
    match h.initialPackets with
    | some sp => (sp.history.find? (fun p => p.outstanding)).map (fun p => p.SendTime)
    | none => none
  let h1 := h.settlePackets EncryptionLevel.EncryptionInitial (fun _ => Fate.lost)
  let h2 := h1.settlePackets EncryptionLevel.Encryption0RTT
    (fun p => if p.EncryptionLevel = EncryptionLevel.Encryption0RTT then Fate.lost
      else Fate.keep)
  let rttStats : RTTStats :=
    match firstPacketSendTime with
    | some t => if h.ptoCount = 0 then h.rttStats.UpdateRTT h.params (now - t) 0 else h.rttStats
    | none => h.rttStats
  { h2 with
      bytesInFlight := 0
      ptoCount := 0
      alarm := 0
      rttStats := rttStats }

/-- A call of one of the methods of the sent packet handler that change its
state, with the arguments of the call and the time of the call. -/
inductive Call where
  | SentPacket (packet : Packet) (now : Int)
  | ReceivedAck (ack : AckFrame) (level : EncryptionLevel) (rcvTime now : Int)
  | DropPackets (level : EncryptionLevel) (now : Int)
  | ResetForRetry (now : Int)
  | OnLossDetectionTimeout (now : Int)
  | SetHandshakeConfirmed (now : Int)
  | ReceivedPacket (level : EncryptionLevel)
  | ReceivedBytes (n : Int)
  deriving DecidableEq

/-- The handler after a call (the error of `ReceivedAck` is not kept); `none` when
the call does not return. -/
def sentPacketHandler.call (h : sentPacketHandler) : Call → Option sentPacketHandler
  | Call.SentPacket packet now => h.SentPacket packet now
  | Call.ReceivedAck ack level rcvTime now =>
    match h.ReceivedAck ack level rcvTime now with
    | some r => some r.2
    | none => none
  | Call.DropPackets level now => some (h.DropPackets level now)
  | Call.ResetForRetry now => some (h.ResetForRetry now)
  | Call.OnLossDetectionTimeout now => some (h.OnLossDetectionTimeout now)
  | Call.SetHandshakeConfirmed now => some (h.SetHandshakeConfirmed now)
  | Call.ReceivedPacket level => some (h.ReceivedPacket level)
  | Call.ReceivedBytes n => some (h.ReceivedBytes n)

/-- The handler after a sequence of calls. -/
def sentPacketHandler.run : List Call → sentPacketHandler → Option sentPacketHandler
  | [], h => some h
  | c :: calls, h =>
    match h.call c with
    | none => none
    | some h1 => run calls h1

end ackhandler

namespace ackhandler

/-- The three packet number spaces. -/
inductive PNSpace where
  | initial
  | handshake
  | appData
  deriving DecidableEq, Repr

/-- The packet number space of an encryption level: 0-RTT and 1-RTT packets
share the application data space. -/
def spaceOf : EncryptionLevel → PNSpace
  | EncryptionLevel.EncryptionInitial => PNSpace.initial
  | EncryptionLevel.EncryptionHandshake => PNSpace.handshake
  | EncryptionLevel.Encryption0RTT => PNSpace.appData
  | EncryptionLevel.Encryption1RTT => PNSpace.appData

/-- The state of a packet number space of the handler, `none` if it was dropped. -/
def sentPacketHandler.space (h : sentPacketHandler) : PNSpace → Option packetNumberSpace
  | PNSpace.initial => h.initialPackets
  | PNSpace.handshake => h.handshakePackets
  | PNSpace.appData => some h.appDataPackets

/-- The sum of the lengths of the outstanding packets of a packet number space,
0 if it was dropped. -/
def spaceBytes : Option packetNumberSpace → Int
  | some sp => bytesOutstanding sp.history
  | none => 0

/-- The sum of the lengths of the sent in-flight packets of the three packet
number spaces that have been neither acknowledged, nor declared lost, nor
dropped. -/
def sentPacketHandler.bytesOutstanding (h : sentPacketHandler) : Int :=
  spaceBytes (h.space PNSpace.initial) + spaceBytes (h.space PNSpace.handshake)
    + spaceBytes (h.space PNSpace.appData)

/-- The handler `g` has the packet number spaces, the bytes in flight and the
callbacks of the handler `h`. -/
structure SameCore (h g : sentPacketHandler) : Prop where
  space : ∀ s, g.space s = h.space s
  bytesInFlight : g.bytesInFlight = h.bytesInFlight
  callbacks : g.callbacks = h.callbacks

/-- The callbacks that have been invoked so far for the frames of a packet. -/
def sentPacketHandler.fired (h : sentPacketHandler) (packet : Packet) : List Callback :=
  callbacksOf packet.EncryptionLevel packet.PacketNumber h.callbacks

/-- What holds of a packet number space `s` in state `sp`, given the callbacks
invoked so far: the history is ordered by packet number, below the largest
packet number sent, holds packets of the levels of the space only; no callback
has been invoked for a packet that is still outstanding, the on-lost callbacks
and only they for a packet that was declared lost, and none for a packet number
that was not sent yet. -/
structure SpaceInv (s : PNSpace) (sp : packetNumberSpace) (callbacks : List Callback) :
    Prop where
  sorted : sp.history.Pairwise (fun p q => p.PacketNumber < q.PacketNumber)
  bound : ∀ p ∈ sp.history, p.PacketNumber ≤ sp.largestSent
  level : ∀ p ∈ sp.history, spaceOf p.EncryptionLevel = s
  acked : sp.largestAcked ≤ sp.largestSent
  fresh : ∀ p ∈ sp.history, p.outstanding = true →
    callbacksOf p.EncryptionLevel p.PacketNumber callbacks = []
  lost : ∀ p ∈ sp.history, p.declaredLost = true →
    callbacksOf p.EncryptionLevel p.PacketNumber callbacks = onLostCallbacks p
  logged : ∀ c ∈ callbacks, spaceOf c.EncryptionLevel = s → c.PacketNumber ≤ sp.largestSent

/-- The invariant of the handler: every packet number space is consistent with
the callbacks invoked so far. -/
structure Inv (h : sentPacketHandler) : Prop where
  spaces : ∀ s sp, h.space s = some sp → SpaceInv s sp h.callbacks

/-- No outstanding packet of the space `s` is at or below the packet threshold: a
packet whose number is at most the largest acknowledged one minus 3 was
declared lost. -/
def ThrAt (h : sentPacketHandler) (s : PNSpace) : Prop :=
  ∀ sp, h.space s = some sp → ∀ p ∈ sp.history, p.outstanding = true →
    sp.largestAcked - packetThreshold < p.PacketNumber

/-- No outstanding packet is at or below the packet threshold of its space. -/
def Thr (h : sentPacketHandler) : Prop := ∀ s, ThrAt h s

/-- What holds of a packet that was given to `SentPacket`: its callbacks were not
invoked, or all its on-acked callbacks and nothing else, or all its on-lost
callbacks and nothing else; and while its packet number space exists, the packet
number counts as sent and an entry of the history with this number is this
packet. -/
structure Tracked (packet : Packet) (h : sentPacketHandler) : Prop where
  once : h.fired packet = [] ∨ h.fired packet = onAckedCallbacks packet
    ∨ h.fired packet = onLostCallbacks packet
  sent : ∀ sp, h.space (spaceOf packet.EncryptionLevel) = some sp →
    packet.PacketNumber ≤ sp.largestSent
  same : ∀ sp, h.space (spaceOf packet.EncryptionLevel) = some sp →
    ∀ q ∈ sp.history, q.PacketNumber = packet.PacketNumber →
      q.Frames = packet.Frames ∧ q.EncryptionLevel = packet.EncryptionLevel

/-- The packet number space of the packet after `sentPacketImpl`. -/
def sentSpace (sp : packetNumberSpace) (packet : Packet) : packetNumberSpace :=
  { sp with
      largestSent := packet.PacketNumber
      history := sp.history ++ skippedPackets sp.largestSent packet
        ++ (if (!packet.Frames.isEmpty) = true then
            [{ packet with declaredLost := false, skippedPacket := false }] else [])
      lastAckElicitingPacketTime :=
        if (!packet.Frames.isEmpty) = true then packet.SendTime
        else sp.lastAckElicitingPacketTime }

/-- What a step from the handler `h` to the handler `g` keeps: the invariant,
what holds of the packets sent, the callbacks invoked so far, and the agreement
of the bytes in flight with the bytes of the outstanding packets. -/
structure Step (h g : sentPacketHandler) : Prop where
  inv : Inv h → Inv g
  tracked : Inv h → ∀ packet, Tracked packet h → Tracked packet g
  callbacks : ∃ more, g.callbacks = h.callbacks ++ more
  bytes : Inv h → h.bytesInFlight = h.bytesOutstanding →
    g.bytesInFlight = g.bytesOutstanding

/-- What every step keeps, also a call of `ResetForRetry` while a Handshake or
1-RTT packet is outstanding: the invariant, what holds of the packets sent, and
the callbacks invoked so far. -/
structure WeakStep (h g : sentPacketHandler) : Prop where
  inv : Inv h → Inv g
  tracked : Inv h → ∀ packet, Tracked packet h → Tracked packet g
  callbacks : ∃ more, g.callbacks = h.callbacks ++ more

/-- No packet of the space `s` is outstanding. -/
def NoOutstanding (h : sentPacketHandler) (s : PNSpace) : Prop :=
  ∀ sp, h.space s = some sp → ∀ p ∈ sp.history, p.outstanding = false

/-- The packets in flight are packets of the Initial space and 0-RTT packets,
those that `ResetForRetry` declares lost: no packet of the Handshake space and no
1-RTT packet is outstanding. -/
def sentPacketHandler.onlyInitialAnd0RTTInFlight (h : sentPacketHandler) : Bool :=
  (match h.handshakePackets with
    | none => true
    | some sp => sp.history.all (fun p => !p.outstanding))
  && h.appDataPackets.history.all (fun p =>
      !p.outstanding || decide (p.EncryptionLevel = EncryptionLevel.Encryption0RTT))

/-- Every call of `ResetForRetry` in the sequence of calls is made while the
packets in flight are Initial and 0-RTT packets only. -/
def sentPacketHandler.retriesBeforeHandshake : List Call → sentPacketHandler → Bool
  | [], _ => true
  | c :: calls, h =>
    (match c with
      | Call.ResetForRetry _ => h.onlyInitialAnd0RTTInFlight
      | _ => true)
    && (match h.call c with
      | none => true
      | some h1 => retriesBeforeHandshake calls h1)

end ackhandler

namespace ackhandler

/-- The handler after a sequence of calls that all return. -/
def sentPacketHandler.after (h : sentPacketHandler) (calls : List Call) : sentPacketHandler :=
  (sentPacketHandler.run calls h).getD h

/-- Parameters for the examples: a granularity of 1 ms (times are in
nanoseconds), and an estimator that takes the first sample as the smoothed RTT
and half of it as the mean deviation, and weighs later samples by 1/8 and
1/4. -/
def testParameters : Parameters :=
  { kGranularity := 1000000
    estimator := fun smoothedRTT meanDeviation sample =>
      if smoothedRTT = 0 then (sample, sample / 2)
      else ((7 * smoothedRTT + sample) / 8, (3 * meanDeviation + |smoothedRTT - sample|) / 4) }

/-- RTT statistics without a measurement, with a maximum ack delay of 25 ms. -/
def testRTTStats : RTTStats :=
  { hasMeasurement := false
    minRTT := 0
    latestRTT := 0
    smoothedRTT := 0
    meanDeviation := 0
    maxAckDelay := 25000000 }

/-- The handler of the tests, a server. -/
def testHandler : sentPacketHandler :=
  newSentPacketHandler testRTTStats Perspective.PerspectiveServer testParameters

/-- An ack-eliciting packet of length 1 with one frame, as `ackElicitingPacket` of
the tests makes it. -/
def ackElicitingPacket (pn : Int) (level : EncryptionLevel) (sendTime : Int) : Packet :=
  { PacketNumber := pn
    Frames := [0]
    LargestAcked := InvalidPacketNumber
    Length := 1
    EncryptionLevel := level
    SendTime := sendTime
    declaredLost := false
    skippedPacket := false }

/-- The calls that send the ack-eliciting 1-RTT packets `first`, ..., `first + n - 1`
at the time `sendTime`. -/
def sendPackets (first : Int) (n : Nat) (sendTime : Int) : List Call :=
  (List.range n).map (fun i : Nat =>
    Call.SentPacket (ackElicitingPacket (first + (i : Int)) EncryptionLevel.Encryption1RTT
      sendTime) sendTime)

/-- An ACK frame for one range of packet numbers, without ack delay. -/
def ackRange (smallest largest : Int) : AckFrame :=
  { AckRanges := [{ Smallest := smallest, Largest := largest }], DelayTime := 0 }

/-- The calls of an example with a pending loss time: the handshake is confirmed,
the 1-RTT packets 1 and 2 are sent at the time 1000, and an ACK for 2 is received
at the time 2000. -/
def earlyRetransmitCalls : List Call :=
  [Call.SetHandshakeConfirmed 0] ++ sendPackets 1 2 1000
    ++ [Call.ReceivedAck (ackRange 2 2) EncryptionLevel.Encryption1RTT 2000 2000]

/-- The handler of the tests, as a client. -/
def testClientHandler : sentPacketHandler :=
  newSentPacketHandler testRTTStats Perspective.PerspectiveClient testParameters

/-- The calls of an example with a Retry: a client sends the Initial packet 0 and
the 0-RTT packet 0 at the time 100, resets for the Retry at the time 200, and
sends the Initial packet 1 at the time 300. -/
def retryCalls : List Call :=
  [Call.SentPacket (ackElicitingPacket 0 EncryptionLevel.EncryptionInitial 100) 100,
    Call.SentPacket (ackElicitingPacket 0 EncryptionLevel.Encryption0RTT 100) 100,
    Call.ResetForRetry 200,
    Call.SentPacket (ackElicitingPacket 1 EncryptionLevel.EncryptionInitial 300) 300]

/-- The calls of an example with a dropped packet: the handshake is confirmed, the
1-RTT packet 0 is sent at the time 1000 and the 0-RTT packet 1 at the time 2000,
and the 0-RTT packets are dropped. -/
def droppedPacketCalls : List Call :=
  [Call.SetHandshakeConfirmed 0,
    Call.SentPacket (ackElicitingPacket 0 EncryptionLevel.Encryption1RTT 1000) 1000,
    Call.SentPacket (ackElicitingPacket 1 EncryptionLevel.Encryption0RTT 2000) 2000,
    Call.DropPackets EncryptionLevel.Encryption0RTT 2000]

end ackhandler

namespace wire

/-! ## STOP_SENDING frame (`internal/wire/stop_sending_frame.go`) -/

/-- The struct `StopSendingFrame`. Modelled from the spec: the declarations of
`protocol.StreamID` and `protocol.ApplicationErrorCode` are outside the sources
at hand; both are numbers that the frame carries as varints, represented by
natural numbers. -/
structure StopSendingFrame where
  StreamID : Nat
  ErrorCode : Nat
  deriving DecidableEq, Repr

/-- The function `parseStopSendingFrame`: reads the type byte, the stream ID and
the error code from the byte source, and returns the frame with the unread rest
of the source. -/
def parseStopSendingFrame (r : List Nat) :
    Except quicvarint.Error (StopSendingFrame × List Nat) :=
  match quicvarint.ReadByte r with
  | Except.error err => Except.error err
  | Except.ok (_, r) =>
    match quicvarint.Read r with
    | Except.error err => Except.error err
    | Except.ok (streamID, r) =>
      match quicvarint.Read r with
      | Except.error err => Except.error err
      | Except.ok (errorCode, r) =>
        Except.ok ({ StreamID := streamID, ErrorCode := errorCode }, r)

/-- The method `Length`: the length of a written frame; `none` is the panic of
`quicvarint.Len`. -/
def StopSendingFrame.Length (f : StopSendingFrame) : Option Int :=
  match quicvarint.Len (quicvarint.uint64 f.StreamID) with
  | none => none
  | some a =>
    match quicvarint.Len (quicvarint.uint64 f.ErrorCode) with
    | none => none
    | some c => some (1 + a + c)

/-- The method `Write`: writes the type byte 0x5, the stream ID and the error code
to the buffer. -/
def StopSendingFrame.Write (f : StopSendingFrame) (b : List Nat) : quicvarint.Outcome :=
  match quicvarint.Write (quicvarint.WriteByte b 0x5) (quicvarint.uint64 f.StreamID) with
  | quicvarint.Outcome.panicked buf => quicvarint.Outcome.panicked buf
  | quicvarint.Outcome.returned buf => quicvarint.Write buf (quicvarint.uint64 f.ErrorCode)

end wire

namespace ackhandler

/-! ## Received packet history

The file `received_packet_history.go` is outside the sources at hand: only its
tests are there. The history is modelled from section 4.3 and the data model of
the specification, with the names that the tests use. The list of intervals is
kept in ascending order, its front first. -/

/-- Modelled from the spec: the struct `utils.PacketInterval`, an interval of
packet numbers from `Start` to `End`, both included. -/
structure PacketInterval where
  Start : Int
  End : Int
  deriving DecidableEq, Repr

/-- Modelled from the spec: the struct `receivedPacketHistory` of
`received_packet_history.go`, which is not among the sources. `ranges` is the
ordered set of disjoint closed intervals of received packet numbers, smallest
first; `deletedBelow` is the mark set by `DeleteBelow`; `evictedBelow` records
the intervals that were evicted on overflow: the specification says that the
packet numbers of an evicted interval are considered duplicates forever. -/
structure receivedPacketHistory where
  ranges : List PacketInterval
  deletedBelow : Int
  evictedBelow : Int
  deriving DecidableEq, Repr

/-- Modelled from the spec: `newReceivedPacketHistory` of
`received_packet_history.go`: no interval, nothing deleted, nothing evicted. -/
def newReceivedPacketHistory : receivedPacketHistory :=
  { ranges := [], deletedBelow := 0, evictedBelow := 0 }

/-- Modelled from the spec: `addToRanges` of `received_packet_history.go`: "on
insert, locate the first interval whose end ≥ pn-1, then extend/merge/insert".
The boolean is false when the packet number already lies in an interval, and the
intervals are then unchanged. -/
def addToRanges (p : Int) : List PacketInterval → List PacketInterval × Bool
  | [] => ([{ Start := p, End := p }], true)
  | r :: rest =>
    if r.End + 1 < p then
      -- this interval ends before pn - 1: look further
      ((r :: (addToRanges p rest).1), (addToRanges p rest).2)
    else if r.End + 1 = p then
      -- extend the interval at its end, and merge it with the next one if they meet
      match rest with
      | [] => ([{ Start := r.Start, End := p }], true)
      | n :: rest1 =>
        if p + 1 = n.Start then
          ({ Start := r.Start, End := n.End } :: rest1, true)
        else
          ({ Start := r.Start, End := p } :: n :: rest1, true)
    else if r.Start ≤ p then
      -- the packet number lies in this interval
      (r :: rest, false)
    else if p + 1 = r.Start then
      -- extend the interval at its start
      ({ Start := p, End := r.End } :: rest, true)
    else
      -- a new interval before this one
      ({ Start := p, End := p } :: r :: rest, true)

/-- Modelled from the spec: `maybeDeleteOldRanges` of
`received_packet_history.go`: "bound total intervals to a fixed maximum by
evicting the oldest (smallest) on overflow". The second component is the mark
below which packet numbers were evicted. The constant
`protocol.MaxNumAckRanges` is not among the sources and is a parameter. -/
def maybeDeleteOldRanges (maxNumAckRanges : Nat) :
    List PacketInterval → Int → List PacketInterval × Int
  | [], evicted => ([], evicted)
  | r :: rest, evicted =>
    if maxNumAckRanges < (r :: rest).length then
      maybeDeleteOldRanges maxNumAckRanges rest (max evicted (r.End + 1))
    else
      (r :: rest, evicted)

/-- Modelled from the spec: `ReceivedPacket` of `received_packet_history.go`:
"returns false if the PN was already subsumed by an existing range or already
deleted-below". Returns the boolean and the history afterwards. -/
def receivedPacketHistory.ReceivedPacket (maxNumAckRanges : Nat) (h : receivedPacketHistory)
    (p : Int) : Bool × receivedPacketHistory :=
  if p < h.deletedBelow then
    (false, h)
  else
    let added := addToRanges p h.ranges
    let kept := maybeDeleteOldRanges maxNumAckRanges added.1 h.evictedBelow
    (added.2, { h with ranges := kept.1, evictedBelow := kept.2 })

/-- Modelled from the spec: the loop of `DeleteBelow` over the intervals: an
interval that ends below `p` is dropped, the interval that holds `p` is trimmed
to start at `p`. -/
def deleteRangesBelow (p : Int) : List PacketInterval → List PacketInterval
  | [] => []
  | r :: rest =>
    if r.End < p then
      deleteRangesBelow p rest
    else if r.Start < p then
      { Start := p, End := r.End } :: rest
    else
      r :: rest

/-- Modelled from the spec: `DeleteBelow` of `received_packet_history.go`
("trims/drops ranges"): deletes all packet numbers below `p`. A call with an
argument below the mark changes nothing. -/
def receivedPacketHistory.DeleteBelow (h : receivedPacketHistory) (p : Int) :
    receivedPacketHistory :=
  if p < h.deletedBelow then
    h
  else
    { h with deletedBelow := p, ranges := deleteRangesBelow p h.ranges }

/-- Modelled from the spec: `GetAckRanges` of `received_packet_history.go`
("ordered highest-first, matching wire layout"): the intervals from the back of
the list to its front. `none` is the nil slice of an empty history. -/
def receivedPacketHistory.GetAckRanges (h : receivedPacketHistory) : Option (List AckRange) :=
  if h.ranges.length = 0 then
    none
  else
    some (h.ranges.reverse.map fun r => { Smallest := r.Start, Largest := r.End })

/-- Modelled from the spec: `GetHighestAckRange` of
`received_packet_history.go`: the interval at the back of the list, or the zero
value of `wire.AckRange` when there is none. -/
def receivedPacketHistory.GetHighestAckRange (h : receivedPacketHistory) : AckRange :=
  match h.ranges.getLast? with
  | some r => { Smallest := r.Start, Largest := r.End }
  | none => { Smallest := 0, Largest := 0 }

/-- Modelled from the spec: `IsPotentiallyDuplicate` of
`received_packet_history.go`: a packet number below the deleted mark, in or
below an evicted interval, or in a stored interval may be a duplicate. -/
def receivedPacketHistory.IsPotentiallyDuplicate (h : receivedPacketHistory) (p : Int) : Bool :=
  if p < h.deletedBelow then
    true
  else if p < h.evictedBelow then
    true
  else
    h.ranges.any fun r => decide (r.Start ≤ p) && decide (p ≤ r.End)

/-- A call of one of the two methods that change a received packet history. -/
inductive HistoryCall where
  | ReceivedPacket (p : Int)
  | DeleteBelow (p : Int)
  deriving DecidableEq, Repr

/-- The history after one call. -/
def receivedPacketHistory.call (maxNumAckRanges : Nat) (h : receivedPacketHistory) :
    HistoryCall → receivedPacketHistory
  | HistoryCall.ReceivedPacket p => (h.ReceivedPacket maxNumAckRanges p).2
  | HistoryCall.DeleteBelow p => h.DeleteBelow p

/-- The history after a sequence of calls, the first call first. -/
def receivedPacketHistory.run (maxNumAckRanges : Nat) (h : receivedPacketHistory)
    (calls : List HistoryCall) : receivedPacketHistory :=
  calls.foldl (receivedPacketHistory.call maxNumAckRanges) h

/-- The packet number lies in one of the stored intervals. -/
def receivedPacketHistory.contains (h : receivedPacketHistory) (p : Int) : Prop :=
  ∃ r ∈ h.ranges, r.Start ≤ p ∧ p ≤ r.End

/-- The packet number lies in one of the intervals of the list. -/
def covers : List PacketInterval → Int → Prop
  | [], _ => False
  | r :: rest, p => (r.Start ≤ p ∧ p ≤ r.End) ∨ covers rest p

/-- The intervals are well formed above the bound `b`: the first one starts
above `b`, each has `Start ≤ End`, and each ends at least two packet numbers
before the next one starts. -/
def goodFrom (b : Int) : List PacketInterval → Prop
  | [] => True
  | r :: rest => b < r.Start ∧ r.Start ≤ r.End ∧ goodFrom (r.End + 1) rest

/-- The invariant of a received packet history: its intervals are well formed
and there are at most `maxNumAckRanges` of them. -/
def receivedPacketHistory.good (maxNumAckRanges : Nat) (h : receivedPacketHistory) : Prop :=
  (∃ b, goodFrom b h.ranges) ∧ h.ranges.length ≤ maxNumAckRanges

/-- The packet number may be a duplicate: it is below one of the two marks or in
a stored interval. -/
def receivedPacketHistory.flagged (h : receivedPacketHistory) (p : Int) : Prop :=
  p < h.deletedBelow ∨ p < h.evictedBelow ∨ h.contains p

/-- The packet numbers passed to `ReceivedPacket` in a sequence of calls. -/
def receivedNumbers (ps : List Int) : List HistoryCall :=
  ps.map HistoryCall.ReceivedPacket

end ackhandler

namespace quic

/-! ## Connection ID generator

The file `conn_id_generator.go` of the package `quic` is outside the sources at
hand: only its tests are there. The generator is modelled from section 4.6 of
the specification, with the names that the tests use. A connection ID is the
list of its bytes. The callbacks given to `newConnIDGenerator` are the ones of
the tests: each appends its argument to a log, and the logs are fields of the
generator. The global flag `RetireBugBackwardsCompatibilityMode` of
`interface.go` is an argument of the functions that read it. -/

/-- Modelled from the spec: the struct `wire.NewConnectionIDFrame`, declared in
`internal/wire/new_connection_id_frame.go`, which is not among the sources. The
fields are the ones that the tests of the generator read. -/
structure NewConnectionIDFrame where
  SequenceNumber : Nat
  ConnectionID : List Nat
  StatelessResetToken : List Nat
  deriving DecidableEq, Repr

/-- Modelled from the spec: the struct `connIDGenerator` of
`conn_id_generator.go`, which is not among the sources: the "map from
sequence-number to (CID, stateless-reset-token), plus the highest sequence
issued". The map `activeSrcConnIDs` is a list of pairs with distinct keys.
`random` is the source of random bytes as an oracle, `drawn` counts the bytes
taken from it. `addedConnIDs`, `retiredConnIDs` and `queuedFrames` are the logs
of the callbacks add, retire and queue-frame. -/
structure connIDGenerator where
  connIDLen : Nat
  highestSeq : Nat
  activeSrcConnIDs : List (Nat × List Nat)
  initialClientDestConnID : List Nat
  getStatelessResetToken : List Nat → List Nat
  random : Nat → Nat
  drawn : Nat
  addedConnIDs : List (List Nat)
  retiredConnIDs : List (List Nat)
  queuedFrames : List NewConnectionIDFrame

/-- Modelled from the spec: `newConnIDGenerator` of `conn_id_generator.go`
("Parameters at creation: initial local CID, initial-client-destination CID").
The initial connection ID is active with sequence number 0. -/
def newConnIDGenerator (initialConnectionID initialClientDestConnID : List Nat)
    (getStatelessResetToken : List Nat → List Nat) (random : Nat → Nat) : connIDGenerator :=
  { connIDLen := initialConnectionID.length
    highestSeq := 0
    activeSrcConnIDs := [(0, initialConnectionID)]
    initialClientDestConnID := initialClientDestConnID
    getStatelessResetToken := getStatelessResetToken
    random := random
    drawn := 0
    addedConnIDs := []
    retiredConnIDs := []
    queuedFrames := [] }

/-- Modelled from the spec: `protocol.GenerateConnectionID`, declared in
`internal/protocol`, which is not among the sources: "a fresh random CID" of the
given length. The bytes are the next `len` bytes of the oracle. -/
def GenerateConnectionID (random : Nat → Nat) (drawn len : Nat) : List Nat :=
  (List.range len).map fun i => random (drawn + i) % 256

/-- Modelled from the spec: reading the map `activeSrcConnIDs` of
`conn_id_generator.go`: the connection ID stored under a sequence number, if
any. -/
def lookup (seq : Nat) (active : List (Nat × List Nat)) : Option (List Nat) :=
  (active.find? fun e => e.1 == seq).map fun e => e.2

/-- Modelled from the spec: deleting from the map `activeSrcConnIDs` of
`conn_id_generator.go`: the map without the entry of a sequence number. -/
def delete (seq : Nat) (active : List (Nat × List Nat)) : List (Nat × List Nat) :=
  active.filter fun e => e.1 != seq

/-- Modelled from the spec: `issueNewConnID` of `conn_id_generator.go`: "a fresh
random CID and a stateless-reset token derived deterministically from the CID";
"Emit a NEW_CONNECTION_ID frame for each". In the compatibility mode nothing is
issued, as the tests require. -/
def connIDGenerator.issueNewConnID (retireBug : Bool) (m : connIDGenerator) : connIDGenerator :=
  if retireBug then
    m
  else
    let connID := GenerateConnectionID m.random m.drawn m.connIDLen
    let frame : NewConnectionIDFrame :=
      { SequenceNumber := m.highestSeq + 1
        ConnectionID := connID
        StatelessResetToken := m.getStatelessResetToken connID }
    let active := delete (m.highestSeq + 1) m.activeSrcConnIDs ++ [(m.highestSeq + 1, connID)]
    { m with
      drawn := m.drawn + m.connIDLen
      activeSrcConnIDs := active
      addedConnIDs := m.addedConnIDs ++ [connID]
      queuedFrames := m.queuedFrames ++ [frame]
      highestSeq := m.highestSeq + 1 }

/-- Modelled from the spec: the loop of `SetMaxActiveConnIDs` in
`conn_id_generator.go`: the generator after `n` calls of `issueNewConnID`. -/
def connIDGenerator.issue (retireBug : Bool) : Nat → connIDGenerator → connIDGenerator
  | 0, m => m
  | n + 1, m => connIDGenerator.issue retireBug n (m.issueNewConnID retireBug)

/-- Modelled from the spec: `SetMaxActiveConnIDs` of `conn_id_generator.go`:
"Issue (n−1) new CIDs (the initial one counts) ... Cap the total ever issued to
a hard limit": connection IDs are issued until the number of active ones
reaches the smaller of `limit` and the hard limit. The constant
`protocol.MaxIssuedConnectionIDs` is not among the sources and is a parameter.
The result is the error, which is always nil, and the generator afterwards. -/
def connIDGenerator.SetMaxActiveConnIDs (retireBug : Bool) (maxIssuedConnectionIDs : Nat)
    (m : connIDGenerator) (limit : Nat) : Option qerr.QuicError × connIDGenerator :=
  (none, m.issue retireBug (min limit maxIssuedConnectionIDs - m.activeSrcConnIDs.length))

/-- Modelled from the spec: `Retire` of `conn_id_generator.go`: "If seq >
highest issued → protocol violation. If the packet's destination CID equals the
retiring CID → protocol violation (unless a compatibility flag is set).
Idempotent on duplicate retires. Invoke retire callback; issue a replacement to
maintain the active count." No replacement is issued for the initial connection
ID, as the tests require. The message of the second error is given without the
rendering of the connection ID. -/
def connIDGenerator.Retire (retireBug : Bool) (m : connIDGenerator) (seq : Nat)
    (sentWithDestConnID : List Nat) : Option qerr.QuicError × connIDGenerator :=
  if m.highestSeq < seq then
    (some (qerr.NewError qerr.ErrorCode.ProtocolViolation
      ("tried to retire connection ID " ++ toString seq ++ ". Highest issued: "
        ++ toString m.highestSeq)), m)
  else
    match lookup seq m.activeSrcConnIDs with
    | none => (none, m)
    | some connID =>
      if connID = sentWithDestConnID ∧ retireBug = false then
        (some (qerr.NewError qerr.ErrorCode.ProtocolViolation
          ("tried to retire connection ID " ++ toString seq
            ++ ", which was used as the Destination Connection ID on this packet")), m)
      else
        let retired : connIDGenerator :=
          { m with
            retiredConnIDs := m.retiredConnIDs ++ [connID]
            activeSrcConnIDs := delete seq m.activeSrcConnIDs }
        if seq = 0 then
          (none, retired)
        else
          (none, retired.issueNewConnID retireBug)

/-- A call of one of the two methods of the generator that issue or retire
connection IDs, with the value that the flag
`RetireBugBackwardsCompatibilityMode` has at the time of the call. -/
inductive GeneratorCall where
  | SetMaxActiveConnIDs (retireBug : Bool) (limit : Nat)
  | Retire (retireBug : Bool) (seq : Nat) (sentWithDestConnID : List Nat)
  deriving DecidableEq, Repr

/-- The error returned by a call, if any, and the generator afterwards. -/
def connIDGenerator.call (maxIssuedConnectionIDs : Nat) (m : connIDGenerator) :
    GeneratorCall → Option qerr.QuicError × connIDGenerator
  | GeneratorCall.SetMaxActiveConnIDs retireBug limit =>
    m.SetMaxActiveConnIDs retireBug maxIssuedConnectionIDs limit
  | GeneratorCall.Retire retireBug seq sentWithDestConnID =>
    m.Retire retireBug seq sentWithDestConnID

/-- The generator after a sequence of calls, the first call first; a call that
returns an error leaves the generator as it was, and the calls after it are
made. -/
def connIDGenerator.run (maxIssuedConnectionIDs : Nat) (m : connIDGenerator)
    (calls : List GeneratorCall) : connIDGenerator :=
  calls.foldl (fun g c => (g.call maxIssuedConnectionIDs c).2) m

/-- The number of connection IDs that the generator has issued so far, the
initial one included. -/
def connIDGenerator.issued (m : connIDGenerator) : Nat :=
  m.highestSeq + 1

/-- The invariant of the generator: the sequence numbers of the active
connection IDs are distinct and at most the highest one issued, every issued
connection ID is active or was retired, and the number of active ones is at most
the hard limit (or 1, for the initial one). -/
def connIDGenerator.good (maxIssuedConnectionIDs : Nat) (m : connIDGenerator) : Prop :=
  (∀ e ∈ m.activeSrcConnIDs, e.1 ≤ m.highestSeq) ∧
  (m.activeSrcConnIDs.map Prod.fst).Nodup ∧
  m.highestSeq + 1 = m.activeSrcConnIDs.length + m.retiredConnIDs.length ∧
  m.activeSrcConnIDs.length ≤ max 1 maxIssuedConnectionIDs

/-- The frames queued so far are the ones of the connection IDs issued after
the `s`-th: their sequence numbers count up from `s + 1`, each has a connection
ID of the length of the initial one and the token computed from its connection
ID, and their connection IDs are the ones passed to the callback add. -/
def connIDGenerator.framesFrom (s : Nat) (m : connIDGenerator) : Prop :=
  m.highestSeq = s + m.queuedFrames.length ∧
  m.queuedFrames.map (fun f => f.SequenceNumber) = List.range' (s + 1) m.queuedFrames.length ∧
  (∀ f ∈ m.queuedFrames, f.ConnectionID.length = m.connIDLen ∧
    f.StatelessResetToken = m.getStatelessResetToken f.ConnectionID) ∧
  m.addedConnIDs = m.queuedFrames.map (fun f => f.ConnectionID)

/-- The generator of the tests: the initial connection ID has the seven bytes 1
to 7, the token repeats the first byte of the connection ID sixteen times, and
the `k`-th random byte is `k + 16`. -/
def testGenerator : connIDGenerator :=
  newConnIDGenerator [1, 2, 3, 4, 5, 6, 7] [0xa, 0xb, 0xc, 0xd, 0xe]
    (fun c => List.replicate 16 (c.headD 0)) (fun k => k + 16)

end quic

namespace ackhandler

/-- Modelled from the spec: the number of outstanding packets that the handler
keeps track of, over the packet number spaces that were not dropped. -/
def sentPacketHandler.numOutstanding (h : sentPacketHandler) : Nat :=
  (match h.initialPackets with
    | some sp => (sp.history.filter Packet.outstanding).length
    | none => 0)
  + (match h.handshakePackets with
    | some sp => (sp.history.filter Packet.outstanding).length
    | none => 0)
  + (h.appDataPackets.history.filter Packet.outstanding).length

/-- Modelled from the spec: the method `SendMode` of `sent_packet_handler.go`,
which is not among the sources. "Priorities: if PTO probes are owed → PTO; else
if bytes-in-flight would exceed the amplification limit (server, unvalidated
peer: 3× bytes received) → None; else if congestion window full → Ack (ACK
frames may still be sent); else if outstanding packets ≥
MaxOutstandingSentPackets → Ack; else Any." The amplification limit compares the
bytes sent so far with the bytes received so far, as the test of the limit
does. `canSend` is the method `CanSend` of the congestion controller, applied
to the bytes in flight; the constant `protocol.MaxOutstandingSentPackets` is
not among the sources and is a parameter. -/
def sentPacketHandler.SendMode (h : sentPacketHandler) (canSend : Int → Bool)
    (maxOutstandingSentPackets : Nat) : SendMode :=
  if 0 < h.numProbesToSend then
    h.ptoMode
  else if h.perspective = Perspective.PerspectiveServer ∧ h.peerAddressValidated = false
      ∧ 3 * h.bytesReceived ≤ h.bytesSent then
    ackhandler.SendMode.SendNone
  else if canSend h.bytesInFlight = false then
    ackhandler.SendMode.SendAck
  else if maxOutstandingSentPackets ≤ h.numOutstanding then
    ackhandler.SendMode.SendAck
  else
    ackhandler.SendMode.SendAny

/-- An ack-eliciting Initial packet of the given length, as the test of the
amplification limit sends it. -/
def initialPacket (pn length : Int) : Packet :=
  { PacketNumber := pn
    Frames := [0]
    LargestAcked := InvalidPacketNumber
    Length := length
    EncryptionLevel := EncryptionLevel.EncryptionInitial
    SendTime := 0
    declaredLost := false
    skippedPacket := false }

/-- The calls of the test of the amplification limit up to the first call of
`SendMode`: an Initial packet and 200 bytes are received, and an Initial packet
of 599 bytes is sent. -/
def amplificationCalls : List Call :=
  [Call.ReceivedPacket EncryptionLevel.EncryptionInitial, Call.ReceivedBytes 200,
   Call.SentPacket (initialPacket 1 599) 0]

end ackhandler

namespace ackhandler

/-- The return values of a sequence of `Peek` and `Pop` calls on a skipping
generator, each with the call that returned it, and the generator afterwards;
`none` when a call of `Pop` panics. -/
def skippingPacketNumberGenerator.run :
    List generatorCall → skippingPacketNumberGenerator →
      Option (List (generatorCall × Int) × skippingPacketNumberGenerator)
  | [], p => some ([], p)
  | generatorCall.Peek :: calls, p =>
    match run calls p with
    | none => none
    | some r => some ((generatorCall.Peek, p.Peek) :: r.1, r.2)
  | generatorCall.Pop :: calls, p =>
    match p.Pop with
    | none => none
    | some (pn, p1) =>
      match run calls p1 with
      | none => none
      | some r => some ((generatorCall.Pop, pn) :: r.1, r.2)

end ackhandler

namespace quic

/-! ## Configuration (`config.go`, with the struct `Config` of `interface.go`)

`int`, `int64` and `time.Duration` values are integers, `uint64` values natural
numbers; the functions of `config.go` compare and copy them and do no
arithmetic. A pointer to a `Config` that may be nil is an `Option`. -/

/-- Modelled from the spec: the constants of `internal/protocol` that
`config.go` reads. The package is not among the sources, so the constants are
parameters; the comments of `interface.go` document some of their values. -/
structure Defaults where
  SupportedVersions : List Nat
  DefaultHandshakeIdleTimeout : Int
  DefaultIdleTimeout : Int
  DefaultMaxReceiveStreamFlowControlWindow : Nat
  DefaultMaxReceiveConnectionFlowControlWindow : Nat
  DefaultMaxIncomingStreams : Int
  DefaultMaxIncomingUniStreams : Int
  DefaultConnectionIDLength : Int

/-- The struct `Config` of `interface.go`. `AcceptToken` is a function value,
`TokenStore` and `Tracer` are interface values, and each may be nil; `F`, `S`
and `T` are the types of these values. -/
structure Config (F S T : Type) where
  Versions : List Nat
  ConnectionIDLength : Int
  HandshakeIdleTimeout : Int
  MaxIdleTimeout : Int
  AcceptToken : Option F
  TokenStore : Option S
  MaxReceiveStreamFlowControlWindow : Nat
  MaxReceiveConnectionFlowControlWindow : Nat
  MaxIncomingStreams : Int
  MaxIncomingUniStreams : Int
  StatelessResetKey : List Nat
  KeepAlive : Bool
  EnableDatagrams : Bool
  Tracer : Option T

/-- The value `Config{}`: every field has the zero value of its type. -/
def emptyConfig (F S T : Type) : Config F S T :=
  { Versions := []
    ConnectionIDLength := 0
    HandshakeIdleTimeout := 0
    MaxIdleTimeout := 0
    AcceptToken := none
    TokenStore := none
    MaxReceiveStreamFlowControlWindow := 0
    MaxReceiveConnectionFlowControlWindow := 0
    MaxIncomingStreams := 0
    MaxIncomingUniStreams := 0
    StatelessResetKey := []
    KeepAlive := false
    EnableDatagrams := false
    Tracer := none }

/-- The function `validateConfig`: the error, or `none` for nil. -/
def validateConfig {F S T : Type} (config : Option (Config F S T)) : Option String :=
  match config with
  | none => none
  | some config =>
    if config.MaxIncomingStreams > ((1 <<< 60 : Nat) : Int) then
      some "invalid value for Config.MaxIncomingStreams"
    else if config.MaxIncomingUniStreams > ((1 <<< 60 : Nat) : Int) then
      some "invalid value for Config.MaxIncomingUniStreams"
    else
      none

/-- The function `populateConfig`. -/
def populateConfig {F S T : Type} (d : Defaults) (config : Option (Config F S T)) :
    Config F S T :=
  let config : Config F S T :=
    match config with
    | none => emptyConfig F S T
    | some config => config
  let versions := if config.Versions.length = 0 then d.SupportedVersions else config.Versions
  let handshakeIdleTimeout :=
    if config.HandshakeIdleTimeout ≠ 0 then config.HandshakeIdleTimeout
    else d.DefaultHandshakeIdleTimeout
  let idleTimeout :=
    if config.MaxIdleTimeout ≠ 0 then config.MaxIdleTimeout else d.DefaultIdleTimeout
  let maxReceiveStreamFlowControlWindow :=
    if config.MaxReceiveStreamFlowControlWindow = 0 then
      d.DefaultMaxReceiveStreamFlowControlWindow
    else config.MaxReceiveStreamFlowControlWindow
  let maxReceiveConnectionFlowControlWindow :=
    if config.MaxReceiveConnectionFlowControlWindow = 0 then
      d.DefaultMaxReceiveConnectionFlowControlWindow
    else config.MaxReceiveConnectionFlowControlWindow
  let maxIncomingStreams :=
    if config.MaxIncomingStreams = 0 then d.DefaultMaxIncomingStreams
    else if config.MaxIncomingStreams < 0 then 0
    else config.MaxIncomingStreams
  let maxIncomingUniStreams :=
    if config.MaxIncomingUniStreams = 0 then d.DefaultMaxIncomingUniStreams
    else if config.MaxIncomingUniStreams < 0 then 0
    else config.MaxIncomingUniStreams
  { Versions := versions
    HandshakeIdleTimeout := handshakeIdleTimeout
    MaxIdleTimeout := idleTimeout
    AcceptToken := config.AcceptToken
    KeepAlive := config.KeepAlive
    MaxReceiveStreamFlowControlWindow := maxReceiveStreamFlowControlWindow
    MaxReceiveConnectionFlowControlWindow := maxReceiveConnectionFlowControlWindow
    MaxIncomingStreams := maxIncomingStreams
    MaxIncomingUniStreams := maxIncomingUniStreams
    ConnectionIDLength := config.ConnectionIDLength
    StatelessResetKey := config.StatelessResetKey
    TokenStore := config.TokenStore
    EnableDatagrams := config.EnableDatagrams
    Tracer := config.Tracer }

/-- The function `populateServerConfig`. The function `defaultAcceptToken` is
declared in `server.go`, which is not among the sources: it is an argument. -/
def populateServerConfig {F S T : Type} (d : Defaults) (defaultAcceptToken : F)
    (config : Option (Config F S T)) : Config F S T :=
  let config := populateConfig d config
  let config : Config F S T :=
    if config.ConnectionIDLength = 0 then
      { config with ConnectionIDLength := d.DefaultConnectionIDLength }
    else config
  let config : Config F S T :=
    if config.AcceptToken.isNone then { config with AcceptToken := some defaultAcceptToken }
    else config
  config

/-- The function `populateClientConfig`. -/
def populateClientConfig {F S T : Type} (d : Defaults) (config : Option (Config F S T))
    (createdPacketConn : Bool) : Config F S T :=
  let config := populateConfig d config
  let config : Config F S T :=
    if config.ConnectionIDLength = 0 ∧ createdPacketConn = false then
      { config with ConnectionIDLength := d.DefaultConnectionIDLength }
    else config
  config

/-- Defaults for the examples, with the values that the comments of
`interface.go` document: handshake idle timeout 5 s and idle timeout 30 s (in
nanoseconds), 100 incoming streams of either kind, a connection ID of 4 bytes;
the window sizes are the ones documented for a server, 1 MB and 1.5 MB, and the
version list is a list of one version. -/
def exampleDefaults : Defaults :=
  { SupportedVersions := [0xff00001d]
    DefaultHandshakeIdleTimeout := 5000000000
    DefaultIdleTimeout := 30000000000
    DefaultMaxReceiveStreamFlowControlWindow := 1048576
    DefaultMaxReceiveConnectionFlowControlWindow := 1572864
    DefaultMaxIncomingStreams := 100
    DefaultMaxIncomingUniStreams := 100
    DefaultConnectionIDLength := 4 }

/-- A config for the examples: every field is unset, except the limit of
incoming bidirectional streams. -/
def exampleConfig (maxIncomingStreams : Int) : Config Unit Unit Unit :=
  { emptyConfig Unit Unit Unit with MaxIncomingStreams := maxIncomingStreams }

end quic

namespace quic

/-! ## Datagram queue (`datagram_queue.go`)

The queue is described one call at a time: each method makes one channel
operation, and a call is a step from the state of the channels before it to the
state after it. A buffered channel is the list of the values in it, oldest
first, with its capacity. A `select` whose cases are all blocked makes the call
wait; such a call has the outcome `waits`. Where two cases of a `select` are
ready, Go chooses one of them at random: the choice is an argument of the
method. The logger has no effect on the queue and is left out. -/

/-- Modelled from the spec: the struct `wire.DatagramFrame`, declared in
`internal/wire`, which is not among the sources: a DATAGRAM frame with its
payload `Data`. -/
structure DatagramFrame where
  DataLenPresent : Bool
  Data : List Nat
  deriving DecidableEq, Repr

/-- The struct `datagramQueue`.
* `sendQueue` is an unbuffered channel: the list holds the frames of the calls
  of `AddAndWait` that wait in their `select`, oldest first;
* `rcvQueue` is a buffered channel: the list holds the payloads in it, oldest
  first, and `rcvQueueLen` is its capacity;
* `closed` tells whether the channel `closed` has been closed;
* `closeErr` is the error stored by `CloseWithError` (`none` is nil);
* `hasData` counts the calls of the callback `hasData`. -/
structure datagramQueue where
  sendQueue : List DatagramFrame
  rcvQueue : List (List Nat)
  rcvQueueLen : Nat
  closeErr : Option String
  closed : Bool
  hasData : Nat
  deriving DecidableEq, Repr

/-- The function `newDatagramQueue`. The constant `protocol.DatagramRcvQueueLen`
is not among the sources and is a parameter. -/
def newDatagramQueue (DatagramRcvQueueLen : Nat) : datagramQueue :=
  { sendQueue := []
    rcvQueue := []
    rcvQueueLen := DatagramRcvQueueLen
    closeErr := none
    closed := false
    hasData := 0 }

/-- What a call of `AddAndWait` does in its `select`: it returns an error
(`none` is nil), or it waits. -/
inductive AddResult where
  | returned (err : Option String)
  | waits
  deriving DecidableEq, Repr

/-- What a call of `Receive` does in its `select`: it returns a payload or an
error, or it waits. -/
inductive ReceiveResult where
  | returned (data : Option (List Nat)) (err : Option String)
  | waits
  deriving DecidableEq, Repr

/-- The method `AddAndWait`: queues a new DATAGRAM frame for sending. A send on
the unbuffered `sendQueue` cannot proceed at once, since `Get`, the only
receiver, never waits: on a closed queue the call returns `closeErr`, otherwise
it waits with its frame, until `Get` takes the frame (the call then returns nil)
or the queue is closed (the call then returns `closeErr`). -/
def datagramQueue.AddAndWait (h : datagramQueue) (f : DatagramFrame) :
    AddResult × datagramQueue :=
  let h : datagramQueue := { h with hasData := h.hasData + 1 }
  if h.closed then
    (AddResult.returned h.closeErr, h)
  else
    (AddResult.waits, { h with sendQueue := h.sendQueue ++ [f] })

/-- The method `Get`: dequeues a DATAGRAM frame for sending, or returns nil. -/
def datagramQueue.Get (h : datagramQueue) : Option DatagramFrame × datagramQueue :=
  match h.sendQueue with
  | f :: rest => (some f, { h with sendQueue := rest })
  | [] => (none, h)

/-- The built-in `copy(dst, src)`: the first `min(len(dst), len(src))` elements
of `dst` are overwritten with those of `src`. -/
def copy (dst src : List Nat) : List Nat :=
  src.take dst.length ++ dst.drop src.length

/-- The method `HandleDatagramFrame`: handles a received DATAGRAM frame. The
send on `rcvQueue` proceeds when the channel is not full; otherwise the
`default` case discards the datagram. -/
def datagramQueue.HandleDatagramFrame (h : datagramQueue) (f : DatagramFrame) : datagramQueue :=
  let data := copy (List.replicate f.Data.length 0) f.Data
  if h.rcvQueue.length < h.rcvQueueLen then
    { h with rcvQueue := h.rcvQueue ++ [data] }
  else
    h

/-- The method `Receive`: gets a received DATAGRAM frame. The receive from
`rcvQueue` is ready when a payload is queued, the receive from `closed` when
the queue is closed; when both are ready, `rcvFirst` tells which case the
`select` chooses; when neither is ready the call waits. -/
def datagramQueue.Receive (h : datagramQueue) (rcvFirst : Bool) :
    ReceiveResult × datagramQueue :=
  match h.rcvQueue with
  | data :: rest =>
    if h.closed = true ∧ rcvFirst = false then
      (ReceiveResult.returned none h.closeErr, h)
    else
      (ReceiveResult.returned (some data) none, { h with rcvQueue := rest })
  | [] =>
    if h.closed then
      (ReceiveResult.returned none h.closeErr, h)
    else
      (ReceiveResult.waits, h)

/-- The method `CloseWithError`. Closing the channel `closed` a second time
panics (`none`). The calls of `AddAndWait` that wait return `closeErr`, so their
frames leave the `sendQueue`. -/
def datagramQueue.CloseWithError (h : datagramQueue) (e : Option String) :
    Option datagramQueue :=
  if h.closed then
    none
  else
    some { h with closeErr := e, closed := true, sendQueue := [] }

/-- A call of one of the methods of the queue, with its arguments and, for
`Receive`, with the choice of its `select`. -/
inductive QueueCall where
  | AddAndWait (f : DatagramFrame)
  | Get
  | HandleDatagramFrame (f : DatagramFrame)
  | Receive (rcvFirst : Bool)
  | CloseWithError (e : Option String)
  deriving DecidableEq, Repr

/-- What a call did to the receive queue: it put a payload into it, it discarded
a payload, or it handed a payload out. -/
inductive QueueEvent where
  | queued (data : List Nat)
  | discarded (data : List Nat)
  | handedOut (data : List Nat)
  deriving DecidableEq, Repr

/-- One call: what it did to the receive queue, and the queue afterwards; `none`
when the call panics. -/
def datagramQueue.call (h : datagramQueue) : QueueCall → Option (List QueueEvent × datagramQueue)
  | QueueCall.AddAndWait f => some ([], (h.AddAndWait f).2)
  | QueueCall.Get => some ([], h.Get.2)
  | QueueCall.HandleDatagramFrame f =>
    if h.rcvQueue.length < h.rcvQueueLen then
      some ([QueueEvent.queued f.Data], h.HandleDatagramFrame f)
    else
      some ([QueueEvent.discarded f.Data], h.HandleDatagramFrame f)
  | QueueCall.Receive rcvFirst =>
    match (h.Receive rcvFirst).1 with
    | ReceiveResult.returned (some data) _ =>
      some ([QueueEvent.handedOut data], (h.Receive rcvFirst).2)
    | _ => some ([], (h.Receive rcvFirst).2)
  | QueueCall.CloseWithError e =>
    match h.CloseWithError e with
    | some h1 => some ([], h1)
    | none => none

/-- A sequence of calls, the first call first: the events in order and the queue
afterwards; `none` when a call panics. -/
def datagramQueue.run : List QueueCall → datagramQueue → Option (List QueueEvent × datagramQueue)
  | [], h => some ([], h)
  | c :: calls, h =>
    match h.call c with
    | none => none
    | some (events, h1) =>
      match run calls h1 with
      | none => none
      | some (later, h2) => some (events ++ later, h2)

/-- The payloads that were put into the receive queue, in order. -/
def queuedData : List QueueEvent → List (List Nat)
  | [] => []
  | QueueEvent.queued data :: events => data :: queuedData events
  | _ :: events => queuedData events

/-- The payloads that `Receive` handed out, in order. -/
def handedOutData : List QueueEvent → List (List Nat)
  | [] => []
  | QueueEvent.handedOut data :: events => data :: handedOutData events
  | _ :: events => handedOutData events

/-- A DATAGRAM frame with the given payload, for the examples. -/
def datagramFrame (data : List Nat) : DatagramFrame :=
  { DataLenPresent := true, Data := data }

/-- The calls of the example for the receive queue: three datagrams arrive, and
`Receive` is called twice. -/
def arrivalCalls : List QueueCall :=
  [QueueCall.HandleDatagramFrame (datagramFrame [1]),
   QueueCall.HandleDatagramFrame (datagramFrame [2]),
   QueueCall.HandleDatagramFrame (datagramFrame [3]),
   QueueCall.Receive true, QueueCall.Receive true]

/-- A queue for one datagram in which the datagram 1, 2, 3 is queued. -/
def queueWithDatagram : datagramQueue :=
  { sendQueue := []
    rcvQueue := [[1, 2, 3]]
    rcvQueueLen := 1
    closeErr := none
    closed := false
    hasData := 0 }

/-- The queue `queueWithDatagram` after `CloseWithError` with the error
"closed". -/
def closedQueueWithDatagram : datagramQueue :=
  { sendQueue := []
    rcvQueue := [[1, 2, 3]]
    rcvQueueLen := 1
    closeErr := some "closed"
    closed := true
    hasData := 0 }

end quic

/-! ## Properties of the variable-length integer codec -/

namespace quicvarint

set_option maxRecDepth 100000 in
theorem byte_top (f : Nat) (h : f < 256) : (f &&& 0xc0) >>> 6 = f / 64 := by
  revert f; decide

set_option maxRecDepth 100000 in
theorem byte_low (f : Nat) (h : f < 256) : f &&& (0xff - 0xc0) = f % 64 := by
  revert f; decide

theorem or_40 (a : Nat) (h : a < 64) : a ||| 0x40 = a + 64 := by
  revert a; decide

theorem or_80 (a : Nat) (h : a < 64) : a ||| 0x80 = a + 128 := by
  revert a; decide

theorem or_c0 (a : Nat) (h : a < 64) : a ||| 0xc0 = a + 192 := by
  revert a; decide

/-- Reading a one-byte encoding. -/
theorem Read_len1 (f : Nat) (s : List Nat) (h : f < 64) :
    Read (f :: s) = Except.ok (f, s) := by
  have h0 : f / 64 = 0 := by omega
  have h1 : f % 64 = f := by omega
  simp [Read, ReadByte, byte_top f (by omega), byte_low f (by omega), h0, h1]

/-- Reading a two-byte encoding. -/
theorem Read_len2 (a c : Nat) (s : List Nat) (h : a < 64) (hc : c < 256) :
    Read ((a + 64) :: c :: s) = Except.ok (a * 256 + c, s) := by
  have h0 : (a + 64) / 64 = 1 := by omega
  have h1 : (a + 64) % 64 = a := by omega
  simp [Read, ReadByte, byte_top (a + 64) (by omega), byte_low (a + 64) (by omega), h0, h1,
    uint64, Nat.shiftLeft_eq]
  omega

/-- Reading a four-byte encoding. -/
theorem Read_len4 (a c d e : Nat) (s : List Nat) (h : a < 64) (hc : c < 256) (hd : d < 256)
    (he : e < 256) :
    Read ((a + 128) :: c :: d :: e :: s)
      = Except.ok (a * 16777216 + c * 65536 + d * 256 + e, s) := by
  have h0 : (a + 128) / 64 = 2 := by omega
  have h1 : (a + 128) % 64 = a := by omega
  simp [Read, ReadByte, byte_top (a + 128) (by omega), byte_low (a + 128) (by omega), h0, h1,
    uint64, Nat.shiftLeft_eq]
  omega

/-- Reading an eight-byte encoding. -/
theorem Read_len8 (a c d e f g k l : Nat) (s : List Nat) (h : a < 64) (hc : c < 256)
    (hd : d < 256) (he : e < 256) (hf : f < 256) (hg : g < 256) (hk : k < 256) (hl : l < 256) :
    Read ((a + 192) :: c :: d :: e :: f :: g :: k :: l :: s)
      = Except.ok (a * 72057594037927936 + c * 281474976710656 + d * 1099511627776
          + e * 4294967296 + f * 16777216 + g * 65536 + k * 256 + l, s) := by
  have h0 : (a + 192) / 64 = 3 := by omega
  have h1 : (a + 192) % 64 = a := by omega
  simp [Read, ReadByte, byte_top (a + 192) (by omega), byte_low (a + 192) (by omega), h0, h1,
    uint64, Nat.shiftLeft_eq]
  omega


theorem Write_len1 (b : List Nat) (v : Nat) (h : v ≤ 63) :
    Write b v = Outcome.returned (b ++ [v]) := by
  have : v % 256 = v := by omega
  simp [Write, maxVarInt1, h, WriteByte, uint8, this]

theorem Write_len2 (b : List Nat) (v : Nat) (h1 : 63 < v) (h2 : v ≤ 16383) :
    Write b v = Outcome.returned (b ++ [v / 256 + 64, v % 256]) := by
  have e1 : ¬ v ≤ 63 := by omega
  have e2 : v / 256 % 256 = v / 256 := by omega
  simp [Write, maxVarInt1, maxVarInt2, e1, h2, bufWrite, uint8, Nat.shiftRight_eq_div_pow, e2,
    or_40 (v / 256) (by omega)]

theorem Write_len4 (b : List Nat) (v : Nat) (h1 : 16383 < v) (h2 : v ≤ 1073741823) :
    Write b v = Outcome.returned
      (b ++ [v / 16777216 + 128, v / 65536 % 256, v / 256 % 256, v % 256]) := by
  have e1 : ¬ v ≤ 63 := by omega
  have e2 : ¬ v ≤ 16383 := by omega
  have e3 : v / 16777216 % 256 = v / 16777216 := by omega
  simp [Write, maxVarInt1, maxVarInt2, maxVarInt4, e1, e2, h2, bufWrite, uint8,
    Nat.shiftRight_eq_div_pow, e3, or_80 (v / 16777216) (by omega)]

theorem Write_len8 (b : List Nat) (v : Nat) (h1 : 1073741823 < v)
    (h2 : v ≤ 4611686018427387903) :
    Write b v = Outcome.returned
      (b ++ [v / 72057594037927936 + 192, v / 281474976710656 % 256, v / 1099511627776 % 256,
        v / 4294967296 % 256, v / 16777216 % 256, v / 65536 % 256, v / 256 % 256, v % 256]) := by
  have e1 : ¬ v ≤ 63 := by omega
  have e2 : ¬ v ≤ 16383 := by omega
  have e3 : ¬ v ≤ 1073741823 := by omega
  have e4 : v / 72057594037927936 % 256 = v / 72057594037927936 := by omega
  simp [Write, maxVarInt1, maxVarInt2, maxVarInt4, maxVarInt8, e1, e2, e3, h2, bufWrite, uint8,
    Nat.shiftRight_eq_div_pow, e4, or_c0 (v / 72057594037927936) (by omega)]

/-- Claim C1. For every `v ≤ 2^62 - 1`, every buffer `b` and every byte suffix `s`:
`Write` returns after appending some bytes `w` to `b`, and `Read` applied to `w`
followed by `s` returns `v` without error and leaves exactly `s` unread. -/
theorem Read_Write_roundtrip (b s : List Nat) (v : Nat) (hv : v ≤ maxVarInt8) :
    ∃ w, Write b v = Outcome.returned (b ++ w) ∧ Read (w ++ s) = Except.ok (v, s) := by
  simp only [maxVarInt8] at hv
  by_cases h1 : v ≤ 63
  · exact ⟨_, Write_len1 b v h1, by simpa using Read_len1 v s (by omega)⟩
  by_cases h2 : v ≤ 16383
  · refine ⟨_, Write_len2 b v (by omega) h2, ?_⟩
    have := Read_len2 (v / 256) (v % 256) s (by omega) (by omega)
    rw [show v / 256 * 256 + v % 256 = v by omega] at this
    simpa using this
  by_cases h3 : v ≤ 1073741823
  · refine ⟨_, Write_len4 b v (by omega) h3, ?_⟩
    have := Read_len4 (v / 16777216) (v / 65536 % 256) (v / 256 % 256) (v % 256) s
      (by omega) (by omega) (by omega) (by omega)
    rw [show v / 16777216 * 16777216 + v / 65536 % 256 * 65536 + v / 256 % 256 * 256 + v % 256
      = v by omega] at this
    simpa using this
  · refine ⟨_, Write_len8 b v (by omega) hv, ?_⟩
    have := Read_len8 (v / 72057594037927936) (v / 281474976710656 % 256)
      (v / 1099511627776 % 256) (v / 4294967296 % 256) (v / 16777216 % 256) (v / 65536 % 256)
      (v / 256 % 256) (v % 256) s
      (by omega) (by omega) (by omega) (by omega) (by omega) (by omega) (by omega) (by omega)
    rw [show v / 72057594037927936 * 72057594037927936 + v / 281474976710656 % 256 * 281474976710656
      + v / 1099511627776 % 256 * 1099511627776 + v / 4294967296 % 256 * 4294967296
      + v / 16777216 % 256 * 16777216 + v / 65536 % 256 * 65536 + v / 256 % 256 * 256 + v % 256
      = v by omega] at this
    simpa using this


theorem Len_cases (v : Nat) (hv : v ≤ maxVarInt8) :
    (v ≤ 63 ∧ Len v = some 1) ∨ (63 < v ∧ v ≤ 16383 ∧ Len v = some 2)
      ∨ (16383 < v ∧ v ≤ 1073741823 ∧ Len v = some 4)
      ∨ (1073741823 < v ∧ v ≤ 4611686018427387903 ∧ Len v = some 8) := by
  simp only [maxVarInt8] at hv
  by_cases h1 : v ≤ 63
  · left; simp [Len, maxVarInt1, h1]
  by_cases h2 : v ≤ 16383
  · right; left; simp [Len, maxVarInt1, maxVarInt2, h1, h2]; omega
  by_cases h3 : v ≤ 1073741823
  · right; right; left; simp [Len, maxVarInt1, maxVarInt2, maxVarInt4, h1, h2, h3]; omega
  · right; right; right
    simp [Len, maxVarInt1, maxVarInt2, maxVarInt4, maxVarInt8, h1, h2, h3, hv]; omega

/-- Claim C3. For every `v ≤ 2^62 - 1`, `Write` returns with the buffer `b ++ w`: the
bytes already in the buffer are unchanged, and the number of appended bytes is
`Len v`. -/
theorem Write_appends_Len (b : List Nat) (v : Nat) (hv : v ≤ maxVarInt8) :
    ∃ w, Write b v = Outcome.returned (b ++ w) ∧ Len v = some (w.length : Int) := by
  rcases Len_cases v hv with ⟨h, hl⟩ | ⟨h1, h2, hl⟩ | ⟨h1, h2, hl⟩ | ⟨h1, h2, hl⟩
  · exact ⟨_, Write_len1 b v h, by simpa using hl⟩
  · exact ⟨_, Write_len2 b v h1 h2, by simpa using hl⟩
  · exact ⟨_, Write_len4 b v h1 h2, by simpa using hl⟩
  · exact ⟨_, Write_len8 b v h1 h2, by simpa using hl⟩

theorem pad_1_2 (b : List Nat) (v : Nat) (h : Len v = some 1) :
    WriteWithLen b v 2 = Outcome.returned (b ++ [64, v % 256]) := by
  simp [WriteWithLen, h, WriteByte, uint8, List.range_succ]

theorem pad_1_4 (b : List Nat) (v : Nat) (h : Len v = some 1) :
    WriteWithLen b v 4 = Outcome.returned (b ++ [128, 0, 0, v % 256]) := by
  simp [WriteWithLen, h, WriteByte, uint8, List.range_succ, List.range']

theorem pad_1_8 (b : List Nat) (v : Nat) (h : Len v = some 1) :
    WriteWithLen b v 8 = Outcome.returned (b ++ [192, 0, 0, 0, 0, 0, 0, v % 256]) := by
  simp [WriteWithLen, h, WriteByte, uint8, List.range_succ, List.range']

theorem pad_2_4 (b : List Nat) (v : Nat) (h : Len v = some 2) :
    WriteWithLen b v 4 = Outcome.returned (b ++ [128, 0, v / 256 % 256, v % 256]) := by
  simp [WriteWithLen, h, WriteByte, uint8, List.range_succ, List.range',
    Nat.shiftRight_eq_div_pow]

theorem pad_2_8 (b : List Nat) (v : Nat) (h : Len v = some 2) :
    WriteWithLen b v 8
      = Outcome.returned (b ++ [192, 0, 0, 0, 0, 0, v / 256 % 256, v % 256]) := by
  simp [WriteWithLen, h, WriteByte, uint8, List.range_succ, List.range',
    Nat.shiftRight_eq_div_pow]

theorem pad_4_8 (b : List Nat) (v : Nat) (h : Len v = some 4) :
    WriteWithLen b v 8
      = Outcome.returned (b ++ [192, 0, 0, 0, v / 16777216 % 256, v / 65536 % 256,
          v / 256 % 256, v % 256]) := by
  simp [WriteWithLen, h, WriteByte, uint8, List.range_succ, List.range',
    Nat.shiftRight_eq_div_pow]

theorem pad_same (b : List Nat) (v : Nat) (l : Int) (h : Len v = some l) :
    WriteWithLen b v l = Write b v := by
  have hl : l = 1 ∨ l = 2 ∨ l = 4 ∨ l = 8 := by
    unfold Len at h
    split_ifs at h <;> simp_all
  have : ¬ (l ≠ 1 ∧ l ≠ 2 ∧ l ≠ 4 ∧ l ≠ 8) := by omega
  simp [WriteWithLen, h, this]


theorem isEncoding_1 (f v : Nat) (hf : f < 64) (hv : f = v) : IsEncoding [f] v 1 := by
  refine ⟨by simp, ⟨f, [], rfl, by omega, ?_⟩, fun s => ?_⟩
  · rw [byte_top f (by omega), show f / 64 = 0 by omega]; rfl
  · subst hv; simpa using Read_len1 f s hf

theorem isEncoding_2 (a c v : Nat) (ha : a < 64) (hc : c < 256) (hv : a * 256 + c = v) :
    IsEncoding [a + 64, c] v 2 := by
  refine ⟨by simp, ⟨a + 64, [c], rfl, by omega, ?_⟩, fun s => ?_⟩
  · rw [byte_top (a + 64) (by omega), show (a + 64) / 64 = 1 by omega]; rfl
  · subst hv; simpa using Read_len2 a c s ha hc

theorem isEncoding_4 (a c d e v : Nat) (ha : a < 64) (hc : c < 256) (hd : d < 256)
    (he : e < 256) (hv : a * 16777216 + c * 65536 + d * 256 + e = v) :
    IsEncoding [a + 128, c, d, e] v 4 := by
  refine ⟨by simp, ⟨a + 128, [c, d, e], rfl, by omega, ?_⟩, fun s => ?_⟩
  · rw [byte_top (a + 128) (by omega), show (a + 128) / 64 = 2 by omega]; rfl
  · subst hv; simpa using Read_len4 a c d e s ha hc hd he

theorem isEncoding_8 (a c d e f g k l v : Nat) (ha : a < 64) (hc : c < 256) (hd : d < 256)
    (he : e < 256) (hf : f < 256) (hg : g < 256) (hk : k < 256) (hl : l < 256)
    (hv : a * 72057594037927936 + c * 281474976710656 + d * 1099511627776
          + e * 4294967296 + f * 16777216 + g * 65536 + k * 256 + l = v) :
    IsEncoding [a + 192, c, d, e, f, g, k, l] v 8 := by
  refine ⟨by simp, ⟨a + 192, [c, d, e, f, g, k, l], rfl, by omega, ?_⟩, fun s => ?_⟩
  · rw [byte_top (a + 192) (by omega), show (a + 192) / 64 = 3 by omega]; rfl
  · subst hv; simpa using Read_len8 a c d e f g k l s ha hc hd he hf hg hk hl

/-- Whenever the requested length is one of 1, 2, 4, 8 and is at least `Len v`,
`WriteWithLen` returns after appending an encoding of `v` of that length. -/
theorem WriteWithLen_ok (b : List Nat) (v : Nat) (L l : Int) (hv : v ≤ maxVarInt8)
    (hL : L = 1 ∨ L = 2 ∨ L = 4 ∨ L = 8) (hlen : Len v = some l) (hle : l ≤ L) :
    ∃ w, WriteWithLen b v L = Outcome.returned (b ++ w) ∧ IsEncoding w v L := by
  rcases Len_cases v hv with ⟨h, hl⟩ | ⟨h1, h2, hl⟩ | ⟨h1, h2, hl⟩ | ⟨h1, h2, hl⟩
  · have e : l = 1 := by rw [hl] at hlen; exact (Option.some.inj hlen).symm
    subst e
    rcases hL with rfl | rfl | rfl | rfl
    · exact ⟨_, (pad_same b v 1 hl).trans (Write_len1 b v h), isEncoding_1 v v (by omega) rfl⟩
    · exact ⟨_, pad_1_2 b v hl, isEncoding_2 0 (v % 256) v (by omega) (by omega) (by omega)⟩
    · exact ⟨_, pad_1_4 b v hl, isEncoding_4 0 0 0 (v % 256) v (by omega) (by omega) (by omega)
        (by omega) (by omega)⟩
    · exact ⟨_, pad_1_8 b v hl, isEncoding_8 0 0 0 0 0 0 0 (v % 256) v (by omega) (by omega)
        (by omega) (by omega) (by omega) (by omega) (by omega) (by omega) (by omega)⟩
  · have e : l = 2 := by rw [hl] at hlen; exact (Option.some.inj hlen).symm
    subst e
    rcases hL with rfl | rfl | rfl | rfl
    · omega
    · exact ⟨_, (pad_same b v 2 hl).trans (Write_len2 b v h1 h2),
        isEncoding_2 (v / 256) (v % 256) v (by omega) (by omega) (by omega)⟩
    · exact ⟨_, pad_2_4 b v hl, isEncoding_4 0 0 (v / 256 % 256) (v % 256) v (by omega)
        (by omega) (by omega) (by omega) (by omega)⟩
    · exact ⟨_, pad_2_8 b v hl, isEncoding_8 0 0 0 0 0 0 (v / 256 % 256) (v % 256) v (by omega)
        (by omega) (by omega) (by omega) (by omega) (by omega) (by omega) (by omega) (by omega)⟩
  · have e : l = 4 := by rw [hl] at hlen; exact (Option.some.inj hlen).symm
    subst e
    rcases hL with rfl | rfl | rfl | rfl
    · omega
    · omega
    · exact ⟨_, (pad_same b v 4 hl).trans (Write_len4 b v h1 h2),
        isEncoding_4 (v / 16777216) (v / 65536 % 256) (v / 256 % 256) (v % 256) v (by omega)
          (by omega) (by omega) (by omega) (by omega)⟩
    · exact ⟨_, pad_4_8 b v hl, isEncoding_8 0 0 0 0 (v / 16777216 % 256) (v / 65536 % 256)
        (v / 256 % 256) (v % 256) v (by omega) (by omega) (by omega) (by omega) (by omega)
        (by omega) (by omega) (by omega) (by omega)⟩
  · have e : l = 8 := by rw [hl] at hlen; exact (Option.some.inj hlen).symm
    subst e
    rcases hL with rfl | rfl | rfl | rfl
    · omega
    · omega
    · omega
    · exact ⟨_, (pad_same b v 8 hl).trans (Write_len8 b v h1 h2),
        isEncoding_8 (v / 72057594037927936) (v / 281474976710656 % 256)
          (v / 1099511627776 % 256) (v / 4294967296 % 256) (v / 16777216 % 256)
          (v / 65536 % 256) (v / 256 % 256) (v % 256) v (by omega) (by omega) (by omega)
          (by omega) (by omega) (by omega) (by omega) (by omega) (by omega)⟩

/-- In every other case `WriteWithLen` panics, with the buffer untouched. -/
theorem WriteWithLen_panics (b : List Nat) (v : Nat) (L l : Int) (hlen : Len v = some l)
    (h : ¬ ((L = 1 ∨ L = 2 ∨ L = 4 ∨ L = 8) ∧ l ≤ L)) :
    WriteWithLen b v L = Outcome.panicked b := by
  by_cases hL : L = 1 ∨ L = 2 ∨ L = 4 ∨ L = 8
  · have h1 : ¬ l ≤ L := fun hle => h ⟨hL, hle⟩
    have h2 : ¬ (L ≠ 1 ∧ L ≠ 2 ∧ L ≠ 4 ∧ L ≠ 8) := by omega
    have h3 : ¬ l = L := by omega
    have h4 : l > L := by omega
    simp [WriteWithLen, hlen, h2, h3, h4]
  · have h2 : L ≠ 1 ∧ L ≠ 2 ∧ L ≠ 4 ∧ L ≠ 8 := by omega
    simp [WriteWithLen, h2]


/-- Claim C4. For every `v ≤ 2^62 - 1` and every requested length `L`, with `l` the
value of `Len v`: `WriteWithLen` returns after appending exactly `L` bytes if and
only if `L` is one of 1, 2, 4, 8 and `l ≤ L`; in every other case it panics and
the buffer is as it was. -/
theorem WriteWithLen_exact_length_iff (b : List Nat) (v : Nat) (L : Int)
    (hv : v ≤ maxVarInt8) :
    ∃ l, Len v = some l
      ∧ ((∃ w, WriteWithLen b v L = Outcome.returned (b ++ w) ∧ (w.length : Int) = L)
          ↔ ((L = 1 ∨ L = 2 ∨ L = 4 ∨ L = 8) ∧ l ≤ L))
      ∧ (¬ ((L = 1 ∨ L = 2 ∨ L = 4 ∨ L = 8) ∧ l ≤ L)
          → WriteWithLen b v L = Outcome.panicked b) := by
  obtain ⟨l, hl⟩ : ∃ l, Len v = some l := by
    rcases Len_cases v hv with ⟨_, h⟩ | ⟨_, _, h⟩ | ⟨_, _, h⟩ | ⟨_, _, h⟩ <;> exact ⟨_, h⟩
  refine ⟨l, hl, ⟨?_, ?_⟩, WriteWithLen_panics b v L l hl⟩
  · rintro ⟨w, hw, _⟩
    by_contra hn
    rw [WriteWithLen_panics b v L l hl hn] at hw
    exact Outcome.noConfusion hw
  · rintro ⟨hL, hle⟩
    obtain ⟨w, hw, hlen, _⟩ := WriteWithLen_ok b v L l hv hL hl hle
    exact ⟨w, hw, hlen⟩

/-- Claim C5. For every `v ≤ 2^62 - 1` and every `L` among 1, 2, 4, 8 with
`Len v ≤ L`, `WriteWithLen` appends bytes `f :: rest` whose first byte `f` selects
the length `L` through its top two bits (the computation `1 << ((f & 0xc0) >> 6)`
of `Read`), and `Read` decodes these bytes, followed by any suffix `s`, to `v`,
leaving `s` unread. -/
theorem Read_WriteWithLen_roundtrip (b s : List Nat) (v : Nat) (L l : Int)
    (hv : v ≤ maxVarInt8) (hL : L = 1 ∨ L = 2 ∨ L = 4 ∨ L = 8) (hlen : Len v = some l)
    (hle : l ≤ L) :
    ∃ f rest, WriteWithLen b v L = Outcome.returned (b ++ f :: rest)
      ∧ f < 256 ∧ ((1 <<< ((f &&& 0xc0) >>> 6) : Nat) : Int) = L
      ∧ Read (f :: rest ++ s) = Except.ok (v, s) := by
  obtain ⟨w, hw, _, ⟨f, rest, rfl, hf, htop⟩, hread⟩ := WriteWithLen_ok b v L l hv hL hlen hle
  exact ⟨f, rest, hw, hf, htop, hread s⟩

/-- Claim C7. For every `v` greater than `2^62 - 1`, `Write` panics with the buffer as
it was, `Len` panics, and `WriteWithLen` panics for every requested length with
the buffer as it was. -/
theorem too_large_panics (b : List Nat) (v : Nat) (hv : maxVarInt8 < v) :
    Write b v = Outcome.panicked b ∧ Len v = none
      ∧ ∀ L : Int, WriteWithLen b v L = Outcome.panicked b := by
  simp only [maxVarInt8] at hv
  have e1 : ¬ v ≤ 63 := by omega
  have e2 : ¬ v ≤ 16383 := by omega
  have e3 : ¬ v ≤ 1073741823 := by omega
  have e4 : ¬ v ≤ 4611686018427387903 := by omega
  have hlen : Len v = none := by
    simp [Len, maxVarInt1, maxVarInt2, maxVarInt4, maxVarInt8, e1, e2, e3, e4]
  refine ⟨?_, hlen, fun L => ?_⟩
  · simp [Write, maxVarInt1, maxVarInt2, maxVarInt4, maxVarInt8, e1, e2, e3, e4]
  · simp [WriteWithLen, hlen]


theorem top_bits_lt (f : Nat) : (f &&& 0xc0) >>> 6 < 4 := by
  have h : f &&& 0xc0 ≤ 0xc0 := Nat.and_le_right
  rw [Nat.shiftRight_eq_div_pow]
  omega

theorem Read_cons (f : Nat) (rest : List Nat) :
    (Read (f :: rest) = Except.error Error.EOF
        ↔ (f :: rest).length < 1 <<< ((f &&& 0xc0) >>> 6))
      ∧ (1 <<< ((f &&& 0xc0) >>> 6) ≤ (f :: rest).length
        → ∃ v r, Read (f :: rest) = Except.ok (v, r)) := by
  have hk := top_bits_lt f
  generalize hkk : (f &&& 0xc0) >>> 6 = k at hk
  interval_cases k
  · simp [Read, ReadByte, hkk]
  · rcases rest with _ | ⟨c, rest⟩ <;> simp [Read, ReadByte, hkk]
  · rcases rest with _ | ⟨c, _ | ⟨d, _ | ⟨e, rest⟩⟩⟩ <;> simp [Read, ReadByte, hkk]
  · rcases rest with _ | ⟨c, _ | ⟨d, _ | ⟨e, _ | ⟨g, _ | ⟨h, _ | ⟨i, _ | ⟨j, rest⟩⟩⟩⟩⟩⟩⟩ <;>
      simp [Read, ReadByte, hkk]

/-- Claim C2. `Read` fails with the end-of-input error exactly when the input is
empty or holds fewer bytes than the length selected by the top two bits of its
first byte; on every other input it succeeds; and the selected length is always
one of 1, 2, 4 and 8. -/
theorem Read_fails_iff_short (b : List Nat) :
    (Read b = Except.error Error.EOF
        ↔ (b = [] ∨ ∃ f rest, b = f :: rest ∧ b.length < 1 <<< ((f &&& 0xc0) >>> 6)))
      ∧ (¬ (b = [] ∨ ∃ f rest, b = f :: rest ∧ b.length < 1 <<< ((f &&& 0xc0) >>> 6))
        → ∃ v r, Read b = Except.ok (v, r))
      ∧ (∀ f : Nat, 1 <<< ((f &&& 0xc0) >>> 6) = 1 ∨ 1 <<< ((f &&& 0xc0) >>> 6) = 2
          ∨ 1 <<< ((f &&& 0xc0) >>> 6) = 4 ∨ 1 <<< ((f &&& 0xc0) >>> 6) = 8) := by
  refine ⟨?_, ?_, ?_⟩
  · cases b with
    | nil => simp [Read, ReadByte]
    | cons f rest =>
      rw [(Read_cons f rest).1]
      constructor
      · intro h; exact Or.inr ⟨f, rest, rfl, h⟩
      · rintro (h | ⟨g, r, hg, h⟩)
        · exact absurd h (List.cons_ne_nil _ _)
        · obtain ⟨rfl, rfl⟩ := List.cons.inj hg
          exact h
  · intro hn
    cases b with
    | nil => exact absurd (Or.inl rfl) hn
    | cons f rest =>
      apply (Read_cons f rest).2
      by_contra hlt
      exact hn (Or.inr ⟨f, rest, rfl, by omega⟩)
  · intro f
    have hk := top_bits_lt f
    generalize (f &&& 0xc0) >>> 6 = k at hk
    interval_cases k <;> simp

/-- Claim C6. `Len v` is 1 for `v ≤ 63`, 2 for `63 < v ≤ 16383`, 4 for
`16383 < v ≤ 1073741823` and 8 for `1073741823 < v ≤ 4611686018427387903`, and the
top two bits of the first byte written by `Write` are 0, 1, 2, 3 respectively.
Moreover `Len v` is the shortest encoding that can hold `v`: an encoding of `L`
bytes holds the values below `2^(8L - 2)`, and `Len v ≤ L` whenever `L` is one of
1, 2, 4, 8 and `v < 2^(8L - 2)`. -/
theorem Len_is_shortest (b : List Nat) (v : Nat) :
    (v ≤ 63 → Len v = some 1
        ∧ ∃ f rest, Write b v = Outcome.returned (b ++ f :: rest) ∧ f < 256
            ∧ (f &&& 0xc0) >>> 6 = 0)
      ∧ (63 < v → v ≤ 16383 → Len v = some 2
        ∧ ∃ f rest, Write b v = Outcome.returned (b ++ f :: rest) ∧ f < 256
            ∧ (f &&& 0xc0) >>> 6 = 1)
      ∧ (16383 < v → v ≤ 1073741823 → Len v = some 4
        ∧ ∃ f rest, Write b v = Outcome.returned (b ++ f :: rest) ∧ f < 256
            ∧ (f &&& 0xc0) >>> 6 = 2)
      ∧ (1073741823 < v → v ≤ 4611686018427387903 → Len v = some 8
        ∧ ∃ f rest, Write b v = Outcome.returned (b ++ f :: rest) ∧ f < 256
            ∧ (f &&& 0xc0) >>> 6 = 3)
      ∧ (∀ l : Int, Len v = some l → ∀ L : Nat, (L = 1 ∨ L = 2 ∨ L = 4 ∨ L = 8)
          → v < 2 ^ (8 * L - 2) → l ≤ (L : Int)) := by
  refine ⟨fun h => ?_, fun h1 h2 => ?_, fun h1 h2 => ?_, fun h1 h2 => ?_, ?_⟩
  · refine ⟨by simp [Len, maxVarInt1, h], v, [], Write_len1 b v h, by omega, ?_⟩
    rw [byte_top v (by omega)]; omega
  · refine ⟨?_, _, _, Write_len2 b v h1 h2, by omega, ?_⟩
    · simp [Len, maxVarInt1, maxVarInt2, h2, show ¬ v ≤ 63 by omega]
    · rw [byte_top _ (by omega)]; omega
  · refine ⟨?_, _, _, Write_len4 b v h1 h2, by omega, ?_⟩
    · simp [Len, maxVarInt1, maxVarInt2, maxVarInt4, h2, show ¬ v ≤ 63 by omega,
        show ¬ v ≤ 16383 by omega]
    · rw [byte_top _ (by omega)]; omega
  · refine ⟨?_, _, _, Write_len8 b v h1 h2, by omega, ?_⟩
    · simp [Len, maxVarInt1, maxVarInt2, maxVarInt4, maxVarInt8, h2, show ¬ v ≤ 63 by omega,
        show ¬ v ≤ 16383 by omega, show ¬ v ≤ 1073741823 by omega]
    · rw [byte_top _ (by omega)]; omega
  · intro l hl L hL hcap
    unfold Len at hl
    simp only [maxVarInt1, maxVarInt2, maxVarInt4, maxVarInt8] at hl
    rcases hL with rfl | rfl | rfl | rfl <;> norm_num at hcap <;> split_ifs at hl <;>
      simp at hl <;> omega


/-! ### Instances -/

/-- Instance of C1: the value 300 written after the byte 7 and read back before the
byte 9. -/
theorem Read_Write_roundtrip_witness :
    (300 : Nat) ≤ maxVarInt8
      ∧ ∃ w, Write [7] 300 = Outcome.returned ([7] ++ w)
          ∧ Read (w ++ [9]) = Except.ok (300, [9]) :=
  ⟨by decide, Read_Write_roundtrip [7] [9] 300 (by decide)⟩

/-- Instance of C3: the value 70000 needs four bytes. -/
theorem Write_appends_Len_witness :
    (70000 : Nat) ≤ maxVarInt8
      ∧ ∃ w, Write [1, 2] 70000 = Outcome.returned ([1, 2] ++ w)
          ∧ Len 70000 = some (w.length : Int) :=
  ⟨by decide, Write_appends_Len [1, 2] 70000 (by decide)⟩

/-- Instance of C4: the value 300 and the requested length 4. -/
theorem WriteWithLen_exact_length_iff_witness :
    (300 : Nat) ≤ maxVarInt8
      ∧ ∃ l, Len 300 = some l
        ∧ ((∃ w, WriteWithLen [] 300 4 = Outcome.returned ([] ++ w) ∧ (w.length : Int) = 4)
            ↔ (((4 : Int) = 1 ∨ (4 : Int) = 2 ∨ (4 : Int) = 4 ∨ (4 : Int) = 8) ∧ l ≤ 4))
        ∧ (¬ (((4 : Int) = 1 ∨ (4 : Int) = 2 ∨ (4 : Int) = 4 ∨ (4 : Int) = 8) ∧ l ≤ 4)
            → WriteWithLen [] 300 4 = Outcome.panicked []) :=
  ⟨by decide, WriteWithLen_exact_length_iff [] 300 4 (by decide)⟩

/-- Instance of C5: the value 300, which needs two bytes, padded to eight. -/
theorem Read_WriteWithLen_roundtrip_witness :
    (300 : Nat) ≤ maxVarInt8
      ∧ ((8 : Int) = 1 ∨ (8 : Int) = 2 ∨ (8 : Int) = 4 ∨ (8 : Int) = 8)
      ∧ Len 300 = some 2 ∧ (2 : Int) ≤ 8
      ∧ ∃ f rest, WriteWithLen [5] 300 8 = Outcome.returned ([5] ++ f :: rest)
          ∧ f < 256 ∧ ((1 <<< ((f &&& 0xc0) >>> 6) : Nat) : Int) = 8
          ∧ Read (f :: rest ++ [9]) = Except.ok (300, [9]) :=
  ⟨by decide, by decide, by decide, by decide,
    Read_WriteWithLen_roundtrip [5] [9] 300 8 2 (by decide) (by decide) (by decide)
      (by decide)⟩

/-- Instance of C7: the value `2^62`. -/
theorem too_large_panics_witness :
    maxVarInt8 < 4611686018427387904
      ∧ Write [3] 4611686018427387904 = Outcome.panicked [3]
      ∧ Len 4611686018427387904 = none
      ∧ ∀ L : Int, WriteWithLen [3] 4611686018427387904 L = Outcome.panicked [3] :=
  ⟨by decide, too_large_panics [3] 4611686018427387904 (by decide)⟩

end quicvarint

/-! ## Properties of the 64-bit arithmetic -/

namespace protocol

theorem fitsInt64_iff (x : Int) : protocol.fitsInt64 x = true ↔ -2 ^ 63 ≤ x ∧ x < 2 ^ 63 := by
  simp only [protocol.fitsInt64, decide_eq_true_eq]

theorem int64_of_fits (x : Int) (h : protocol.fitsInt64 x = true) : protocol.int64 x = x := by
  rw [protocol.fitsInt64_iff] at h
  unfold protocol.int64
  omega

theorem int64_range (x : Int) : -2 ^ 63 ≤ protocol.int64 x ∧ protocol.int64 x < 2 ^ 63 := by
  unfold protocol.int64
  omega

end protocol

/-! ## Properties of the packet number generators -/

namespace ackhandler
open skippingPacketNumberGenerator

theorem Int63n_some (r : Rand) (n v : Int) (r1 : Rand) (h : r.Int63n n = some (v, r1)) :
    0 < n ∧ 0 ≤ v ∧ v < n ∧ r1.src = r.src ∧ r1.pos = r.pos + 1 := by
  unfold Rand.Int63n at h
  split_ifs at h with hn
  simp only [Option.some.injEq, Prod.mk.injEq] at h
  obtain ⟨rfl, rfl⟩ := h
  have hpos : 0 < n := by omega
  exact ⟨hpos, Int.emod_nonneg _ (by omega), Int.emod_lt_of_pos _ hpos, rfl, rfl⟩

/-- What a call of `generateNewSkip` that returns does, in the arithmetic of the
machine type. -/
theorem generateNewSkip_some (p q : skippingPacketNumberGenerator)
    (h : p.generateNewSkip = some q) :
    0 < protocol.int64 (2 * p.period) ∧ q.next = p.next ∧ q.maxPeriod = p.maxPeriod
      ∧ q.period = MinPacketNumber (protocol.int64 (2 * p.period)) p.maxPeriod
      ∧ q.rand.pos = p.rand.pos + 1 ∧ q.rand.src = p.rand.src
      ∧ ∃ r, p.rand.Int63n (protocol.int64 (2 * p.period)) = some (r, q.rand)
          ∧ 0 ≤ r ∧ r < protocol.int64 (2 * p.period)
          ∧ q.nextToSkip = protocol.int64 (protocol.int64 (p.next + 2) + r) := by
  unfold generateNewSkip at h
  cases hr : p.rand.Int63n (protocol.int64 (2 * p.period)) with
  | none => rw [hr] at h; exact Option.noConfusion h
  | some vr =>
    obtain ⟨v, r1⟩ := vr
    rw [hr] at h
    obtain ⟨h1, h2, h3, h4, h5⟩ := Int63n_some _ _ _ _ hr
    simp only [Option.some.injEq] at h
    subst h
    exact ⟨h1, rfl, rfl, rfl, h5, h4, v, rfl, h2, h3, rfl⟩

/-- What a call of `generateNewSkip` that returns does when none of its
operations overflows: the period is positive, and the number to skip is drawn
from `[next + 2, next + 2 + 2·period)`. -/
theorem generateNewSkip_exact (p q : skippingPacketNumberGenerator)
    (h : p.generateNewSkip = some q) (he : p.generateNewSkipExact = true) :
    0 < p.period ∧ q.next = p.next ∧ q.maxPeriod = p.maxPeriod
      ∧ q.period = MinPacketNumber (2 * p.period) p.maxPeriod
      ∧ q.rand.pos = p.rand.pos + 1 ∧ q.rand.src = p.rand.src
      ∧ p.next + 2 ≤ q.nextToSkip ∧ q.nextToSkip < p.next + 2 + 2 * p.period := by
  obtain ⟨h1, h2, h3, h4, h5, h6, r, hr0, hr1, hr2, hr3⟩ := generateNewSkip_some p q h
  unfold generateNewSkipExact at he
  simp only [Bool.and_eq_true] at he
  obtain ⟨⟨he1, he2⟩, he3⟩ := he
  have e1 := protocol.int64_of_fits _ he1
  have e2 := protocol.int64_of_fits _ he2
  rw [e1] at h1 h4 hr0 hr2
  rw [hr0] at he3
  simp only at he3
  rw [e2, protocol.int64_of_fits _ he3] at hr3
  exact ⟨by omega, h2, h3, h4, h5, h6, by omega, by omega⟩

/-- A call of `generateNewSkip` returns when the period is positive and its
double does not overflow. -/
theorem generateNewSkip_returns (p : skippingPacketNumberGenerator) (hp : 1 ≤ p.period)
    (he : protocol.fitsInt64 (2 * p.period) = true) :
    ∃ q, p.generateNewSkip = some q
      ∧ q.period = MinPacketNumber (2 * p.period) p.maxPeriod ∧ q.maxPeriod = p.maxPeriod := by
  have hpos : ¬ 2 * p.period ≤ 0 := by omega
  simp only [generateNewSkip, protocol.int64_of_fits _ he, Rand.Int63n, if_neg hpos]
  exact ⟨_, rfl, rfl, rfl⟩

/-- What a call of `Pop` that returns does, in the arithmetic of the machine
type. -/
theorem Pop_some (p q : skippingPacketNumberGenerator) (pn : Int)
    (h : p.Pop = some (pn, q)) :
    pn = p.next
      ∧ ((protocol.int64 (p.next + 1) ≠ p.nextToSkip ∧ q.next = protocol.int64 (p.next + 1)
            ∧ q.nextToSkip = p.nextToSkip
            ∧ q.period = p.period ∧ q.maxPeriod = p.maxPeriod ∧ q.rand = p.rand)
        ∨ (protocol.int64 (p.next + 1) = p.nextToSkip
            ∧ generateNewSkip
                { rand := p.rand, period := p.period, maxPeriod := p.maxPeriod,
                  next := protocol.int64 (protocol.int64 (p.next + 1) + 1),
                  nextToSkip := p.nextToSkip } = some q)) := by
  unfold Pop at h
  simp only at h
  split_ifs at h with hskip
  · cases hg : generateNewSkip
        { rand := p.rand, period := p.period, maxPeriod := p.maxPeriod,
          next := protocol.int64 (protocol.int64 (p.next + 1) + 1),
          nextToSkip := p.nextToSkip } with
    | none => rw [hg] at h; exact Option.noConfusion h
    | some p3 =>
      rw [hg] at h
      simp only [Option.some.injEq, Prod.mk.injEq] at h
      obtain ⟨rfl, rfl⟩ := h
      exact ⟨rfl, Or.inr ⟨hskip, rfl⟩⟩
  · simp only [Option.some.injEq, Prod.mk.injEq] at h
    obtain ⟨rfl, rfl⟩ := h
    exact ⟨rfl, Or.inl ⟨hskip, rfl, rfl, rfl, rfl, rfl⟩⟩

/-- What a call of `Pop` does when none of its operations overflows: it returns
`next`; then either it advances `next` by one and leaves everything else alone,
or `next + 1` is the number to skip, `next` advances by two and a new number to
skip is drawn. -/
theorem Pop_exact (p q : skippingPacketNumberGenerator) (pn : Int)
    (h : p.Pop = some (pn, q)) (he : p.PopExact = true) :
    pn = p.next
      ∧ ((p.next + 1 ≠ p.nextToSkip ∧ q.next = p.next + 1 ∧ q.nextToSkip = p.nextToSkip
            ∧ q.period = p.period ∧ q.maxPeriod = p.maxPeriod ∧ q.rand = p.rand)
        ∨ (p.next + 1 = p.nextToSkip ∧ q.next = p.next + 2 ∧ 0 < p.period
            ∧ q.maxPeriod = p.maxPeriod
            ∧ q.period = MinPacketNumber (2 * p.period) p.maxPeriod
            ∧ q.rand.pos = p.rand.pos + 1 ∧ q.rand.src = p.rand.src
            ∧ q.next + 2 ≤ q.nextToSkip ∧ q.nextToSkip < q.next + 2 + 2 * p.period)) := by
  unfold PopExact at he
  simp only [Bool.and_eq_true] at he
  obtain ⟨he1, he2⟩ := he
  have e1 := protocol.int64_of_fits _ he1
  obtain ⟨h0, h1⟩ := Pop_some p q pn h
  refine ⟨h0, ?_⟩
  rw [e1] at h1
  rcases h1 with ⟨hs, hq, h2, h3, h4, h5⟩ | ⟨hs, hg⟩
  · exact Or.inl ⟨hs, hq, h2, h3, h4, h5⟩
  · rw [if_pos hs, Bool.and_eq_true] at he2
    have e2 : protocol.int64 (p.next + 1 + 1) = p.next + 2 := by
      have : p.next + 1 + 1 = p.next + 2 := by omega
      rw [this]
      exact protocol.int64_of_fits _ he2.1
    rw [e2] at hg
    obtain ⟨g1, g2, g3, g4, g5, g6, g7, g8⟩ := generateNewSkip_exact _ q hg he2.2
    simp only at g1 g2 g3 g4 g5 g6 g7 g8
    exact Or.inr ⟨hs, g2, g1, g3, g4, g5, g6, by omega, by omega⟩

/-- A call of `Pop` returns when the period is positive and none of its
operations overflows. -/
theorem Pop_returns (p : skippingPacketNumberGenerator) (hp : 1 ≤ p.period)
    (he : p.PopExact = true) :
    ∃ q, p.Pop = some (p.next, q)
      ∧ (q.period = p.period ∨ q.period = MinPacketNumber (2 * p.period) p.maxPeriod)
      ∧ q.maxPeriod = p.maxPeriod := by
  unfold PopExact at he
  simp only [Bool.and_eq_true] at he
  obtain ⟨he1, he2⟩ := he
  have e1 := protocol.int64_of_fits _ he1
  unfold Pop
  dsimp only
  rw [e1]
  by_cases hs : p.next + 1 = p.nextToSkip
  · rw [if_pos hs, Bool.and_eq_true] at he2
    rw [if_pos hs]
    have he3 := he2.2
    unfold generateNewSkipExact at he3
    simp only [Bool.and_eq_true] at he3
    obtain ⟨q, hq, hper, hmax⟩ := generateNewSkip_returns
      { rand := p.rand, period := p.period, maxPeriod := p.maxPeriod,
        next := protocol.int64 (p.next + 1 + 1), nextToSkip := p.nextToSkip } hp he3.1.1
    rw [hq]
    exact ⟨q, rfl, Or.inr hper, hmax⟩
  · rw [if_neg hs]
    exact ⟨_, rfl, Or.inl rfl, rfl⟩

theorem popN_succ (n : Nat) (p q : skippingPacketNumberGenerator) (pops : List Int)
    (h : p.popN (n + 1) = some (pops, q)) :
    ∃ p1 rest, p.Pop = some (p.next, p1) ∧ p1.popN n = some (rest, q)
      ∧ pops = p.next :: rest := by
  unfold popN at h
  cases hp : p.Pop with
  | none => rw [hp] at h; exact Option.noConfusion h
  | some r =>
    obtain ⟨pn, p1⟩ := r
    rw [hp] at h
    simp only at h
    cases hr : popN n p1 with
    | none => rw [hr] at h; exact Option.noConfusion h
    | some r2 =>
      obtain ⟨rest, q2⟩ := r2
      rw [hr] at h
      simp only [Option.some.injEq, Prod.mk.injEq] at h
      obtain ⟨rfl, rfl⟩ := h
      have := (Pop_some p p1 pn hp).1
      subst this
      exact ⟨p1, rest, rfl, hr, rfl⟩

theorem popNExact_succ (n : Nat) (p p1 : skippingPacketNumberGenerator) (pn : Int)
    (h : p.Pop = some (pn, p1)) (he : p.popNExact (n + 1) = true) :
    p.PopExact = true ∧ p1.popNExact n = true := by
  unfold popNExact at he
  rw [h, Bool.and_eq_true] at he
  exact he

/-- Successive results of `Pop` differ by one or by two, as long as no operation
overflows. -/
theorem popN_steps (n : Nat) : ∀ (p q : skippingPacketNumberGenerator) (pops : List Int)
    (a : Int), p.popN n = some (pops, q) → p.popNExact n = true →
    (p.next = a + 1 ∨ p.next = a + 2) →
    List.Chain (fun x y => y = x + 1 ∨ y = x + 2) a pops := by
  induction n with
  | zero =>
    intro p q pops a h _ _
    simp only [popN, Option.some.injEq, Prod.mk.injEq] at h
    rw [← h.1]
    exact List.Chain.nil
  | succ n ih =>
    intro p q pops a h he ha
    obtain ⟨p1, rest, hp, hr, rfl⟩ := popN_succ n p q pops h
    obtain ⟨he0, he1⟩ := popNExact_succ n p p1 _ hp he
    refine List.Chain.cons ha (ih p1 q rest p.next hr he1 ?_)
    rcases (Pop_exact p p1 p.next hp he0).2 with ⟨_, h1, _⟩ | ⟨_, h1, _⟩
    · exact Or.inl h1
    · exact Or.inr h1

end ackhandler


namespace ackhandler
open skippingPacketNumberGenerator

/-- Successive skipped packet numbers are at least two apart, as long as no
operation overflows. Here `s` is the packet number skipped last (or the initial
packet number) and `last` the result of the previous call of `Pop`. -/
theorem popN_skipped (n : Nat) : ∀ (p q : skippingPacketNumberGenerator) (pops : List Int)
    (last s : Int), p.popN n = some (pops, q) → p.popNExact n = true →
    (last + 1 < p.next → s + 2 ≤ p.next - 1) →
    (if last + 1 < p.next then p.next - 1 else s) + 2 ≤ p.nextToSkip →
    p.next < p.nextToSkip →
    List.Chain (fun x y => x + 2 ≤ y) s (skippedNumbers last pops) := by
  induction n with
  | zero =>
    intro p q pops last s h _ _ _ _
    simp only [popN, Option.some.injEq, Prod.mk.injEq] at h
    rw [← h.1]
    exact List.Chain.nil
  | succ n ih =>
    intro p q pops last s h he hgap hinv hlt
    obtain ⟨p1, rest, hp, hr, rfl⟩ := popN_succ n p q pops h
    obtain ⟨he0, he1⟩ := popNExact_succ n p p1 _ hp he
    have hpop := (Pop_exact p p1 p.next hp he0).2
    by_cases hg : last + 1 < p.next
    · rw [if_pos hg] at hinv
      have hsk : skippedNumbers last (p.next :: rest)
          = (p.next - 1) :: skippedNumbers p.next rest := by
        simp only [skippedNumbers]
        rw [if_pos (by omega)]
      rw [hsk]
      refine List.Chain.cons (hgap hg) (ih p1 q rest p.next (p.next - 1) hr he1 ?_ ?_ ?_)
      · intro _; rcases hpop with ⟨_, h1, h2, _⟩ | ⟨h0, h1, _⟩ <;> omega
      · rcases hpop with ⟨h0, h1, h2, _⟩ | ⟨h0, h1, _, _, _, _, _, h7, _⟩
        · rw [if_neg (by omega)]; omega
        · rw [if_pos (by omega)]; omega
      · rcases hpop with ⟨h0, h1, h2, _⟩ | ⟨h0, h1, _, _, _, _, _, h7, _⟩ <;> omega
    · rw [if_neg hg] at hinv
      have hsk : skippedNumbers last (p.next :: rest) = skippedNumbers p.next rest := by
        simp only [skippedNumbers]
        rw [if_neg (by omega)]
      rw [hsk]
      refine ih p1 q rest p.next s hr he1 ?_ ?_ ?_
      · intro _; rcases hpop with ⟨_, h1, h2, _⟩ | ⟨h0, h1, _⟩ <;> omega
      · rcases hpop with ⟨h0, h1, h2, _⟩ | ⟨h0, h1, _, _, _, _, _, h7, _⟩
        · rw [if_neg (by omega)]; omega
        · rw [if_pos (by omega)]; omega
      · rcases hpop with ⟨h0, h1, h2, _⟩ | ⟨h0, h1, _, _, _, _, _, h7, _⟩ <;> omega

/-- In a list whose successive elements differ by one or two, a number that lies
between `a` and a later element without being in the list has both its neighbours
in the list. -/
theorem chain_neighbours (l : List Int) : ∀ (a x : Int),
    List.Chain (fun x y => y = x + 1 ∨ y = x + 2) a l → x ∉ a :: l → a < x →
    (∃ b ∈ l, x < b) → x - 1 ∈ a :: l ∧ x + 1 ∈ l := by
  induction l with
  | nil => intro a x _ _ _ ⟨b, hb, _⟩; exact absurd hb (List.not_mem_nil b)
  | cons c l ih =>
    intro a x hch hx hax ⟨b, hb, hxb⟩
    rw [List.chain_cons] at hch
    obtain ⟨hac, hch⟩ := hch
    have hxa : x ≠ a := fun h => hx (h ▸ List.mem_cons_self _ _)
    have hxc : x ≠ c := fun h => hx (List.mem_cons_of_mem _ (h ▸ List.mem_cons_self _ _))
    have hxl : x ∉ c :: l := fun h => hx (List.mem_cons_of_mem _ h)
    by_cases hlt : x < c
    · have h1 : x - 1 = a := by omega
      have h2 : x + 1 = c := by omega
      rw [h1, h2]
      exact ⟨List.mem_cons_self _ _, List.mem_cons_self _ _⟩
    · have hbl : b ∈ l := by
        rcases List.mem_cons.1 hb with h | h
        · omega
        · exact h
      obtain ⟨h1, h2⟩ := ih c x hch hxl (by omega) ⟨b, hbl, hxb⟩
      exact ⟨List.mem_cons_of_mem _ h1, List.mem_cons_of_mem _ h2⟩

theorem newExact_parts (src : Nat → Nat) (initial ip M : Int) (n : Nat)
    (g : skippingPacketNumberGenerator)
    (h : newSkippingPacketNumberGenerator src initial ip M = some g)
    (he : newSkippingPacketNumberGeneratorExact src initial ip M n = true) :
    generateNewSkipExact
        { rand := { src := src, pos := 0 }, next := initial, period := ip, maxPeriod := M,
          nextToSkip := 0 } = true
      ∧ g.popNExact n = true := by
  unfold newSkippingPacketNumberGeneratorExact at he
  rw [h, Bool.and_eq_true] at he
  exact he

/-- What the creation of a skipping generator does when none of its operations
overflows. -/
theorem new_exact (src : Nat → Nat) (initial ip M : Int) (n : Nat)
    (g : skippingPacketNumberGenerator)
    (h : newSkippingPacketNumberGenerator src initial ip M = some g)
    (he : newSkippingPacketNumberGeneratorExact src initial ip M n = true) :
    0 < ip ∧ g.next = initial ∧ g.maxPeriod = M ∧ g.period = MinPacketNumber (2 * ip) M
      ∧ g.rand.pos = 1 ∧ g.rand.src = src
      ∧ initial + 2 ≤ g.nextToSkip ∧ g.nextToSkip < initial + 2 + 2 * ip := by
  obtain ⟨h1, h2, h3, h4, h5, h6, h7, h8⟩ :=
    generateNewSkip_exact _ _ h (newExact_parts src initial ip M n g h he).1
  exact ⟨h1, h2, h3, h4, h5, h6, h7, h8⟩

/-- A skipping generator is created when the initial period is positive and the
creation does not overflow. -/
theorem new_returns (src : Nat → Nat) (initial ip M : Int) (n : Nat) (hip : 1 ≤ ip)
    (he : newSkippingPacketNumberGeneratorExact src initial ip M n = true) :
    ∃ g, newSkippingPacketNumberGenerator src initial ip M = some g := by
  unfold newSkippingPacketNumberGeneratorExact at he
  rw [Bool.and_eq_true] at he
  have he1 := he.1
  unfold generateNewSkipExact at he1
  simp only [Bool.and_eq_true] at he1
  obtain ⟨g, hg, _⟩ := generateNewSkip_returns
    { rand := { src := src, pos := 0 }, next := initial, period := ip, maxPeriod := M,
      nextToSkip := 0 } hip he1.1.1
  exact ⟨g, hg⟩

/-- Claim C8 fails as stated. A skipping generator created with the initial
packet number `2^63 - 1` (the largest value of the type), with the initial
period 1 and the maximum period 1, returns `2^63 - 1` from its first call of
`Pop` and `-2^63` from its second: the increment of `next` wraps around, and the
successive results differ neither by 1 nor by 2. -/
theorem skipping_Pop_wraps_around :
    ∃ g q, newSkippingPacketNumberGenerator (fun _ => 0) 9223372036854775807 1 1 = some g
      ∧ g.popN 2 = some ([9223372036854775807, -9223372036854775808], q)
      ∧ ¬ ((-9223372036854775808 : Int) = 9223372036854775807 + 1
            ∨ (-9223372036854775808 : Int) = 9223372036854775807 + 2) :=
  ⟨_, _, rfl, rfl, by decide⟩

/-- Claim C8, amended by the proviso "barring integer overflow". A skipping
generator with `initialPeriod ≥ 1` whose creation does not overflow is created,
for every random source, and on every run of `n` calls of `Pop` in which no
arithmetic operation overflows: successive results differ by exactly 1 or 2;
every skipped packet number exceeds the previously skipped one (the initial
packet number, for the first skip) by at least 2; and a packet number that lies
between two results without being a result itself has both its neighbours among
the results, so that two consecutive packet numbers are never both skipped. -/
theorem skipping_never_skips_two_in_a_row (src : Nat → Nat)
    (initial initialPeriod maxPeriod : Int) (hip : 1 ≤ initialPeriod)
    (hnew : newSkippingPacketNumberGeneratorExact src initial initialPeriod maxPeriod 0 = true) :
    ∃ g, newSkippingPacketNumberGenerator src initial initialPeriod maxPeriod = some g
      ∧ ∀ (n : Nat) (pops : List Int) (q : skippingPacketNumberGenerator),
        g.popN n = some (pops, q) → g.popNExact n = true →
          List.Chain' (fun x y => y = x + 1 ∨ y = x + 2) pops
          ∧ List.Chain (fun x y => x + 2 ≤ y) initial (skippedNumbers initial pops)
          ∧ ∀ x, x ∉ pops → (∃ a ∈ pops, a < x) → (∃ b ∈ pops, x < b) →
              x - 1 ∈ pops ∧ x + 1 ∈ pops := by
  obtain ⟨g, hg⟩ := new_returns src initial initialPeriod maxPeriod 0 hip hnew
  obtain ⟨_, hnext, _, _, _, _, hlo, _⟩ := new_exact _ _ _ _ _ _ hg hnew
  refine ⟨g, hg, fun n pops q hrun hex => ?_⟩
  have hsteps : ∀ a, (g.next = a + 1 ∨ g.next = a + 2) →
      List.Chain (fun x y => y = x + 1 ∨ y = x + 2) a pops :=
    fun a ha => popN_steps n g q pops a hrun hex ha
  have hchain' : List.Chain' (fun x y => y = x + 1 ∨ y = x + 2) pops := by
    have h := hsteps (g.next - 1) (Or.inl (by omega))
    cases pops with
    | nil => exact List.chain'_nil
    | cons c l => exact (List.chain_cons.1 h).2
  refine ⟨hchain', ?_, ?_⟩
  · refine popN_skipped n g q pops initial initial hrun hex ?_ ?_ ?_
    · intro h; omega
    · rw [if_neg (by omega)]; exact hlo
    · omega
  · intro x hx ⟨a, ha, hax⟩ ⟨b, hb, hxb⟩
    cases pops with
    | nil => exact absurd ha (List.not_mem_nil a)
    | cons c l =>
      have hcl : List.Chain (fun x y => y = x + 1 ∨ y = x + 2) c l := hchain'
      have hlt : List.Chain (fun x y : Int => x < y) c l :=
        hcl.imp (fun u v huv => by omega)
      have hcx : c < x := by
        rcases List.mem_cons.1 ha with h | h
        · omega
        · have := hlt.rel h; omega
      have hbl : b ∈ l := by
        rcases List.mem_cons.1 hb with h | h
        · omega
        · exact h
      obtain ⟨h1, h2⟩ := chain_neighbours l c x hcl hx hcx ⟨b, hbl, hxb⟩
      exact ⟨h1, List.mem_cons_of_mem _ h2⟩

theorem seq_popN_chain (n : Nat) : ∀ (p : sequentialPacketNumberGenerator) (a : Int),
    a < p.next → -2 ^ 63 ≤ p.next → p.next + (n : Int) < 2 ^ 63 →
    List.Chain (fun x y : Int => x < y) a (p.popN n).1 := by
  induction n with
  | zero => intro p a _ _ _; exact List.Chain.nil
  | succ n ih =>
    intro p a ha hlo hhi
    push_cast at hhi
    simp only [sequentialPacketNumberGenerator.popN]
    have e : protocol.int64 (p.next + 1) = p.next + 1 :=
      protocol.int64_of_fits _ ((protocol.fitsInt64_iff _).2 ⟨by omega, by omega⟩)
    refine List.Chain.cons ha (ih _ _ ?_ ?_ ?_)
    · simp only [sequentialPacketNumberGenerator.Pop, e]
      omega
    · simp only [sequentialPacketNumberGenerator.Pop, e]
      omega
    · simp only [sequentialPacketNumberGenerator.Pop, e]
      omega

/-- Claim C10. For the skipping generator in any state and for the sequential
generator in any state, the results of successive calls of `Pop` are strictly
increasing: each one is greater than all the earlier ones. The proviso "barring
integer overflow" of the claim is the hypothesis that no arithmetic operation
of the calls overflows: `popNExact` for the skipping generator, and for the
sequential generator, whose only operation is the increment of `next`, that
`next` is a value of the 64-bit type and `next + m` stays below `2^63`. -/
theorem Pop_strictly_increasing (p q : skippingPacketNumberGenerator)
    (s : sequentialPacketNumberGenerator) (n m : Nat) (pops : List Int)
    (hrun : p.popN n = some (pops, q)) (hex : p.popNExact n = true)
    (hlo : -2 ^ 63 ≤ s.next) (hhi : s.next + (m : Int) < 2 ^ 63) :
    List.Pairwise (fun x y => x < y) pops
      ∧ List.Pairwise (fun x y => x < y) (s.popN m).1 := by
  constructor
  · have h := popN_steps n p q pops (p.next - 1) hrun hex (Or.inl (by omega))
    have hlt : List.Chain (fun x y : Int => x < y) (p.next - 1) pops :=
      h.imp (fun u v huv => by omega)
    exact (List.Pairwise.of_cons (List.chain_iff_pairwise.1 hlt))
  · have h := seq_popN_chain m s (s.next - 1) (by omega) hlo hhi
    exact (List.Pairwise.of_cons (List.chain_iff_pairwise.1 h))

/-! ### Instances -/

/-- Instance of C8: the initial packet number 8 with the periods 25 and 300 of the
tests, and a random source that always hands out 0. -/
theorem skipping_never_skips_two_in_a_row_witness :
    (1 : Int) ≤ 25
      ∧ newSkippingPacketNumberGeneratorExact (fun _ => 0) 8 25 300 0 = true
      ∧ ∃ g, newSkippingPacketNumberGenerator (fun _ => 0) 8 25 300 = some g
        ∧ ∀ (n : Nat) (pops : List Int) (q : skippingPacketNumberGenerator),
          g.popN n = some (pops, q) → g.popNExact n = true →
            List.Chain' (fun x y => y = x + 1 ∨ y = x + 2) pops
            ∧ List.Chain (fun x y => x + 2 ≤ y) 8 (skippedNumbers 8 pops)
            ∧ ∀ x, x ∉ pops → (∃ a ∈ pops, a < x) → (∃ b ∈ pops, x < b) →
                x - 1 ∈ pops ∧ x + 1 ∈ pops :=
  ⟨by decide, by decide,
    skipping_never_skips_two_in_a_row (fun _ => 0) 8 25 300 (by decide) (by decide)⟩

/-- Instance of C10: a skipping generator that returns 8, 9 and 11 without an
overflow, and the sequential generator started at 5. -/
theorem Pop_strictly_increasing_witness :
    popN 3 { rand := { src := fun _ => 0, pos := 1 }, period := 50, maxPeriod := 300,
             next := 8, nextToSkip := 10 }
        = some ([8, 9, 11],
            { rand := { src := fun _ => 0, pos := 2 }, period := 100, maxPeriod := 300,
              next := 12, nextToSkip := 13 })
      ∧ popNExact 3 { rand := { src := fun _ => 0, pos := 1 }, period := 50, maxPeriod := 300,
                      next := 8, nextToSkip := 10 } = true
      ∧ (-2 ^ 63 ≤ (newSequentialPacketNumberGenerator 5).next
          ∧ (newSequentialPacketNumberGenerator 5).next + ((4 : Nat) : Int) < 2 ^ 63)
      ∧ List.Pairwise (fun x y : Int => x < y) [8, 9, 11]
      ∧ List.Pairwise (fun x y : Int => x < y)
          ((newSequentialPacketNumberGenerator 5).popN 4).1 :=
  ⟨rfl, by decide, ⟨by decide, by decide⟩, Pop_strictly_increasing
    { rand := { src := fun _ => 0, pos := 1 }, period := 50, maxPeriod := 300,
      next := 8, nextToSkip := 10 }
    { rand := { src := fun _ => 0, pos := 2 }, period := 100, maxPeriod := 300,
      next := 12, nextToSkip := 13 }
    (newSequentialPacketNumberGenerator 5) 3 4 [8, 9, 11] rfl (by decide)
    (by decide) (by decide)⟩

end ackhandler

/-! ## Properties of the sequential generator under interleaved calls -/

namespace ackhandler

theorem popResults_run (calls : List generatorCall) :
    ∀ p : sequentialPacketNumberGenerator, -2 ^ 63 ≤ p.next →
      p.next + ((calls.count generatorCall.Pop : Nat) : Int) < 2 ^ 63 →
      popResults (p.run calls).1
        = (List.range (calls.count generatorCall.Pop)).map (fun n : Nat => p.next + (n : Int)) := by
  induction calls with
  | nil => intro p _ _; simp [sequentialPacketNumberGenerator.run, popResults]
  | cons k calls ih =>
    intro p hlo hhi
    cases k with
    | Peek =>
      have hc : (generatorCall.Peek :: calls).count generatorCall.Pop
          = calls.count generatorCall.Pop := by
        rw [List.count_cons_of_ne (by decide)]
      rw [hc] at hhi
      have h := ih p hlo hhi
      simp only [popResults] at h
      simp [sequentialPacketNumberGenerator.run, popResults, h]
    | Pop =>
      rw [List.count_cons_self] at hhi
      push_cast at hhi
      have e : protocol.int64 (p.next + 1) = p.next + 1 :=
        protocol.int64_of_fits _ ((protocol.fitsInt64_iff _).2 ⟨by omega, by omega⟩)
      have hn : p.Pop.2.next = p.next + 1 := by
        simp only [sequentialPacketNumberGenerator.Pop, e]
      have h := ih p.Pop.2 (by rw [hn]; omega) (by rw [hn]; omega)
      simp only [popResults] at h
      simp only [sequentialPacketNumberGenerator.run, popResults, List.filter_cons_of_pos,
        decide_True, List.map_cons, List.count_cons_self, h, List.range_succ_eq_map,
        List.map_map]
      rw [hn]
      simp only [sequentialPacketNumberGenerator.Pop, Nat.cast_zero, add_zero, List.cons.injEq,
        true_and]
      apply List.map_congr_left
      intro n _
      simp only [Function.comp_apply, Nat.cast_succ]
      omega

/-- Claim C11 fails as stated. A sequential generator created with the initial
value `2^63 - 1`, the largest value of the type, returns `2^63 - 1` from its
first call of `Pop` and `-2^63` from its second, and not `2^63`: the increment of
`next` wraps around. -/
theorem sequential_Pop_wraps_around :
    popResults ((newSequentialPacketNumberGenerator 9223372036854775807).run
        [generatorCall.Pop, generatorCall.Pop]).1
        = [9223372036854775807, -9223372036854775808]
      ∧ (-9223372036854775808 : Int) ≠ 9223372036854775807 + 1 :=
  ⟨by decide, by decide⟩

/-- Claim C11, amended by the proviso "barring integer overflow". For a
sequential generator created with the initial value `i`, a value of the 64-bit
type, and for every sequence of `Peek` and `Pop` calls whose increments do not
overflow (`i` plus the number of calls of `Pop` stays below `2^63`), the values
returned by the `Pop` calls are `i, i + 1, i + 2, ...` in this order: the `n`-th
call of `Pop` (counting from 0) returns `i + n`, whatever calls of `Peek` lie in
between. -/
theorem sequential_nth_Pop (i : Int) (calls : List generatorCall) (hlo : -2 ^ 63 ≤ i)
    (hhi : i + ((calls.count generatorCall.Pop : Nat) : Int) < 2 ^ 63) :
    popResults ((newSequentialPacketNumberGenerator i).run calls).1
        = (List.range (calls.count generatorCall.Pop)).map (fun n : Nat => i + (n : Int))
      ∧ ∀ n : Nat, n < calls.count generatorCall.Pop →
          (popResults ((newSequentialPacketNumberGenerator i).run calls).1)[n]?
            = some (i + (n : Int)) := by
  have h := popResults_run calls (newSequentialPacketNumberGenerator i) hlo hhi
  simp only [newSequentialPacketNumberGenerator] at h ⊢
  refine ⟨h, fun n hn => ?_⟩
  rw [h]
  simp [List.getElem?_map, List.getElem?_range hn]

/-- Instance of C11, amended: the generator started at 5 with the calls `Pop`,
`Peek`, `Pop`, `Pop`. -/
theorem sequential_nth_Pop_witness :
    (-2 ^ 63 ≤ (5 : Int)
        ∧ (5 : Int) + (([generatorCall.Pop, generatorCall.Peek, generatorCall.Pop,
            generatorCall.Pop].count generatorCall.Pop : Nat) : Int) < 2 ^ 63)
      ∧ popResults ((newSequentialPacketNumberGenerator 5).run
          [generatorCall.Pop, generatorCall.Peek, generatorCall.Pop, generatorCall.Pop]).1
        = (List.range ([generatorCall.Pop, generatorCall.Peek, generatorCall.Pop,
            generatorCall.Pop].count generatorCall.Pop)).map (fun n : Nat => 5 + (n : Int)) :=
  ⟨⟨by decide, by decide⟩,
    (sequential_nth_Pop 5
      [generatorCall.Pop, generatorCall.Peek, generatorCall.Pop, generatorCall.Pop]
      (by decide) (by decide)).1⟩

end ackhandler

/-! ## Peeking at the next packet number -/

namespace ackhandler

theorem Pop_of_period_pos (p : skippingPacketNumberGenerator) (hp : 1 ≤ p.period)
    (hp2 : p.period < 2 ^ 62) : ∃ q, p.Pop = some (p.next, q) := by
  have he : protocol.fitsInt64 (2 * p.period) = true :=
    (protocol.fitsInt64_iff _).2 ⟨by omega, by omega⟩
  unfold skippingPacketNumberGenerator.Pop
  dsimp only
  split
  · obtain ⟨q, hq, _⟩ := generateNewSkip_returns
      { rand := p.rand, period := p.period, maxPeriod := p.maxPeriod,
        next := protocol.int64 (protocol.int64 (p.next + 1) + 1),
        nextToSkip := p.nextToSkip } hp he
    rw [hq]
    exact ⟨q, rfl⟩
  · exact ⟨_, rfl⟩

/-- The first call of `Pop` on a new generator does not skip: the number to skip
differs from `initial + 1`, also when the sums wrap around. -/
theorem new_first_Pop (src : Nat → Nat) (i ip M : Int) (g : skippingPacketNumberGenerator)
    (hg : newSkippingPacketNumberGenerator src i ip M = some g) :
    g.next = i ∧ protocol.int64 (g.next + 1) ≠ g.nextToSkip := by
  obtain ⟨_, hnext, _, _, _, _, r, _, hr1, hr2, hr3⟩ := generateNewSkip_some _ _ hg
  have hnext : g.next = i := hnext
  have hlt := (protocol.int64_range (2 * ip)).2
  have hr2 : r < protocol.int64 (2 * ip) := hr2
  have hr3 : g.nextToSkip = protocol.int64 (protocol.int64 (i + 2) + r) := hr3
  refine ⟨hnext, ?_⟩
  rw [hr3, hnext]
  generalize protocol.int64 (2 * ip) = b at hlt hr2
  unfold protocol.int64
  omega

/-- Claim C36. For both packet number generators `Peek` returns the value that
the next `Pop` returns, and a `Peek` before a `Pop` changes neither the result of
the `Pop` nor the generator after it. The sequential `Pop` always returns; the
skipping `Pop` returns whenever the period is at least 1 and below `2^62` (its
double does not overflow), and whenever it returns, it returns what `Peek`
returned. A new skipping generator created with the initial value `i` returns
`i` from `Peek` and from its first `Pop`, for every random source; it is created
whenever the initial period is at least 1 and below `2^62`. -/
theorem Peek_returns_next_Pop (s : sequentialPacketNumberGenerator)
    (p : skippingPacketNumberGenerator) (src : Nat → Nat) (i initialPeriod maxPeriod : Int) :
    s.Peek = s.Pop.1 ∧
    s.run [generatorCall.Peek, generatorCall.Pop]
      = ([(generatorCall.Peek, s.Pop.1), (generatorCall.Pop, s.Pop.1)], s.Pop.2) ∧
    (∀ v q, p.Pop = some (v, q) →
      p.Peek = v ∧
      p.run [generatorCall.Peek, generatorCall.Pop]
        = some ([(generatorCall.Peek, v), (generatorCall.Pop, v)], q)) ∧
    (1 ≤ p.period → p.period < 2 ^ 62 → ∃ q, p.Pop = some (p.Peek, q)) ∧
    (∀ g, newSkippingPacketNumberGenerator src i initialPeriod maxPeriod = some g →
      g.Peek = i ∧ ∃ q, g.Pop = some (i, q)) ∧
    (1 ≤ initialPeriod → initialPeriod < 2 ^ 62 →
      ∃ g, newSkippingPacketNumberGenerator src i initialPeriod maxPeriod = some g) := by
  refine ⟨rfl, rfl, ?_, ?_, ?_, ?_⟩
  · intro v q hpop
    have hv := (Pop_some p q v hpop).1
    refine ⟨hv.symm, ?_⟩
    simp only [skippingPacketNumberGenerator.run, hpop, skippingPacketNumberGenerator.Peek, hv]
  · intro hp hp2
    exact Pop_of_period_pos p hp hp2
  · intro g hg
    obtain ⟨hnext, hne⟩ := new_first_Pop src i initialPeriod maxPeriod g hg
    refine ⟨hnext, ?_⟩
    unfold skippingPacketNumberGenerator.Pop
    dsimp only
    rw [if_neg hne, hnext]
    exact ⟨_, rfl⟩
  · intro hip hip2
    obtain ⟨g, hg, _⟩ := generateNewSkip_returns
      { rand := { src := src, pos := 0 }, next := i, period := initialPeriod,
        maxPeriod := maxPeriod, nextToSkip := 0 } hip
      ((protocol.fitsInt64_iff _).2 ⟨by show -2 ^ 63 ≤ 2 * initialPeriod; omega,
        by show 2 * initialPeriod < 2 ^ 63; omega⟩)
    exact ⟨g, hg⟩

end ackhandler

/-! ## The first skipped packet number -/

namespace ackhandler

theorem MinPacketNumber_pos (a b : Int) (ha : 1 ≤ a) (hb : 1 ≤ b) : 1 ≤ MinPacketNumber a b := by
  unfold MinPacketNumber
  split <;> omega

/-- With a period and a maximum period of at least 1, any number of calls of
`Pop` return, as long as no operation overflows. -/
theorem popN_returns (n : Nat) : ∀ (p : skippingPacketNumberGenerator), 1 ≤ p.period →
    1 ≤ p.maxPeriod → p.popNExact n = true → ∃ pops q, p.popN n = some (pops, q) := by
  induction n with
  | zero => intro p _ _ _; exact ⟨[], p, rfl⟩
  | succ n ih =>
    intro p hp hM he
    have he0 : p.PopExact = true := by
      unfold skippingPacketNumberGenerator.popNExact at he
      rw [Bool.and_eq_true] at he
      exact he.1
    obtain ⟨p1, h1, hper, hmax⟩ := Pop_returns p hp he0
    obtain ⟨_, he1⟩ := popNExact_succ n p p1 _ h1 he
    have hp1 : 1 ≤ p1.period := by
      rcases hper with h | h
      · omega
      · rw [h]
        exact MinPacketNumber_pos _ _ (by omega) hM
    obtain ⟨rest, q, hr⟩ := ih p1 hp1 (by omega) he1
    refine ⟨p.next :: rest, q, ?_⟩
    simp only [skippingPacketNumberGenerator.popN, h1, hr]

/-- A run of `n` calls of `Pop` whose results go up by one each time ends before
or at the packet number to skip. -/
theorem popN_no_skip (n : Nat) : ∀ (p q : skippingPacketNumberGenerator) (pops : List Int),
    p.popN n = some (pops, q) → p.popNExact n = true → p.next < p.nextToSkip →
    List.Chain (fun x y => y = x + 1) (p.next - 1) pops → p.next + n ≤ p.nextToSkip := by
  induction n with
  | zero =>
    intro p q pops _ _ hlt _
    simp only [Nat.cast_zero]
    omega
  | succ n ih =>
    intro p q pops h he hlt hch
    obtain ⟨p1, rest, hp, hr, rfl⟩ := popN_succ n p q pops h
    obtain ⟨he0, he1⟩ := popNExact_succ n p p1 _ hp he
    rw [List.chain_cons] at hch
    rcases (Pop_exact p p1 p.next hp he0).2 with ⟨h0, h1, h2, _⟩ | ⟨h0, h1, _⟩
    · have := ih p1 q rest hr he1 (by omega) (by rw [h1]; simpa using hch.2)
      push_cast
      omega
    · cases n with
      | zero =>
        push_cast
        omega
      | succ m =>
        obtain ⟨p2, rest2, _, _, rfl⟩ := popN_succ m p1 q rest hr
        have := (List.chain_cons.1 hch.2).1
        omega

theorem chain_step_two : ∀ (l : List Int) (a : Int),
    List.Chain (fun x y => y = x + 1 ∨ y = x + 2) a l →
    List.Chain (fun x y => y = x + 1) a l ∨ ∃ l1 x l2, a :: l = l1 ++ x :: (x + 2) :: l2
  | [], _, _ => Or.inl List.Chain.nil
  | c :: l, a, h => by
    rw [List.chain_cons] at h
    rcases h.1 with h1 | h2
    · rcases chain_step_two l c h.2 with hc | ⟨l1, x, l2, hx⟩
      · exact Or.inl (List.Chain.cons h1 hc)
      · exact Or.inr ⟨a :: l1, x, l2, by rw [hx]; rfl⟩
    · exact Or.inr ⟨[], a, l, by rw [h2]; rfl⟩

/-- Claim C37 fails as stated, in two ways. With the initial period `2^62` (and
the maximum period `2^62`) no generator is created: `2*period` overflows to
`-2^63`, and `Int63n` panics in the constructor. With the initial period 1 and
the maximum period 0 the generator is created, with the period 0, and its
second call of `Pop`, the one that skips, panics in `generateNewSkip`: no four
calls of `Pop` return. -/
theorem first_skip_panics :
    newSkippingPacketNumberGenerator (fun _ => 0) 0 4611686018427387904 4611686018427387904
        = none
      ∧ ∃ g, newSkippingPacketNumberGenerator (fun _ => 0) 0 1 0 = some g ∧
          g.period = 0 ∧ g.nextToSkip = 2 ∧
          g.popN 1 = some ([0], { g with next := 1 }) ∧
          g.popN 2 = none ∧ g.popN 4 = none :=
  ⟨rfl, _, rfl, by decide, by decide, rfl, rfl, rfl⟩

/-- Claim C37, amended. A new skipping packet number generator with an initial
period `p ≥ 1` and a maximum period of at least 1 is created for every random
source, its first `2·p + 2` calls of `Pop` return, and some two successive
results among them differ by 2: the first packet number is skipped within these
calls. This holds barring integer overflow: provided that no arithmetic
operation of the creation and of these calls overflows. -/
theorem first_skip_within_two_periods (src : Nat → Nat) (initial p maxPeriod : Int)
    (hp : 1 ≤ p) (hmax : 1 ≤ maxPeriod)
    (hex : newSkippingPacketNumberGeneratorExact src initial p maxPeriod (2 * p + 2).toNat
      = true) :
    ∃ g pops q, newSkippingPacketNumberGenerator src initial p maxPeriod = some g ∧
      g.popN (2 * p + 2).toNat = some (pops, q) ∧
      ∃ l1 x l2, pops = l1 ++ x :: (x + 2) :: l2 := by
  obtain ⟨g, hg⟩ := new_returns src initial p maxPeriod _ hp hex
  obtain ⟨_, hnext, hM, hper, _, _, hlo, hhi⟩ := new_exact _ _ _ _ _ _ hg hex
  have hexrun := (newExact_parts _ _ _ _ _ _ hg hex).2
  have hgp : 1 ≤ g.period := by
    rw [hper]
    exact MinPacketNumber_pos _ _ (by omega) hmax
  obtain ⟨pops, q, hrun⟩ := popN_returns (2 * p + 2).toNat g hgp (by omega) hexrun
  refine ⟨g, pops, q, hg, hrun, ?_⟩
  have hsteps := popN_steps _ g q pops (g.next - 1) hrun hexrun (Or.inl (by omega))
  rcases chain_step_two pops (g.next - 1) hsteps with hc | ⟨l1, x, l2, hx⟩
  · have := popN_no_skip _ g q pops hrun hexrun (by omega) hc
    have hn : (((2 * p + 2).toNat : Nat) : Int) = 2 * p + 2 := Int.toNat_of_nonneg (by omega)
    omega
  · cases l1 with
    | nil =>
      simp only [List.nil_append, List.cons.injEq] at hx
      obtain ⟨hx1, hx2⟩ := hx
      have hn : (2 * p + 2).toNat = (2 * p + 1).toNat + 1 := by omega
      rw [hn] at hrun
      obtain ⟨_, rest, _, _, hpops⟩ := popN_succ _ g q pops hrun
      rw [hpops] at hx2
      simp only [List.cons.injEq] at hx2
      omega
    | cons c l1 =>
      simp only [List.cons_append, List.cons.injEq] at hx
      exact ⟨l1, x, l2, hx.2⟩

/-- Instance of C37, amended: the periods 25 and 300 of the tests and a random
source that always hands out 7. Nothing overflows in the first 52 calls of
`Pop`; the first packet number to skip is 9, so 8 and 10 are successive results
among the first 52. -/
theorem first_skip_within_two_periods_witness :
    newSkippingPacketNumberGeneratorExact (fun _ => 7) 0 25 300 (2 * 25 + 2 : Int).toNat = true
      ∧ ∃ g pops q, newSkippingPacketNumberGenerator (fun _ => 7) 0 25 300 = some g ∧
        g.popN (2 * 25 + 2 : Int).toNat = some (pops, q) ∧
        ∃ l1 x l2, pops = l1 ++ x :: (x + 2) :: l2 :=
  ⟨by decide,
    first_skip_within_two_periods (fun _ => 7) 0 25 300 (by decide) (by decide) (by decide)⟩

end ackhandler

/-! ## Properties of the connection flow controller -/

namespace flowcontrol

/-- The effect of one call on the receive side, in a controller whose window size
is non-negative and within its maximum. -/
theorem call_receive_side (c : connectionFlowController) (k : Call)
    (h0 : 0 ≤ c.baseFlowController.receiveWindowSize)
    (h1 : c.baseFlowController.receiveWindowSize ≤ c.baseFlowController.maxReceiveWindowSize) :
    0 ≤ (c.call k).2.baseFlowController.receiveWindowSize
      ∧ (c.call k).2.baseFlowController.receiveWindowSize
          ≤ (c.call k).2.baseFlowController.maxReceiveWindowSize
      ∧ c.baseFlowController.receiveWindow ≤ (c.call k).2.baseFlowController.receiveWindow
      ∧ ((c.call k).1 = none →
          c.baseFlowController.highestReceived ≤ c.baseFlowController.receiveWindow →
          (c.call k).2.baseFlowController.highestReceived
            ≤ (c.call k).2.baseFlowController.receiveWindow) := by
  cases k with
  | IncrementHighestReceived increment =>
    simp only [connectionFlowController.call, connectionFlowController.IncrementHighestReceived,
      baseFlowController.checkFlowControlViolation, decide_eq_true_eq]
    split_ifs with hv
    · exact ⟨h0, h1, le_refl _, fun h => by simp at h⟩
    · exact ⟨h0, h1, le_refl _, fun _ _ => by dsimp only; omega⟩
  | AddBytesRead n =>
    simp only [connectionFlowController.call, connectionFlowController.AddBytesRead,
      baseFlowController.addBytesRead]
    split_ifs <;> exact ⟨h0, h1, le_refl _, fun _ h => h⟩
  | GetWindowUpdate now smoothedRTT =>
    simp only [connectionFlowController.call, connectionFlowController.GetWindowUpdate,
      baseFlowController.getWindowUpdate, baseFlowController.hasWindowUpdate,
      baseFlowController.startNewAutoTuningEpoch, MinByteCount, Bool.not_eq_true',
      decide_eq_false_iff_not]
    split_ifs with hu hd hm <;> refine ⟨?_, ?_, ?_, fun _ _ => ?_⟩ <;> (try dsimp only) <;> omega
  | EnsureMinimumWindowSize inc now =>
    simp only [connectionFlowController.call, connectionFlowController.EnsureMinimumWindowSize,
      baseFlowController.startNewAutoTuningEpoch, MinByteCount]
    split_ifs with hi hm <;> refine ⟨?_, ?_, ?_, fun _ _ => ?_⟩ <;> (try dsimp only) <;> omega
  | AddBytesSent n =>
    simp only [connectionFlowController.call, baseFlowController.AddBytesSent]
    exact ⟨h0, h1, le_refl _, fun _ h => h⟩
  | UpdateSendWindow offset =>
    simp only [connectionFlowController.call, baseFlowController.UpdateSendWindow]
    split_ifs <;> exact ⟨h0, h1, le_refl _, fun _ h => h⟩

/-- One call keeps the window size within its maximum. -/
theorem call_size_le_max (c : connectionFlowController) (k : Call)
    (h1 : c.baseFlowController.receiveWindowSize ≤ c.baseFlowController.maxReceiveWindowSize) :
    (c.call k).2.baseFlowController.receiveWindowSize
      ≤ (c.call k).2.baseFlowController.maxReceiveWindowSize := by
  cases k with
  | IncrementHighestReceived increment =>
    simp only [connectionFlowController.call, connectionFlowController.IncrementHighestReceived]
    split_ifs <;> exact h1
  | AddBytesRead n =>
    simp only [connectionFlowController.call, connectionFlowController.AddBytesRead,
      baseFlowController.addBytesRead]
    split_ifs <;> exact h1
  | GetWindowUpdate now smoothedRTT =>
    simp only [connectionFlowController.call, connectionFlowController.GetWindowUpdate,
      baseFlowController.getWindowUpdate, baseFlowController.startNewAutoTuningEpoch,
      MinByteCount]
    split_ifs <;> (try dsimp only) <;> omega
  | EnsureMinimumWindowSize inc now =>
    simp only [connectionFlowController.call, connectionFlowController.EnsureMinimumWindowSize,
      baseFlowController.startNewAutoTuningEpoch, MinByteCount]
    split_ifs <;> (try dsimp only) <;> omega
  | AddBytesSent n =>
    simp only [connectionFlowController.call, baseFlowController.AddBytesSent]
    exact h1
  | UpdateSendWindow offset =>
    simp only [connectionFlowController.call, baseFlowController.UpdateSendWindow]
    split_ifs <;> exact h1

theorem run_cons (c : connectionFlowController) (k : Call) (calls : List Call) :
    (c.run (k :: calls)).1 = ((c.call k).2.run calls).1
      ∧ ((c.run (k :: calls)).2 = [] → (c.call k).1 = none ∧ ((c.call k).2.run calls).2 = []) := by
  refine ⟨rfl, fun h => ?_⟩
  simp only [connectionFlowController.run, List.append_eq_nil] at h
  refine ⟨?_, h.2⟩
  cases hr : (c.call k).1 with
  | none => rfl
  | some e => rw [hr] at h; simp at h

theorem run_size_le_max (calls : List Call) : ∀ c : connectionFlowController,
    c.baseFlowController.receiveWindowSize ≤ c.baseFlowController.maxReceiveWindowSize →
    (c.run calls).1.baseFlowController.receiveWindowSize
      ≤ (c.run calls).1.baseFlowController.maxReceiveWindowSize := by
  induction calls with
  | nil => intro c h; exact h
  | cons k calls ih =>
    intro c h
    rw [(run_cons c k calls).1]
    exact ih _ (call_size_le_max c k h)

theorem run_highest_le_window (calls : List Call) : ∀ c : connectionFlowController,
    0 ≤ c.baseFlowController.receiveWindowSize →
    c.baseFlowController.receiveWindowSize ≤ c.baseFlowController.maxReceiveWindowSize →
    c.baseFlowController.highestReceived ≤ c.baseFlowController.receiveWindow →
    (c.run calls).2 = [] →
    (c.run calls).1.baseFlowController.highestReceived
      ≤ (c.run calls).1.baseFlowController.receiveWindow := by
  induction calls with
  | nil => intro c _ _ h _; exact h
  | cons k calls ih =>
    intro c h0 h1 h2 herr
    obtain ⟨hnone, hrest⟩ := (run_cons c k calls).2 herr
    obtain ⟨g0, g1, _, g3⟩ := call_receive_side c k h0 h1
    rw [(run_cons c k calls).1]
    exact ih _ g0 g1 (g3 hnone h2) hrest

/-- Claim C12 fails as stated. On a controller whose `highest_received` is
`2^63 - 1` (reached from a new controller by `IncrementHighestReceived(2^63 - 1)`,
which returns an error), `IncrementHighestReceived(1)` does not add 1 to
`highest_received`: the sum wraps around to `-2^63`, which does not exceed the
receive window of 10 bytes, and the call returns no error. -/
theorem IncrementHighestReceived_wraps_around :
    ((NewConnectionFlowController 10 20).IncrementHighestReceived
        9223372036854775807).2.baseFlowController.highestReceived = 9223372036854775807
      ∧ ((((NewConnectionFlowController 10 20).IncrementHighestReceived
          9223372036854775807).2.IncrementHighestReceived 1).2.baseFlowController.highestReceived
          = -9223372036854775808)
      ∧ (((NewConnectionFlowController 10 20).IncrementHighestReceived
          9223372036854775807).2.IncrementHighestReceived 1).1 = none
      ∧ (-9223372036854775808 : Int) ≠ 9223372036854775807 + 1
      ∧ (9223372036854775807 + 1 : Int) > 10 := by
  refine ⟨by decide, by decide, by rfl, by decide, by decide⟩

/-- Claim C12, amended by the proviso "barring an overflow of the sum".
`IncrementHighestReceived(n)` changes nothing but `highest_received`, and when
the sum of `highest_received` and `n` is a value of the 64-bit type, it adds `n`
to `highest_received`. It returns an error exactly when the new
`highest_received` exceeds `receive_window`, the error is a FLOW_CONTROL_ERROR,
and otherwise it returns no error. -/
theorem IncrementHighestReceived_error_iff (c : connectionFlowController) (n : Int) :
    (c.IncrementHighestReceived n).2
        = { c with baseFlowController :=
              { c.baseFlowController with
                  highestReceived :=
                    (c.IncrementHighestReceived n).2.baseFlowController.highestReceived } }
      ∧ (protocol.fitsInt64 (c.baseFlowController.highestReceived + n) = true →
          (c.IncrementHighestReceived n).2.baseFlowController.highestReceived
            = c.baseFlowController.highestReceived + n)
      ∧ ((∃ e, (c.IncrementHighestReceived n).1 = some e
              ∧ e.ErrorCode = qerr.ErrorCode.FlowControlError)
          ↔ (c.IncrementHighestReceived n).2.baseFlowController.highestReceived
              > (c.IncrementHighestReceived n).2.baseFlowController.receiveWindow)
      ∧ (¬ (c.IncrementHighestReceived n).2.baseFlowController.highestReceived
              > (c.IncrementHighestReceived n).2.baseFlowController.receiveWindow
          → (c.IncrementHighestReceived n).1 = none) := by
  simp only [connectionFlowController.IncrementHighestReceived,
    baseFlowController.checkFlowControlViolation, decide_eq_true_eq]
  split_ifs with hv
  · refine ⟨rfl, fun h => protocol.int64_of_fits _ h,
      ⟨fun _ => hv, fun _ => ⟨_, rfl, rfl⟩⟩, fun h => absurd hv h⟩
  · refine ⟨rfl, fun h => protocol.int64_of_fits _ h,
      ⟨fun ⟨e, he, _⟩ => by simp at he, fun h => absurd h hv⟩, fun _ => rfl⟩

/-- Instance of C12, amended: on a new controller with a receive window of 10
bytes, `IncrementHighestReceived(11)` sets `highest_received` to 11 and returns a
FLOW_CONTROL_ERROR. -/
theorem IncrementHighestReceived_error_iff_witness :
    protocol.fitsInt64 ((NewConnectionFlowController 10 20).baseFlowController.highestReceived
        + 11) = true
      ∧ ((NewConnectionFlowController 10 20).IncrementHighestReceived
          11).2.baseFlowController.highestReceived
          = (NewConnectionFlowController 10 20).baseFlowController.highestReceived + 11
      ∧ ∃ e, ((NewConnectionFlowController 10 20).IncrementHighestReceived 11).1 = some e
          ∧ e.ErrorCode = qerr.ErrorCode.FlowControlError :=
  ⟨by decide,
    (IncrementHighestReceived_error_iff (NewConnectionFlowController 10 20) 11).2.1 (by decide),
    (IncrementHighestReceived_error_iff (NewConnectionFlowController 10 20) 11).2.2.1.2
      (by decide)⟩

/-- Claim C13 fails as stated: on a new controller with a receive window of 10
bytes, `IncrementHighestReceived(11)` returns an error and leaves
`highest_received = 11` above `receive_window = 10`. -/
theorem highest_received_exceeds_after_error :
    ((NewConnectionFlowController 10 20).run [Call.IncrementHighestReceived 11]).2 ≠ []
      ∧ ¬ (((NewConnectionFlowController 10 20).run
              [Call.IncrementHighestReceived 11]).1.baseFlowController.highestReceived
            ≤ ((NewConnectionFlowController 10 20).run
              [Call.IncrementHighestReceived 11]).1.baseFlowController.receiveWindow) := by
  decide

/-- Claim C13, amended. In every state reachable from a new connection flow
controller, created with `0 ≤ receiveWindow ≤ maxReceiveWindow`, by calls of
`IncrementHighestReceived`, `AddBytesRead`, `GetWindowUpdate`,
`EnsureMinimumWindowSize` (and of the send side) none of which returned an error,
`highest_received ≤ receive_window` holds. -/
theorem highest_received_le_receive_window (receiveWindow maxReceiveWindow : Int)
    (calls : List Call) (h0 : 0 ≤ receiveWindow) (h1 : receiveWindow ≤ maxReceiveWindow)
    (hok : ((NewConnectionFlowController receiveWindow maxReceiveWindow).run calls).2 = []) :
    ((NewConnectionFlowController receiveWindow maxReceiveWindow).run
        calls).1.baseFlowController.highestReceived
      ≤ ((NewConnectionFlowController receiveWindow maxReceiveWindow).run
        calls).1.baseFlowController.receiveWindow :=
  run_highest_le_window calls _ h0 h1 h0 hok

/-- Claim C14 fails as stated: with a maximum window size of 20 bytes,
`EnsureMinimumWindowSize(30)` leaves a window size of 20, below 30. -/
theorem EnsureMinimumWindowSize_capped :
    ¬ (30 ≤ ((NewConnectionFlowController 10 20).EnsureMinimumWindowSize 30
          0).baseFlowController.receiveWindowSize) := by
  decide

/-- Claim C14, amended. After `EnsureMinimumWindowSize(w)` the window size
`receive_window_size` is at least `min(w, max_receive_window_size)`, for every
controller state and every `w`. -/
theorem EnsureMinimumWindowSize_at_least (c : connectionFlowController) (w now : Int) :
    min w c.baseFlowController.maxReceiveWindowSize
      ≤ (c.EnsureMinimumWindowSize w now).baseFlowController.receiveWindowSize := by
  simp only [connectionFlowController.EnsureMinimumWindowSize,
    baseFlowController.startNewAutoTuningEpoch, MinByteCount]
  split_ifs <;> (try dsimp only) <;> omega

/-- Claim C15 fails as stated: `NewConnectionFlowController(10, 5, ...)` returns a
controller whose window size 10 exceeds its maximum 5. -/
theorem new_controller_size_above_max :
    ¬ ((NewConnectionFlowController 10 5).baseFlowController.receiveWindowSize
        ≤ (NewConnectionFlowController 10 5).baseFlowController.maxReceiveWindowSize) := by
  decide

/-- Claim C15, amended. In every state reachable from
`NewConnectionFlowController(receiveWindow, maxReceiveWindow, ...)` with
`receiveWindow ≤ maxReceiveWindow` by the operations of the controller,
`receive_window_size ≤ max_receive_window_size` holds. -/
theorem receive_window_size_le_max (receiveWindow maxReceiveWindow : Int)
    (calls : List Call) (h : receiveWindow ≤ maxReceiveWindow) :
    ((NewConnectionFlowController receiveWindow maxReceiveWindow).run
        calls).1.baseFlowController.receiveWindowSize
      ≤ ((NewConnectionFlowController receiveWindow maxReceiveWindow).run
        calls).1.baseFlowController.maxReceiveWindowSize :=
  run_size_le_max calls _ h

/-! ### Instances -/

/-- Instance of the amended C13: a run of calls without an error, with a window
update that doubles the window size. -/
theorem highest_received_le_receive_window_witness :
    (0 : Int) ≤ 10 ∧ (10 : Int) ≤ 20
      ∧ ((NewConnectionFlowController 10 20).run
          [Call.IncrementHighestReceived 8, Call.AddBytesRead 6, Call.GetWindowUpdate 5 10,
            Call.IncrementHighestReceived 15, Call.EnsureMinimumWindowSize 50 9]).2 = []
      ∧ ((NewConnectionFlowController 10 20).run
          [Call.IncrementHighestReceived 8, Call.AddBytesRead 6, Call.GetWindowUpdate 5 10,
            Call.IncrementHighestReceived 15,
            Call.EnsureMinimumWindowSize 50 9]).1.baseFlowController.highestReceived
        ≤ ((NewConnectionFlowController 10 20).run
          [Call.IncrementHighestReceived 8, Call.AddBytesRead 6, Call.GetWindowUpdate 5 10,
            Call.IncrementHighestReceived 15,
            Call.EnsureMinimumWindowSize 50 9]).1.baseFlowController.receiveWindow :=
  ⟨by decide, by decide, by decide,
    highest_received_le_receive_window 10 20 _ (by decide) (by decide) (by decide)⟩

/-- Instance of the amended C15. -/
theorem receive_window_size_le_max_witness :
    (10 : Int) ≤ 20
      ∧ ((NewConnectionFlowController 10 20).run
          [Call.AddBytesRead 6, Call.GetWindowUpdate 5 10,
            Call.EnsureMinimumWindowSize 50 9]).1.baseFlowController.receiveWindowSize
        ≤ ((NewConnectionFlowController 10 20).run
          [Call.AddBytesRead 6, Call.GetWindowUpdate 5 10,
            Call.EnsureMinimumWindowSize 50 9]).1.baseFlowController.maxReceiveWindowSize :=
  ⟨by decide, receive_window_size_le_max 10 20 _ (by decide)⟩

end flowcontrol

/-! ## Properties of the sent packet handler -/

namespace ackhandler

/-- The packets of the history after `settle`. -/
theorem settle_history (fate : Packet → Fate) (history : List Packet) :
    ∀ q ∈ (settle fate history).1, ∃ p ∈ history,
      q.PacketNumber = p.PacketNumber ∧ q.EncryptionLevel = p.EncryptionLevel
      ∧ q.Frames = p.Frames ∧ q.SendTime = p.SendTime ∧ q.Length = p.Length
      ∧ ((q = p ∧ (fate p = Fate.keep ∨ (fate p = Fate.lost ∧ p.outstanding = false)))
        ∨ (q = { p with declaredLost := true } ∧ fate p = Fate.lost ∧ p.outstanding = true)) := by
  induction history with
  | nil => intro q hq; simp [settle] at hq
  | cons p history ih =>
    intro q hq
    have step : ∀ q ∈ (settle fate history).1, ∃ p1 ∈ p :: history,
        q.PacketNumber = p1.PacketNumber ∧ q.EncryptionLevel = p1.EncryptionLevel
        ∧ q.Frames = p1.Frames ∧ q.SendTime = p1.SendTime ∧ q.Length = p1.Length
        ∧ ((q = p1 ∧ (fate p1 = Fate.keep ∨ (fate p1 = Fate.lost ∧ p1.outstanding = false)))
          ∨ (q = { p1 with declaredLost := true } ∧ fate p1 = Fate.lost
            ∧ p1.outstanding = true)) := by
      intro q hq
      obtain ⟨p1, hp1, h⟩ := ih q hq
      exact ⟨p1, List.mem_cons_of_mem _ hp1, h⟩
    simp only [settle] at hq
    cases hf : fate p <;> simp only [hf] at hq
    · rcases List.mem_cons.1 hq with h | h
      · subst h
        exact ⟨q, List.mem_cons_self _ _, rfl, rfl, rfl, rfl, rfl, Or.inl ⟨rfl, Or.inl hf⟩⟩
      · exact step q h
    · split at hq <;> exact step q hq
    · split at hq
      · rename_i ho
        rcases List.mem_cons.1 hq with h | h
        · subst h
          exact ⟨p, List.mem_cons_self _ _, rfl, rfl, rfl, rfl, rfl, Or.inr ⟨rfl, hf, ho⟩⟩
        · exact step q h
      · rename_i ho
        rcases List.mem_cons.1 hq with h | h
        · subst h
          refine ⟨q, List.mem_cons_self _ _, rfl, rfl, rfl, rfl, rfl, Or.inl ⟨rfl, Or.inr ⟨hf, ?_⟩⟩⟩
          simpa using ho
        · exact step q h
    · split at hq <;> exact step q hq
    · split at hq <;> exact step q hq

/-- The bytes removed by `settle` are the bytes that are no longer outstanding. -/
theorem settle_bytes (fate : Packet → Fate) (history : List Packet) :
    bytesOutstanding (settle fate history).1
      = bytesOutstanding history - (settle fate history).2.1 := by
  induction history with
  | nil => simp [settle, bytesOutstanding]
  | cons p history ih =>
    have hcons : ∀ (q : Packet) (l : List Packet), bytesOutstanding (q :: l)
        = (if q.outstanding = true then q.Length else 0) + bytesOutstanding l := by
      intro q l
      unfold bytesOutstanding
      by_cases hq : q.outstanding = true <;> simp [List.filter_cons, hq]
    have hlost : ({ p with declaredLost := true } : Packet).outstanding = false := by
      simp [Packet.outstanding]
    cases hf : fate p <;> cases ho : p.outstanding <;>
      (simp [settle, hf, ho, hcons, ih, hlost]; try omega)

/-- The callbacks of a packet belong to its level and packet number. -/
theorem callbacksOf_onAcked (level : EncryptionLevel) (pn : Int) (p : Packet) :
    callbacksOf level pn (onAckedCallbacks p)
      = if p.EncryptionLevel = level ∧ p.PacketNumber = pn then onAckedCallbacks p else [] := by
  unfold callbacksOf onAckedCallbacks
  split
  · rename_i h
    rw [List.filter_eq_self]
    intro c hc
    obtain ⟨f, _, rfl⟩ := List.mem_map.1 hc
    simpa using h
  · rename_i h
    rw [List.filter_eq_nil_iff]
    intro c hc
    obtain ⟨f, _, rfl⟩ := List.mem_map.1 hc
    simpa using h

/-- The callbacks of a packet belong to its level and packet number. -/
theorem callbacksOf_onLost (level : EncryptionLevel) (pn : Int) (p : Packet) :
    callbacksOf level pn (onLostCallbacks p)
      = if p.EncryptionLevel = level ∧ p.PacketNumber = pn then onLostCallbacks p else [] := by
  unfold callbacksOf onLostCallbacks
  split
  · rename_i h
    rw [List.filter_eq_self]
    intro c hc
    obtain ⟨f, _, rfl⟩ := List.mem_map.1 hc
    simpa using h
  · rename_i h
    rw [List.filter_eq_nil_iff]
    intro c hc
    obtain ⟨f, _, rfl⟩ := List.mem_map.1 hc
    simpa using h

theorem callbacksOf_append (level : EncryptionLevel) (pn : Int) (a b : List Callback) :
    callbacksOf level pn (a ++ b) = callbacksOf level pn a ++ callbacksOf level pn b := by
  simp [callbacksOf]

theorem callbacksOf_nil (level : EncryptionLevel) (pn : Int) :
    callbacksOf level pn [] = [] := rfl

/-- Every callback invoked by `settle` belongs to an outstanding packet of the
history whose fate was not to be kept. -/
theorem settle_callbacks_mem (fate : Packet → Fate) (history : List Packet) :
    ∀ c ∈ (settle fate history).2.2, ∃ p ∈ history, p.outstanding = true
      ∧ p.EncryptionLevel = c.EncryptionLevel ∧ p.PacketNumber = c.PacketNumber
      ∧ fate p ≠ Fate.keep ∧ fate p ≠ Fate.dropped := by
  induction history with
  | nil => intro c hc; simp [settle] at hc
  | cons p history ih =>
    intro c hc
    have step : ∀ c ∈ (settle fate history).2.2, ∃ p1 ∈ p :: history, p1.outstanding = true
        ∧ p1.EncryptionLevel = c.EncryptionLevel ∧ p1.PacketNumber = c.PacketNumber
        ∧ fate p1 ≠ Fate.keep ∧ fate p1 ≠ Fate.dropped := by
      intro c hc
      obtain ⟨p1, hp1, h⟩ := ih c hc
      exact ⟨p1, List.mem_cons_of_mem _ hp1, h⟩
    have own : p.outstanding = true → fate p ≠ Fate.keep → fate p ≠ Fate.dropped →
        c ∈ onAckedCallbacks p ∨ c ∈ onLostCallbacks p →
        ∃ p1 ∈ p :: history, p1.outstanding = true
        ∧ p1.EncryptionLevel = c.EncryptionLevel ∧ p1.PacketNumber = c.PacketNumber
        ∧ fate p1 ≠ Fate.keep ∧ fate p1 ≠ Fate.dropped := by
      intro ho h1 h2 hc
      refine ⟨p, List.mem_cons_self _ _, ho, ?_, ?_, h1, h2⟩
      · rcases hc with hc | hc
        · obtain ⟨f, _, rfl⟩ := List.mem_map.1 hc; rfl
        · obtain ⟨f, _, rfl⟩ := List.mem_map.1 hc; rfl
      · rcases hc with hc | hc
        · obtain ⟨f, _, rfl⟩ := List.mem_map.1 hc; rfl
        · obtain ⟨f, _, rfl⟩ := List.mem_map.1 hc; rfl
    simp only [settle] at hc
    cases hf : fate p <;> cases ho : p.outstanding <;> simp only [hf, ho] at hc
    all_goals first
      | exact step c hc
      | (simp only [if_true, List.mem_append] at hc
         rcases hc with hc | hc
         · exact own ho (by simp [hf]) (by simp [hf]) (by simp [hc])
         · exact step c hc)

/-- No callback is invoked by `settle` for a level and packet number that no
outstanding packet of the history has. -/
theorem settle_callbacksOf_nil (fate : Packet → Fate) (history : List Packet)
    (level : EncryptionLevel) (pn : Int)
    (h : ∀ p ∈ history, p.outstanding = true → p.EncryptionLevel = level →
      p.PacketNumber = pn → fate p = Fate.keep ∨ fate p = Fate.dropped) :
    callbacksOf level pn (settle fate history).2.2 = [] := by
  unfold callbacksOf
  rw [List.filter_eq_nil_iff]
  intro c hc
  obtain ⟨p, hp, ho, hl, hn, h1, h2⟩ := settle_callbacks_mem fate history c hc
  simp only [decide_eq_true_eq, not_and]
  intro hcl hcn
  rcases h p hp ho (hl.trans hcl) (hn.trans hcn) with h | h
  · exact h1 h
  · exact h2 h

/-- The callbacks that `settle` invokes for an outstanding packet of an ordered
history. -/
theorem settle_callbacksOf (fate : Packet → Fate) (history : List Packet)
    (hs : history.Pairwise (fun p q => p.PacketNumber < q.PacketNumber))
    (p : Packet) (hp : p ∈ history) (ho : p.outstanding = true) :
    callbacksOf p.EncryptionLevel p.PacketNumber (settle fate history).2.2
      = match fate p with
        | Fate.acked => onAckedCallbacks p
        | Fate.lost => onLostCallbacks p
        | Fate.retransmitted => onLostCallbacks p
        | _ => [] := by
  induction history with
  | nil => simp at hp
  | cons q history ih =>
    rw [List.pairwise_cons] at hs
    rcases List.mem_cons.1 hp with h | h
    · subst h
      have tail : callbacksOf p.EncryptionLevel p.PacketNumber (settle fate history).2.2 = [] := by
        apply settle_callbacksOf_nil
        intro p1 hp1 _ _ hn
        have := hs.1 p1 hp1
        omega
      simp only [settle]
      cases hf : fate p <;> simp [hf, ho, callbacksOf_append, tail, callbacksOf_onAcked,
        callbacksOf_onLost]
    · have hne : q.PacketNumber ≠ p.PacketNumber := by
        have := hs.1 p h
        omega
      have := ih hs.2 h
      simp only [settle]
      cases hf : fate q <;> cases hq : q.outstanding <;>
        simp [hf, hq, callbacksOf_append, callbacksOf_onAcked, callbacksOf_onLost, hne, this]

/-- The history stays ordered by packet number. -/
theorem settle_sorted (fate : Packet → Fate) (history : List Packet)
    (hs : history.Pairwise (fun p q => p.PacketNumber < q.PacketNumber)) :
    (settle fate history).1.Pairwise (fun p q => p.PacketNumber < q.PacketNumber) := by
  induction history with
  | nil => simp [settle]
  | cons p history ih =>
    rw [List.pairwise_cons] at hs
    have tail : ∀ q ∈ (settle fate history).1, p.PacketNumber < q.PacketNumber := by
      intro q hq
      obtain ⟨p1, hp1, hn, _⟩ := settle_history fate history q hq
      rw [hn]
      exact hs.1 p1 hp1
    simp only [settle]
    cases hf : fate p <;> cases ho : p.outstanding <;>
      simp only [hf, ho, if_true, if_false, Bool.false_eq_true] <;>
      first
        | exact ih hs.2
        | exact List.pairwise_cons.2 ⟨tail, ih hs.2⟩

/-- Two packets of an ordered history with the same packet number are the same. -/
theorem sorted_unique (history : List Packet)
    (hs : history.Pairwise (fun p q => p.PacketNumber < q.PacketNumber))
    (p q : Packet) (hp : p ∈ history) (hq : q ∈ history)
    (h : p.PacketNumber = q.PacketNumber) : p = q := by
  induction history with
  | nil => simp at hp
  | cons a history ih =>
    rw [List.pairwise_cons] at hs
    rcases List.mem_cons.1 hp with hp1 | hp1
    · rcases List.mem_cons.1 hq with hq1 | hq1
      · rw [hp1, hq1]
      · have := hs.1 q hq1; rw [hp1] at h; omega
    · rcases List.mem_cons.1 hq with hq1 | hq1
      · have := hs.1 p hp1; rw [hq1] at h; omega
      · exact ih hs.2 hp1 hq1

/-- The invariant of a packet number space is kept when the fates of its packets
are settled. -/
theorem spaceInv_settle {s : PNSpace} {sp : packetNumberSpace} {callbacks : List Callback}
    (hI : SpaceInv s sp callbacks) (fate : Packet → Fate) :
    SpaceInv s { sp with history := (settle fate sp.history).1 }
      (callbacks ++ (settle fate sp.history).2.2) := by
  constructor
  · exact settle_sorted fate sp.history hI.sorted
  · intro q hq
    obtain ⟨p, hp, hn, _⟩ := settle_history fate sp.history q hq
    have := hI.bound p hp
    show q.PacketNumber ≤ sp.largestSent
    omega
  · intro q hq
    obtain ⟨p, hp, _, hl, _⟩ := settle_history fate sp.history q hq
    rw [hl]
    exact hI.level p hp
  · exact hI.acked
  · intro q hq ho
    obtain ⟨p, hp, _, _, _, _, _, hc⟩ := settle_history fate sp.history q hq
    rcases hc with ⟨rfl, hk⟩ | ⟨rfl, _, _⟩
    · rw [callbacksOf_append, hI.fresh q hp ho, settle_callbacksOf fate sp.history hI.sorted q hp ho]
      rcases hk with hk | ⟨_, hk⟩
      · simp [hk]
      · rw [ho] at hk; cases hk
    · simp [Packet.outstanding] at ho
  · intro q hq hd
    obtain ⟨p, hp, _, _, _, _, _, hc⟩ := settle_history fate sp.history q hq
    rcases hc with ⟨rfl, _⟩ | ⟨rfl, hf, ho⟩
    · rw [callbacksOf_append, hI.lost q hp hd, settle_callbacksOf_nil, List.append_nil]
      intro p1 hp1 ho1 _ hn
      have := sorted_unique sp.history hI.sorted p1 q hp1 hp hn
      subst this
      simp [Packet.outstanding, hd] at ho1
    · show callbacksOf p.EncryptionLevel p.PacketNumber _ = onLostCallbacks p
      rw [callbacksOf_append, hI.fresh p hp ho, settle_callbacksOf fate sp.history hI.sorted p hp ho]
      simp [hf]
  · intro c hc hs
    rcases List.mem_append.1 hc with hc | hc
    · exact hI.logged c hc hs
    · obtain ⟨p, hp, _, _, hn, _⟩ := settle_callbacks_mem fate sp.history c hc
      have := hI.bound p hp
      show c.PacketNumber ≤ sp.largestSent
      omega

/-- The invariant of a packet number space is kept when the fates of the packets
of another space are settled. -/
theorem spaceInv_settle_other {s : PNSpace} {sp : packetNumberSpace}
    {callbacks : List Callback} (hI : SpaceInv s sp callbacks) (fate : Packet → Fate)
    (history : List Packet) (hd : ∀ p ∈ history, spaceOf p.EncryptionLevel ≠ s) :
    SpaceInv s sp (callbacks ++ (settle fate history).2.2) := by
  have none : ∀ p ∈ sp.history,
      callbacksOf p.EncryptionLevel p.PacketNumber (settle fate history).2.2 = [] := by
    intro p hp
    apply settle_callbacksOf_nil
    intro p1 hp1 _ hl _
    exact absurd (hl ▸ hI.level p hp) (hd p1 hp1)
  constructor
  · exact hI.sorted
  · exact hI.bound
  · exact hI.level
  · exact hI.acked
  · intro p hp ho
    rw [callbacksOf_append, hI.fresh p hp ho, none p hp]; rfl
  · intro p hp hl
    rw [callbacksOf_append, hI.lost p hp hl, none p hp, List.append_nil]
  · intro c hc hs
    rcases List.mem_append.1 hc with hc | hc
    · exact hI.logged c hc hs
    · obtain ⟨p, hp, _, hl, _⟩ := settle_callbacks_mem fate history c hc
      exact absurd (hl ▸ hs) (hd p hp)

/-- The invariant of a packet number space depends on its history, its largest
sent and its largest acknowledged packet number only. -/
theorem spaceInv_of_eq {s : PNSpace} {sp sp1 : packetNumberSpace} {callbacks : List Callback}
    (hI : SpaceInv s sp callbacks) (hh : sp1.history = sp.history)
    (hs : sp1.largestSent = sp.largestSent) (ha : sp1.largestAcked ≤ sp1.largestSent) :
    SpaceInv s sp1 callbacks := by
  constructor
  · rw [hh]; exact hI.sorted
  · rw [hh, hs]; exact hI.bound
  · rw [hh]; exact hI.level
  · exact ha
  · rw [hh]; exact hI.fresh
  · rw [hh]; exact hI.lost
  · rw [hs]; exact hI.logged

/-- The packets recorded as skipped. -/
theorem mem_skippedPackets (largestSent : Int) (packet q : Packet)
    (hq : q ∈ skippedPackets largestSent packet) :
    largestSent < q.PacketNumber ∧ q.PacketNumber < packet.PacketNumber
      ∧ q.EncryptionLevel = packet.EncryptionLevel ∧ q.skippedPacket = true
      ∧ q.declaredLost = false ∧ q.Frames = [] := by
  unfold skippedPackets at hq
  obtain ⟨i, hi, rfl⟩ := List.mem_map.1 hq
  rw [List.mem_range] at hi
  refine ⟨?_, ?_, rfl, rfl, rfl, rfl⟩
  · show largestSent < largestSent + 1 + (i : Int); omega
  · show largestSent + 1 + (i : Int) < packet.PacketNumber; omega

theorem skippedPackets_sorted (largestSent : Int) (packet : Packet) :
    (skippedPackets largestSent packet).Pairwise
      (fun p q => p.PacketNumber < q.PacketNumber) := by
  unfold skippedPackets
  rw [List.pairwise_map]
  apply List.Pairwise.imp _ (List.pairwise_lt_range _)
  intro a b hab
  show largestSent + 1 + (a : Int) < largestSent + 1 + (b : Int)
  omega

/-- The invariant of a packet number space is kept when a packet with a larger
packet number is sent in it. -/
theorem spaceInv_sent {s : PNSpace} {sp : packetNumberSpace} {callbacks : List Callback}
    (hI : SpaceInv s sp callbacks) (sp1 : packetNumberSpace) (packet : Packet)
    (sent : List Packet)
    (hsent : sent = [] ∨ sent = [{ packet with declaredLost := false, skippedPacket := false }])
    (hlevel : spaceOf packet.EncryptionLevel = s)
    (hpn : sp.largestSent < packet.PacketNumber)
    (hh : sp1.history = sp.history ++ skippedPackets sp.largestSent packet ++ sent)
    (hs : sp1.largestSent = packet.PacketNumber)
    (ha : sp1.largestAcked = sp.largestAcked) :
    SpaceInv s sp1 callbacks := by
  have hmem : ∀ q ∈ sp1.history, q ∈ sp.history ∨ q ∈ skippedPackets sp.largestSent packet
      ∨ (q = { packet with declaredLost := false, skippedPacket := false }) := by
    intro q hq
    rw [hh, List.mem_append, List.mem_append] at hq
    rcases hq with (hq | hq) | hq
    · exact Or.inl hq
    · exact Or.inr (Or.inl hq)
    · rcases hsent with h | h
      · rw [h] at hq; simp at hq
      · rw [h] at hq; exact Or.inr (Or.inr (List.mem_singleton.1 hq))
  have hnone : callbacksOf packet.EncryptionLevel packet.PacketNumber callbacks = [] := by
    unfold callbacksOf
    rw [List.filter_eq_nil_iff]
    intro c hc
    simp only [decide_eq_true_eq, not_and]
    intro hl hn
    have := hI.logged c hc (by rw [hl]; exact hlevel)
    omega
  constructor
  · rw [hh, List.pairwise_append, List.pairwise_append]
    refine ⟨⟨hI.sorted, skippedPackets_sorted _ _, ?_⟩, ?_, ?_⟩
    · intro a ha b hb
      have h1 := hI.bound a ha
      have h2 := (mem_skippedPackets _ _ b hb).1
      omega
    · rcases hsent with h | h <;> simp [h]
    · intro a ha b hb
      have hb1 : b.PacketNumber = packet.PacketNumber := by
        rcases hsent with h | h
        · rw [h] at hb; simp at hb
        · rw [h] at hb; rw [List.mem_singleton.1 hb]
      rcases List.mem_append.1 ha with ha | ha
      · have := hI.bound a ha; omega
      · have := (mem_skippedPackets _ _ a ha).2.1; omega
  · intro q hq
    rw [hs]
    rcases hmem q hq with h | h | h
    · have := hI.bound q h; omega
    · have := (mem_skippedPackets _ _ q h).2.1; omega
    · rw [h]
  · intro q hq
    rcases hmem q hq with h | h | h
    · exact hI.level q h
    · rw [(mem_skippedPackets _ _ q h).2.2.1]; exact hlevel
    · rw [h]; exact hlevel
  · rw [ha, hs]; have := hI.acked; omega
  · intro q hq ho
    rcases hmem q hq with h | h | h
    · exact hI.fresh q h ho
    · have := (mem_skippedPackets _ _ q h).2.2.2.1
      simp [Packet.outstanding, this] at ho
    · rw [h]; exact hnone
  · intro q hq hd
    rcases hmem q hq with h | h | h
    · exact hI.lost q h hd
    · have := (mem_skippedPackets _ _ q h).2.2.2.2.1
      rw [this] at hd; cases hd
    · rw [h] at hd; cases hd
  · intro c hc hl
    rw [hs]
    have := hI.logged c hc hl
    omega

/-! ### The packet number spaces of the handler -/

theorem getPacketNumberSpace_eq_space (h : sentPacketHandler) (level : EncryptionLevel) :
    h.getPacketNumberSpace level = h.space (spaceOf level) := by
  cases level <;> rfl

theorem space_setPacketNumberSpace (h : sentPacketHandler) (sp : packetNumberSpace)
    (level : EncryptionLevel) (s : PNSpace) :
    (h.setPacketNumberSpace sp level).space s
      = if s = spaceOf level then some sp else h.space s := by
  cases level <;> cases s <;> rfl

theorem bytesInFlight_setPacketNumberSpace (h : sentPacketHandler) (sp : packetNumberSpace)
    (level : EncryptionLevel) :
    (h.setPacketNumberSpace sp level).bytesInFlight = h.bytesInFlight := by
  cases level <;> rfl

theorem callbacks_setPacketNumberSpace (h : sentPacketHandler) (sp : packetNumberSpace)
    (level : EncryptionLevel) :
    (h.setPacketNumberSpace sp level).callbacks = h.callbacks := by
  cases level <;> rfl

theorem rttStats_setPacketNumberSpace (h : sentPacketHandler) (sp : packetNumberSpace)
    (level : EncryptionLevel) :
    (h.setPacketNumberSpace sp level).rttStats = h.rttStats := by
  cases level <;> rfl

theorem params_setPacketNumberSpace (h : sentPacketHandler) (sp : packetNumberSpace)
    (level : EncryptionLevel) :
    (h.setPacketNumberSpace sp level).params = h.params := by
  cases level <;> rfl

/-- The bytes of the outstanding packets after a change of one packet number
space. -/
theorem bytesOutstanding_update (h g : sentPacketHandler) (s0 : PNSpace)
    (o : Option packetNumberSpace)
    (hsp : ∀ s, g.space s = if s = s0 then o else h.space s) :
    g.bytesOutstanding = h.bytesOutstanding - spaceBytes (h.space s0) + spaceBytes o := by
  unfold sentPacketHandler.bytesOutstanding
  rw [hsp PNSpace.initial, hsp PNSpace.handshake, hsp PNSpace.appData]
  cases s0 <;> simp <;> ring

/-- The invariant after a change of one packet number space, and the bytes in
flight, which still are the bytes of the outstanding packets if they were so
before. -/
theorem inv_update (h g : sentPacketHandler) (s0 : PNSpace) (o : Option packetNumberSpace)
    (hsp : ∀ s, g.space s = if s = s0 then o else h.space s)
    (hb : g.bytesInFlight = h.bytesInFlight - spaceBytes (h.space s0) + spaceBytes o)
    (hnew : ∀ sp, o = some sp → SpaceInv s0 sp g.callbacks)
    (hother : ∀ s sp, s ≠ s0 → h.space s = some sp → SpaceInv s sp g.callbacks) :
    Inv g
      ∧ (h.bytesInFlight = h.bytesOutstanding → g.bytesInFlight = g.bytesOutstanding) := by
  refine ⟨⟨?_⟩, ?_⟩
  · intro s sp hs
    rw [hsp s] at hs
    by_cases hs0 : s = s0
    · rw [if_pos hs0] at hs
      rw [hs0]
      exact hnew sp hs
    · rw [if_neg hs0] at hs
      exact hother s sp hs0 hs
  · intro hbytes
    rw [bytesOutstanding_update h g s0 o hsp, hb, hbytes]

theorem sameCore_refl (h : sentPacketHandler) : SameCore h h :=
  ⟨fun _ => rfl, rfl, rfl⟩

theorem sameCore_trans {h g k : sentPacketHandler} (h1 : SameCore h g) (h2 : SameCore g k) :
    SameCore h k :=
  ⟨fun s => (h2.space s).trans (h1.space s), h2.bytesInFlight.trans h1.bytesInFlight,
    h2.callbacks.trans h1.callbacks⟩

theorem bytesOutstanding_sameCore {h g : sentPacketHandler} (hc : SameCore h g) :
    g.bytesOutstanding = h.bytesOutstanding := by
  unfold sentPacketHandler.bytesOutstanding
  rw [hc.space, hc.space, hc.space]

theorem inv_sameCore {h g : sentPacketHandler} (hc : SameCore h g) (hI : Inv h) : Inv g := by
  constructor
  intro s sp hs
  rw [hc.space] at hs
  rw [hc.callbacks]
  exact hI.spaces s sp hs

theorem bytes_sameCore {h g : sentPacketHandler} (hc : SameCore h g)
    (hbytes : h.bytesInFlight = h.bytesOutstanding) :
    g.bytesInFlight = g.bytesOutstanding := by
  rw [bytesOutstanding_sameCore hc, hc.bytesInFlight, hbytes]

theorem thrAt_sameCore {h g : sentPacketHandler} (hc : SameCore h g) (s : PNSpace)
    (hT : ThrAt h s) : ThrAt g s := by
  intro sp hs
  rw [hc.space] at hs
  exact hT sp hs

theorem tracked_sameCore {h g : sentPacketHandler} (hc : SameCore h g) (packet : Packet)
    (hT : Tracked packet h) : Tracked packet g := by
  constructor
  · unfold sentPacketHandler.fired
    rw [hc.callbacks]
    exact hT.once
  · intro sp hs
    rw [hc.space] at hs
    exact hT.sent sp hs
  · intro sp hs
    rw [hc.space] at hs
    exact hT.same sp hs

/-- Arming the timer changes the alarm only. -/
theorem setLossDetectionTimer_sameCore (h : sentPacketHandler) (now : Int) :
    SameCore h (h.setLossDetectionTimer now) := by
  unfold sentPacketHandler.setLossDetectionTimer
  split
  · exact ⟨fun s => by cases s <;> rfl, rfl, rfl⟩
  · split
    · exact ⟨fun s => by cases s <;> rfl, rfl, rfl⟩
    · exact ⟨fun s => by cases s <;> rfl, rfl, rfl⟩

/-! ### Settling the packets of a packet number space -/

theorem settlePackets_none (h : sentPacketHandler) (level : EncryptionLevel)
    (fate : Packet → Fate) (hs : h.space (spaceOf level) = none) :
    h.settlePackets level fate = h := by
  unfold sentPacketHandler.settlePackets
  rw [getPacketNumberSpace_eq_space, hs]

theorem settlePackets_some (h : sentPacketHandler) (level : EncryptionLevel)
    (fate : Packet → Fate) (sp : packetNumberSpace) (hs : h.space (spaceOf level) = some sp) :
    (∀ s, (h.settlePackets level fate).space s
        = if s = spaceOf level then some { sp with history := (settle fate sp.history).1 }
          else h.space s)
      ∧ (h.settlePackets level fate).bytesInFlight
        = h.bytesInFlight - (settle fate sp.history).2.1
      ∧ (h.settlePackets level fate).callbacks = h.callbacks ++ (settle fate sp.history).2.2
      ∧ (h.settlePackets level fate).rttStats = h.rttStats
      ∧ (h.settlePackets level fate).params = h.params := by
  unfold sentPacketHandler.settlePackets
  rw [getPacketNumberSpace_eq_space, hs]
  refine ⟨?_, rfl, rfl, ?_, ?_⟩
  · intro s
    rw [← space_setPacketNumberSpace]
    cases s <;> rfl
  · exact rttStats_setPacketNumberSpace _ _ _
  · exact params_setPacketNumberSpace _ _ _

theorem inv_settlePackets (h : sentPacketHandler) (level : EncryptionLevel)
    (fate : Packet → Fate) (hI : Inv h) :
    Inv (h.settlePackets level fate)
      ∧ (h.bytesInFlight = h.bytesOutstanding →
          (h.settlePackets level fate).bytesInFlight
            = (h.settlePackets level fate).bytesOutstanding) := by
  cases hs : h.space (spaceOf level) with
  | none => rw [settlePackets_none h level fate hs]; exact ⟨hI, id⟩
  | some sp =>
    obtain ⟨h1, h2, h3, _, _⟩ := settlePackets_some h level fate sp hs
    apply inv_update h _ (spaceOf level) _ h1
    · rw [h2, hs]
      show _ = _ - bytesOutstanding sp.history + bytesOutstanding (settle fate sp.history).1
      rw [settle_bytes]
      ring
    · intro sp1 hsp1
      rw [h3, ← Option.some.inj hsp1]
      exact spaceInv_settle (hI.spaces _ sp hs) fate
    · intro s sp1 hne hsp1
      rw [h3]
      apply spaceInv_settle_other (hI.spaces s sp1 hsp1) fate
      intro p hp hl
      exact hne (hl.symm.trans ((hI.spaces _ sp hs).level p hp))

theorem thrAt_settlePackets (h : sentPacketHandler) (level : EncryptionLevel)
    (fate : Packet → Fate) (s : PNSpace) (hT : ThrAt h s) :
    ThrAt (h.settlePackets level fate) s := by
  cases hs : h.space (spaceOf level) with
  | none => rw [settlePackets_none h level fate hs]; exact hT
  | some sp =>
    obtain ⟨h1, _⟩ := settlePackets_some h level fate sp hs
    intro sp1 hsp1 q hq ho
    rw [h1 s] at hsp1
    by_cases hs0 : s = spaceOf level
    · rw [if_pos hs0] at hsp1
      rw [← Option.some.inj hsp1] at hq ⊢
      obtain ⟨p, hp, _, _, _, _, _, hc⟩ := settle_history fate sp.history q hq
      rcases hc with ⟨rfl, _⟩ | ⟨rfl, _, _⟩
      · exact hT sp (hs0 ▸ hs) q hp ho
      · simp [Packet.outstanding] at ho
    · rw [if_neg hs0] at hsp1
      exact hT sp1 hsp1 q hq ho

/-- The callbacks of a tracked packet after its space is settled: those invoked
before, followed by its on-acked or on-lost callbacks if it was outstanding and
its fate was to be acknowledged, lost or retransmitted. -/
theorem tracked_settlePackets (h : sentPacketHandler) (level : EncryptionLevel)
    (fate : Packet → Fate) (packet : Packet) (hI : Inv h) (hT : Tracked packet h) :
    Tracked packet (h.settlePackets level fate) := by
  cases hs : h.space (spaceOf level) with
  | none => rw [settlePackets_none h level fate hs]; exact hT
  | some sp =>
    obtain ⟨h1, _, h3, _, _⟩ := settlePackets_some h level fate sp hs
    have hsp := hI.spaces _ sp hs
    constructor
    · unfold sentPacketHandler.fired
      rw [h3, callbacksOf_append]
      by_cases hex : ∃ q ∈ sp.history, q.outstanding = true
          ∧ q.EncryptionLevel = packet.EncryptionLevel
          ∧ q.PacketNumber = packet.PacketNumber
      · obtain ⟨q, hq, ho, hl, hn⟩ := hex
        have hsame := hT.same sp (by rw [← hl, hsp.level q hq]; exact hs) q hq hn
        have hold := hsp.fresh q hq ho
        have hnew := settle_callbacksOf fate sp.history hsp.sorted q hq ho
        rw [hl, hn] at hold hnew
        have e1 : onAckedCallbacks q = onAckedCallbacks packet := by
          unfold onAckedCallbacks; rw [hsame.1, hl, hn]
        have e2 : onLostCallbacks q = onLostCallbacks packet := by
          unfold onLostCallbacks; rw [hsame.1, hl, hn]
        rw [hold, hnew, List.nil_append, e1, e2]
        cases fate q
        · exact Or.inl rfl
        · exact Or.inr (Or.inl rfl)
        · exact Or.inr (Or.inr rfl)
        · exact Or.inl rfl
        · exact Or.inr (Or.inr rfl)
      · rw [settle_callbacksOf_nil, List.append_nil]
        · exact hT.once
        · intro p hp ho hl hn
          exact absurd ⟨p, hp, ho, hl, hn⟩ hex
    · intro sp1 hsp1
      rw [h1] at hsp1
      by_cases hs0 : spaceOf packet.EncryptionLevel = spaceOf level
      · rw [if_pos hs0] at hsp1
        rw [← Option.some.inj hsp1]
        exact hT.sent sp (hs0 ▸ hs)
      · rw [if_neg hs0] at hsp1
        exact hT.sent sp1 hsp1
    · intro sp1 hsp1 q hq hn
      rw [h1] at hsp1
      by_cases hs0 : spaceOf packet.EncryptionLevel = spaceOf level
      · rw [if_pos hs0] at hsp1
        rw [← Option.some.inj hsp1] at hq
        obtain ⟨p, hp, hpn, hpl, hpf, _⟩ := settle_history fate sp.history q hq
        rw [hpl, hpf]
        exact hT.same sp (hs0 ▸ hs) p hp (hpn ▸ hn)
      · rw [if_neg hs0] at hsp1
        exact hT.same sp1 hsp1 q hq hn

/-- Settling adds to the callbacks invoked so far. -/
theorem callbacks_settlePackets (h : sentPacketHandler) (level : EncryptionLevel)
    (fate : Packet → Fate) :
    ∃ more, (h.settlePackets level fate).callbacks = h.callbacks ++ more := by
  cases hs : h.space (spaceOf level) with
  | none => rw [settlePackets_none h level fate hs]; exact ⟨[], (List.append_nil _).symm⟩
  | some sp => exact ⟨_, (settlePackets_some h level fate sp hs).2.2.1⟩

/-! ### Changing the counters of a packet number space, and loss detection -/

theorem inv_setPacketNumberSpace (h : sentPacketHandler) (level : EncryptionLevel)
    (sp sp1 : packetNumberSpace) (hs : h.space (spaceOf level) = some sp)
    (hh : sp1.history = sp.history) (hl : sp1.largestSent = sp.largestSent)
    (ha : sp1.largestAcked ≤ sp1.largestSent) (hI : Inv h) :
    Inv (h.setPacketNumberSpace sp1 level)
      ∧ (h.bytesInFlight = h.bytesOutstanding →
          (h.setPacketNumberSpace sp1 level).bytesInFlight
            = (h.setPacketNumberSpace sp1 level).bytesOutstanding) := by
  apply inv_update h _ (spaceOf level) (some sp1) (space_setPacketNumberSpace h sp1 level)
  · rw [bytesInFlight_setPacketNumberSpace, hs]
    show _ = _ - bytesOutstanding sp.history + bytesOutstanding sp1.history
    rw [hh]; ring
  · intro sp2 hsp2
    rw [callbacks_setPacketNumberSpace, ← Option.some.inj hsp2]
    exact spaceInv_of_eq (hI.spaces _ sp hs) hh hl ha
  · intro s sp2 _ hsp2
    rw [callbacks_setPacketNumberSpace]
    exact hI.spaces s sp2 hsp2

theorem tracked_setPacketNumberSpace (h : sentPacketHandler) (level : EncryptionLevel)
    (sp sp1 : packetNumberSpace) (hs : h.space (spaceOf level) = some sp)
    (hh : sp1.history = sp.history) (hl : sp1.largestSent = sp.largestSent)
    (packet : Packet) (hT : Tracked packet h) :
    Tracked packet (h.setPacketNumberSpace sp1 level) := by
  constructor
  · unfold sentPacketHandler.fired
    rw [callbacks_setPacketNumberSpace]
    exact hT.once
  · intro sp2 hsp2
    rw [space_setPacketNumberSpace] at hsp2
    by_cases hs0 : spaceOf packet.EncryptionLevel = spaceOf level
    · rw [if_pos hs0] at hsp2
      rw [← Option.some.inj hsp2, hl]
      exact hT.sent sp (hs0 ▸ hs)
    · rw [if_neg hs0] at hsp2
      exact hT.sent sp2 hsp2
  · intro sp2 hsp2
    rw [space_setPacketNumberSpace] at hsp2
    by_cases hs0 : spaceOf packet.EncryptionLevel = spaceOf level
    · rw [if_pos hs0] at hsp2
      rw [← Option.some.inj hsp2, hh]
      exact hT.same sp (hs0 ▸ hs)
    · rw [if_neg hs0] at hsp2
      exact hT.same sp2 hsp2

theorem thrAt_setPacketNumberSpace_other (h : sentPacketHandler) (level : EncryptionLevel)
    (sp1 : packetNumberSpace) (s : PNSpace) (hne : s ≠ spaceOf level) (hT : ThrAt h s) :
    ThrAt (h.setPacketNumberSpace sp1 level) s := by
  intro sp2 hsp2
  rw [space_setPacketNumberSpace, if_neg hne] at hsp2
  exact hT sp2 hsp2

theorem thrAt_setPacketNumberSpace (h : sentPacketHandler) (level : EncryptionLevel)
    (sp sp1 : packetNumberSpace) (hs : h.space (spaceOf level) = some sp)
    (hh : sp1.history = sp.history) (ha : sp1.largestAcked = sp.largestAcked)
    (s : PNSpace) (hT : ThrAt h s) :
    ThrAt (h.setPacketNumberSpace sp1 level) s := by
  by_cases hs0 : s = spaceOf level
  · intro sp2 hsp2
    rw [space_setPacketNumberSpace, if_pos hs0] at hsp2
    rw [← Option.some.inj hsp2, hh, ha]
    exact hT sp (hs0 ▸ hs)
  · exact thrAt_setPacketNumberSpace_other h level sp1 s hs0 hT

theorem detectLostPackets_none (h : sentPacketHandler) (now : Int) (level : EncryptionLevel)
    (hs : h.space (spaceOf level) = none) : h.detectLostPackets now level = h := by
  unfold sentPacketHandler.detectLostPackets
  rw [getPacketNumberSpace_eq_space, hs]

/-- Loss detection settles the packets of the space with the fate `lossFate` and
sets the loss time of the space. -/
theorem detectLostPackets_some (h : sentPacketHandler) (now : Int) (level : EncryptionLevel)
    (sp : packetNumberSpace) (hs : h.space (spaceOf level) = some sp) :
    ∃ lossTime, h.detectLostPackets now level
      = (h.settlePackets level
          (lossFate sp.largestAcked (timeThreshold h.rttStats h.params) now)).setPacketNumberSpace
          { sp with
              history := (settle (lossFate sp.largestAcked
                (timeThreshold h.rttStats h.params) now) sp.history).1
              lossTime := lossTime } level := by
  obtain ⟨h1, _⟩ := settlePackets_some h level
    (lossFate sp.largestAcked (timeThreshold h.rttStats h.params) now) sp hs
  have h2 := h1 (spaceOf level)
  rw [if_pos rfl] at h2
  unfold sentPacketHandler.detectLostPackets
  rw [getPacketNumberSpace_eq_space, hs]
  simp only []
  rw [getPacketNumberSpace_eq_space, h2]
  exact ⟨_, rfl⟩

/-! ### Steps of the handler -/

theorem step_refl (h : sentPacketHandler) : Step h h :=
  ⟨fun hI => hI, fun _ _ hT => hT, ⟨[], (List.append_nil _).symm⟩, fun _ hb => hb⟩

theorem step_trans {h g k : sentPacketHandler} (h1 : Step h g) (h2 : Step g k) : Step h k := by
  constructor
  · exact fun hI => h2.inv (h1.inv hI)
  · exact fun hI packet hT => h2.tracked (h1.inv hI) packet (h1.tracked hI packet hT)
  · obtain ⟨a, ha⟩ := h1.callbacks
    obtain ⟨b, hb⟩ := h2.callbacks
    exact ⟨a ++ b, by rw [hb, ha, List.append_assoc]⟩
  · exact fun hI hb => h2.bytes (h1.inv hI) (h1.bytes hI hb)

theorem step_of_sameCore {h g : sentPacketHandler} (hc : SameCore h g) : Step h g :=
  ⟨inv_sameCore hc, fun _ packet hT => tracked_sameCore hc packet hT,
    ⟨[], by rw [hc.callbacks, List.append_nil]⟩, fun _ hb => bytes_sameCore hc hb⟩

theorem step_settlePackets (h : sentPacketHandler) (level : EncryptionLevel)
    (fate : Packet → Fate) : Step h (h.settlePackets level fate) :=
  ⟨fun hI => (inv_settlePackets h level fate hI).1,
    fun hI packet hT => tracked_settlePackets h level fate packet hI hT,
    callbacks_settlePackets h level fate,
    fun hI => (inv_settlePackets h level fate hI).2⟩

theorem step_setPacketNumberSpace (h : sentPacketHandler) (level : EncryptionLevel)
    (sp sp1 : packetNumberSpace) (hs : h.space (spaceOf level) = some sp)
    (hh : sp1.history = sp.history) (hl : sp1.largestSent = sp.largestSent)
    (ha : sp.largestAcked ≤ sp.largestSent → sp1.largestAcked ≤ sp1.largestSent) :
    Step h (h.setPacketNumberSpace sp1 level) :=
  ⟨fun hI =>
      (inv_setPacketNumberSpace h level sp sp1 hs hh hl (ha (hI.spaces _ sp hs).acked) hI).1,
    fun _ packet hT => tracked_setPacketNumberSpace h level sp sp1 hs hh hl packet hT,
    ⟨[], by rw [callbacks_setPacketNumberSpace, List.append_nil]⟩,
    fun hI =>
      (inv_setPacketNumberSpace h level sp sp1 hs hh hl (ha (hI.spaces _ sp hs).acked) hI).2⟩

theorem step_setLossDetectionTimer (h : sentPacketHandler) (now : Int) :
    Step h (h.setLossDetectionTimer now) :=
  step_of_sameCore (setLossDetectionTimer_sameCore h now)

theorem step_detectLostPackets (h : sentPacketHandler) (now : Int) (level : EncryptionLevel) :
    Step h (h.detectLostPackets now level) := by
  cases hs : h.space (spaceOf level) with
  | none => rw [detectLostPackets_none h now level hs]; exact step_refl h
  | some sp =>
    obtain ⟨lossTime, e⟩ := detectLostPackets_some h now level sp hs
    rw [e]
    apply step_trans (step_settlePackets h level _)
    have h2 := (settlePackets_some h level
      (lossFate sp.largestAcked (timeThreshold h.rttStats h.params) now) sp hs).1 (spaceOf level)
    rw [if_pos rfl] at h2
    exact step_setPacketNumberSpace _ level _ _ h2 rfl rfl (fun ha => ha)

/-- After loss detection, no outstanding packet of the space is at or below the
packet threshold. -/
theorem thrAt_detectLostPackets (h : sentPacketHandler) (now : Int) (level : EncryptionLevel)
    (s : PNSpace) (hT : s ≠ spaceOf level → ThrAt h s) :
    ThrAt (h.detectLostPackets now level) s := by
  cases hs : h.space (spaceOf level) with
  | none =>
    rw [detectLostPackets_none h now level hs]
    by_cases hs0 : s = spaceOf level
    · intro sp hsp
      rw [hs0, hs] at hsp
      cases hsp
    · exact hT hs0
  | some sp =>
    obtain ⟨lossTime, e⟩ := detectLostPackets_some h now level sp hs
    rw [e]
    by_cases hs0 : s = spaceOf level
    · intro sp2 hsp2 q hq ho
      rw [space_setPacketNumberSpace, if_pos hs0] at hsp2
      rw [← Option.some.inj hsp2] at hq ⊢
      obtain ⟨p, hp, _, _, _, _, _, hc⟩ := settle_history _ sp.history q hq
      rcases hc with ⟨rfl, hk⟩ | ⟨rfl, _, _⟩
      · rcases hk with hk | ⟨_, hk⟩
        · unfold lossFate at hk
          split at hk
          · cases hk
          · rename_i hl
            unfold isLost at hl
            simp only [Bool.or_eq_true, decide_eq_true_eq, not_or] at hl
            show sp.largestAcked - packetThreshold < q.PacketNumber
            omega
        · rw [ho] at hk; cases hk
      · simp [Packet.outstanding] at ho
    · exact thrAt_setPacketNumberSpace_other _ level _ s hs0
        (thrAt_settlePackets h level _ s (hT hs0))

/-! ### Processing an ACK frame -/

theorem peerValidated_sameCore (h : sentPacketHandler) (level : EncryptionLevel) :
    SameCore h (h.peerValidated level) := by
  unfold sentPacketHandler.peerValidated
  split
  · exact ⟨fun s => by cases s <;> rfl, rfl, rfl⟩
  · exact sameCore_refl h

theorem confirmAcked_sameCore (h : sentPacketHandler) (acked : List Packet)
    (level : EncryptionLevel) : SameCore h (h.confirmAcked acked level) := by
  unfold sentPacketHandler.confirmAcked
  split
  · exact ⟨fun s => by cases s <;> rfl, rfl, rfl⟩
  · exact sameCore_refl h

theorem updateRTT_sameCore (h : sentPacketHandler) (acked : List Packet) (advanced : Bool)
    (ack : AckFrame) (level : EncryptionLevel) (rcvTime : Int) :
    SameCore h (h.updateRTT acked advanced ack level rcvTime) := by
  unfold sentPacketHandler.updateRTT
  simp only []
  split
  · split
    · exact ⟨fun s => by cases s <;> rfl, rfl, rfl⟩
    · exact sameCore_refl h
  · exact sameCore_refl h

theorem resetPTOCount_sameCore (h : sentPacketHandler) (acked : List Packet)
    (level : EncryptionLevel) : SameCore h (h.resetPTOCount acked level) := by
  unfold sentPacketHandler.resetPTOCount
  split
  · exact ⟨fun s => by cases s <;> rfl, rfl, rfl⟩
  · exact sameCore_refl h

theorem step_setLargestAcked (h : sentPacketHandler) (sp : packetNumberSpace) (ack : AckFrame)
    (level : EncryptionLevel) (hs : h.space (spaceOf level) = some sp)
    (hl : ¬ sp.largestSent < ack.LargestAcked) : Step h (h.setLargestAcked sp ack level) := by
  unfold sentPacketHandler.setLargestAcked
  refine step_setPacketNumberSpace h level sp
    { sp with largestAcked := max sp.largestAcked ack.LargestAcked } hs rfl rfl ?_
  intro ha
  show max sp.largestAcked ack.LargestAcked ≤ sp.largestSent
  omega

theorem step_removeAckedPackets (h : sentPacketHandler) (ack : AckFrame)
    (level : EncryptionLevel) : Step h (h.removeAckedPackets ack level) :=
  step_settlePackets h level _

theorem step_processAck (h : sentPacketHandler) (sp : packetNumberSpace) (ack : AckFrame)
    (level : EncryptionLevel) (rcvTime : Int) (hs : h.space (spaceOf level) = some sp)
    (hl : ¬ sp.largestSent < ack.LargestAcked) :
    Step h (h.processAck sp ack level rcvTime) := by
  unfold sentPacketHandler.processAck
  refine step_trans ?_ (step_of_sameCore (resetPTOCount_sameCore _ _ _))
  refine step_trans ?_ (step_detectLostPackets _ _ _)
  refine step_trans ?_ (step_of_sameCore (updateRTT_sameCore _ _ _ _ _ _))
  refine step_trans ?_ (step_of_sameCore (confirmAcked_sameCore _ _ _))
  refine step_trans ?_ (step_removeAckedPackets _ _ _)
  refine step_trans ?_ (step_of_sameCore (peerValidated_sameCore _ _))
  exact step_setLargestAcked h sp ack level hs hl

theorem thr_processAck (h : sentPacketHandler) (sp : packetNumberSpace) (ack : AckFrame)
    (level : EncryptionLevel) (rcvTime : Int) (hT : Thr h) :
    Thr (h.processAck sp ack level rcvTime) := by
  intro s
  unfold sentPacketHandler.processAck
  apply thrAt_sameCore (resetPTOCount_sameCore _ _ _)
  apply thrAt_detectLostPackets
  intro hne
  apply thrAt_sameCore (updateRTT_sameCore _ _ _ _ _ _)
  apply thrAt_sameCore (confirmAcked_sameCore _ _ _)
  apply thrAt_settlePackets
  apply thrAt_sameCore (peerValidated_sameCore _ _)
  exact thrAt_setPacketNumberSpace_other h level _ s hne (hT s)

/-- The outcomes of `ReceivedAck`: an error that leaves the handler as it was, or
the steps of ACK processing. -/
theorem ReceivedAck_cases (h : sentPacketHandler) (ack : AckFrame) (level : EncryptionLevel)
    (rcvTime now : Int) (r : Option qerr.QuicError × sentPacketHandler)
    (hr : h.ReceivedAck ack level rcvTime now = some r) :
    ∃ sp, h.space (spaceOf level) = some sp
      ∧ ((r.1 ≠ none ∧ r.2 = h)
        ∨ (r.1 = none ∧ ¬ sp.largestSent < ack.LargestAcked
          ∧ sp.history.any (fun p => p.skippedPacket && ack.AcksPacket p.PacketNumber) = false
          ∧ r.2 = (h.processAck sp ack level rcvTime).setLossDetectionTimer now)) := by
  unfold sentPacketHandler.ReceivedAck at hr
  rw [getPacketNumberSpace_eq_space] at hr
  cases hs : h.space (spaceOf level) with
  | none => rw [hs] at hr; cases hr
  | some sp =>
    rw [hs] at hr
    refine ⟨sp, rfl, ?_⟩
    simp only [] at hr
    split at hr
    · left; rw [← Option.some.inj hr]; exact ⟨by simp, rfl⟩
    · split at hr
      · left; rw [← Option.some.inj hr]; exact ⟨by simp, rfl⟩
      · rename_i h1 h2
        right; rw [← Option.some.inj hr]
        exact ⟨rfl, h1, by simpa using h2, rfl⟩

theorem step_ReceivedAck (h : sentPacketHandler) (ack : AckFrame) (level : EncryptionLevel)
    (rcvTime now : Int) (r : Option qerr.QuicError × sentPacketHandler)
    (hr : h.ReceivedAck ack level rcvTime now = some r) : Step h r.2 := by
  obtain ⟨sp, hs, hc⟩ := ReceivedAck_cases h ack level rcvTime now r hr
  rcases hc with ⟨_, e⟩ | ⟨_, hl, _, e⟩
  · rw [e]; exact step_refl h
  · rw [e]
    exact step_trans (step_processAck h sp ack level rcvTime hs hl)
      (step_setLossDetectionTimer _ now)

theorem thr_ReceivedAck (h : sentPacketHandler) (ack : AckFrame) (level : EncryptionLevel)
    (rcvTime now : Int) (r : Option qerr.QuicError × sentPacketHandler)
    (hr : h.ReceivedAck ack level rcvTime now = some r) (hT : Thr h) : Thr r.2 := by
  obtain ⟨sp, hs, hc⟩ := ReceivedAck_cases h ack level rcvTime now r hr
  rcases hc with ⟨_, e⟩ | ⟨_, hl, _, e⟩
  · rw [e]; exact hT
  · rw [e]
    intro s
    exact thrAt_sameCore (setLossDetectionTimer_sameCore _ now) s
      (thr_processAck h sp ack level rcvTime hT s)

/-! ### Dropping a packet number space -/

theorem settle_dropped (history : List Packet) :
    (settle (fun _ => Fate.dropped) history).1 = []
      ∧ (settle (fun _ => Fate.dropped) history).2.2 = [] := by
  induction history with
  | nil => exact ⟨rfl, rfl⟩
  | cons p history ih =>
    simp only [settle]
    cases ho : p.outstanding <;> simp [ih.1, ih.2]

/-- The step to a handler that differs in that the packet number space `s0`,
which has no outstanding packets, was dropped. -/
theorem step_drop (h g : sentPacketHandler) (s0 : PNSpace)
    (hsp : ∀ s, g.space s = if s = s0 then none else h.space s)
    (hb : g.bytesInFlight = h.bytesInFlight) (hc : g.callbacks = h.callbacks)
    (hz : spaceBytes (h.space s0) = 0) : Step h g := by
  have hU : Inv h → Inv g
      ∧ (h.bytesInFlight = h.bytesOutstanding → g.bytesInFlight = g.bytesOutstanding) := by
    intro hI
    apply inv_update h g s0 none hsp
    · rw [hb, hz]; simp [spaceBytes]
    · intro sp hsp1; cases hsp1
    · intro s sp _ hs
      rw [hc]
      exact hI.spaces s sp hs
  refine ⟨fun hI => (hU hI).1, ?_, ?_, fun hI => (hU hI).2⟩
  · intro _ packet hT
    constructor
    · unfold sentPacketHandler.fired
      rw [hc]
      exact hT.once
    · intro sp hs
      rw [hsp] at hs
      split at hs
      · cases hs
      · exact hT.sent sp hs
    · intro sp hs
      rw [hsp] at hs
      split at hs
      · cases hs
      · exact hT.same sp hs
  · exact ⟨[], by rw [hc, List.append_nil]⟩

theorem thrAt_drop (h g : sentPacketHandler) (s0 : PNSpace)
    (hsp : ∀ s, g.space s = if s = s0 then none else h.space s) (s : PNSpace)
    (hT : ThrAt h s) : ThrAt g s := by
  intro sp hs
  rw [hsp] at hs
  split at hs
  · cases hs
  · exact hT sp hs

/-- After all packets of a space were settled as dropped, the space has no
outstanding packets. -/
theorem spaceBytes_settle_dropped (h : sentPacketHandler) (level : EncryptionLevel) :
    spaceBytes ((h.settlePackets level (fun _ => Fate.dropped)).space (spaceOf level)) = 0 := by
  cases hs : h.space (spaceOf level) with
  | none => rw [settlePackets_none h level _ hs, hs]; rfl
  | some sp =>
    rw [(settlePackets_some h level _ sp hs).1, if_pos rfl]
    show bytesOutstanding (settle (fun _ => Fate.dropped) sp.history).1 = 0
    rw [(settle_dropped sp.history).1]
    rfl

theorem step_dropPackets (h : sentPacketHandler) (level : EncryptionLevel) :
    Step h (h.dropPackets level) := by
  cases level
  · apply step_trans (step_settlePackets h EncryptionLevel.EncryptionInitial (fun _ => Fate.dropped))
    apply step_drop _ _ PNSpace.initial
    · intro s; cases s <;> rfl
    · rfl
    · rfl
    · exact spaceBytes_settle_dropped h EncryptionLevel.EncryptionInitial
  · apply step_trans (step_settlePackets h EncryptionLevel.EncryptionHandshake
      (fun _ => Fate.dropped))
    apply step_drop _ _ PNSpace.handshake
    · intro s; cases s <;> rfl
    · rfl
    · rfl
    · exact spaceBytes_settle_dropped h EncryptionLevel.EncryptionHandshake
  · apply step_trans (step_settlePackets h EncryptionLevel.Encryption0RTT _)
    exact step_of_sameCore ⟨fun s => by cases s <;> rfl, rfl, rfl⟩
  · apply step_trans (step_settlePackets h EncryptionLevel.Encryption1RTT _)
    exact step_of_sameCore ⟨fun s => by cases s <;> rfl, rfl, rfl⟩

theorem thrAt_dropPackets (h : sentPacketHandler) (level : EncryptionLevel) (s : PNSpace)
    (hT : ThrAt h s) : ThrAt (h.dropPackets level) s := by
  cases level
  · apply thrAt_drop (h.settlePackets EncryptionLevel.EncryptionInitial (fun _ => Fate.dropped))
      _ PNSpace.initial (fun s => by cases s <;> rfl)
    exact thrAt_settlePackets h _ _ s hT
  · apply thrAt_drop (h.settlePackets EncryptionLevel.EncryptionHandshake
      (fun _ => Fate.dropped)) _ PNSpace.handshake (fun s => by cases s <;> rfl)
    exact thrAt_settlePackets h _ _ s hT
  · apply thrAt_sameCore (h := h.settlePackets EncryptionLevel.Encryption0RTT
      (fun p => if p.EncryptionLevel = EncryptionLevel.Encryption0RTT then Fate.retransmitted
        else Fate.keep)) ⟨fun s => by cases s <;> rfl, rfl, rfl⟩
    exact thrAt_settlePackets h _ _ s hT
  · apply thrAt_sameCore (h := h.settlePackets EncryptionLevel.Encryption1RTT
      (fun p => if p.EncryptionLevel = EncryptionLevel.Encryption1RTT then Fate.dropped
        else Fate.keep)) ⟨fun s => by cases s <;> rfl, rfl, rfl⟩
    exact thrAt_settlePackets h _ _ s hT

theorem step_DropPackets (h : sentPacketHandler) (level : EncryptionLevel) (now : Int) :
    Step h (h.DropPackets level now) := by
  unfold sentPacketHandler.DropPackets
  split
  · exact step_refl h
  · exact step_trans (step_dropPackets h level) (step_setLossDetectionTimer _ now)

theorem thr_DropPackets (h : sentPacketHandler) (level : EncryptionLevel) (now : Int)
    (hT : Thr h) : Thr (h.DropPackets level now) := by
  unfold sentPacketHandler.DropPackets
  split
  · exact hT
  · intro s
    exact thrAt_sameCore (setLossDetectionTimer_sameCore _ now) s
      (thrAt_dropPackets h level s (hT s))

/-! ### Sending a packet -/

theorem bytesOutstanding_append (a b : List Packet) :
    bytesOutstanding (a ++ b) = bytesOutstanding a + bytesOutstanding b := by
  simp [bytesOutstanding]

theorem bytesOutstanding_skippedPackets (largestSent : Int) (packet : Packet) :
    bytesOutstanding (skippedPackets largestSent packet) = 0 := by
  unfold bytesOutstanding
  rw [List.filter_eq_nil_iff.2]
  · rfl
  · intro q hq
    have := (mem_skippedPackets _ _ q hq).2.2.2.1
    simp [Packet.outstanding, this]

theorem sentPacketImpl_space (h : sentPacketHandler) (sp : packetNumberSpace)
    (packet : Packet) (s : PNSpace) :
    (h.sentPacketImpl sp packet).space s
      = if s = spaceOf packet.EncryptionLevel then some (sentSpace sp packet)
        else h.space s := by
  rw [← space_setPacketNumberSpace]
  cases s <;> rfl

theorem sentPacketImpl_callbacks (h : sentPacketHandler) (sp : packetNumberSpace)
    (packet : Packet) : (h.sentPacketImpl sp packet).callbacks = h.callbacks :=
  callbacks_setPacketNumberSpace h _ _

theorem sentSpace_inv (s : PNSpace) (sp : packetNumberSpace) (packet : Packet)
    (callbacks : List Callback) (hI : SpaceInv s sp callbacks)
    (hlevel : spaceOf packet.EncryptionLevel = s)
    (hpn : sp.largestSent < packet.PacketNumber) :
    SpaceInv s (sentSpace sp packet) callbacks := by
  refine spaceInv_sent hI (sentSpace sp packet) packet
    (if (!packet.Frames.isEmpty) = true then
      [{ packet with declaredLost := false, skippedPacket := false }] else [])
    ?_ hlevel hpn rfl rfl rfl
  split
  · exact Or.inr rfl
  · exact Or.inl rfl

theorem step_sentPacketImpl (h : sentPacketHandler) (sp : packetNumberSpace)
    (packet : Packet) (hs : h.space (spaceOf packet.EncryptionLevel) = some sp)
    (hpn : sp.largestSent < packet.PacketNumber) :
    Step h (h.sentPacketImpl sp packet) := by
  have hU : Inv h → Inv (h.sentPacketImpl sp packet)
      ∧ (h.bytesInFlight = h.bytesOutstanding →
          (h.sentPacketImpl sp packet).bytesInFlight
            = (h.sentPacketImpl sp packet).bytesOutstanding) := by
    intro hI
    apply inv_update h _ _ _ (sentPacketImpl_space h sp packet)
    · rw [hs]
      show (if (!packet.Frames.isEmpty) = true then h.bytesInFlight + packet.Length
          else h.bytesInFlight)
        = h.bytesInFlight - bytesOutstanding sp.history
          + bytesOutstanding (sentSpace sp packet).history
      unfold sentSpace
      simp only [bytesOutstanding_append, bytesOutstanding_skippedPackets]
      split
      · simp [bytesOutstanding, Packet.outstanding]
        ring
      · simp [bytesOutstanding]
    · intro sp1 hsp1
      rw [sentPacketImpl_callbacks, ← Option.some.inj hsp1]
      exact sentSpace_inv _ sp packet _ (hI.spaces _ sp hs) rfl hpn
    · intro s sp1 _ hsp1
      rw [sentPacketImpl_callbacks]
      exact hI.spaces s sp1 hsp1
  refine ⟨fun hI => (hU hI).1, ?_, ?_, fun hI => (hU hI).2⟩
  · intro hI p hT
    constructor
    · unfold sentPacketHandler.fired
      rw [sentPacketImpl_callbacks]
      exact hT.once
    · intro sp1 hsp1
      rw [sentPacketImpl_space] at hsp1
      split at hsp1
      · rename_i hs0
        rw [← Option.some.inj hsp1]
        have := hT.sent sp (hs0 ▸ hs)
        show p.PacketNumber ≤ packet.PacketNumber
        omega
      · exact hT.sent sp1 hsp1
    · intro sp1 hsp1 q hq hn
      rw [sentPacketImpl_space] at hsp1
      split at hsp1
      · rename_i hs0
        rw [← Option.some.inj hsp1] at hq
        have hle := hT.sent sp (hs0 ▸ hs)
        unfold sentSpace at hq
        simp only [List.mem_append] at hq
        rcases hq with (hq | hq) | hq
        · exact hT.same sp (hs0 ▸ hs) q hq hn
        · have := (mem_skippedPackets _ _ q hq).1
          omega
        · split at hq
          · rw [List.mem_singleton.1 hq] at hn
            have : packet.PacketNumber = p.PacketNumber := hn
            omega
          · simp at hq
      · exact hT.same sp1 hsp1 q hq hn
  · exact ⟨[], by rw [sentPacketImpl_callbacks, List.append_nil]⟩

theorem thrAt_sentPacketImpl (h : sentPacketHandler) (sp : packetNumberSpace)
    (packet : Packet) (hs : h.space (spaceOf packet.EncryptionLevel) = some sp)
    (hpn : sp.largestSent < packet.PacketNumber) (hI : Inv h) (s : PNSpace)
    (hT : ThrAt h s) : ThrAt (h.sentPacketImpl sp packet) s := by
  intro sp1 hsp1 q hq ho
  rw [sentPacketImpl_space] at hsp1
  split at hsp1
  · rename_i hs0
    rw [← Option.some.inj hsp1] at hq ⊢
    have hacked := (hI.spaces _ sp hs).acked
    show sp.largestAcked - packetThreshold < q.PacketNumber
    unfold sentSpace at hq
    simp only [List.mem_append] at hq
    rcases hq with (hq | hq) | hq
    · exact hT sp (hs0 ▸ hs) q hq ho
    · have := (mem_skippedPackets _ _ q hq).2.2.2.1
      simp [Packet.outstanding, this] at ho
    · split at hq
      · rw [List.mem_singleton.1 hq]
        show sp.largestAcked - packetThreshold < packet.PacketNumber
        unfold packetThreshold
        omega
      · simp at hq
  · exact hT sp1 hsp1 q hq ho

/-- What holds of a packet right after it was sent. -/
theorem tracked_sentPacketImpl (h : sentPacketHandler) (sp : packetNumberSpace)
    (packet : Packet) (hs : h.space (spaceOf packet.EncryptionLevel) = some sp)
    (hpn : sp.largestSent < packet.PacketNumber) (hI : Inv h) :
    Tracked packet (h.sentPacketImpl sp packet) := by
  have hsp := hI.spaces _ sp hs
  constructor
  · left
    unfold sentPacketHandler.fired
    rw [sentPacketImpl_callbacks]
    unfold callbacksOf
    rw [List.filter_eq_nil_iff]
    intro c hc
    simp only [decide_eq_true_eq, not_and]
    intro hl hn
    have := hsp.logged c hc (by rw [hl])
    omega
  · intro sp1 hsp1
    rw [sentPacketImpl_space, if_pos rfl] at hsp1
    rw [← Option.some.inj hsp1]
    exact le_refl _
  · intro sp1 hsp1 q hq hn
    rw [sentPacketImpl_space, if_pos rfl] at hsp1
    rw [← Option.some.inj hsp1] at hq
    unfold sentSpace at hq
    simp only [List.mem_append] at hq
    rcases hq with (hq | hq) | hq
    · have := hsp.bound q hq
      omega
    · have := (mem_skippedPackets _ _ q hq).2.1
      omega
    · split at hq
      · rw [List.mem_singleton.1 hq]
        exact ⟨rfl, rfl⟩
      · simp at hq

theorem step_countSentPacket (h : sentPacketHandler) (packet : Packet) :
    Step h (h.countSentPacket packet) := by
  unfold sentPacketHandler.countSentPacket
  split
  · refine step_trans ?_ (step_dropPackets _ _)
    exact step_of_sameCore ⟨fun s => by cases s <;> rfl, rfl, rfl⟩
  · exact step_of_sameCore ⟨fun s => by cases s <;> rfl, rfl, rfl⟩

theorem thr_countSentPacket (h : sentPacketHandler) (packet : Packet) (hT : Thr h) :
    Thr (h.countSentPacket packet) := by
  intro s
  unfold sentPacketHandler.countSentPacket
  split
  · apply thrAt_dropPackets
    exact thrAt_sameCore (h := h) ⟨fun s => by cases s <;> rfl, rfl, rfl⟩ s (hT s)
  · exact thrAt_sameCore (h := h) ⟨fun s => by cases s <;> rfl, rfl, rfl⟩ s (hT s)

/-- The outcome of `SentPacket`, when it returns. -/
theorem SentPacket_cases (h g : sentPacketHandler) (packet : Packet) (now : Int)
    (hg : h.SentPacket packet now = some g) :
    ∃ sp, (h.countSentPacket packet).space (spaceOf packet.EncryptionLevel) = some sp
      ∧ sp.largestSent < packet.PacketNumber
      ∧ g = ((h.countSentPacket packet).sentPacketImpl sp packet).setLossDetectionTimer now := by
  unfold sentPacketHandler.SentPacket at hg
  rw [getPacketNumberSpace_eq_space] at hg
  cases hs : (h.countSentPacket packet).space (spaceOf packet.EncryptionLevel) with
  | none => rw [hs] at hg; cases hg
  | some sp =>
    rw [hs] at hg
    simp only [] at hg
    split at hg
    · cases hg
    · rename_i hpn
      exact ⟨sp, rfl, by omega, (Option.some.inj hg).symm⟩

theorem step_SentPacket (h g : sentPacketHandler) (packet : Packet) (now : Int)
    (hg : h.SentPacket packet now = some g) : Step h g := by
  obtain ⟨sp, hs, hpn, e⟩ := SentPacket_cases h g packet now hg
  rw [e]
  exact step_trans (step_countSentPacket h packet)
    (step_trans (step_sentPacketImpl _ sp packet hs hpn) (step_setLossDetectionTimer _ now))

theorem thr_SentPacket (h g : sentPacketHandler) (packet : Packet) (now : Int)
    (hg : h.SentPacket packet now = some g) (hI : Inv h) (hT : Thr h) : Thr g := by
  obtain ⟨sp, hs, hpn, e⟩ := SentPacket_cases h g packet now hg
  rw [e]
  intro s
  apply thrAt_sameCore (setLossDetectionTimer_sameCore _ now)
  exact thrAt_sentPacketImpl _ sp packet hs hpn ((step_countSentPacket h packet).inv hI) s
    (thr_countSentPacket h packet hT s)

theorem tracked_SentPacket (h g : sentPacketHandler) (packet : Packet) (now : Int)
    (hg : h.SentPacket packet now = some g) (hI : Inv h) : Tracked packet g := by
  obtain ⟨sp, hs, hpn, e⟩ := SentPacket_cases h g packet now hg
  rw [e]
  apply tracked_sameCore (setLossDetectionTimer_sameCore _ now)
  exact tracked_sentPacketImpl _ sp packet hs hpn ((step_countSentPacket h packet).inv hI)

/-! ### The timer, a Retry, and the other calls -/

theorem step_OnLossDetectionTimeout (h : sentPacketHandler) (now : Int) :
    Step h (h.OnLossDetectionTimeout now) := by
  unfold sentPacketHandler.OnLossDetectionTimeout
  split
  · exact step_trans (step_detectLostPackets h now _) (step_setLossDetectionTimer _ now)
  · split
    · exact step_refl h
    · refine step_trans ?_ (step_setLossDetectionTimer _ now)
      exact step_of_sameCore ⟨fun s => by cases s <;> rfl, rfl, rfl⟩

theorem thr_OnLossDetectionTimeout (h : sentPacketHandler) (now : Int) (hT : Thr h) :
    Thr (h.OnLossDetectionTimeout now) := by
  intro s
  unfold sentPacketHandler.OnLossDetectionTimeout
  split
  · apply thrAt_sameCore (setLossDetectionTimer_sameCore _ now)
    exact thrAt_detectLostPackets h now _ s (fun _ => hT s)
  · split
    · exact hT s
    · apply thrAt_sameCore (setLossDetectionTimer_sameCore _ now)
      exact thrAt_sameCore (h := h) ⟨fun s => by cases s <;> rfl, rfl, rfl⟩ s (hT s)

theorem SetHandshakeConfirmed_sameCore (h : sentPacketHandler) (now : Int) :
    SameCore h (h.SetHandshakeConfirmed now) := by
  unfold sentPacketHandler.SetHandshakeConfirmed
  refine sameCore_trans ?_ (setLossDetectionTimer_sameCore _ now)
  exact ⟨fun s => by cases s <;> rfl, rfl, rfl⟩

theorem ReceivedBytes_sameCore (h : sentPacketHandler) (n : Int) :
    SameCore h (h.ReceivedBytes n) :=
  ⟨fun s => by cases s <;> rfl, rfl, rfl⟩

theorem ReceivedPacket_sameCore (h : sentPacketHandler) (level : EncryptionLevel) :
    SameCore h (h.ReceivedPacket level) := by
  unfold sentPacketHandler.ReceivedPacket
  split
  · exact ⟨fun s => by cases s <;> rfl, rfl, rfl⟩
  · exact sameCore_refl h

/-- After all packets of a space were settled as lost, none is outstanding. -/
theorem noOutstanding_settle_lost (h : sentPacketHandler) (level : EncryptionLevel) :
    NoOutstanding (h.settlePackets level (fun _ => Fate.lost)) (spaceOf level) := by
  cases hs : h.space (spaceOf level) with
  | none =>
    rw [settlePackets_none h level _ hs]
    intro sp hsp
    rw [hs] at hsp
    cases hsp
  | some sp =>
    intro sp1 hsp1 q hq
    rw [(settlePackets_some h level _ sp hs).1, if_pos rfl] at hsp1
    rw [← Option.some.inj hsp1] at hq
    obtain ⟨p, hp, _, _, _, _, _, hc⟩ := settle_history _ sp.history q hq
    rcases hc with ⟨rfl, hk⟩ | ⟨rfl, _, _⟩
    · rcases hk with hk | ⟨_, hk⟩
      · cases hk
      · exact hk
    · simp [Packet.outstanding]

theorem noOutstanding_settlePackets (h : sentPacketHandler) (level : EncryptionLevel)
    (fate : Packet → Fate) (s : PNSpace) (hN : NoOutstanding h s) :
    NoOutstanding (h.settlePackets level fate) s := by
  cases hs : h.space (spaceOf level) with
  | none => rw [settlePackets_none h level _ hs]; exact hN
  | some sp =>
    intro sp1 hsp1 q hq
    rw [(settlePackets_some h level _ sp hs).1] at hsp1
    split at hsp1
    · rename_i hs0
      rw [← Option.some.inj hsp1] at hq
      obtain ⟨p, hp, _, _, _, _, _, hc⟩ := settle_history _ sp.history q hq
      rcases hc with ⟨rfl, _⟩ | ⟨rfl, _, _⟩
      · exact hN sp (hs0 ▸ hs) q hp
      · simp [Packet.outstanding]
    · exact hN sp1 hsp1 q hq

theorem spaceBytes_noOutstanding (h : sentPacketHandler) (s : PNSpace)
    (hN : NoOutstanding h s) : spaceBytes (h.space s) = 0 := by
  cases hs : h.space s with
  | none => rfl
  | some sp =>
    show bytesOutstanding sp.history = 0
    unfold bytesOutstanding
    rw [List.filter_eq_nil_iff.2]
    · rfl
    · intro q hq
      rw [hN sp hs q hq]
      simp

/-- After the 0-RTT packets of the application data space were settled as lost,
no packet of the space is outstanding, if only 0-RTT packets were. -/
theorem noOutstanding_settle_0RTT (h : sentPacketHandler)
    (hok : ∀ p ∈ h.appDataPackets.history, p.outstanding = true →
      p.EncryptionLevel = EncryptionLevel.Encryption0RTT) :
    NoOutstanding (h.settlePackets EncryptionLevel.Encryption0RTT
      (fun p => if p.EncryptionLevel = EncryptionLevel.Encryption0RTT then Fate.lost
        else Fate.keep)) PNSpace.appData := by
  intro sp1 hsp1 q hq
  have hs : h.space (spaceOf EncryptionLevel.Encryption0RTT) = some h.appDataPackets := rfl
  rw [(settlePackets_some h _ _ _ hs).1] at hsp1
  have e : spaceOf EncryptionLevel.Encryption0RTT = PNSpace.appData := rfl
  rw [e, if_pos rfl] at hsp1
  rw [← Option.some.inj hsp1] at hq
  obtain ⟨p, hp, _, _, _, _, _, hc⟩ := settle_history _ h.appDataPackets.history q hq
  rcases hc with ⟨rfl, hk⟩ | ⟨rfl, _, _⟩
  · rcases hk with hk | ⟨_, hk⟩
    · cases ho : q.outstanding with
      | false => rfl
      | true =>
        rw [if_pos (hok q hp ho)] at hk
        cases hk
    · exact hk
  · simp [Packet.outstanding]

/-- The handler of `ResetForRetry` before the bytes in flight and the counters
are reset, when only Initial and 0-RTT packets were in flight: no packet is
outstanding. -/
theorem ResetForRetry_settled (h : sentPacketHandler)
    (hok : h.onlyInitialAnd0RTTInFlight = true) :
    ∀ s, NoOutstanding
      ((h.settlePackets EncryptionLevel.EncryptionInitial (fun _ => Fate.lost)).settlePackets
        EncryptionLevel.Encryption0RTT
        (fun p => if p.EncryptionLevel = EncryptionLevel.Encryption0RTT then Fate.lost
          else Fate.keep)) s := by
  unfold sentPacketHandler.onlyInitialAnd0RTTInFlight at hok
  rw [Bool.and_eq_true] at hok
  obtain ⟨hok1, hok2⟩ := hok
  intro s
  cases s
  · exact noOutstanding_settlePackets _ _ _ _
      (noOutstanding_settle_lost h EncryptionLevel.EncryptionInitial)
  · refine noOutstanding_settlePackets _ _ _ _ (noOutstanding_settlePackets _ _ _ _ ?_)
    intro sp hsp p hp
    have hsp1 : h.handshakePackets = some sp := hsp
    rw [hsp1] at hok1
    have := List.all_eq_true.1 hok1 p hp
    simpa using this
  · apply noOutstanding_settle_0RTT
    intro p hp ho
    have hI0 : (h.settlePackets EncryptionLevel.EncryptionInitial
        (fun _ => Fate.lost)).appDataPackets = h.appDataPackets := by
      cases hs : h.space (spaceOf EncryptionLevel.EncryptionInitial) with
      | none => rw [settlePackets_none h _ _ hs]
      | some sp =>
        have := (settlePackets_some h EncryptionLevel.EncryptionInitial (fun _ => Fate.lost)
          sp hs).1 PNSpace.appData
        rw [if_neg (by decide)] at this
        exact Option.some.inj this
    rw [hI0] at hp
    have := List.all_eq_true.1 hok2 p hp
    rw [ho] at this
    simpa using this

/-- The step to a handler that differs in that the bytes in flight are reset,
when no packet is outstanding. -/
theorem step_clear (h g : sentPacketHandler) (hN : ∀ s, NoOutstanding h s)
    (hsp : ∀ s, g.space s = h.space s) (hb : g.bytesInFlight = 0)
    (hc : g.callbacks = h.callbacks) : Step h g := by
  have hz : h.bytesOutstanding = 0 := by
    unfold sentPacketHandler.bytesOutstanding
    rw [spaceBytes_noOutstanding h _ (hN _), spaceBytes_noOutstanding h _ (hN _),
      spaceBytes_noOutstanding h _ (hN _)]
    rfl
  refine ⟨?_, ?_, ?_, ?_⟩
  · intro hI
    constructor
    intro s sp hs
    rw [hsp] at hs
    rw [hc]
    exact hI.spaces s sp hs
  · intro _ packet hT
    constructor
    · unfold sentPacketHandler.fired
      rw [hc]
      exact hT.once
    · intro sp hs
      rw [hsp] at hs
      exact hT.sent sp hs
    · intro sp hs
      rw [hsp] at hs
      exact hT.same sp hs
  · exact ⟨[], by rw [hc, List.append_nil]⟩
  · intro _ _
    unfold sentPacketHandler.bytesOutstanding
    rw [hsp, hsp, hsp]
    exact hb.trans hz.symm

theorem weakStep_of_step {h g : sentPacketHandler} (s : Step h g) : WeakStep h g :=
  ⟨s.inv, s.tracked, s.callbacks⟩

theorem weakStep_refl (h : sentPacketHandler) : WeakStep h h :=
  weakStep_of_step (step_refl h)

theorem weakStep_trans {h g k : sentPacketHandler} (h1 : WeakStep h g) (h2 : WeakStep g k) :
    WeakStep h k := by
  constructor
  · exact fun hI => h2.inv (h1.inv hI)
  · exact fun hI packet hT => h2.tracked (h1.inv hI) packet (h1.tracked hI packet hT)
  · obtain ⟨a, ha⟩ := h1.callbacks
    obtain ⟨b, hb⟩ := h2.callbacks
    exact ⟨a ++ b, by rw [hb, ha, List.append_assoc]⟩

/-- The step to a handler with the same packet number spaces and callbacks,
whatever its bytes in flight. -/
theorem weakStep_clear (h g : sentPacketHandler) (hsp : ∀ s, g.space s = h.space s)
    (hc : g.callbacks = h.callbacks) : WeakStep h g := by
  refine ⟨?_, ?_, ?_⟩
  · intro hI
    constructor
    intro s sp hs
    rw [hsp] at hs
    rw [hc]
    exact hI.spaces s sp hs
  · intro _ packet hT
    constructor
    · unfold sentPacketHandler.fired
      rw [hc]
      exact hT.once
    · intro sp hs
      rw [hsp] at hs
      exact hT.sent sp hs
    · intro sp hs
      rw [hsp] at hs
      exact hT.same sp hs
  · exact ⟨[], by rw [hc, List.append_nil]⟩

/-- A call of `ResetForRetry` keeps the invariant, what holds of the packets
sent, and the callbacks invoked so far. -/
theorem weakStep_ResetForRetry (h : sentPacketHandler) (now : Int) :
    WeakStep h (h.ResetForRetry now) := by
  have h2 : Step h
      ((h.settlePackets EncryptionLevel.EncryptionInitial (fun _ => Fate.lost)).settlePackets
        EncryptionLevel.Encryption0RTT
        (fun p => if p.EncryptionLevel = EncryptionLevel.Encryption0RTT then Fate.lost
          else Fate.keep)) :=
    step_trans (step_settlePackets h _ _) (step_settlePackets _ _ _)
  refine weakStep_trans (weakStep_of_step h2) ?_
  exact weakStep_clear _ _ (fun s => by cases s <;> rfl) rfl

/-- A call of `ResetForRetry` while only Initial and 0-RTT packets are in flight
also keeps the bytes in flight in agreement with the outstanding packets. -/
theorem step_ResetForRetry (h : sentPacketHandler) (now : Int)
    (hok : h.onlyInitialAnd0RTTInFlight = true) :
    Step h (h.ResetForRetry now) := by
  have h2 : Step h
      ((h.settlePackets EncryptionLevel.EncryptionInitial (fun _ => Fate.lost)).settlePackets
        EncryptionLevel.Encryption0RTT
        (fun p => if p.EncryptionLevel = EncryptionLevel.Encryption0RTT then Fate.lost
          else Fate.keep)) :=
    step_trans (step_settlePackets h _ _) (step_settlePackets _ _ _)
  refine step_trans h2 ?_
  exact step_clear _ _ (ResetForRetry_settled h hok) (fun s => by cases s <;> rfl) rfl rfl

theorem thr_ResetForRetry (h : sentPacketHandler) (now : Int) (hT : Thr h) :
    Thr (h.ResetForRetry now) := by
  intro s
  have h2 := thrAt_settlePackets _ EncryptionLevel.Encryption0RTT
    (fun p => if p.EncryptionLevel = EncryptionLevel.Encryption0RTT then Fate.lost
      else Fate.keep) s
    (thrAt_settlePackets h EncryptionLevel.EncryptionInitial (fun _ => Fate.lost) s (hT s))
  intro sp hs
  have e : (h.ResetForRetry now).space s
      = ((h.settlePackets EncryptionLevel.EncryptionInitial (fun _ => Fate.lost)).settlePackets
        EncryptionLevel.Encryption0RTT
        (fun p => if p.EncryptionLevel = EncryptionLevel.Encryption0RTT then Fate.lost
          else Fate.keep)).space s := by
    cases s <;> rfl
  rw [e] at hs
  exact h2 sp hs

/-! ### Sequences of calls -/

/-- A call other than `ResetForRetry`, and a call of `ResetForRetry` while only
Initial and 0-RTT packets are in flight, is a step that also keeps the bytes in
flight in agreement with the outstanding packets. -/
theorem step_call_counted (h g : sentPacketHandler) (c : Call) (hg : h.call c = some g)
    (hok : ∀ now, c = Call.ResetForRetry now → h.onlyInitialAnd0RTTInFlight = true) :
    Step h g := by
  cases c with
  | SentPacket packet now => exact step_SentPacket h g packet now hg
  | ReceivedAck ack level rcvTime now =>
    simp only [sentPacketHandler.call] at hg
    cases hr : h.ReceivedAck ack level rcvTime now with
    | none => rw [hr] at hg; cases hg
    | some r =>
      rw [hr] at hg
      rw [← Option.some.inj hg]
      exact step_ReceivedAck h ack level rcvTime now r hr
  | DropPackets level now =>
    rw [← Option.some.inj hg]; exact step_DropPackets h level now
  | ResetForRetry now =>
    rw [← Option.some.inj hg]; exact step_ResetForRetry h now (hok now rfl)
  | OnLossDetectionTimeout now =>
    rw [← Option.some.inj hg]; exact step_OnLossDetectionTimeout h now
  | SetHandshakeConfirmed now =>
    rw [← Option.some.inj hg]; exact step_of_sameCore (SetHandshakeConfirmed_sameCore h now)
  | ReceivedPacket level =>
    rw [← Option.some.inj hg]; exact step_of_sameCore (ReceivedPacket_sameCore h level)
  | ReceivedBytes n =>
    rw [← Option.some.inj hg]; exact step_of_sameCore (ReceivedBytes_sameCore h n)

theorem step_call (h g : sentPacketHandler) (c : Call) (hg : h.call c = some g) :
    WeakStep h g := by
  by_cases hc : ∃ now, c = Call.ResetForRetry now
  · obtain ⟨now, rfl⟩ := hc
    rw [← Option.some.inj hg]
    exact weakStep_ResetForRetry h now
  · exact weakStep_of_step (step_call_counted h g c hg (fun now hn => absurd ⟨now, hn⟩ hc))

theorem thr_call (h g : sentPacketHandler) (c : Call) (hg : h.call c = some g)
    (hI : Inv h) (hT : Thr h) : Thr g := by
  cases c with
  | SentPacket packet now => exact thr_SentPacket h g packet now hg hI hT
  | ReceivedAck ack level rcvTime now =>
    simp only [sentPacketHandler.call] at hg
    cases hr : h.ReceivedAck ack level rcvTime now with
    | none => rw [hr] at hg; cases hg
    | some r =>
      rw [hr] at hg
      rw [← Option.some.inj hg]
      exact thr_ReceivedAck h ack level rcvTime now r hr hT
  | DropPackets level now =>
    rw [← Option.some.inj hg]; exact thr_DropPackets h level now hT
  | ResetForRetry now =>
    rw [← Option.some.inj hg]; exact thr_ResetForRetry h now hT
  | OnLossDetectionTimeout now =>
    rw [← Option.some.inj hg]; exact thr_OnLossDetectionTimeout h now hT
  | SetHandshakeConfirmed now =>
    rw [← Option.some.inj hg]
    exact fun s => thrAt_sameCore (SetHandshakeConfirmed_sameCore h now) s (hT s)
  | ReceivedPacket level =>
    rw [← Option.some.inj hg]
    exact fun s => thrAt_sameCore (ReceivedPacket_sameCore h level) s (hT s)
  | ReceivedBytes n =>
    rw [← Option.some.inj hg]
    exact fun s => thrAt_sameCore (ReceivedBytes_sameCore h n) s (hT s)

theorem handler_run_cons (c : Call) (calls : List Call) (h g : sentPacketHandler)
    (hg : sentPacketHandler.run (c :: calls) h = some g) :
    ∃ h1, h.call c = some h1 ∧ sentPacketHandler.run calls h1 = some g := by
  simp only [sentPacketHandler.run] at hg
  cases hc : h.call c with
  | none => rw [hc] at hg; cases hg
  | some h1 => rw [hc] at hg; exact ⟨h1, rfl, hg⟩

theorem step_run (calls : List Call) (h g : sentPacketHandler)
    (hg : sentPacketHandler.run calls h = some g) : WeakStep h g := by
  induction calls generalizing h with
  | nil => rw [← Option.some.inj hg]; exact weakStep_refl h
  | cons c calls ih =>
    obtain ⟨h1, hc, hr⟩ := handler_run_cons c calls h g hg
    exact weakStep_trans (step_call h h1 c hc) (ih h1 hr)

/-- A sequence of calls in which `ResetForRetry` is called only while Initial and
0-RTT packets alone are in flight is a step that keeps the bytes in flight in
agreement with the outstanding packets. -/
theorem step_run_counted (calls : List Call) (h g : sentPacketHandler)
    (hg : sentPacketHandler.run calls h = some g)
    (hok : h.retriesBeforeHandshake calls = true) : Step h g := by
  induction calls generalizing h with
  | nil => rw [← Option.some.inj hg]; exact step_refl h
  | cons c calls ih =>
    obtain ⟨h1, hc, hr⟩ := handler_run_cons c calls h g hg
    unfold sentPacketHandler.retriesBeforeHandshake at hok
    rw [hc, Bool.and_eq_true] at hok
    refine step_trans (step_call_counted h h1 c hc ?_) (ih h1 hr hok.2)
    intro now hn
    have := hok.1
    rw [hn] at this
    exact this

theorem thr_run (calls : List Call) (h g : sentPacketHandler)
    (hg : sentPacketHandler.run calls h = some g) (hI : Inv h) (hT : Thr h) : Thr g := by
  induction calls generalizing h with
  | nil => rw [← Option.some.inj hg]; exact hT
  | cons c calls ih =>
    obtain ⟨h1, hc, hr⟩ := handler_run_cons c calls h g hg
    exact ih h1 hr ((step_call h h1 c hc).inv hI) (thr_call h h1 c hc hI hT)

/-- Every packet given to `SentPacket` in a sequence of calls is tracked in the
handler after the calls. -/
theorem tracked_run (calls : List Call) (h g : sentPacketHandler)
    (hg : sentPacketHandler.run calls h = some g) (hI : Inv h) (packet : Packet) (now : Int)
    (hmem : Call.SentPacket packet now ∈ calls) : Tracked packet g := by
  induction calls generalizing h with
  | nil => simp at hmem
  | cons c calls ih =>
    obtain ⟨h1, hc, hr⟩ := handler_run_cons c calls h g hg
    have hI1 := (step_call h h1 c hc).inv hI
    rcases List.mem_cons.1 hmem with hm | hm
    · rw [← hm] at hc
      exact (step_run calls h1 g hr).tracked hI1 packet (tracked_SentPacket h h1 packet now hc hI)
    · exact ih h1 hr hI1 hm

theorem inv_new (rttStats : RTTStats) (pers : Perspective) (params : Parameters) :
    Inv (newSentPacketHandler rttStats pers params) := by
  constructor
  intro s sp hs
  have e : sp = newPacketNumberSpace := by
    cases s <;> exact (Option.some.inj hs).symm
  rw [e]
  constructor
  · exact List.Pairwise.nil
  · intro p hp; cases hp
  · intro p hp; cases hp
  · exact le_refl _
  · intro p hp; cases hp
  · intro p hp; cases hp
  · intro c hc; cases hc

theorem thr_new (rttStats : RTTStats) (pers : Perspective) (params : Parameters) :
    Thr (newSentPacketHandler rttStats pers params) := by
  intro s sp hs p hp
  have e : sp = newPacketNumberSpace := by
    cases s <;> exact (Option.some.inj hs).symm
  rw [e] at hp
  cases hp

/-! ### The history and the callbacks after an ACK frame was processed -/

theorem settle_keep_mem (fate : Packet → Fate) (history : List Packet) (p : Packet)
    (hp : p ∈ history) (hk : fate p = Fate.keep) : p ∈ (settle fate history).1 := by
  induction history with
  | nil => simp at hp
  | cons q history ih =>
    rcases List.mem_cons.1 hp with h | h
    · subst h
      simp [settle, hk]
    · have := ih h
      simp only [settle]
      cases hf : fate q <;> cases ho : q.outstanding <;> simp [this]

theorem settle_lost_mem (fate : Packet → Fate) (history : List Packet) (p : Packet)
    (hp : p ∈ history) (ho : p.outstanding = true) (hl : fate p = Fate.lost) :
    { p with declaredLost := true } ∈ (settle fate history).1 := by
  induction history with
  | nil => simp at hp
  | cons q history ih =>
    rcases List.mem_cons.1 hp with h | h
    · subst h
      simp [settle, hl, ho]
    · have := ih h
      simp only [settle]
      cases hf : fate q <;> cases hq : q.outstanding <;> simp [this]

/-- The callbacks invoked by loss detection are the on-lost callbacks of the
outstanding packets that are lost, in the order of the history. -/
theorem settle_lossFate_callbacks (largestAcked threshold now : Int) (history : List Packet) :
    (settle (lossFate largestAcked threshold now) history).2.2
      = (history.filter (fun p => p.outstanding && isLost largestAcked threshold now p)).flatMap
          onLostCallbacks := by
  induction history with
  | nil => rfl
  | cons p history ih =>
    simp only [settle, lossFate]
    cases hl : isLost largestAcked threshold now p <;> cases ho : p.outstanding <;>
      simp [List.filter_cons, hl, ho, ← ih, lossFate]

/-- The callbacks invoked for the packets that an ACK frame acknowledges are
on-acked callbacks. -/
theorem settle_acked_callbacks (ack : AckFrame) (history : List Packet) :
    ∀ c ∈ (settle (fun p => if ack.AcksPacket p.PacketNumber then Fate.acked else Fate.keep)
      history).2.2, c.OnAcked = true := by
  induction history with
  | nil => intro c hc; simp [settle] at hc
  | cons p history ih =>
    intro c hc
    simp only [settle] at hc
    cases ha : ack.AcksPacket p.PacketNumber <;> cases ho : p.outstanding <;>
      simp only [ha, ho, if_true, if_false, Bool.false_eq_true] at hc
    · exact ih c hc
    · exact ih c hc
    · exact ih c hc
    · rcases List.mem_append.1 hc with hc | hc
      · obtain ⟨f, _, rfl⟩ := List.mem_map.1 hc
        rfl
      · exact ih c hc

theorem rttStats_setLossDetectionTimer (h : sentPacketHandler) (now : Int) :
    (h.setLossDetectionTimer now).rttStats = h.rttStats
      ∧ (h.setLossDetectionTimer now).params = h.params := by
  unfold sentPacketHandler.setLossDetectionTimer
  split
  · exact ⟨rfl, rfl⟩
  · split <;> exact ⟨rfl, rfl⟩

theorem rttStats_resetPTOCount (h : sentPacketHandler) (acked : List Packet)
    (level : EncryptionLevel) :
    (h.resetPTOCount acked level).rttStats = h.rttStats
      ∧ (h.resetPTOCount acked level).params = h.params := by
  unfold sentPacketHandler.resetPTOCount
  split <;> exact ⟨rfl, rfl⟩

/-- The handler after an ACK frame was processed: the packets that the frame
acknowledges were settled first, and then the packets that are lost, with the
time threshold of the handler after the ACK. -/
theorem processAck_shape (h : sentPacketHandler) (sp : packetNumberSpace) (ack : AckFrame)
    (level : EncryptionLevel) (rcvTime now : Int) (g : sentPacketHandler)
    (hg : g = (h.processAck sp ack level rcvTime).setLossDetectionTimer now) :
    ∃ lossTime,
      g.space (spaceOf level) = some
        { sp with
            largestAcked := max sp.largestAcked ack.LargestAcked
            history := (settle (lossFate (max sp.largestAcked ack.LargestAcked)
                (timeThreshold g.rttStats g.params) rcvTime)
              (settle (fun p => if ack.AcksPacket p.PacketNumber then Fate.acked else Fate.keep)
                sp.history).1).1
            lossTime := lossTime }
      ∧ g.callbacks = h.callbacks
          ++ (settle (fun p => if ack.AcksPacket p.PacketNumber then Fate.acked else Fate.keep)
                sp.history).2.2
          ++ (settle (lossFate (max sp.largestAcked ack.LargestAcked)
                (timeThreshold g.rttStats g.params) rcvTime)
              (settle (fun p => if ack.AcksPacket p.PacketNumber then Fate.acked else Fate.keep)
                sp.history).1).2.2 := by
  -- the stages
  have c2 := peerValidated_sameCore (h.setLargestAcked sp ack level) level
  have s1 : (h.setLargestAcked sp ack level).space (spaceOf level)
      = some { sp with largestAcked := max sp.largestAcked ack.LargestAcked } := by
    unfold sentPacketHandler.setLargestAcked
    rw [space_setPacketNumberSpace, if_pos rfl]
  have s2 : ((h.setLargestAcked sp ack level).peerValidated level).space (spaceOf level)
      = some { sp with largestAcked := max sp.largestAcked ack.LargestAcked } := by
    rw [c2.space, s1]
  have cb2 : ((h.setLargestAcked sp ack level).peerValidated level).callbacks = h.callbacks := by
    rw [c2.callbacks]
    unfold sentPacketHandler.setLargestAcked
    exact callbacks_setPacketNumberSpace _ _ _
  obtain ⟨s3, _, cb3, _, _⟩ := settlePackets_some
    ((h.setLargestAcked sp ack level).peerValidated level) level
    (fun p => if ack.AcksPacket p.PacketNumber then Fate.acked else Fate.keep) _ s2
  have s3 := s3 (spaceOf level)
  rw [if_pos rfl] at s3
  rw [cb2] at cb3
  have c4 := confirmAcked_sameCore
    (((h.setLargestAcked sp ack level).peerValidated level).removeAckedPackets ack level)
    (sp.newlyAcked ack) level
  have c5 := updateRTT_sameCore
    ((((h.setLargestAcked sp ack level).peerValidated level).removeAckedPackets
      ack level).confirmAcked (sp.newlyAcked ack) level) (sp.newlyAcked ack)
    (decide (sp.largestAcked < ack.LargestAcked)) ack level rcvTime
  have c45 := sameCore_trans c4 c5
  have s5 := (c45.space (spaceOf level)).trans s3
  have cb5 := c45.callbacks.trans cb3
  obtain ⟨lossTime, e6⟩ := detectLostPackets_some _ rcvTime level _ s5
  obtain ⟨_, _, cb6, r6, p6⟩ := settlePackets_some _ level
    (lossFate (max sp.largestAcked ack.LargestAcked)
      (timeThreshold
        (((((h.setLargestAcked sp ack level).peerValidated level).removeAckedPackets
          ack level).confirmAcked (sp.newlyAcked ack) level).updateRTT (sp.newlyAcked ack)
          (decide (sp.largestAcked < ack.LargestAcked)) ack level rcvTime).rttStats
        (((((h.setLargestAcked sp ack level).peerValidated level).removeAckedPackets
          ack level).confirmAcked (sp.newlyAcked ack) level).updateRTT (sp.newlyAcked ack)
          (decide (sp.largestAcked < ack.LargestAcked)) ack level rcvTime).params) rcvTime) _ s5
  have c7 := sameCore_trans (resetPTOCount_sameCore
    ((((((h.setLargestAcked sp ack level).peerValidated level).removeAckedPackets
      ack level).confirmAcked (sp.newlyAcked ack) level).updateRTT (sp.newlyAcked ack)
      (decide (sp.largestAcked < ack.LargestAcked)) ack level rcvTime).detectLostPackets
      rcvTime level) (sp.newlyAcked ack) level) (setLossDetectionTimer_sameCore _ now)
  have hr : g.rttStats = (((((h.setLargestAcked sp ack level).peerValidated
      level).removeAckedPackets ack level).confirmAcked (sp.newlyAcked ack) level).updateRTT
      (sp.newlyAcked ack) (decide (sp.largestAcked < ack.LargestAcked)) ack level
      rcvTime).rttStats
    ∧ g.params = (((((h.setLargestAcked sp ack level).peerValidated
      level).removeAckedPackets ack level).confirmAcked (sp.newlyAcked ack) level).updateRTT
      (sp.newlyAcked ack) (decide (sp.largestAcked < ack.LargestAcked)) ack level
      rcvTime).params := by
    rw [hg]
    unfold sentPacketHandler.processAck
    rw [(rttStats_setLossDetectionTimer _ now).1, (rttStats_setLossDetectionTimer _ now).2,
      (rttStats_resetPTOCount _ _ _).1, (rttStats_resetPTOCount _ _ _).2, e6,
      rttStats_setPacketNumberSpace, params_setPacketNumberSpace, r6, p6]
    exact ⟨rfl, rfl⟩
  refine ⟨lossTime, ?_, ?_⟩
  · rw [hr.1, hr.2, hg]
    unfold sentPacketHandler.processAck
    rw [c7.space, e6, space_setPacketNumberSpace, if_pos rfl]
  · rw [hr.1, hr.2, hg]
    unfold sentPacketHandler.processAck
    rw [c7.callbacks, e6, callbacks_setPacketNumberSpace, cb6, cb5]

/-! ### Bytes in flight, ACKs for unsent packets, and the PTO timer -/

/-- Claim C16 fails as stated. A client sends an ack-eliciting Handshake packet of
length 1 and calls `ResetForRetry`, which declares the Initial and the 0-RTT
packets lost and clears the bytes in flight: the Handshake packet is still
outstanding, so the bytes in flight are 0 and the lengths of the outstanding
packets sum to 1. -/
theorem bytesInFlight_cleared_by_ResetForRetry :
    ∃ h, sentPacketHandler.run
          [Call.SentPacket (ackElicitingPacket 0 EncryptionLevel.EncryptionHandshake 100) 100,
            Call.ResetForRetry 200]
          testClientHandler
        = some h
      ∧ h.bytesInFlight = 0 ∧ h.bytesOutstanding = 1 :=
  ⟨_, rfl, by decide, by decide⟩

/-- Claim C16, amended. After every sequence of calls of `SentPacket`,
`ReceivedAck`, `DropPackets`, `ResetForRetry` and `OnLossDetectionTimeout` (and
of `SetHandshakeConfirmed`, `ReceivedPacket` and `ReceivedBytes`) on a new sent
packet handler in which `ResetForRetry` is called only while the packets in
flight are Initial and 0-RTT packets, `bytesInFlight` is the sum of the lengths
of the packets of the three packet number spaces that were sent as
ack-eliciting packets and have been neither acknowledged, nor declared lost, nor
dropped. -/
theorem bytesInFlight_eq_sum_of_outstanding (rttStats : RTTStats) (pers : Perspective)
    (params : Parameters) (calls : List Call) (h : sentPacketHandler)
    (hrun : sentPacketHandler.run calls (newSentPacketHandler rttStats pers params) = some h)
    (hretry : (newSentPacketHandler rttStats pers params).retriesBeforeHandshake calls
      = true) :
    h.bytesInFlight = h.bytesOutstanding :=
  (step_run_counted calls _ h hrun hretry).bytes (inv_new rttStats pers params) rfl

/-- Claim C19. `ReceivedAck` returns the PROTOCOL_VIOLATION error "Received ACK for an
unsent packet" whenever the largest acknowledged packet number of the frame
exceeds the largest packet number sent in the packet number space of the
encryption level, and the handler, with its bytes in flight and its packet
history, is then as it was before the call. -/
theorem ReceivedAck_unsent_packet (h : sentPacketHandler) (ack : AckFrame)
    (level : EncryptionLevel) (rcvTime now : Int) (sp : packetNumberSpace)
    (hs : h.getPacketNumberSpace level = some sp)
    (hl : sp.largestSent < ack.LargestAcked) :
    h.ReceivedAck ack level rcvTime now
      = some (some { ErrorCode := qerr.ErrorCode.ProtocolViolation
                     ErrorMessage := "Received ACK for an unsent packet" }, h) := by
  unfold sentPacketHandler.ReceivedAck
  rw [hs]
  simp only [if_pos hl]
  rfl

/-- Claim C20, amended. With the handshake confirmed, no loss time pending, and a single
ack-eliciting packet outstanding in the application data space that was sent at
the time `t`, the last ack-eliciting send time of the space, the timeout
returned by `GetLossDetectionTimeout` once the timer is armed is
`t + PTO · 2 ^ ptoCount`: for a PTO count 0, 1, 2 the distance of the timeout from
the send time is 1, 2 and 4 times the PTO. -/
theorem pto_timeout_exponential_backoff (h : sentPacketHandler) (packet : Packet) (now : Int)
    (hconfirmed : h.handshakeConfirmed = true)
    (hloss : h.getLossTimeAndSpace = none)
    (hsingle : h.appDataPackets.history.filter (fun p => p.outstanding) = [packet])
    (hsent : h.appDataPackets.lastAckElicitingPacketTime = packet.SendTime) :
    (h.setLossDetectionTimer now).GetLossDetectionTimeout
        = packet.SendTime + h.rttStats.PTO h.params true * 2 ^ h.ptoCount
      ∧ (∀ k : Nat, (({ h with ptoCount := k }).setLossDetectionTimer now).GetLossDetectionTimeout
          - packet.SendTime = 2 ^ k * h.rttStats.PTO h.params true)
      ∧ (({ h with ptoCount := 0 }).setLossDetectionTimer now).GetLossDetectionTimeout
          - packet.SendTime = h.rttStats.PTO h.params true
      ∧ (({ h with ptoCount := 1 }).setLossDetectionTimer now).GetLossDetectionTimeout
          - packet.SendTime = 2 * h.rttStats.PTO h.params true
      ∧ (({ h with ptoCount := 2 }).setLossDetectionTimer now).GetLossDetectionTimeout
          - packet.SendTime = 4 * h.rttStats.PTO h.params true := by
  have hout : h.appDataPackets.hasOutstandingPackets = true := by
    unfold packetNumberSpace.hasOutstandingPackets
    rw [List.any_eq_true]
    have hm : packet ∈ h.appDataPackets.history.filter (fun p => p.outstanding) := by
      rw [hsingle]; exact List.mem_singleton.2 rfl
    rw [List.mem_filter] at hm
    exact ⟨packet, hm.1, hm.2⟩
  have key : ∀ k : Nat,
      (({ h with ptoCount := k }).setLossDetectionTimer now).GetLossDetectionTimeout
        = packet.SendTime + h.rttStats.PTO h.params true * 2 ^ k := by
    intro k
    have hl : ({ h with ptoCount := k } : sentPacketHandler).getLossTimeAndSpace = none := hloss
    have hp : ({ h with ptoCount := k } : sentPacketHandler).getPTOTimeAndSpace now
        = some (packet.SendTime + h.rttStats.PTO h.params true * 2 ^ k,
            EncryptionLevel.Encryption1RTT) := by
      unfold sentPacketHandler.getPTOTimeAndSpace
      simp only [hconfirmed, hout, if_true, hsent]
    unfold sentPacketHandler.setLossDetectionTimer sentPacketHandler.GetLossDetectionTimeout
    rw [hl]
    simp only [hp]
  refine ⟨key h.ptoCount, ?_, ?_, ?_, ?_⟩
  · intro k; rw [key k]; ring
  · rw [key 0]; ring
  · rw [key 1]; ring
  · rw [key 2]; ring

/-! ### Loss detection by the packet threshold -/

/-- Claim C18. When `ReceivedAck` processes an ACK frame whose largest acknowledged
packet number is `L`, in a handler reached by a sequence of calls, then every
outstanding packet of the packet number space that the frame does not
acknowledge and whose packet number is at most `L - 3` is declared lost: it is
flagged in the history and its on-lost callbacks were invoked, after the on-acked
callbacks of the call and in increasing order of the packet numbers of the lost
packets. The outstanding packets that the frame does not acknowledge, whose
packet number is above `L - 3` and that were sent less than the time threshold
before the ACK was received, stay outstanding, and no callback of theirs is
invoked. -/
theorem packet_threshold_loss (rttStats : RTTStats) (pers : Perspective) (params : Parameters)
    (calls : List Call) (h g : sentPacketHandler) (ack : AckFrame) (level : EncryptionLevel)
    (rcvTime now : Int) (sp : packetNumberSpace)
    (hrun : sentPacketHandler.run calls (newSentPacketHandler rttStats pers params) = some h)
    (hs : h.getPacketNumberSpace level = some sp)
    (hack : h.ReceivedAck ack level rcvTime now = some (none, g)) :
    ∃ (sp1 : packetNumberSpace) (acked : List Callback) (lost : List Packet),
      g.getPacketNumberSpace level = some sp1
      ∧ g.callbacks = h.callbacks ++ acked ++ lost.flatMap onLostCallbacks
      ∧ (∀ c ∈ acked, c.OnAcked = true)
      ∧ lost.Pairwise (fun p q => p.PacketNumber < q.PacketNumber)
      ∧ (∀ p ∈ lost, p ∈ sp.history ∧ p.outstanding = true
          ∧ ack.AcksPacket p.PacketNumber = false)
      ∧ (∀ p ∈ sp.history, p.outstanding = true → ack.AcksPacket p.PacketNumber = false →
          p.PacketNumber ≤ ack.LargestAcked - 3 →
            p ∈ lost ∧ { p with declaredLost := true } ∈ sp1.history
              ∧ g.fired p = onLostCallbacks p)
      ∧ (∀ p ∈ sp.history, p.outstanding = true → ack.AcksPacket p.PacketNumber = false →
          ack.LargestAcked - 3 < p.PacketNumber →
          rcvTime - timeThreshold g.rttStats g.params < p.SendTime →
            p ∈ sp1.history ∧ p ∉ lost ∧ g.fired p = []) := by
  have hI : Inv h := (step_run calls _ h hrun).inv (inv_new rttStats pers params)
  have hT : Thr h := thr_run calls _ h hrun (inv_new rttStats pers params)
    (thr_new rttStats pers params)
  have hIg : Inv g := (step_ReceivedAck h ack level rcvTime now _ hack).inv hI
  rw [getPacketNumberSpace_eq_space] at hs
  obtain ⟨sp0, hs0, hc⟩ := ReceivedAck_cases h ack level rcvTime now _ hack
  rw [hs] at hs0
  rw [← Option.some.inj hs0] at hc
  rcases hc with ⟨hne, _⟩ | ⟨_, hle, _, hg⟩
  · exact absurd rfl hne
  obtain ⟨lossTime, hsp1, hcb⟩ := processAck_shape h sp ack level rcvTime now g hg
  have hsp := hI.spaces _ sp hs
  have hsorted := settle_sorted
    (fun p : Packet => if ack.AcksPacket p.PacketNumber then Fate.acked else Fate.keep) sp.history
    hsp.sorted
  have hkeep : ∀ p ∈ sp.history, ack.AcksPacket p.PacketNumber = false →
      p ∈ (settle (fun p : Packet => if ack.AcksPacket p.PacketNumber then Fate.acked else Fate.keep)
        sp.history).1 := by
    intro p hp ha
    apply settle_keep_mem _ _ p hp
    simp [ha]
  cases hx : g.space (spaceOf level) with
  | none => rw [hx] at hsp1; cases hsp1
  | some sp1 =>
  rw [hx] at hsp1
  have e : sp1.history = (settle (lossFate (max sp.largestAcked ack.LargestAcked)
      (timeThreshold g.rttStats g.params) rcvTime)
      (settle (fun p : Packet => if ack.AcksPacket p.PacketNumber then Fate.acked
        else Fate.keep) sp.history).1).1 := by
    rw [Option.some.inj hsp1]
  refine ⟨sp1, (settle (fun p : Packet => if ack.AcksPacket p.PacketNumber then Fate.acked
      else Fate.keep) sp.history).2.2,
    ((settle (fun p : Packet => if ack.AcksPacket p.PacketNumber then Fate.acked
      else Fate.keep) sp.history).1.filter (fun p => p.outstanding
        && isLost (max sp.largestAcked ack.LargestAcked) (timeThreshold g.rttStats g.params)
          rcvTime p)), ?_, ?_, ?_, ?_, ?_, ?_, ?_⟩
  · rw [getPacketNumberSpace_eq_space]; exact hx
  · rw [hcb, settle_lossFate_callbacks]
  · exact settle_acked_callbacks ack sp.history
  · exact hsorted.filter _
  · intro p hp
    rw [List.mem_filter] at hp
    obtain ⟨hp, hol⟩ := hp
    rw [Bool.and_eq_true] at hol
    obtain ⟨p0, hp0, _, _, _, _, _, hc⟩ := settle_history _ sp.history p hp
    rcases hc with ⟨rfl, hk⟩ | ⟨rfl, hk, _⟩
    · refine ⟨hp0, hol.1, ?_⟩
      rcases hk with hk | ⟨hk, _⟩
      · by_contra hacked
        simp only [Bool.not_eq_false] at hacked
        simp [hacked] at hk
      · split at hk <;> cases hk
    · split at hk <;> cases hk
  · intro p hp ho ha hpn
    have hl : isLost (max sp.largestAcked ack.LargestAcked)
        (timeThreshold g.rttStats g.params) rcvTime p = true := by
      unfold isLost packetThreshold
      simp only [Bool.or_eq_true, decide_eq_true_eq]
      left
      omega
    have hmem : ({ p with declaredLost := true } : Packet) ∈ sp1.history := by
      rw [e]
      apply settle_lost_mem _ _ p (hkeep p hp ha) ho
      unfold lossFate
      rw [if_pos hl]
    refine ⟨?_, hmem, ?_⟩
    · rw [List.mem_filter]
      exact ⟨hkeep p hp ha, by rw [ho, hl]; rfl⟩
    · exact (hIg.spaces _ _ hx).lost { p with declaredLost := true } hmem rfl
  · intro p hp ho ha hpn htime
    have hthr := hT _ sp hs p hp ho
    have hl : isLost (max sp.largestAcked ack.LargestAcked)
        (timeThreshold g.rttStats g.params) rcvTime p = false := by
      unfold isLost
      unfold packetThreshold at *
      rw [Bool.or_eq_false_iff]
      constructor
      · rw [decide_eq_false_iff_not]; omega
      · rw [decide_eq_false_iff_not]; omega
    have hmem : p ∈ sp1.history := by
      rw [e]
      apply settle_keep_mem _ _ p (hkeep p hp ha)
      unfold lossFate
      rw [hl]
      rfl
    refine ⟨hmem, ?_, ?_⟩
    · rw [List.mem_filter, hl]
      simp
    · exact (hIg.spaces _ _ hx).fresh p hmem ho

/-! ### The callbacks of a packet are invoked at most once -/

/-- Once callbacks of a tracked packet were invoked, no further callback of the
packet is. -/
theorem fired_frozen (packet : Packet) (h g : sentPacketHandler) (hTh : Tracked packet h)
    (hTg : Tracked packet g) (hpre : ∃ more, g.callbacks = h.callbacks ++ more)
    (hne : h.fired packet ≠ []) : g.fired packet = h.fired packet := by
  obtain ⟨more, hmore⟩ := hpre
  have e : g.fired packet = h.fired packet
      ++ callbacksOf packet.EncryptionLevel packet.PacketNumber more := by
    unfold sentPacketHandler.fired
    rw [hmore, callbacksOf_append]
  have la : (onAckedCallbacks packet).length = packet.Frames.length := by
    simp [onAckedCallbacks]
  have ll : (onLostCallbacks packet).length = packet.Frames.length := by
    simp [onLostCallbacks]
  have lh : (h.fired packet).length = packet.Frames.length := by
    rcases hTh.once with h1 | h1 | h1
    · exact absurd h1 hne
    · rw [h1, la]
    · rw [h1, ll]
  have lg : (g.fired packet).length ≤ packet.Frames.length := by
    rcases hTg.once with h1 | h1 | h1
    · rw [h1]; exact Nat.zero_le _
    · rw [h1, la]
    · rw [h1, ll]
  have lm : (callbacksOf packet.EncryptionLevel packet.PacketNumber more).length = 0 := by
    have := congrArg List.length e
    rw [List.length_append] at this
    omega
  rw [e, List.length_eq_zero.1 lm, List.append_nil]

/-- The callbacks of an outstanding packet that an ACK frame acknowledges, after
the frame was processed. -/
theorem fired_processAck_acked (h : sentPacketHandler) (sp : packetNumberSpace)
    (ack : AckFrame) (level : EncryptionLevel) (rcvTime now : Int) (g : sentPacketHandler)
    (hI : Inv h) (hs : h.space (spaceOf level) = some sp)
    (hg : g = (h.processAck sp ack level rcvTime).setLossDetectionTimer now)
    (q : Packet) (hq : q ∈ sp.history) (ho : q.outstanding = true)
    (ha : ack.AcksPacket q.PacketNumber = true) :
    callbacksOf q.EncryptionLevel q.PacketNumber g.callbacks = onAckedCallbacks q := by
  obtain ⟨_, _, hcb⟩ := processAck_shape h sp ack level rcvTime now g hg
  have hsp := hI.spaces _ sp hs
  rw [hcb, callbacksOf_append, callbacksOf_append, hsp.fresh q hq ho,
    settle_callbacksOf _ sp.history hsp.sorted q hq ho, settle_callbacksOf_nil]
  · simp [ha]
  · intro p1 hp1 _ _ hn
    exfalso
    obtain ⟨p0, hp0, hn0, _, _, _, _, hc⟩ := settle_history _ sp.history p1 hp1
    have e := sorted_unique sp.history hsp.sorted p0 q hp0 hq (by omega)
    subst e
    rcases hc with ⟨_, hk⟩ | ⟨_, hk, _⟩
    · rcases hk with hk | ⟨hk, _⟩
      · simp [ha] at hk
      · simp [ha] at hk
    · simp [ha] at hk

/-- Claim C17. For every packet given to `SentPacket` in a sequence of calls on a new
handler, the callbacks invoked for the packet after the calls are none, or the
on-acked callback of each of its frames, once, and no on-lost callback, or the
on-lost callback of each of its frames, once, and no on-acked callback. While
the packet is outstanding, none was invoked; when it is flagged as lost, its
on-lost callbacks were; when a further ACK frame acknowledges it while it is
outstanding, its on-acked callbacks are invoked; and once callbacks of the packet
were invoked, no further call invokes a callback of the packet, so that an ACK
frame that covers a lost packet invokes nothing. -/
theorem callbacks_at_most_once_and_exclusive (rttStats : RTTStats) (pers : Perspective)
    (params : Parameters) (calls : List Call) (h : sentPacketHandler) (packet : Packet)
    (sendTime : Int)
    (hrun : sentPacketHandler.run calls (newSentPacketHandler rttStats pers params) = some h)
    (hsent : Call.SentPacket packet sendTime ∈ calls) :
    (h.fired packet = [] ∨ h.fired packet = onAckedCallbacks packet
        ∨ h.fired packet = onLostCallbacks packet)
      ∧ (∀ sp q, h.getPacketNumberSpace packet.EncryptionLevel = some sp → q ∈ sp.history →
          q.PacketNumber = packet.PacketNumber → q.outstanding = true → h.fired packet = [])
      ∧ (∀ sp q, h.getPacketNumberSpace packet.EncryptionLevel = some sp → q ∈ sp.history →
          q.PacketNumber = packet.PacketNumber → q.declaredLost = true →
          h.fired packet = onLostCallbacks packet)
      ∧ (∀ ack level rcvTime now g sp q,
          h.ReceivedAck ack level rcvTime now = some (none, g) →
          h.getPacketNumberSpace level = some sp → q ∈ sp.history →
          q.EncryptionLevel = packet.EncryptionLevel →
          q.PacketNumber = packet.PacketNumber → q.outstanding = true →
          ack.AcksPacket packet.PacketNumber = true →
          g.fired packet = onAckedCallbacks packet)
      ∧ (∀ later g, sentPacketHandler.run later h = some g → h.fired packet ≠ [] →
          g.fired packet = h.fired packet) := by
  have hI : Inv h := (step_run calls _ h hrun).inv (inv_new rttStats pers params)
  have hT : Tracked packet h :=
    tracked_run calls _ h hrun (inv_new rttStats pers params) packet sendTime hsent
  refine ⟨hT.once, ?_, ?_, ?_, ?_⟩
  · intro sp q hs hq hn ho
    rw [getPacketNumberSpace_eq_space] at hs
    have hsame := hT.same sp hs q hq hn
    have := (hI.spaces _ sp hs).fresh q hq ho
    rw [hsame.2, hn] at this
    exact this
  · intro sp q hs hq hn hl
    rw [getPacketNumberSpace_eq_space] at hs
    have hsame := hT.same sp hs q hq hn
    have := (hI.spaces _ sp hs).lost q hq hl
    rw [hsame.2, hn] at this
    rw [show onLostCallbacks packet = onLostCallbacks q by
      unfold onLostCallbacks; rw [hsame.1, hsame.2, hn]]
    exact this
  · intro ack level rcvTime now g sp q hack hs hq hl hn ho ha
    rw [getPacketNumberSpace_eq_space] at hs
    have hlevel : spaceOf packet.EncryptionLevel = spaceOf level := by
      rw [← hl]
      exact (hI.spaces _ sp hs).level q hq
    have hsame := hT.same sp (hlevel ▸ hs) q hq hn
    obtain ⟨sp0, hs0, hc⟩ := ReceivedAck_cases h ack level rcvTime now _ hack
    rw [hs] at hs0
    rw [← Option.some.inj hs0] at hc
    rcases hc with ⟨hne, _⟩ | ⟨_, _, _, hg⟩
    · exact absurd rfl hne
    have := fired_processAck_acked h sp ack level rcvTime now g hI hs hg q hq ho (hn ▸ ha)
    rw [hsame.2, hn] at this
    rw [show onAckedCallbacks packet = onAckedCallbacks q by
      unfold onAckedCallbacks; rw [hsame.1, hsame.2, hn]]
    exact this
  · intro later g hg hne
    have hstep := step_run later h g hg
    exact fired_frozen packet h g hT (hstep.tracked hI packet hT) hstep.callbacks hne

/-! ### Instances -/

/-- Instance of C16, amended: ten packets 0..9 of length 1 and an ACK for 0..5
leave 4 bytes in flight; and a client that has the Initial packet 0 and the 0-RTT
packet 0 in flight, resets for a Retry and sends the Initial packet 1 has 1 byte
in flight. -/
theorem bytesInFlight_eq_sum_of_outstanding_witness :
    (sentPacketHandler.run
        (sendPackets 0 10 100 ++ [Call.ReceivedAck (ackRange 0 5)
          EncryptionLevel.Encryption1RTT 100 100]) testHandler
      = some (testHandler.after (sendPackets 0 10 100 ++ [Call.ReceivedAck (ackRange 0 5)
          EncryptionLevel.Encryption1RTT 100 100]))
    ∧ testHandler.retriesBeforeHandshake (sendPackets 0 10 100 ++ [Call.ReceivedAck
          (ackRange 0 5) EncryptionLevel.Encryption1RTT 100 100]) = true
    ∧ (testHandler.after (sendPackets 0 10 100 ++ [Call.ReceivedAck (ackRange 0 5)
          EncryptionLevel.Encryption1RTT 100 100])).bytesInFlight
      = (testHandler.after (sendPackets 0 10 100 ++ [Call.ReceivedAck (ackRange 0 5)
          EncryptionLevel.Encryption1RTT 100 100])).bytesOutstanding
    ∧ (testHandler.after (sendPackets 0 10 100)).bytesInFlight = 10
    ∧ (testHandler.after (sendPackets 0 10 100 ++ [Call.ReceivedAck (ackRange 0 5)
          EncryptionLevel.Encryption1RTT 100 100])).bytesInFlight = 4)
    ∧ (sentPacketHandler.run retryCalls testClientHandler
        = some (testClientHandler.after retryCalls)
      ∧ testClientHandler.retriesBeforeHandshake retryCalls = true
      ∧ (testClientHandler.after retryCalls).bytesInFlight
        = (testClientHandler.after retryCalls).bytesOutstanding
      ∧ (testClientHandler.after retryCalls).bytesInFlight = 1) :=
  ⟨⟨rfl, by decide, bytesInFlight_eq_sum_of_outstanding testRTTStats
      Perspective.PerspectiveServer testParameters (sendPackets 0 10 100 ++ [Call.ReceivedAck
        (ackRange 0 5) EncryptionLevel.Encryption1RTT 100 100]) _ rfl (by decide),
      by decide, by decide⟩,
    ⟨rfl, by decide, bytesInFlight_eq_sum_of_outstanding testRTTStats
      Perspective.PerspectiveClient testParameters retryCalls _ rfl (by decide),
      by decide⟩⟩

/-- Instance of C17: the packets 1..6 are sent, an ACK for 6 declares 1, 2 and 3
lost, and a later ACK for 1..6 covers the lost packets: the callbacks invoked
for packet 1 are its on-lost callbacks, those for packet 4 its on-acked
callbacks. -/
theorem callbacks_at_most_once_and_exclusive_witness :
    sentPacketHandler.run
        (sendPackets 1 6 100 ++ [Call.ReceivedAck (ackRange 6 6)
          EncryptionLevel.Encryption1RTT 100 100, Call.ReceivedAck (ackRange 1 6)
          EncryptionLevel.Encryption1RTT 200 200]) testHandler
      = some (testHandler.after (sendPackets 1 6 100 ++ [Call.ReceivedAck (ackRange 6 6)
          EncryptionLevel.Encryption1RTT 100 100, Call.ReceivedAck (ackRange 1 6)
          EncryptionLevel.Encryption1RTT 200 200]))
    ∧ Call.SentPacket (ackElicitingPacket 1 EncryptionLevel.Encryption1RTT 100) 100
      ∈ sendPackets 1 6 100 ++ [Call.ReceivedAck (ackRange 6 6)
          EncryptionLevel.Encryption1RTT 100 100, Call.ReceivedAck (ackRange 1 6)
          EncryptionLevel.Encryption1RTT 200 200]
    ∧ ((testHandler.after (sendPackets 1 6 100 ++ [Call.ReceivedAck (ackRange 6 6)
          EncryptionLevel.Encryption1RTT 100 100, Call.ReceivedAck (ackRange 1 6)
          EncryptionLevel.Encryption1RTT 200 200])).fired
          (ackElicitingPacket 1 EncryptionLevel.Encryption1RTT 100) = []
      ∨ (testHandler.after (sendPackets 1 6 100 ++ [Call.ReceivedAck (ackRange 6 6)
          EncryptionLevel.Encryption1RTT 100 100, Call.ReceivedAck (ackRange 1 6)
          EncryptionLevel.Encryption1RTT 200 200])).fired
          (ackElicitingPacket 1 EncryptionLevel.Encryption1RTT 100)
        = onAckedCallbacks (ackElicitingPacket 1 EncryptionLevel.Encryption1RTT 100)
      ∨ (testHandler.after (sendPackets 1 6 100 ++ [Call.ReceivedAck (ackRange 6 6)
          EncryptionLevel.Encryption1RTT 100 100, Call.ReceivedAck (ackRange 1 6)
          EncryptionLevel.Encryption1RTT 200 200])).fired
          (ackElicitingPacket 1 EncryptionLevel.Encryption1RTT 100)
        = onLostCallbacks (ackElicitingPacket 1 EncryptionLevel.Encryption1RTT 100))
    ∧ (testHandler.after (sendPackets 1 6 100 ++ [Call.ReceivedAck (ackRange 6 6)
          EncryptionLevel.Encryption1RTT 100 100, Call.ReceivedAck (ackRange 1 6)
          EncryptionLevel.Encryption1RTT 200 200])).fired
          (ackElicitingPacket 1 EncryptionLevel.Encryption1RTT 100)
        = onLostCallbacks (ackElicitingPacket 1 EncryptionLevel.Encryption1RTT 100)
    ∧ (testHandler.after (sendPackets 1 6 100 ++ [Call.ReceivedAck (ackRange 6 6)
          EncryptionLevel.Encryption1RTT 100 100, Call.ReceivedAck (ackRange 1 6)
          EncryptionLevel.Encryption1RTT 200 200])).fired
          (ackElicitingPacket 4 EncryptionLevel.Encryption1RTT 100)
        = onAckedCallbacks (ackElicitingPacket 4 EncryptionLevel.Encryption1RTT 100) :=
  ⟨rfl, by decide,
    (callbacks_at_most_once_and_exclusive testRTTStats Perspective.PerspectiveServer
      testParameters (sendPackets 1 6 100 ++ [Call.ReceivedAck (ackRange 6 6)
          EncryptionLevel.Encryption1RTT 100 100, Call.ReceivedAck (ackRange 1 6)
          EncryptionLevel.Encryption1RTT 200 200]) _
      (ackElicitingPacket 1 EncryptionLevel.Encryption1RTT 100) 100 rfl (by decide)).1,
    by decide, by decide⟩

/-- Instance of C18: the packets 1..6 are sent and an ACK for 6 only is received:
the on-lost callbacks of 1, 2 and 3 are invoked, in this order, after the
on-acked callback of 6, and 4 and 5 stay outstanding. -/
theorem packet_threshold_loss_witness :
    sentPacketHandler.run (sendPackets 1 6 100) testHandler
      = some (testHandler.after (sendPackets 1 6 100))
    ∧ (testHandler.after (sendPackets 1 6 100)).getPacketNumberSpace
        EncryptionLevel.Encryption1RTT
      = some (testHandler.after (sendPackets 1 6 100)).appDataPackets
    ∧ (testHandler.after (sendPackets 1 6 100)).ReceivedAck (ackRange 6 6)
        EncryptionLevel.Encryption1RTT 100 100
      = some (none, testHandler.after (sendPackets 1 6 100 ++ [Call.ReceivedAck (ackRange 6 6)
          EncryptionLevel.Encryption1RTT 100 100]))
    ∧ (testHandler.after (sendPackets 1 6 100 ++ [Call.ReceivedAck (ackRange 6 6)
          EncryptionLevel.Encryption1RTT 100 100])).fired
          (ackElicitingPacket 3 EncryptionLevel.Encryption1RTT 100)
        = onLostCallbacks (ackElicitingPacket 3 EncryptionLevel.Encryption1RTT 100)
    ∧ (testHandler.after (sendPackets 1 6 100 ++ [Call.ReceivedAck (ackRange 6 6)
          EncryptionLevel.Encryption1RTT 100 100])).fired
          (ackElicitingPacket 4 EncryptionLevel.Encryption1RTT 100) = []
    ∧ (testHandler.after (sendPackets 1 6 100 ++ [Call.ReceivedAck (ackRange 6 6)
          EncryptionLevel.Encryption1RTT 100 100])).callbacks.map
          (fun c => (c.OnAcked, c.PacketNumber))
        = [(true, 6), (false, 1), (false, 2), (false, 3)]
    ∧ ((testHandler.after (sendPackets 1 6 100 ++ [Call.ReceivedAck (ackRange 6 6)
          EncryptionLevel.Encryption1RTT 100 100])).appDataPackets.history.filter
          (fun p => p.outstanding)).map (fun p => p.PacketNumber) = [4, 5] := by
  obtain ⟨_, _, _, _, _, _, _, _, hlost, hkeep⟩ :=
    packet_threshold_loss testRTTStats Perspective.PerspectiveServer testParameters
      (sendPackets 1 6 100) (testHandler.after (sendPackets 1 6 100))
      (testHandler.after (sendPackets 1 6 100 ++ [Call.ReceivedAck (ackRange 6 6)
          EncryptionLevel.Encryption1RTT 100 100]))
      (ackRange 6 6) EncryptionLevel.Encryption1RTT 100 100
      (testHandler.after (sendPackets 1 6 100)).appDataPackets rfl rfl rfl
  exact ⟨rfl, rfl, rfl,
    (hlost (ackElicitingPacket 3 EncryptionLevel.Encryption1RTT 100) (by decide) rfl rfl
      (by decide)).2.2,
    (hkeep (ackElicitingPacket 4 EncryptionLevel.Encryption1RTT 100) (by decide) rfl rfl
      (by decide) (by decide)).2.2,
    by decide, by decide⟩

/-- Instance of C19: a 1-RTT packet 13 was sent, and an ACK for 13 arrives at the
Handshake level, in whose space no packet was sent. -/
theorem ReceivedAck_unsent_packet_witness :
    (testHandler.after [Call.SentPacket
        (ackElicitingPacket 13 EncryptionLevel.Encryption1RTT 100) 100]).getPacketNumberSpace
        EncryptionLevel.EncryptionHandshake = some newPacketNumberSpace
    ∧ newPacketNumberSpace.largestSent < (ackRange 13 13).LargestAcked
    ∧ (testHandler.after [Call.SentPacket
        (ackElicitingPacket 13 EncryptionLevel.Encryption1RTT 100) 100]).ReceivedAck
        (ackRange 13 13) EncryptionLevel.EncryptionHandshake 200 200
      = some (some { ErrorCode := qerr.ErrorCode.ProtocolViolation
                     ErrorMessage := "Received ACK for an unsent packet" },
          testHandler.after [Call.SentPacket
            (ackElicitingPacket 13 EncryptionLevel.Encryption1RTT 100) 100]) :=
  ⟨rfl, by decide,
    ReceivedAck_unsent_packet _ (ackRange 13 13) EncryptionLevel.EncryptionHandshake 200 200
      newPacketNumberSpace rfl (by decide)⟩

/-- Claim C20 fails as stated. Two handlers with the handshake confirmed and a
single outstanding ack-eliciting 1-RTT packet, sent at the time 1000, whose
timeout is not `1000 + PTO · 2 ^ ptoCount`. In the first, the packets 1 and 2 were
sent and an ACK for 2 was received: the timeout is the loss time of packet 1,
1000 + 1 ms. In the second, a 0-RTT packet was sent at the time 2000 after the
1-RTT packet and then dropped: no loss time is pending, and the timeout is
2000 + PTO, counted from the last ack-eliciting packet sent. -/
theorem pto_timeout_not_from_send_time :
    ((testHandler.after earlyRetransmitCalls).handshakeConfirmed = true
      ∧ (testHandler.after earlyRetransmitCalls).appDataPackets.history.filter
          (fun p => p.outstanding)
        = [ackElicitingPacket 1 EncryptionLevel.Encryption1RTT 1000]
      ∧ (testHandler.after earlyRetransmitCalls).bytesInFlight = 1
      ∧ (testHandler.after earlyRetransmitCalls).GetLossDetectionTimeout = 1000 + 1000000
      ∧ (testHandler.after earlyRetransmitCalls).GetLossDetectionTimeout
        ≠ 1000 + (testHandler.after earlyRetransmitCalls).rttStats.PTO
            (testHandler.after earlyRetransmitCalls).params true
          * 2 ^ (testHandler.after earlyRetransmitCalls).ptoCount)
    ∧ ((testHandler.after droppedPacketCalls).handshakeConfirmed = true
      ∧ (testHandler.after droppedPacketCalls).appDataPackets.history.filter
          (fun p => p.outstanding)
        = [ackElicitingPacket 0 EncryptionLevel.Encryption1RTT 1000]
      ∧ (testHandler.after droppedPacketCalls).bytesInFlight = 1
      ∧ (testHandler.after droppedPacketCalls).getLossTimeAndSpace = none
      ∧ (testHandler.after droppedPacketCalls).GetLossDetectionTimeout = 2000 + 26000000
      ∧ (testHandler.after droppedPacketCalls).GetLossDetectionTimeout
        ≠ 1000 + (testHandler.after droppedPacketCalls).rttStats.PTO
            (testHandler.after droppedPacketCalls).params true
          * 2 ^ (testHandler.after droppedPacketCalls).ptoCount) := by
  refine ⟨⟨rfl, by decide, by decide, by decide, by decide⟩,
    ⟨rfl, by decide, by decide, by decide, by decide, by decide⟩⟩

/-- Instance of the amended C20: the handshake is confirmed and the 1-RTT packet 1 is
sent at the time 5000; the timeout is 5000 + 26 ms, the PTO without an RTT
measurement. -/
theorem pto_timeout_exponential_backoff_witness :
    (testHandler.after [Call.SetHandshakeConfirmed 0, Call.SentPacket
        (ackElicitingPacket 1 EncryptionLevel.Encryption1RTT 5000) 5000]).handshakeConfirmed
      = true
    ∧ (testHandler.after [Call.SetHandshakeConfirmed 0, Call.SentPacket
        (ackElicitingPacket 1 EncryptionLevel.Encryption1RTT 5000) 5000]).getLossTimeAndSpace
      = none
    ∧ (testHandler.after [Call.SetHandshakeConfirmed 0, Call.SentPacket
        (ackElicitingPacket 1 EncryptionLevel.Encryption1RTT
          5000) 5000]).appDataPackets.history.filter (fun p => p.outstanding)
      = [ackElicitingPacket 1 EncryptionLevel.Encryption1RTT 5000]
    ∧ ((testHandler.after [Call.SetHandshakeConfirmed 0, Call.SentPacket
        (ackElicitingPacket 1 EncryptionLevel.Encryption1RTT 5000)
          5000]).setLossDetectionTimer 6000).GetLossDetectionTimeout
      = (ackElicitingPacket 1 EncryptionLevel.Encryption1RTT 5000).SendTime
        + (testHandler.after [Call.SetHandshakeConfirmed 0, Call.SentPacket
            (ackElicitingPacket 1 EncryptionLevel.Encryption1RTT 5000) 5000]).rttStats.PTO
            (testHandler.after [Call.SetHandshakeConfirmed 0, Call.SentPacket
              (ackElicitingPacket 1 EncryptionLevel.Encryption1RTT 5000) 5000]).params true
          * 2 ^ (testHandler.after [Call.SetHandshakeConfirmed 0, Call.SentPacket
            (ackElicitingPacket 1 EncryptionLevel.Encryption1RTT 5000) 5000]).ptoCount
    ∧ (testHandler.after [Call.SetHandshakeConfirmed 0, Call.SentPacket
        (ackElicitingPacket 1 EncryptionLevel.Encryption1RTT 5000)
          5000]).GetLossDetectionTimeout = 5000 + 26000000 :=
  ⟨rfl, by decide, by decide,
    (pto_timeout_exponential_backoff _
      (ackElicitingPacket 1 EncryptionLevel.Encryption1RTT 5000) 6000 rfl (by decide)
      (by decide) rfl).1,
    by decide⟩

end ackhandler

/-! ## Properties of the STOP_SENDING frame -/

namespace wire

open quicvarint in
/-- The bytes of the varint of a value that fits into 62 bits: `Write` appends
them to any buffer, `Read` decodes them in front of any rest, and `Len` is their
number. -/
theorem varint_bytes (v : Nat) (hv : v ≤ maxVarInt8) :
    ∃ w, (∀ b, Write b v = Outcome.returned (b ++ w))
      ∧ (∀ s, Read (w ++ s) = Except.ok (v, s))
      ∧ Len v = some (w.length : Int) := by
  rcases Len_cases v hv with ⟨h, hl⟩ | ⟨h1, h2, hl⟩ | ⟨h1, h2, hl⟩ | ⟨h1, h2, hl⟩
  · exact ⟨[v], fun b => Write_len1 b v h, fun s => by simpa using Read_len1 v s (by omega),
      by simpa using hl⟩
  · refine ⟨_, fun b => Write_len2 b v h1 h2, fun s => ?_, by simpa using hl⟩
    have := Read_len2 (v / 256) (v % 256) s (by omega) (by omega)
    rw [show v / 256 * 256 + v % 256 = v by omega] at this
    simpa using this
  · refine ⟨_, fun b => Write_len4 b v h1 h2, fun s => ?_, by simpa using hl⟩
    have := Read_len4 (v / 16777216) (v / 65536 % 256) (v / 256 % 256) (v % 256) s
      (by omega) (by omega) (by omega) (by omega)
    rw [show v / 16777216 * 16777216 + v / 65536 % 256 * 65536 + v / 256 % 256 * 256 + v % 256
      = v by omega] at this
    simpa using this
  · refine ⟨_, fun b => Write_len8 b v h1 h2, fun s => ?_, by simpa using hl⟩
    have := Read_len8 (v / 72057594037927936) (v / 281474976710656 % 256)
      (v / 1099511627776 % 256) (v / 4294967296 % 256) (v / 16777216 % 256) (v / 65536 % 256)
      (v / 256 % 256) (v % 256) s
      (by omega) (by omega) (by omega) (by omega) (by omega) (by omega) (by omega) (by omega)
    rw [show v / 72057594037927936 * 72057594037927936 + v / 281474976710656 % 256 * 281474976710656
      + v / 1099511627776 % 256 * 1099511627776 + v / 4294967296 % 256 * 4294967296
      + v / 16777216 % 256 * 16777216 + v / 65536 % 256 * 65536 + v / 256 % 256 * 256 + v % 256
      = v by omega] at this
    simpa using this

/-- Claim C30. For every STOP_SENDING frame `f` whose `StreamID` and `ErrorCode` are at
most `2^62 - 1`, and every buffer `b`: `Write` returns after appending the type
byte 0x05, the varint `w1` of `StreamID` and the varint `w2` of `ErrorCode`;
these are `Length f` bytes; and `parseStopSendingFrame` applied to them, followed
by any bytes `s`, returns `f` and leaves exactly `s` unread. -/
theorem StopSendingFrame_Write_parse (f : StopSendingFrame) (b s : List Nat)
    (hs : f.StreamID ≤ quicvarint.maxVarInt8) (he : f.ErrorCode ≤ quicvarint.maxVarInt8) :
    ∃ w1 w2,
      quicvarint.Write [] f.StreamID = quicvarint.Outcome.returned w1
      ∧ quicvarint.Write [] f.ErrorCode = quicvarint.Outcome.returned w2
      ∧ f.Write b = quicvarint.Outcome.returned (b ++ (0x05 :: (w1 ++ w2)))
      ∧ f.Length = some ((0x05 :: (w1 ++ w2)).length : Int)
      ∧ parseStopSendingFrame ((0x05 :: (w1 ++ w2)) ++ s) = Except.ok (f, s) := by
  obtain ⟨w1, hw1, hr1, hl1⟩ := varint_bytes f.StreamID hs
  obtain ⟨w2, hw2, hr2, hl2⟩ := varint_bytes f.ErrorCode he
  have u1 : quicvarint.uint64 f.StreamID = f.StreamID := by
    unfold quicvarint.uint64; unfold quicvarint.maxVarInt8 at hs; omega
  have u2 : quicvarint.uint64 f.ErrorCode = f.ErrorCode := by
    unfold quicvarint.uint64; unfold quicvarint.maxVarInt8 at he; omega
  refine ⟨w1, w2, by simpa using hw1 [], by simpa using hw2 [], ?_, ?_, ?_⟩
  · unfold StopSendingFrame.Write
    rw [u1, u2, hw1]
    simp only [hw2, quicvarint.WriteByte]
    simp
  · unfold StopSendingFrame.Length
    rw [u1, u2, hl1, hl2]
    simp only [List.length_cons, List.length_append]
    congr 1
    push_cast
    ring
  · unfold parseStopSendingFrame
    simp only [List.cons_append, quicvarint.ReadByte, List.append_assoc, hr1, hr2]

/-- Instance of C30: the frame for the stream 0x1337 with the error code 7. -/
theorem StopSendingFrame_Write_parse_witness :
    (0x1337 : Nat) ≤ quicvarint.maxVarInt8 ∧ (7 : Nat) ≤ quicvarint.maxVarInt8
      ∧ ∃ w1 w2,
        quicvarint.Write [] 0x1337 = quicvarint.Outcome.returned w1
        ∧ quicvarint.Write [] 7 = quicvarint.Outcome.returned w2
        ∧ (StopSendingFrame.mk 0x1337 7).Write [1] = quicvarint.Outcome.returned
            ([1] ++ (0x05 :: (w1 ++ w2)))
        ∧ (StopSendingFrame.mk 0x1337 7).Length = some ((0x05 :: (w1 ++ w2)).length : Int)
        ∧ parseStopSendingFrame ((0x05 :: (w1 ++ w2)) ++ [9])
          = Except.ok (StopSendingFrame.mk 0x1337 7, [9]) :=
  ⟨by decide, by decide, StopSendingFrame_Write_parse (StopSendingFrame.mk 0x1337 7) [1] [9]
    (by decide) (by decide)⟩

end wire

/-! ## Properties of the received packet history -/

namespace ackhandler

theorem goodFrom_mono {b c : Int} (hc : c ≤ b) :
    ∀ {l : List PacketInterval}, goodFrom b l → goodFrom c l
  | [], _ => trivial
  | _ :: _, h => ⟨by have := h.1; omega, h.2.1, h.2.2⟩

theorem goodFrom_mem {b : Int} :
    ∀ {l : List PacketInterval}, goodFrom b l → ∀ r ∈ l, b < r.Start ∧ r.Start ≤ r.End
  | [], _, r, hr => by cases hr
  | x :: rest, h, r, hr => by
    rcases List.mem_cons.1 hr with rfl | hr
    · exact ⟨h.1, h.2.1⟩
    · have := goodFrom_mem h.2.2 r hr
      have h1 := h.1
      have h2 := h.2.1
      exact ⟨by omega, this.2⟩

theorem goodFrom_pairwise {b : Int} :
    ∀ {l : List PacketInterval}, goodFrom b l →
      l.Pairwise (fun x y => x.End + 1 < y.Start)
  | [], _ => List.Pairwise.nil
  | _ :: _, h =>
    List.pairwise_cons.2 ⟨fun y hy => (goodFrom_mem h.2.2 y hy).1, goodFrom_pairwise h.2.2⟩

theorem addToRanges_goodFrom (p : Int) :
    ∀ (l : List PacketInterval) (b : Int), goodFrom b l → b < p →
      goodFrom b (addToRanges p l).1
  | [], b, _, hb => by
    simp only [addToRanges, goodFrom]
    exact ⟨hb, le_refl _, trivial⟩
  | r :: rest, b, h, hb => by
    obtain ⟨h1, h2, h3⟩ := h
    unfold addToRanges
    split
    · exact ⟨h1, h2, addToRanges_goodFrom p rest _ h3 (by omega)⟩
    · split
      · cases rest with
        | nil => exact ⟨h1, by show r.Start ≤ p; omega, trivial⟩
        | cons n rest1 =>
          obtain ⟨k1, k2, k3⟩ := h3
          dsimp only
          split
          · exact ⟨h1, by show r.Start ≤ n.End; omega, k3⟩
          · exact ⟨h1, by show r.Start ≤ p; omega, by show p + 1 < n.Start; omega, k2, k3⟩
      · split
        · exact ⟨h1, h2, h3⟩
        · split
          · exact ⟨hb, by show p ≤ r.End; omega, h3⟩
          · exact ⟨hb, le_refl _, by show p + 1 < r.Start; omega, h2, h3⟩

theorem addToRanges_length (p : Int) :
    ∀ (l : List PacketInterval), (addToRanges p l).1.length ≤ l.length + 1
  | [] => by simp [addToRanges]
  | r :: rest => by
    unfold addToRanges
    split
    · have := addToRanges_length p rest
      simp only [List.length_cons]
      omega
    · split
      · cases rest with
        | nil => simp
        | cons n rest1 =>
          dsimp only
          split <;> simp
      · split
        · simp
        · split <;> simp

theorem addToRanges_false (p : Int) :
    ∀ (l : List PacketInterval), (addToRanges p l).2 = false → (addToRanges p l).1 = l
  | [] => by simp [addToRanges]
  | r :: rest => by
    unfold addToRanges
    split
    · intro h
      show r :: (addToRanges p rest).1 = r :: rest
      rw [addToRanges_false p rest h]
    · split
      · cases rest with
        | nil => simp
        | cons n rest1 =>
          dsimp only
          split <;> simp
      · split
        · simp
        · split <;> simp

end ackhandler

namespace ackhandler

theorem covers_iff (p : Int) :
    ∀ (l : List PacketInterval), covers l p ↔ ∃ r ∈ l, r.Start ≤ p ∧ p ≤ r.End
  | [] => by simp [covers]
  | r :: rest => by simp [covers, covers_iff p rest]

theorem covers_lt {p : Int} :
    ∀ {l : List PacketInterval} {b : Int}, goodFrom b l → covers l p → b < p
  | [], _, _, h => h.elim
  | r :: rest, b, hg, h => by
    obtain ⟨h1, h2, h3⟩ := hg
    rcases h with h | h
    · omega
    · have := covers_lt h3 h
      omega

theorem addToRanges_false_iff (p : Int) :
    ∀ (l : List PacketInterval) (b : Int), goodFrom b l →
      ((addToRanges p l).2 = false ↔ covers l p)
  | [], _, _ => by simp [addToRanges, covers]
  | r :: rest, b, h => by
    obtain ⟨h1, h2, h3⟩ := h
    have hrest : covers rest p → r.End + 1 < p := covers_lt h3
    unfold addToRanges
    split
    · show (addToRanges p rest).2 = false ↔ _
      rw [addToRanges_false_iff p rest _ h3]
      constructor
      · exact Or.inr
      · rintro (h | h)
        · omega
        · exact h
    · split
      · have hno : ¬ covers (r :: rest) p := by
          rintro (h | h)
          · omega
          · have := hrest h
            omega
        cases rest with
        | nil => simpa using hno
        | cons n rest1 =>
          dsimp only
          split <;> simpa using hno
      · split
        · simp only [true_iff]
          exact Or.inl ⟨by assumption, by omega⟩
        · have hno : ¬ covers (r :: rest) p := by
            rintro (h | h)
            · omega
            · have := hrest h
              omega
          split <;> simpa using hno

theorem addToRanges_covers_self (p : Int) :
    ∀ (l : List PacketInterval) (b : Int), goodFrom b l → covers (addToRanges p l).1 p
  | [], _, _ => by simp [addToRanges, covers]
  | r :: rest, b, h => by
    obtain ⟨h1, h2, h3⟩ := h
    unfold addToRanges
    split
    · exact Or.inr (addToRanges_covers_self p rest _ h3)
    · split
      · cases rest with
        | nil => exact Or.inl ⟨by show r.Start ≤ p; omega, le_refl _⟩
        | cons n rest1 =>
          obtain ⟨k1, k2, k3⟩ := h3
          dsimp only
          split
          · exact Or.inl ⟨by show r.Start ≤ p; omega, by show p ≤ n.End; omega⟩
          · exact Or.inl ⟨by show r.Start ≤ p; omega, le_refl _⟩
      · split
        · exact Or.inl ⟨by assumption, by omega⟩
        · split
          · exact Or.inl ⟨le_refl _, by show p ≤ r.End; omega⟩
          · exact Or.inl ⟨le_refl _, le_refl _⟩

theorem addToRanges_covers_old (p q : Int) :
    ∀ (l : List PacketInterval) (b : Int), goodFrom b l → covers l q →
      covers (addToRanges p l).1 q
  | [], _, _, hq => hq.elim
  | r :: rest, b, h, hq => by
    obtain ⟨h1, h2, h3⟩ := h
    unfold addToRanges
    split
    · rcases hq with hq | hq
      · exact Or.inl hq
      · exact Or.inr (addToRanges_covers_old p q rest _ h3 hq)
    · split
      · cases rest with
        | nil =>
          rcases hq with hq | hq
          · exact Or.inl ⟨hq.1, by show q ≤ p; omega⟩
          · exact hq.elim
        | cons n rest1 =>
          obtain ⟨k1, k2, k3⟩ := h3
          dsimp only
          split
          · rcases hq with hq | hq | hq
            · exact Or.inl ⟨hq.1, by show q ≤ n.End; omega⟩
            · exact Or.inl ⟨by show r.Start ≤ q; omega, hq.2⟩
            · exact Or.inr hq
          · rcases hq with hq | hq
            · exact Or.inl ⟨hq.1, by show q ≤ p; omega⟩
            · exact Or.inr hq
      · split
        · exact hq
        · split
          · rcases hq with hq | hq
            · exact Or.inl ⟨by show p ≤ q; omega, hq.2⟩
            · exact Or.inr hq
          · exact Or.inr hq

theorem maybeDeleteOldRanges_length (m : Nat) :
    ∀ (l : List PacketInterval) (e : Int), (maybeDeleteOldRanges m l e).1.length ≤ m
  | [], _ => by simp [maybeDeleteOldRanges]
  | r :: rest, e => by
    unfold maybeDeleteOldRanges
    split
    · exact maybeDeleteOldRanges_length m rest _
    · show (r :: rest).length ≤ m
      omega

theorem maybeDeleteOldRanges_noop (m : Nat) :
    ∀ (l : List PacketInterval) (e : Int), l.length ≤ m → maybeDeleteOldRanges m l e = (l, e)
  | [], _, _ => rfl
  | r :: rest, e, h => by
    unfold maybeDeleteOldRanges
    rw [if_neg (by omega)]

theorem maybeDeleteOldRanges_goodFrom (m : Nat) :
    ∀ (l : List PacketInterval) (e b : Int), goodFrom b l →
      ∃ c, goodFrom c (maybeDeleteOldRanges m l e).1
  | [], _, b, _ => ⟨b, trivial⟩
  | r :: rest, e, b, h => by
    unfold maybeDeleteOldRanges
    split
    · exact maybeDeleteOldRanges_goodFrom m rest _ _ h.2.2
    · exact ⟨b, h⟩

theorem maybeDeleteOldRanges_flagged (m : Nat) (q : Int) :
    ∀ (l : List PacketInterval) (e : Int), q < e ∨ covers l q →
      q < (maybeDeleteOldRanges m l e).2 ∨ covers (maybeDeleteOldRanges m l e).1 q
  | [], _, h => h
  | r :: rest, e, h => by
    unfold maybeDeleteOldRanges
    split
    · apply maybeDeleteOldRanges_flagged m q rest
      rcases h with h | h | h
      · exact Or.inl (by omega)
      · exact Or.inl (by omega)
      · exact Or.inr h
    · exact h

theorem deleteRangesBelow_length (p : Int) :
    ∀ (l : List PacketInterval), (deleteRangesBelow p l).length ≤ l.length
  | [] => by simp [deleteRangesBelow]
  | r :: rest => by
    unfold deleteRangesBelow
    split
    · have := deleteRangesBelow_length p rest
      simp only [List.length_cons]
      omega
    · split <;> simp

theorem deleteRangesBelow_goodFrom (p : Int) :
    ∀ (l : List PacketInterval) (b : Int), goodFrom b l →
      ∃ c, goodFrom c (deleteRangesBelow p l)
  | [], b, _ => ⟨b, trivial⟩
  | r :: rest, b, h => by
    unfold deleteRangesBelow
    split
    · exact deleteRangesBelow_goodFrom p rest _ h.2.2
    · split
      · exact ⟨p - 1, by show p - 1 < p; omega, by show p ≤ r.End; omega, h.2.2⟩
      · exact ⟨b, h⟩

theorem deleteRangesBelow_covers (p q : Int) :
    ∀ (l : List PacketInterval), covers l q → q < p ∨ covers (deleteRangesBelow p l) q
  | [], h => h.elim
  | r :: rest, h => by
    unfold deleteRangesBelow
    split
    · rcases h with h | h
      · exact Or.inl (by omega)
      · exact deleteRangesBelow_covers p q rest h
    · split
      · rcases h with h | h
        · by_cases hq : q < p
          · exact Or.inl hq
          · exact Or.inr (Or.inl ⟨by show p ≤ q; omega, h.2⟩)
        · exact Or.inr (Or.inr h)
      · exact Or.inr h

end ackhandler

namespace ackhandler

theorem good_new (m : Nat) : newReceivedPacketHistory.good m :=
  ⟨⟨0, trivial⟩, Nat.zero_le _⟩

theorem good_ReceivedPacket (m : Nat) (h : receivedPacketHistory) (p : Int)
    (hg : h.good m) : (h.ReceivedPacket m p).2.good m := by
  unfold receivedPacketHistory.ReceivedPacket
  split
  · exact hg
  · obtain ⟨⟨b, hb⟩, _⟩ := hg
    have h1 : goodFrom (min b (p - 1)) (addToRanges p h.ranges).1 :=
      addToRanges_goodFrom p _ _ (goodFrom_mono (min_le_left _ _) hb) (by omega)
    exact ⟨maybeDeleteOldRanges_goodFrom m _ _ _ h1, maybeDeleteOldRanges_length m _ _⟩

theorem good_DeleteBelow (m : Nat) (h : receivedPacketHistory) (p : Int)
    (hg : h.good m) : (h.DeleteBelow p).good m := by
  unfold receivedPacketHistory.DeleteBelow
  split
  · exact hg
  · obtain ⟨⟨b, hb⟩, hl⟩ := hg
    exact ⟨deleteRangesBelow_goodFrom p _ _ hb,
      le_trans (deleteRangesBelow_length p _) hl⟩

theorem good_call (m : Nat) (h : receivedPacketHistory) (c : HistoryCall)
    (hg : h.good m) : (h.call m c).good m := by
  cases c with
  | ReceivedPacket p => exact good_ReceivedPacket m h p hg
  | DeleteBelow p => exact good_DeleteBelow m h p hg

theorem good_run (m : Nat) :
    ∀ (calls : List HistoryCall) (h : receivedPacketHistory), h.good m → (h.run m calls).good m
  | [], _, hg => hg
  | c :: calls, h, hg => good_run m calls _ (good_call m h c hg)

theorem run_append (m : Nat) (h : receivedPacketHistory) (calls : List HistoryCall)
    (c : HistoryCall) : h.run m (calls ++ [c]) = (h.run m calls).call m c := by
  simp [receivedPacketHistory.run, List.foldl_append]

theorem contains_iff_covers (h : receivedPacketHistory) (p : Int) :
    h.contains p ↔ covers h.ranges p :=
  (covers_iff p h.ranges).symm

theorem flagged_ReceivedPacket (m : Nat) (h : receivedPacketHistory) (p q : Int)
    (hg : h.good m) (hq : h.flagged q) : (h.ReceivedPacket m p).2.flagged q := by
  unfold receivedPacketHistory.ReceivedPacket
  split
  · exact hq
  · obtain ⟨⟨b, hb⟩, _⟩ := hg
    rcases hq with hq | hq | hq
    · exact Or.inl hq
    · rcases maybeDeleteOldRanges_flagged m q (addToRanges p h.ranges).1 h.evictedBelow
        (Or.inl hq) with h1 | h1
      · exact Or.inr (Or.inl h1)
      · exact Or.inr (Or.inr ((contains_iff_covers _ q).2 h1))
    · have hc := addToRanges_covers_old p q _ _ hb ((contains_iff_covers _ q).1 hq)
      rcases maybeDeleteOldRanges_flagged m q (addToRanges p h.ranges).1 h.evictedBelow
        (Or.inr hc) with h1 | h1
      · exact Or.inr (Or.inl h1)
      · exact Or.inr (Or.inr ((contains_iff_covers _ q).2 h1))

theorem flagged_DeleteBelow (h : receivedPacketHistory) (p q : Int)
    (hq : h.flagged q) : (h.DeleteBelow p).flagged q := by
  unfold receivedPacketHistory.DeleteBelow
  split
  · exact hq
  · rename_i hp
    rcases hq with hq | hq | hq
    · exact Or.inl (by show q < p; omega)
    · exact Or.inr (Or.inl hq)
    · rcases deleteRangesBelow_covers p q _ ((contains_iff_covers _ q).1 hq) with h1 | h1
      · exact Or.inl h1
      · exact Or.inr (Or.inr ((contains_iff_covers _ q).2 h1))

theorem flagged_run (m : Nat) (q : Int) :
    ∀ (calls : List HistoryCall) (h : receivedPacketHistory), h.good m → h.flagged q →
      (h.run m calls).flagged q
  | [], _, _, hq => hq
  | c :: calls, h, hg, hq => by
    refine flagged_run m q calls _ (good_call m h c hg) ?_
    cases c with
    | ReceivedPacket p => exact flagged_ReceivedPacket m h p q hg hq
    | DeleteBelow p => exact flagged_DeleteBelow h p q hq

theorem flagged_of_received (m : Nat) (h : receivedPacketHistory) (p : Int)
    (hg : h.good m) (hr : (h.ReceivedPacket m p).1 = true) :
    (h.ReceivedPacket m p).2.flagged p := by
  unfold receivedPacketHistory.ReceivedPacket at hr ⊢
  split
  · rename_i hp
    rw [if_pos hp] at hr
    cases hr
  · obtain ⟨⟨b, hb⟩, _⟩ := hg
    have hc := addToRanges_covers_self p _ _ hb
    rcases maybeDeleteOldRanges_flagged m p (addToRanges p h.ranges).1 h.evictedBelow
      (Or.inr hc) with h1 | h1
    · exact Or.inr (Or.inl h1)
    · exact Or.inr (Or.inr ((contains_iff_covers _ p).2 h1))

theorem IsPotentiallyDuplicate_iff (h : receivedPacketHistory) (p : Int) :
    h.IsPotentiallyDuplicate p = true ↔ h.flagged p := by
  unfold receivedPacketHistory.IsPotentiallyDuplicate receivedPacketHistory.flagged
    receivedPacketHistory.contains
  split
  · simp [*]
  · split
    · simp [*]
    · simp [*, List.any_eq_true]

theorem run_deletedBelow (m : Nat) (calls : List HistoryCall) (pn : Int) :
    pn < (newReceivedPacketHistory.run m calls).deletedBelow ↔
      (pn < 0 ∨ ∃ q, HistoryCall.DeleteBelow q ∈ calls ∧ pn < q) := by
  induction calls using List.reverseRecOn generalizing pn with
  | nil => simp [receivedPacketHistory.run, newReceivedPacketHistory]
  | append_singleton calls c ih =>
    rw [run_append]
    cases c with
    | ReceivedPacket p =>
      have hd : ((newReceivedPacketHistory.run m calls).call m
          (HistoryCall.ReceivedPacket p)).deletedBelow =
          (newReceivedPacketHistory.run m calls).deletedBelow := by
        simp only [receivedPacketHistory.call, receivedPacketHistory.ReceivedPacket]
        split <;> rfl
      rw [hd, ih]
      simp
    | DeleteBelow p =>
      simp only [receivedPacketHistory.call, receivedPacketHistory.DeleteBelow]
      split
      · rename_i hp
        rw [ih]
        constructor
        · rintro (h | ⟨q, hq, hlt⟩)
          · exact Or.inl h
          · exact Or.inr ⟨q, by simp [hq], hlt⟩
        · rintro (h | ⟨q, hq, hlt⟩)
          · exact Or.inl h
          · rcases List.mem_append.1 hq with hq | hq
            · exact Or.inr ⟨q, hq, hlt⟩
            · simp at hq
              subst hq
              exact (ih pn).1 (by omega)
      · rename_i hp
        show pn < p ↔ _
        constructor
        · intro h
          exact Or.inr ⟨p, by simp, h⟩
        · rintro (h | ⟨q, hq, hlt⟩)
          · have h0 := (ih (-1)).2 (Or.inl (by omega))
            omega
          · rcases List.mem_append.1 hq with hq | hq
            · have := (ih pn).2 (Or.inr ⟨q, hq, hlt⟩)
              omega
            · simp at hq
              subst hq
              exact hlt

end ackhandler

namespace ackhandler

/-- Claim C22. After any sequence of `ReceivedPacket` and `DeleteBelow` calls on
a new received packet history, every stored interval has `Start ≤ End`, each
interval ends at least two packet numbers before every later one starts (so the
intervals are ascending, pairwise disjoint and never adjacent), and there are at
most `MaxNumAckRanges` of them. -/
theorem ranges_sorted_disjoint_bounded (maxNumAckRanges : Nat) (calls : List HistoryCall) :
    (∀ r ∈ (newReceivedPacketHistory.run maxNumAckRanges calls).ranges, r.Start ≤ r.End) ∧
    (newReceivedPacketHistory.run maxNumAckRanges calls).ranges.Pairwise
      (fun x y => x.End + 1 < y.Start) ∧
    (newReceivedPacketHistory.run maxNumAckRanges calls).ranges.length ≤ maxNumAckRanges := by
  obtain ⟨⟨b, hb⟩, hl⟩ := good_run maxNumAckRanges calls _ (good_new maxNumAckRanges)
  exact ⟨fun r hr => (goodFrom_mem hb r hr).2, goodFrom_pairwise hb, hl⟩

/-- Claim C23 fails as stated. On a new history `ReceivedPacket(-1)` returns
false (the mark below which packet numbers count as deleted starts at 0),
though no interval is stored and `DeleteBelow` was never called; the history is
unchanged. The packet number -1 is `protocol.InvalidPacketNumber`. -/
theorem ReceivedPacket_negative_returns_false :
    ((newReceivedPacketHistory.run 10 []).ReceivedPacket 10 (-1)).1 = false
      ∧ ¬ ((newReceivedPacketHistory.run 10 []).contains (-1)
          ∨ ∃ q, HistoryCall.DeleteBelow q ∈ ([] : List HistoryCall) ∧ (-1 : Int) < q) := by
  refine ⟨rfl, ?_⟩
  rintro (⟨r, hr, _⟩ | ⟨q, hq, _⟩)
  · exact absurd hr (List.not_mem_nil r)
  · exact absurd hq (List.not_mem_nil _)

/-- Claim C23, amended by the restriction to packet numbers `pn ≥ 0`. On the
history reached from a new one by any sequence of calls, `ReceivedPacket(pn)`
for a packet number `pn ≥ 0` returns false exactly when `pn` lies in a stored
interval or is below an argument passed to `DeleteBelow` so far; when it returns
false the history is unchanged; in every other case it returns true. -/
theorem ReceivedPacket_false_iff (maxNumAckRanges : Nat) (calls : List HistoryCall)
    (pn : Int) (hpn : 0 ≤ pn) :
    (((newReceivedPacketHistory.run maxNumAckRanges calls).ReceivedPacket
        maxNumAckRanges pn).1 = false ↔
      ((newReceivedPacketHistory.run maxNumAckRanges calls).contains pn ∨
        ∃ q, HistoryCall.DeleteBelow q ∈ calls ∧ pn < q)) ∧
    (((newReceivedPacketHistory.run maxNumAckRanges calls).ReceivedPacket
        maxNumAckRanges pn).1 = false →
      ((newReceivedPacketHistory.run maxNumAckRanges calls).ReceivedPacket
        maxNumAckRanges pn).2 = newReceivedPacketHistory.run maxNumAckRanges calls) ∧
    (¬ ((newReceivedPacketHistory.run maxNumAckRanges calls).contains pn ∨
        ∃ q, HistoryCall.DeleteBelow q ∈ calls ∧ pn < q) →
      ((newReceivedPacketHistory.run maxNumAckRanges calls).ReceivedPacket
        maxNumAckRanges pn).1 = true) := by
  have hg := good_run maxNumAckRanges calls _ (good_new maxNumAckRanges)
  have hd := run_deletedBelow maxNumAckRanges calls pn
  generalize newReceivedPacketHistory.run maxNumAckRanges calls = h at hg hd
  obtain ⟨⟨b, hb⟩, hl⟩ := hg
  have hiff : (h.ReceivedPacket maxNumAckRanges pn).1 = false ↔
      (h.contains pn ∨ ∃ q, HistoryCall.DeleteBelow q ∈ calls ∧ pn < q) := by
    unfold receivedPacketHistory.ReceivedPacket
    split
    · rename_i hp
      simp only [true_iff]
      rcases hd.1 hp with h0 | h0
      · omega
      · exact Or.inr h0
    · rename_i hp
      show (addToRanges pn h.ranges).2 = false ↔ _
      rw [addToRanges_false_iff pn _ _ hb, ← contains_iff_covers]
      constructor
      · exact Or.inl
      · rintro (h0 | h0)
        · exact h0
        · exact absurd (hd.2 (Or.inr h0)) hp
  refine ⟨hiff, ?_, ?_⟩
  · unfold receivedPacketHistory.ReceivedPacket
    split
    · intro _
      rfl
    · intro hf
      have hf1 : (addToRanges pn h.ranges).2 = false := hf
      show ({ h with
        ranges := (maybeDeleteOldRanges maxNumAckRanges (addToRanges pn h.ranges).1
          h.evictedBelow).1,
        evictedBelow := (maybeDeleteOldRanges maxNumAckRanges (addToRanges pn h.ranges).1
          h.evictedBelow).2 } : receivedPacketHistory) = h
      rw [addToRanges_false pn _ hf1, maybeDeleteOldRanges_noop maxNumAckRanges _ _ hl]
  · intro hn
    cases hr : (h.ReceivedPacket maxNumAckRanges pn).1 with
    | true => rfl
    | false => exact absurd (hiff.1 hr) hn

/-- Instance of C23, amended: after 4, 5 and 6 were received and everything below 5 was
deleted, the delayed packet 2 is not added. -/
theorem ReceivedPacket_false_iff_witness :
    ((newReceivedPacketHistory.run 10
      (receivedNumbers [4, 5, 6] ++ [HistoryCall.DeleteBelow 5])).ReceivedPacket 10 2).1
      = false :=
  (ReceivedPacket_false_iff 10 (receivedNumbers [4, 5, 6] ++ [HistoryCall.DeleteBelow 5]) 2
    (by decide)).1.2 (Or.inr ⟨5, by decide, by decide⟩)

/-- Claim C24. Duplicate detection is conservative: once `ReceivedPacket(pn)`
has returned true on a history reached from a new one, `IsPotentiallyDuplicate(pn)`
returns true after every later sequence of `ReceivedPacket` and `DeleteBelow`
calls, whether or not an interval holding `pn` is still stored. -/
theorem IsPotentiallyDuplicate_after_received (maxNumAckRanges : Nat)
    (before later : List HistoryCall) (pn : Int)
    (hr : ((newReceivedPacketHistory.run maxNumAckRanges before).ReceivedPacket
      maxNumAckRanges pn).1 = true) :
    ((((newReceivedPacketHistory.run maxNumAckRanges before).ReceivedPacket
      maxNumAckRanges pn).2).run maxNumAckRanges later).IsPotentiallyDuplicate pn = true := by
  have hg := good_run maxNumAckRanges before _ (good_new maxNumAckRanges)
  rw [IsPotentiallyDuplicate_iff]
  exact flagged_run maxNumAckRanges pn later _ (good_ReceivedPacket _ _ pn hg)
    (flagged_of_received _ _ pn hg hr)

/-- Instance of C24: with at most three intervals, packet 0 is received, then
2, 4 and 6, which evicts the interval of packet 0, and then everything below 3
is deleted; no stored interval holds 0 or 2, and both are still flagged. -/
theorem IsPotentiallyDuplicate_after_received_witness :
    (((newReceivedPacketHistory.ReceivedPacket 3 0).2.run 3
        (receivedNumbers [2, 4, 6])).ranges
      = [{ Start := 2, End := 2 }, { Start := 4, End := 4 }, { Start := 6, End := 6 }]) ∧
    ((newReceivedPacketHistory.ReceivedPacket 3 0).2.run 3
        (receivedNumbers [2, 4, 6] ++ [HistoryCall.DeleteBelow 3])).IsPotentiallyDuplicate 0
      = true :=
  ⟨by decide, IsPotentiallyDuplicate_after_received 3 []
    (receivedNumbers [2, 4, 6] ++ [HistoryCall.DeleteBelow 3]) 0 (by decide)⟩

/-- Claim C25. On a history reached from a new one by any sequence of calls:
when no interval is stored, `GetAckRanges` returns nil and `GetHighestAckRange`
the zero range; otherwise `GetAckRanges` returns exactly the stored intervals
from the last to the first, each as `Smallest = Start`, `Largest = End`, every
range lying above all ranges after it, and `GetHighestAckRange` returns the
first of them. -/
theorem GetAckRanges_highest_first (maxNumAckRanges : Nat) (calls : List HistoryCall) :
    ((newReceivedPacketHistory.run maxNumAckRanges calls).ranges = [] →
      (newReceivedPacketHistory.run maxNumAckRanges calls).GetAckRanges = none ∧
      (newReceivedPacketHistory.run maxNumAckRanges calls).GetHighestAckRange
        = { Smallest := 0, Largest := 0 }) ∧
    ((newReceivedPacketHistory.run maxNumAckRanges calls).ranges ≠ [] →
      ∃ (first : AckRange) (rest : List AckRange),
        (newReceivedPacketHistory.run maxNumAckRanges calls).GetAckRanges
          = some (first :: rest) ∧
        first :: rest = (newReceivedPacketHistory.run maxNumAckRanges calls).ranges.reverse.map
          (fun r => { Smallest := r.Start, Largest := r.End }) ∧
        (first :: rest).Pairwise (fun x y => y.Largest < x.Smallest) ∧
        (∀ x ∈ first :: rest, x.Smallest ≤ x.Largest) ∧
        (newReceivedPacketHistory.run maxNumAckRanges calls).GetHighestAckRange = first) := by
  have hg := good_run maxNumAckRanges calls _ (good_new maxNumAckRanges)
  generalize newReceivedPacketHistory.run maxNumAckRanges calls = h at hg
  obtain ⟨⟨b, hb⟩, _⟩ := hg
  constructor
  · intro he
    simp [receivedPacketHistory.GetAckRanges, receivedPacketHistory.GetHighestAckRange, he]
  · intro hne
    cases hrev : h.ranges.reverse with
    | nil => exact absurd (List.reverse_eq_nil_iff.1 hrev) hne
    | cons x xs =>
      have hr : h.ranges = xs.reverse ++ [x] := by
        rw [← List.reverse_reverse h.ranges, hrev]
        simp
      have hp : (h.ranges.reverse.map
          (fun r => ({ Smallest := r.Start, Largest := r.End } : AckRange))).Pairwise
          (fun x y => y.Largest < x.Smallest) := by
        rw [List.pairwise_map, List.pairwise_reverse]
        exact (goodFrom_pairwise hb).imp (fun hxy => by
          show _ < _
          dsimp only
          omega)
      have hm : ∀ y ∈ h.ranges.reverse.map
          (fun r => ({ Smallest := r.Start, Largest := r.End } : AckRange)),
          y.Smallest ≤ y.Largest := by
        intro y hy
        obtain ⟨r, hr1, rfl⟩ := List.mem_map.1 hy
        exact (goodFrom_mem hb r (List.mem_reverse.1 hr1)).2
      rw [hrev, List.map_cons] at hp hm
      refine ⟨{ Smallest := x.Start, Largest := x.End },
        xs.map (fun r => ({ Smallest := r.Start, Largest := r.End } : AckRange)),
        ?_, ?_, hp, hm, ?_⟩
      · unfold receivedPacketHistory.GetAckRanges
        rw [if_neg (by simpa using hne), hrev]
        rfl
      · rfl
      · unfold receivedPacketHistory.GetHighestAckRange
        rw [hr]
        simp

end ackhandler

/-! ## Properties of the connection ID generator -/

namespace quic

theorem GenerateConnectionID_length (random : Nat → Nat) (drawn len : Nat) :
    (GenerateConnectionID random drawn len).length = len := by
  simp [GenerateConnectionID]

theorem mem_delete {seq : Nat} {active : List (Nat × List Nat)} {e : Nat × List Nat}
    (h : e ∈ delete seq active) : e ∈ active ∧ e.1 ≠ seq := by
  simpa [delete] using h

theorem delete_nodup (seq : Nat) {active : List (Nat × List Nat)}
    (h : (active.map Prod.fst).Nodup) : ((delete seq active).map Prod.fst).Nodup :=
  h.sublist ((List.filter_sublist _).map _)

theorem delete_absent (seq : Nat) :
    ∀ (active : List (Nat × List Nat)), (∀ e ∈ active, e.1 ≠ seq) → delete seq active = active
  | [], _ => rfl
  | e :: rest, h => by
    have h1 : e.1 ≠ seq := h e (List.mem_cons_self _ _)
    have h2 := delete_absent seq rest (fun x hx => h x (List.mem_cons_of_mem _ hx))
    simp only [delete] at h2 ⊢
    rw [List.filter_cons_of_pos (by simpa using h1), h2]

theorem delete_length (seq : Nat) :
    ∀ (active : List (Nat × List Nat)) (connID : List Nat), (active.map Prod.fst).Nodup →
      lookup seq active = some connID → (delete seq active).length + 1 = active.length
  | [], _, _, h => by simp [lookup] at h
  | e :: rest, connID, hn, h => by
    rw [List.map_cons, List.nodup_cons] at hn
    by_cases he : e.1 = seq
    · have hrest : delete seq rest = rest := by
        apply delete_absent
        intro x hx hxs
        exact hn.1 (by rw [he, ← hxs]; exact List.mem_map_of_mem _ hx)
      have : delete seq (e :: rest) = delete seq rest := by
        simp only [delete]
        rw [List.filter_cons_of_neg (by simpa using he)]
      rw [this, hrest]
      rfl
    · have h1 : lookup seq rest = some connID := by
        simp only [lookup] at h ⊢
        rwa [List.find?_cons_of_neg _ (by simpa using he)] at h
      have : delete seq (e :: rest) = e :: delete seq rest := by
        simp only [delete]
        rw [List.filter_cons_of_pos (by simpa using he)]
      rw [this]
      have := delete_length seq rest connID hn.2 h1
      simp only [List.length_cons]
      omega

theorem issueNewConnID_true (m : connIDGenerator) : m.issueNewConnID true = m := rfl

theorem issue_true : ∀ (n : Nat) (m : connIDGenerator), m.issue true n = m
  | 0, _ => rfl
  | n + 1, m => by
    show (m.issueNewConnID true).issue true n = m
    rw [issueNewConnID_true, issue_true n m]

/-- What a call of `issueNewConnID` keeps and changes when the flag is off. -/
theorem issueNewConnID_false (m : connIDGenerator)
    (hk : ∀ e ∈ m.activeSrcConnIDs, e.1 ≤ m.highestSeq)
    (hn : (m.activeSrcConnIDs.map Prod.fst).Nodup) :
    (∀ e ∈ (m.issueNewConnID false).activeSrcConnIDs, e.1 ≤ (m.issueNewConnID false).highestSeq) ∧
    ((m.issueNewConnID false).activeSrcConnIDs.map Prod.fst).Nodup ∧
    (m.issueNewConnID false).activeSrcConnIDs.length = m.activeSrcConnIDs.length + 1 ∧
    (m.issueNewConnID false).highestSeq = m.highestSeq + 1 ∧
    (m.issueNewConnID false).retiredConnIDs = m.retiredConnIDs := by
  have hd : delete (m.highestSeq + 1) m.activeSrcConnIDs = m.activeSrcConnIDs :=
    delete_absent _ _ (fun e he => by have := hk e he; omega)
  simp only [connIDGenerator.issueNewConnID, Bool.false_eq_true, if_false, hd]
  refine ⟨?_, ?_, by simp, trivial, trivial⟩
  · intro e he
    rcases List.mem_append.1 he with he | he
    · have := hk e he
      omega
    · simp at he
      subst he
      exact le_refl _
  · rw [List.map_append, List.nodup_append]
    refine ⟨hn, by simp, ?_⟩
    intro a ha hb
    simp at hb
    obtain ⟨e, he, rfl⟩ := List.mem_map.1 ha
    have := hk e he
    omega

theorem issue_false : ∀ (n : Nat) (m : connIDGenerator),
    (∀ e ∈ m.activeSrcConnIDs, e.1 ≤ m.highestSeq) →
    (m.activeSrcConnIDs.map Prod.fst).Nodup →
    (∀ e ∈ (m.issue false n).activeSrcConnIDs, e.1 ≤ (m.issue false n).highestSeq) ∧
    ((m.issue false n).activeSrcConnIDs.map Prod.fst).Nodup ∧
    (m.issue false n).activeSrcConnIDs.length = m.activeSrcConnIDs.length + n ∧
    (m.issue false n).highestSeq = m.highestSeq + n ∧
    (m.issue false n).retiredConnIDs = m.retiredConnIDs
  | 0, _, hk, hn => ⟨hk, hn, rfl, rfl, rfl⟩
  | n + 1, m, hk, hn => by
    obtain ⟨h1, h2, h3, h4, h5⟩ := issueNewConnID_false m hk hn
    obtain ⟨k1, k2, k3, k4, k5⟩ := issue_false n (m.issueNewConnID false) h1 h2
    refine ⟨k1, k2, ?_, ?_, ?_⟩
    · show ((m.issueNewConnID false).issue false n).activeSrcConnIDs.length = _
      omega
    · show ((m.issueNewConnID false).issue false n).highestSeq = _
      omega
    · show ((m.issueNewConnID false).issue false n).retiredConnIDs = _
      rw [k5, h5]

theorem generator_good_new (maxIssued : Nat) (initial dest : List Nat) (token : List Nat → List Nat)
    (random : Nat → Nat) : (newConnIDGenerator initial dest token random).good maxIssued := by
  refine ⟨?_, ?_, rfl, ?_⟩
  · intro e he
    simp [newConnIDGenerator] at he
    subst he
    exact le_refl _
  · simp [newConnIDGenerator]
  · simp [newConnIDGenerator]

theorem generator_good_issue (maxIssued : Nat) (retireBug : Bool) (m : connIDGenerator) (n : Nat)
    (hg : m.good maxIssued) (hn : m.activeSrcConnIDs.length + n ≤ max 1 maxIssued) :
    (m.issue retireBug n).good maxIssued := by
  cases retireBug with
  | true =>
    rw [issue_true]
    exact hg
  | false =>
    obtain ⟨g1, g2, g3, g4⟩ := hg
    obtain ⟨k1, k2, k3, k4, k5⟩ := issue_false n m g1 g2
    refine ⟨k1, k2, ?_, ?_⟩
    · rw [k3, k4, k5]
      omega
    · rw [k3]
      exact hn

theorem generator_good_SetMaxActiveConnIDs (maxIssued : Nat) (retireBug : Bool) (m : connIDGenerator)
    (limit : Nat) (hg : m.good maxIssued) :
    (m.SetMaxActiveConnIDs retireBug maxIssued limit).2.good maxIssued := by
  apply generator_good_issue maxIssued retireBug m _ hg
  have := hg.2.2.2
  omega

theorem generator_good_Retire (maxIssued : Nat) (retireBug : Bool) (m : connIDGenerator)
    (seq : Nat) (dest : List Nat) (hg : m.good maxIssued) :
    (m.Retire retireBug seq dest).2.good maxIssued := by
  unfold connIDGenerator.Retire
  split
  · exact hg
  · split
    · exact hg
    · rename_i connID hl
      split
      · exact hg
      · obtain ⟨g1, g2, g3, g4⟩ := hg
        have hlen := delete_length seq _ connID g2 hl
        have hr : connIDGenerator.good maxIssued
            ({ m with
              retiredConnIDs := m.retiredConnIDs ++ [connID]
              activeSrcConnIDs := delete seq m.activeSrcConnIDs } : connIDGenerator) ∧
            (delete seq m.activeSrcConnIDs).length + 1 ≤ max 1 maxIssued := by
          refine ⟨⟨fun e he => g1 e (mem_delete he).1, delete_nodup seq g2, ?_, ?_⟩, ?_⟩
          · show m.highestSeq + 1 = (delete seq m.activeSrcConnIDs).length
              + (m.retiredConnIDs ++ [connID]).length
            rw [List.length_append, List.length_singleton]
            omega
          · show (delete seq m.activeSrcConnIDs).length ≤ _
            omega
          · omega
        split
        · exact hr.1
        · exact generator_good_issue maxIssued retireBug _ 1 hr.1 hr.2

theorem generator_good_call (maxIssued : Nat) (m : connIDGenerator) (c : GeneratorCall)
    (hg : m.good maxIssued) : (m.call maxIssued c).2.good maxIssued := by
  cases c with
  | SetMaxActiveConnIDs retireBug limit =>
    exact generator_good_SetMaxActiveConnIDs maxIssued retireBug m limit hg
  | Retire retireBug seq dest => exact generator_good_Retire maxIssued retireBug m seq dest hg

theorem generator_good_run (maxIssued : Nat) :
    ∀ (calls : List GeneratorCall) (m : connIDGenerator), m.good maxIssued →
      (m.run maxIssued calls).good maxIssued
  | [], _, hg => hg
  | c :: calls, m, hg => generator_good_run maxIssued calls _ (generator_good_call maxIssued m c hg)

end quic

namespace quic

theorem issueNewConnID_fields (retireBug : Bool) (m : connIDGenerator) :
    (m.issueNewConnID retireBug).connIDLen = m.connIDLen ∧
    (m.issueNewConnID retireBug).getStatelessResetToken = m.getStatelessResetToken := by
  cases retireBug <;> exact ⟨rfl, rfl⟩

theorem issue_fields (retireBug : Bool) : ∀ (n : Nat) (m : connIDGenerator),
    (m.issue retireBug n).connIDLen = m.connIDLen ∧
    (m.issue retireBug n).getStatelessResetToken = m.getStatelessResetToken
  | 0, _ => ⟨rfl, rfl⟩
  | n + 1, m => by
    have h1 := issue_fields retireBug n (m.issueNewConnID retireBug)
    have h2 := issueNewConnID_fields retireBug m
    exact ⟨h1.1.trans h2.1, h1.2.trans h2.2⟩

theorem framesFrom_issueNewConnID (s : Nat) (m : connIDGenerator) (h : m.framesFrom s) :
    (m.issueNewConnID false).framesFrom s ∧
    (m.issueNewConnID false).queuedFrames.length = m.queuedFrames.length + 1 := by
  obtain ⟨h1, h2, h3, h4⟩ := h
  simp only [connIDGenerator.issueNewConnID, Bool.false_eq_true, if_false]
  refine ⟨⟨?_, ?_, ?_, ?_⟩, by simp⟩
  · show m.highestSeq + 1 = s + (m.queuedFrames ++ [_]).length
    rw [List.length_append, List.length_singleton]
    omega
  · show (m.queuedFrames ++ [_]).map _ = List.range' (s + 1) (m.queuedFrames ++ [_]).length
    rw [List.map_append, h2, List.length_append, List.length_singleton, List.range'_concat]
    simp only [List.map_cons, List.map_nil, one_mul]
    rw [h1]
    congr 2
    omega
  · intro f hf
    rcases List.mem_append.1 hf with hf | hf
    · exact h3 f hf
    · rw [List.mem_singleton] at hf
      subst hf
      exact ⟨GenerateConnectionID_length _ _ _, rfl⟩
  · show m.addedConnIDs ++ [_] = (m.queuedFrames ++ [_]).map _
    rw [List.map_append, h4]
    rfl

theorem framesFrom_issue (s : Nat) : ∀ (n : Nat) (m : connIDGenerator), m.framesFrom s →
    (m.issue false n).framesFrom s ∧
    (m.issue false n).queuedFrames.length = m.queuedFrames.length + n
  | 0, _, h => ⟨h, rfl⟩
  | n + 1, m, h => by
    obtain ⟨h1, h2⟩ := framesFrom_issueNewConnID s m h
    obtain ⟨k1, k2⟩ := framesFrom_issue s n (m.issueNewConnID false) h1
    refine ⟨k1, ?_⟩
    show ((m.issueNewConnID false).issue false n).queuedFrames.length = _
    omega

theorem lookup_mem {seq : Nat} {active : List (Nat × List Nat)} {connID : List Nat}
    (h : lookup seq active = some connID) : (seq, connID) ∈ active := by
  unfold lookup at h
  cases hf : active.find? (fun e => e.1 == seq) with
  | none => simp [hf] at h
  | some e =>
    rw [hf] at h
    have h1 := List.find?_some hf
    have h2 := List.mem_of_find?_eq_some hf
    simp at h h1
    rw [← h, ← h1]
    exact h2

end quic

namespace quic

theorem lookup_issueNewConnID_old (m : connIDGenerator) (k : Nat) (connID : List Nat)
    (hk : ∀ e ∈ m.activeSrcConnIDs, e.1 ≤ m.highestSeq)
    (hl : lookup k m.activeSrcConnIDs = some connID) :
    lookup k (m.issueNewConnID false).activeSrcConnIDs = some connID := by
  have hd : delete (m.highestSeq + 1) m.activeSrcConnIDs = m.activeSrcConnIDs :=
    delete_absent _ _ (fun e he => by have := hk e he; omega)
  simp only [connIDGenerator.issueNewConnID, Bool.false_eq_true, if_false, hd]
  unfold lookup at hl ⊢
  rw [List.find?_append]
  cases hf : m.activeSrcConnIDs.find? (fun e => e.1 == k) with
  | none => simp [hf] at hl
  | some e =>
    rw [hf] at hl
    simpa using hl

theorem lookup_issueNewConnID_new (m : connIDGenerator)
    (hk : ∀ e ∈ m.activeSrcConnIDs, e.1 ≤ m.highestSeq) :
    lookup (m.highestSeq + 1) (m.issueNewConnID false).activeSrcConnIDs
      = some (GenerateConnectionID m.random m.drawn m.connIDLen) := by
  have hd : delete (m.highestSeq + 1) m.activeSrcConnIDs = m.activeSrcConnIDs :=
    delete_absent _ _ (fun e he => by have := hk e he; omega)
  have hnone : m.activeSrcConnIDs.find? (fun e => e.1 == m.highestSeq + 1) = none := by
    rw [List.find?_eq_none]
    intro e he
    have := hk e he
    simp only [beq_iff_eq]
    omega
  simp only [connIDGenerator.issueNewConnID, Bool.false_eq_true, if_false, hd]
  unfold lookup
  rw [List.find?_append, hnone]
  simp

theorem lookup_issue_old (k : Nat) (connID : List Nat) :
    ∀ (n : Nat) (m : connIDGenerator),
      (∀ e ∈ m.activeSrcConnIDs, e.1 ≤ m.highestSeq) →
      (m.activeSrcConnIDs.map Prod.fst).Nodup →
      lookup k m.activeSrcConnIDs = some connID →
      lookup k (m.issue false n).activeSrcConnIDs = some connID
  | 0, _, _, _, hl => hl
  | n + 1, m, hk, hn, hl => by
    obtain ⟨h1, h2, _, _, _⟩ := issueNewConnID_false m hk hn
    exact lookup_issue_old k connID n (m.issueNewConnID false) h1 h2
      (lookup_issueNewConnID_old m k connID hk hl)

/-- Whatever the hard limit is, from 2 on, one more connection ID than the limit
can be issued: `SetMaxActiveConnIDs` issues up to the limit, and retiring the
connection ID with sequence number 1 in a packet sent to another connection ID
issues a replacement. -/
theorem issued_exceeds_every_limit (limit : Nat) (initialConnID initialClientDestConnID : List Nat)
    (token : List Nat → List Nat) (random : Nat → Nat) :
    ((newConnIDGenerator initialConnID initialClientDestConnID token random).run (limit + 2)
      [GeneratorCall.SetMaxActiveConnIDs false (limit + 2),
       GeneratorCall.Retire false 1
        (GenerateConnectionID random 0 initialConnID.length ++ [0])]).issued
      = limit + 3 := by
  have hg := generator_good_new (limit + 2) initialConnID initialClientDestConnID token random
  obtain ⟨h1, h2, _, _, _⟩ := issueNewConnID_false _ hg.1 hg.2.1
  have hl1 := lookup_issueNewConnID_new _ hg.1
  have hl := lookup_issue_old _ _ limit _ h1 h2 hl1
  obtain ⟨k1, k2, k3, k4, k5⟩ := issue_false (limit + 1) _ hg.1 hg.2.1
  have hset : ((newConnIDGenerator initialConnID initialClientDestConnID token
      random).SetMaxActiveConnIDs false (limit + 2) (limit + 2)).2
      = (newConnIDGenerator initialConnID initialClientDestConnID token random).issue false
        (limit + 1) := by
    unfold connIDGenerator.SetMaxActiveConnIDs
    simp [newConnIDGenerator]
  show (((newConnIDGenerator initialConnID initialClientDestConnID token
      random).SetMaxActiveConnIDs false (limit + 2) (limit + 2)).2.Retire false 1 _).2.issued = _
  rw [hset]
  generalize hm : (newConnIDGenerator initialConnID initialClientDestConnID token random).issue
    false (limit + 1) = m at k1 k2 k3 k4 k5
  have hl2 : lookup 1 m.activeSrcConnIDs
      = some (GenerateConnectionID random 0 initialConnID.length) := by
    rw [← hm]
    exact hl
  have hs : m.highestSeq = limit + 1 := by
    rw [k4]
    simp [newConnIDGenerator]
  unfold connIDGenerator.Retire
  rw [if_neg (by omega), hl2]
  dsimp only
  rw [if_neg (by
    rintro ⟨h, _⟩
    have := congrArg List.length h
    simp at this), if_neg (by decide)]
  show (connIDGenerator.issueNewConnID false _).highestSeq + 1 = _
  simp only [connIDGenerator.issueNewConnID, Bool.false_eq_true, if_false]
  omega

end quic

namespace quic

/-- Claim C26. On a generator reached from a new one by any sequence of calls, if
`connID` is the active connection ID with sequence number `seq`, then
`Retire(seq, connID)` with `RetireBugBackwardsCompatibilityMode` off returns a
PROTOCOL_VIOLATION error and leaves the generator as it was, also for sequence
number 0; with the flag on the same call returns no error and passes `connID` to
the retire callback. -/
theorem Retire_own_destination_connID (maxIssuedConnectionIDs : Nat)
    (initialConnID initialClientDestConnID : List Nat) (token : List Nat → List Nat)
    (random : Nat → Nat) (calls : List GeneratorCall) (seq : Nat) (connID : List Nat)
    (hactive : lookup seq ((newConnIDGenerator initialConnID initialClientDestConnID token
      random).run maxIssuedConnectionIDs calls).activeSrcConnIDs = some connID) :
    (∃ err, ((newConnIDGenerator initialConnID initialClientDestConnID token random).run
        maxIssuedConnectionIDs calls).Retire false seq connID
        = (some err, (newConnIDGenerator initialConnID initialClientDestConnID token random).run
          maxIssuedConnectionIDs calls) ∧
      err.ErrorCode = qerr.ErrorCode.ProtocolViolation) ∧
    (((newConnIDGenerator initialConnID initialClientDestConnID token random).run
        maxIssuedConnectionIDs calls).Retire true seq connID).1 = none ∧
    (((newConnIDGenerator initialConnID initialClientDestConnID token random).run
        maxIssuedConnectionIDs calls).Retire true seq connID).2.retiredConnIDs
      = ((newConnIDGenerator initialConnID initialClientDestConnID token random).run
        maxIssuedConnectionIDs calls).retiredConnIDs ++ [connID] := by
  have hg := generator_good_run maxIssuedConnectionIDs calls _
    (generator_good_new maxIssuedConnectionIDs initialConnID initialClientDestConnID token random)
  generalize (newConnIDGenerator initialConnID initialClientDestConnID token random).run
    maxIssuedConnectionIDs calls = m at hg hactive
  have hseq : ¬ m.highestSeq < seq := by
    have := hg.1 _ (lookup_mem hactive)
    simp only at this
    omega
  refine ⟨?_, ?_, ?_⟩
  · unfold connIDGenerator.Retire
    rw [if_neg hseq, hactive]
    dsimp only
    rw [if_pos ⟨rfl, rfl⟩]
    exact ⟨_, rfl, rfl⟩
  · unfold connIDGenerator.Retire
    rw [if_neg hseq, hactive]
    dsimp only
    rw [if_neg (by simp)]
    split <;> rfl
  · unfold connIDGenerator.Retire
    rw [if_neg hseq, hactive]
    dsimp only
    rw [if_neg (by simp)]
    split <;> rfl

/-- Instance of C26 (the retire attack of the specification): after
`SetMaxActiveConnIDs(4)` a frame that retires sequence number 0 in a packet sent
to the initial connection ID is a protocol violation. -/
theorem Retire_own_destination_connID_witness :
    ∃ err, ((testGenerator.run 6 [GeneratorCall.SetMaxActiveConnIDs false 4]).Retire false 0
        [1, 2, 3, 4, 5, 6, 7]).1 = some err ∧
      err.ErrorCode = qerr.ErrorCode.ProtocolViolation := by
  obtain ⟨err, h1, h2⟩ := (Retire_own_destination_connID 6 [1, 2, 3, 4, 5, 6, 7]
    [0xa, 0xb, 0xc, 0xd, 0xe] (fun c => List.replicate 16 (c.headD 0)) (fun k => k + 16)
    [GeneratorCall.SetMaxActiveConnIDs false 4] 0 [1, 2, 3, 4, 5, 6, 7] (by decide)).1
  exact ⟨err, congrArg Prod.fst h1, h2⟩

/-- Claim C27. `Retire(seq, destCID)` with `seq` greater than the highest
sequence number issued so far returns a PROTOCOL_VIOLATION error and leaves the
generator as it was: no retire callback is invoked and no frame is queued. This
holds in every state and for both values of the flag. -/
theorem Retire_not_yet_issued (retireBug : Bool) (m : connIDGenerator) (seq : Nat)
    (sentWithDestConnID : List Nat) (hseq : m.highestSeq < seq) :
    (∃ err, m.Retire retireBug seq sentWithDestConnID = (some err, m) ∧
      err.ErrorCode = qerr.ErrorCode.ProtocolViolation) ∧
    (m.Retire retireBug seq sentWithDestConnID).2.retiredConnIDs = m.retiredConnIDs ∧
    (m.Retire retireBug seq sentWithDestConnID).2.queuedFrames = m.queuedFrames := by
  unfold connIDGenerator.Retire
  rw [if_pos hseq]
  exact ⟨⟨_, rfl, rfl⟩, rfl, rfl⟩

/-- Instance of C27: on a new generator sequence number 1 was not issued yet, and
the error has the message that the test expects. -/
theorem Retire_not_yet_issued_witness :
    (testGenerator.Retire false 1 []).1
      = some { ErrorCode := qerr.ErrorCode.ProtocolViolation
               ErrorMessage := "tried to retire connection ID 1. Highest issued: 0" } ∧
    (testGenerator.Retire false 1 []).2.retiredConnIDs = [] ∧
    (testGenerator.Retire false 1 []).2.queuedFrames = [] :=
  ⟨by decide, (Retire_not_yet_issued false testGenerator 1 [] (by decide)).2⟩

/-- Claim C28. `SetMaxActiveConnIDs(n)` on a new generator, with the
compatibility mode off, returns no error and issues `min(n, MaxIssuedConnectionIDs) − 1`
connection IDs (none when that minimum is 0): it queues that many
NEW_CONNECTION_ID frames, with the sequence numbers 1, 2, 3, … in this order;
each frame has a connection ID of the length of the initial connection ID and
the stateless reset token computed from its connection ID; the connection IDs of
the frames are the ones passed to the add callback, in order; nothing is
retired. -/
theorem SetMaxActiveConnIDs_new (maxIssuedConnectionIDs : Nat)
    (initialConnID initialClientDestConnID : List Nat) (token : List Nat → List Nat)
    (random : Nat → Nat) (n : Nat) :
    ((newConnIDGenerator initialConnID initialClientDestConnID token random).SetMaxActiveConnIDs
      false maxIssuedConnectionIDs n).1 = none ∧
    ((newConnIDGenerator initialConnID initialClientDestConnID token random).SetMaxActiveConnIDs
      false maxIssuedConnectionIDs n).2.queuedFrames.length
      = min n maxIssuedConnectionIDs - 1 ∧
    ((newConnIDGenerator initialConnID initialClientDestConnID token random).SetMaxActiveConnIDs
      false maxIssuedConnectionIDs n).2.queuedFrames.map (fun f => f.SequenceNumber)
      = List.range' 1 (min n maxIssuedConnectionIDs - 1) ∧
    (∀ f ∈ ((newConnIDGenerator initialConnID initialClientDestConnID token
        random).SetMaxActiveConnIDs false maxIssuedConnectionIDs n).2.queuedFrames,
      f.ConnectionID.length = initialConnID.length ∧
      f.StatelessResetToken = token f.ConnectionID) ∧
    ((newConnIDGenerator initialConnID initialClientDestConnID token random).SetMaxActiveConnIDs
      false maxIssuedConnectionIDs n).2.addedConnIDs
      = ((newConnIDGenerator initialConnID initialClientDestConnID token
        random).SetMaxActiveConnIDs false maxIssuedConnectionIDs n).2.queuedFrames.map
          (fun f => f.ConnectionID) ∧
    ((newConnIDGenerator initialConnID initialClientDestConnID token random).SetMaxActiveConnIDs
      false maxIssuedConnectionIDs n).2.retiredConnIDs = [] := by
  have h0 : (newConnIDGenerator initialConnID initialClientDestConnID token random).framesFrom 0 :=
    ⟨rfl, rfl, fun f hf => absurd hf (List.not_mem_nil f), rfl⟩
  have hg := generator_good_new 0 initialConnID initialClientDestConnID token random
  obtain ⟨⟨_, k2, k3, k4⟩, k5⟩ := framesFrom_issue 0 (min n maxIssuedConnectionIDs - 1) _ h0
  obtain ⟨f1, f2⟩ := issue_fields false (min n maxIssuedConnectionIDs - 1)
    (newConnIDGenerator initialConnID initialClientDestConnID token random)
  obtain ⟨_, _, _, _, r5⟩ := issue_false (min n maxIssuedConnectionIDs - 1) _ hg.1 hg.2.1
  have hlen : ((newConnIDGenerator initialConnID initialClientDestConnID token
      random).issue false (min n maxIssuedConnectionIDs - 1)).queuedFrames.length
      = min n maxIssuedConnectionIDs - 1 := by
    rw [k5]
    exact Nat.zero_add _
  rw [hlen] at k2
  rw [f1, f2] at k3
  exact ⟨rfl, hlen, k2, k3, k4, r5⟩

/-- Claim C29 fails as stated: with the hard limit 6, `SetMaxActiveConnIDs(11)`
issues five connection IDs, and retiring the one with sequence number 5 (as the
test of duplicate retirements does) issues a replacement: seven connection IDs
were issued, the initial one included. -/
theorem issued_exceeds_MaxIssuedConnectionIDs :
    (testGenerator.run 6 [GeneratorCall.SetMaxActiveConnIDs false 11,
      GeneratorCall.Retire false 5 []]).issued = 7 ∧
    (testGenerator.run 6 [GeneratorCall.SetMaxActiveConnIDs false 11,
      GeneratorCall.Retire false 5 []]).queuedFrames.length = 6 ∧
    ¬ (testGenerator.run 6 [GeneratorCall.SetMaxActiveConnIDs false 11,
      GeneratorCall.Retire false 5 []]).issued ≤ 6 := by
  decide

/-- Claim C29, amended. After any sequence of `SetMaxActiveConnIDs` and `Retire`
calls on a new generator, with a hard limit of at least 1, every connection ID
issued so far is active or was retired, at most `MaxIssuedConnectionIDs` are
active, and so the number issued (the initial one included) is at most
`MaxIssuedConnectionIDs` plus the number of connection IDs retired so far. -/
theorem issued_le_limit_plus_retired (maxIssuedConnectionIDs : Nat)
    (hmax : 1 ≤ maxIssuedConnectionIDs)
    (initialConnID initialClientDestConnID : List Nat) (token : List Nat → List Nat)
    (random : Nat → Nat) (calls : List GeneratorCall) :
    ((newConnIDGenerator initialConnID initialClientDestConnID token random).run
      maxIssuedConnectionIDs calls).issued
      = ((newConnIDGenerator initialConnID initialClientDestConnID token random).run
          maxIssuedConnectionIDs calls).activeSrcConnIDs.length
        + ((newConnIDGenerator initialConnID initialClientDestConnID token random).run
          maxIssuedConnectionIDs calls).retiredConnIDs.length ∧
    ((newConnIDGenerator initialConnID initialClientDestConnID token random).run
      maxIssuedConnectionIDs calls).activeSrcConnIDs.length ≤ maxIssuedConnectionIDs ∧
    ((newConnIDGenerator initialConnID initialClientDestConnID token random).run
      maxIssuedConnectionIDs calls).issued
      ≤ maxIssuedConnectionIDs
        + ((newConnIDGenerator initialConnID initialClientDestConnID token random).run
          maxIssuedConnectionIDs calls).retiredConnIDs.length := by
  obtain ⟨_, _, h3, h4⟩ := generator_good_run maxIssuedConnectionIDs calls _
    (generator_good_new maxIssuedConnectionIDs initialConnID initialClientDestConnID token random)
  unfold connIDGenerator.issued
  refine ⟨h3, ?_, ?_⟩ <;> omega

/-- Instance of C29, amended: in the run that exceeds the limit 6, seven
connection IDs were issued and one was retired. -/
theorem issued_le_limit_plus_retired_witness :
    (testGenerator.run 6 [GeneratorCall.SetMaxActiveConnIDs false 11,
      GeneratorCall.Retire false 5 []]).issued
      ≤ 6 + (testGenerator.run 6 [GeneratorCall.SetMaxActiveConnIDs false 11,
        GeneratorCall.Retire false 5 []]).retiredConnIDs.length :=
  (issued_le_limit_plus_retired 6 (by decide) [1, 2, 3, 4, 5, 6, 7] [0xa, 0xb, 0xc, 0xd, 0xe]
    (fun c => List.replicate 16 (c.headD 0)) (fun k => k + 16)
    [GeneratorCall.SetMaxActiveConnIDs false 11, GeneratorCall.Retire false 5 []]).2.2

end quic

/-! ## Properties of the send mode -/

namespace ackhandler

theorem setLossDetectionTimer_bytes (h : sentPacketHandler) (now : Int) :
    (h.setLossDetectionTimer now).bytesSent = h.bytesSent ∧
    (h.setLossDetectionTimer now).bytesReceived = h.bytesReceived := by
  unfold sentPacketHandler.setLossDetectionTimer
  split
  · exact ⟨rfl, rfl⟩
  · split <;> exact ⟨rfl, rfl⟩

theorem sentPacketImpl_bytes (h : sentPacketHandler) (sp : packetNumberSpace) (packet : Packet) :
    (h.sentPacketImpl sp packet).bytesSent = h.bytesSent ∧
    (h.sentPacketImpl sp packet).bytesReceived = h.bytesReceived := by
  unfold sentPacketHandler.sentPacketImpl sentPacketHandler.setPacketNumberSpace
  cases packet.EncryptionLevel <;> exact ⟨rfl, rfl⟩

theorem SentPacket_server_bytes (h g : sentPacketHandler) (packet : Packet) (now : Int)
    (hs : h.perspective = Perspective.PerspectiveServer)
    (hg : h.SentPacket packet now = some g) :
    g.bytesSent = h.bytesSent + packet.Length ∧ g.bytesReceived = h.bytesReceived := by
  obtain ⟨sp, _, _, rfl⟩ := SentPacket_cases h g packet now hg
  have h1 := setLossDetectionTimer_bytes ((h.countSentPacket packet).sentPacketImpl sp packet) now
  have h2 := sentPacketImpl_bytes (h.countSentPacket packet) sp packet
  have h3 : (h.countSentPacket packet).bytesSent = h.bytesSent + packet.Length ∧
      (h.countSentPacket packet).bytesReceived = h.bytesReceived := by
    unfold sentPacketHandler.countSentPacket
    rw [if_neg (by rw [hs]; rintro ⟨h0, _⟩; cases h0)]
    exact ⟨rfl, rfl⟩
  exact ⟨h1.1.trans (h2.1.trans h3.1), h1.2.trans (h2.2.trans h3.2)⟩

/-- Claim C21 fails as stated: its last part does not follow. After 200 bytes
were received and 599 bytes sent, `SendMode` returns `SendAny`; a packet of 2
bytes sent then brings the bytes sent to 601, more than 3 times the 200 bytes
received. -/
theorem amplification_limit_exceeded :
    (testHandler.after amplificationCalls).SendMode (fun _ => true) 100 = SendMode.SendAny ∧
    (testHandler.after (amplificationCalls ++ [Call.SentPacket (initialPacket 2 2) 0])).bytesSent
      = 601 ∧
    (testHandler.after (amplificationCalls ++ [Call.SentPacket (initialPacket 2 2) 0])).bytesReceived
      = 200 ∧
    ¬ (testHandler.after
        (amplificationCalls ++ [Call.SentPacket (initialPacket 2 2) 0])).bytesSent
      ≤ 3 * (testHandler.after
        (amplificationCalls ++ [Call.SentPacket (initialPacket 2 2) 0])).bytesReceived := by
  decide

/-- Claim C21, amended. For a server whose peer address is not yet validated and
that owes no PTO probe, `SendMode` returns `SendNone` exactly when the bytes sent
so far are at least 3 times the bytes received so far; so a packet sent while
`SendMode` does not return `SendNone` brings the bytes sent to less than 3 times
the bytes received plus the length of that packet. -/
theorem SendMode_none_iff_amplification_limited (h : sentPacketHandler) (canSend : Int → Bool)
    (maxOutstandingSentPackets : Nat)
    (hserver : h.perspective = Perspective.PerspectiveServer)
    (hvalidated : h.peerAddressValidated = false)
    (hprobes : h.numProbesToSend = 0) :
    (h.SendMode canSend maxOutstandingSentPackets = SendMode.SendNone ↔
      3 * h.bytesReceived ≤ h.bytesSent) ∧
    (∀ (packet : Packet) (now : Int) (g : sentPacketHandler),
      h.SendMode canSend maxOutstandingSentPackets ≠ SendMode.SendNone →
      h.SentPacket packet now = some g →
      g.bytesSent < 3 * g.bytesReceived + packet.Length) := by
  have hiff : h.SendMode canSend maxOutstandingSentPackets = SendMode.SendNone ↔
      3 * h.bytesReceived ≤ h.bytesSent := by
    unfold sentPacketHandler.SendMode
    rw [if_neg (by omega)]
    by_cases hlim : 3 * h.bytesReceived ≤ h.bytesSent
    · rw [if_pos ⟨hserver, hvalidated, hlim⟩]
      exact ⟨fun _ => hlim, fun _ => rfl⟩
    · rw [if_neg (fun hc => hlim hc.2.2)]
      constructor
      · intro hm
        split at hm
        · cases hm
        · split at hm <;> cases hm
      · intro hc
        exact absurd hc hlim
  refine ⟨hiff, ?_⟩
  intro packet now g hmode hg
  obtain ⟨h1, h2⟩ := SentPacket_server_bytes h g packet now hserver hg
  have hlim : ¬ 3 * h.bytesReceived ≤ h.bytesSent := fun hc => hmode (hiff.2 hc)
  omega

/-- Instance of C21, amended (the test of the amplification limit): with 200
bytes received, `SendMode` returns `SendAny` after 599 bytes were sent and
`SendNone` after 600. -/
theorem SendMode_none_iff_amplification_limited_witness :
    (testHandler.after amplificationCalls).SendMode (fun _ => true) 100 = SendMode.SendAny ∧
    (testHandler.after (amplificationCalls ++ [Call.SentPacket (initialPacket 2 1) 0])).SendMode
      (fun _ => true) 100 = SendMode.SendNone :=
  ⟨by decide,
    (SendMode_none_iff_amplification_limited
      (testHandler.after (amplificationCalls ++ [Call.SentPacket (initialPacket 2 1) 0]))
      (fun _ => true) 100 (by decide) (by decide) (by decide)).1.2 (by decide)⟩

end ackhandler

/-! ## Re-encoding what the decoder read -/

namespace quicvarint

theorem reencode1 (buf : List Nat) (a : Nat) (ha : a < 64) :
    a ≤ maxVarInt8 ∧ ∃ w, Write buf a = Outcome.returned (buf ++ w) ∧
      (w = [a] ↔ Len a = some (([a] : List Nat).length : Int)) := by
  refine ⟨by simp only [maxVarInt8]; omega, [a], Write_len1 buf a (by omega), ?_⟩
  simp [Len, maxVarInt1, show a ≤ 63 by omega]

theorem reencode2 (buf : List Nat) (a x : Nat) (ha : a < 64) (hx : x < 256) :
    a * 256 + x ≤ maxVarInt8 ∧ ∃ w, Write buf (a * 256 + x) = Outcome.returned (buf ++ w) ∧
      (w = [a + 64, x] ↔ Len (a * 256 + x) = some (([a + 64, x] : List Nat).length : Int)) := by
  have hv : a * 256 + x ≤ maxVarInt8 := by simp only [maxVarInt8]; omega
  refine ⟨hv, ?_⟩
  generalize hvv : a * 256 + x = v at hv
  rcases Len_cases v hv with ⟨h, hl⟩ | ⟨h1, h2, hl⟩ | ⟨h1, h2, hl⟩ | ⟨h1, h2, hl⟩
  · exact ⟨[v], Write_len1 buf v h, by simp [hl]⟩
  · refine ⟨_, Write_len2 buf v h1 h2, ?_⟩
    have e1 : v / 256 = a := by omega
    have e2 : v % 256 = x := by omega
    simp [hl, e1, e2]
  · omega
  · omega

theorem reencode4 (buf : List Nat) (a x y z : Nat) (ha : a < 64) (hx : x < 256) (hy : y < 256)
    (hz : z < 256) :
    a * 16777216 + x * 65536 + y * 256 + z ≤ maxVarInt8 ∧
    ∃ w, Write buf (a * 16777216 + x * 65536 + y * 256 + z) = Outcome.returned (buf ++ w) ∧
      (w = [a + 128, x, y, z] ↔ Len (a * 16777216 + x * 65536 + y * 256 + z)
        = some (([a + 128, x, y, z] : List Nat).length : Int)) := by
  have hv : a * 16777216 + x * 65536 + y * 256 + z ≤ maxVarInt8 := by
    simp only [maxVarInt8]; omega
  refine ⟨hv, ?_⟩
  generalize hvv : a * 16777216 + x * 65536 + y * 256 + z = v at hv
  rcases Len_cases v hv with ⟨h, hl⟩ | ⟨h1, h2, hl⟩ | ⟨h1, h2, hl⟩ | ⟨h1, h2, hl⟩
  · exact ⟨[v], Write_len1 buf v h, by simp [hl]⟩
  · exact ⟨_, Write_len2 buf v h1 h2, by simp [hl]⟩
  · refine ⟨_, Write_len4 buf v h1 h2, ?_⟩
    have e1 : v / 16777216 = a := by omega
    have e2 : v / 65536 % 256 = x := by omega
    have e3 : v / 256 % 256 = y := by omega
    have e4 : v % 256 = z := by omega
    simp [hl, e1, e2, e3, e4]
  · omega

theorem reencode8 (buf : List Nat) (a c d e f g k l : Nat) (ha : a < 64) (hc : c < 256)
    (hd : d < 256) (he : e < 256) (hf : f < 256) (hg : g < 256) (hk : k < 256) (hl : l < 256) :
    a * 72057594037927936 + c * 281474976710656 + d * 1099511627776 + e * 4294967296
        + f * 16777216 + g * 65536 + k * 256 + l ≤ maxVarInt8 ∧
    ∃ w, Write buf (a * 72057594037927936 + c * 281474976710656 + d * 1099511627776
        + e * 4294967296 + f * 16777216 + g * 65536 + k * 256 + l)
        = Outcome.returned (buf ++ w) ∧
      (w = [a + 192, c, d, e, f, g, k, l] ↔
        Len (a * 72057594037927936 + c * 281474976710656 + d * 1099511627776
          + e * 4294967296 + f * 16777216 + g * 65536 + k * 256 + l)
          = some (([a + 192, c, d, e, f, g, k, l] : List Nat).length : Int)) := by
  have hv : a * 72057594037927936 + c * 281474976710656 + d * 1099511627776 + e * 4294967296
      + f * 16777216 + g * 65536 + k * 256 + l ≤ maxVarInt8 := by
    simp only [maxVarInt8]; omega
  refine ⟨hv, ?_⟩
  generalize hvv : a * 72057594037927936 + c * 281474976710656 + d * 1099511627776
    + e * 4294967296 + f * 16777216 + g * 65536 + k * 256 + l = v at hv
  rcases Len_cases v hv with ⟨h, hlen⟩ | ⟨h1, h2, hlen⟩ | ⟨h1, h2, hlen⟩ | ⟨h1, h2, hlen⟩
  · exact ⟨[v], Write_len1 buf v h, by simp [hlen]⟩
  · exact ⟨_, Write_len2 buf v h1 h2, by simp [hlen]⟩
  · exact ⟨_, Write_len4 buf v h1 h2, by simp [hlen]⟩
  · refine ⟨_, Write_len8 buf v h1 h2, ?_⟩
    have e1 : v / 72057594037927936 = a := by omega
    have e2 : v / 281474976710656 % 256 = c := by omega
    have e3 : v / 1099511627776 % 256 = d := by omega
    have e4 : v / 4294967296 % 256 = e := by omega
    have e5 : v / 16777216 % 256 = f := by omega
    have e6 : v / 65536 % 256 = g := by omega
    have e7 : v / 256 % 256 = k := by omega
    have e8 : v % 256 = l := by omega
    simp [hlen, e1, e2, e3, e4, e5, e6, e7, e8]

end quicvarint

namespace quicvarint

/-- The input of a successful `Read`: the bytes consumed are one of the four
encodings, with the two length bits and the six value bits of the first byte
told apart. -/
theorem Read_ok_shape (b r : List Nat) (v : Nat) (hb : ∀ x ∈ b, x < 256)
    (h : Read b = Except.ok (v, r)) :
    (∃ a, a < 64 ∧ b = a :: r ∧ v = a)
    ∨ (∃ a x, a < 64 ∧ x < 256 ∧ b = (a + 64) :: x :: r ∧ v = a * 256 + x)
    ∨ (∃ a x y z, a < 64 ∧ x < 256 ∧ y < 256 ∧ z < 256 ∧ b = (a + 128) :: x :: y :: z :: r
        ∧ v = a * 16777216 + x * 65536 + y * 256 + z)
    ∨ (∃ a c d e f g k l, a < 64 ∧ c < 256 ∧ d < 256 ∧ e < 256 ∧ f < 256 ∧ g < 256 ∧ k < 256
        ∧ l < 256 ∧ b = (a + 192) :: c :: d :: e :: f :: g :: k :: l :: r
        ∧ v = a * 72057594037927936 + c * 281474976710656 + d * 1099511627776
          + e * 4294967296 + f * 16777216 + g * 65536 + k * 256 + l) := by
  cases b with
  | nil => simp [Read, ReadByte] at h
  | cons first rest =>
    have hf : first < 256 := hb first (List.mem_cons_self _ _)
    have hrest : ∀ x ∈ rest, x < 256 := fun x hx => hb x (List.mem_cons_of_mem _ hx)
    have hshort := (Read_cons first rest).1
    rw [byte_top first hf] at hshort
    have hq : first / 64 < 4 := by omega
    generalize hk : first / 64 = q at hq hshort
    have hlen : ¬ (first :: rest).length < 1 <<< q := by
      intro hlt
      rw [hshort.2 hlt] at h
      cases h
    interval_cases q
    · left
      have e : first < 64 := by omega
      rw [Read_len1 first rest e] at h
      simp only [Except.ok.injEq, Prod.mk.injEq] at h
      exact ⟨first, e, by rw [h.2], h.1.symm⟩
    · right; left
      rcases rest with _ | ⟨x, rest⟩
      · simp at hlen
      have hx : x < 256 := hrest x (List.mem_cons_self _ _)
      have e : first = (first - 64) + 64 := by omega
      rw [e, Read_len2 (first - 64) x rest (by omega) hx] at h
      simp only [Except.ok.injEq, Prod.mk.injEq] at h
      exact ⟨first - 64, x, by omega, hx, by rw [← e, h.2], h.1.symm⟩
    · right; right; left
      rcases rest with _ | ⟨x, _ | ⟨y, _ | ⟨z, rest⟩⟩⟩
      · simp at hlen
      · simp at hlen
      · simp at hlen
      have hx : x < 256 := hrest x (by simp)
      have hy : y < 256 := hrest y (by simp)
      have hz : z < 256 := hrest z (by simp)
      have e : first = (first - 128) + 128 := by omega
      rw [e, Read_len4 (first - 128) x y z rest (by omega) hx hy hz] at h
      simp only [Except.ok.injEq, Prod.mk.injEq] at h
      exact ⟨first - 128, x, y, z, by omega, hx, hy, hz, by rw [← e, h.2], h.1.symm⟩
    · right; right; right
      rcases rest with _ | ⟨c, _ | ⟨d, _ | ⟨e, _ | ⟨f, _ | ⟨g, _ | ⟨k, _ | ⟨l, rest⟩⟩⟩⟩⟩⟩⟩
      · simp at hlen
      · simp at hlen
      · simp at hlen
      · simp at hlen
      · simp at hlen
      · simp at hlen
      · simp at hlen
      have hc : c < 256 := hrest c (by simp)
      have hd : d < 256 := hrest d (by simp)
      have he : e < 256 := hrest e (by simp)
      have hf1 : f < 256 := hrest f (by simp)
      have hg : g < 256 := hrest g (by simp)
      have hk1 : k < 256 := hrest k (by simp)
      have hl : l < 256 := hrest l (by simp)
      have e0 : first = (first - 192) + 192 := by omega
      rw [e0, Read_len8 (first - 192) c d e f g k l rest (by omega) hc hd he hf1 hg hk1 hl] at h
      simp only [Except.ok.injEq, Prod.mk.injEq] at h
      exact ⟨first - 192, c, d, e, f, g, k, l, by omega, hc, hd, he, hf1, hg, hk1, hl,
        by rw [← e0, h.2], h.1.symm⟩

/-- Claim C40. For every byte string `b` on which `Read` succeeds, returning `v`
and leaving `r` unread, so that it consumed the bytes `c` with `b = c ++ r`:
`v ≤ 2^62 - 1`, `Write(v)` returns after appending some bytes `w` to the buffer,
and `w` are exactly the consumed bytes `c` if and only if the number of
consumed bytes is `Len(v)`. -/
theorem Write_after_Read (b r buf : List Nat) (v : Nat) (hb : ∀ x ∈ b, x < 256)
    (h : Read b = Except.ok (v, r)) :
    v ≤ maxVarInt8 ∧
    ∃ c w, b = c ++ r ∧ Write buf v = Outcome.returned (buf ++ w) ∧
      (w = c ↔ Len v = some (c.length : Int)) := by
  rcases Read_ok_shape b r v hb h with ⟨a, ha, rfl, hv⟩ | ⟨a, x, ha, hx, rfl, hv⟩
    | ⟨a, x, y, z, ha, hx, hy, hz, rfl, hv⟩
    | ⟨a, c, d, e, f, g, k, l, ha, hc, hd, he, hf, hg, hk, hl, rfl, hv⟩ <;> rw [hv]
  · obtain ⟨h1, w, h2, h3⟩ := reencode1 buf a ha
    exact ⟨h1, [a], w, rfl, h2, h3⟩
  · obtain ⟨h1, w, h2, h3⟩ := reencode2 buf a x ha hx
    exact ⟨h1, [a + 64, x], w, rfl, h2, h3⟩
  · obtain ⟨h1, w, h2, h3⟩ := reencode4 buf a x y z ha hx hy hz
    exact ⟨h1, [a + 128, x, y, z], w, rfl, h2, h3⟩
  · obtain ⟨h1, w, h2, h3⟩ := reencode8 buf a c d e f g k l ha hc hd he hf hg hk hl
    exact ⟨h1, [a + 192, c, d, e, f, g, k, l], w, rfl, h2, h3⟩

/-- Instance of C40: the two bytes 0x40 0x25 are a non-minimal encoding of 37.
`Read` accepts them, and `Write` re-encodes 37 as the single byte 0x25. -/
theorem Write_after_Read_witness :
    Read [0x40, 0x25, 0xff] = Except.ok (37, [0xff]) ∧
    Write [] 37 = Outcome.returned [0x25] ∧ Len 37 = some 1 ∧
    (37 ≤ maxVarInt8 ∧
      ∃ c w, [0x40, 0x25, 0xff] = c ++ [0xff] ∧ Write [] 37 = Outcome.returned ([] ++ w) ∧
        (w = c ↔ Len 37 = some (c.length : Int))) :=
  ⟨by rfl, by decide, by decide,
    Write_after_Read [0x40, 0x25, 0xff] [0xff] [] 37 (by decide) (by rfl)⟩

end quicvarint

/-! ## The minimum window size of the connection flow controller -/

namespace flowcontrol

/-- Claim C38. For every state of the connection flow controller with
`receive_window_size ≤ max_receive_window_size`, `EnsureMinimumWindowSize(w)`
sets `receive_window_size` to `max(old size, min(w, max_receive_window_size))`
and leaves the maximum as it is: the size is never reduced and never raised
above the maximum, and when `w` is not larger than the current size the
controller is unchanged. -/
theorem EnsureMinimumWindowSize_sets_max (c : connectionFlowController) (w now : Int)
    (h : c.baseFlowController.receiveWindowSize ≤ c.baseFlowController.maxReceiveWindowSize) :
    (c.EnsureMinimumWindowSize w now).baseFlowController.receiveWindowSize
      = max c.baseFlowController.receiveWindowSize
          (min w c.baseFlowController.maxReceiveWindowSize) ∧
    (c.EnsureMinimumWindowSize w now).baseFlowController.maxReceiveWindowSize
      = c.baseFlowController.maxReceiveWindowSize ∧
    c.baseFlowController.receiveWindowSize
      ≤ (c.EnsureMinimumWindowSize w now).baseFlowController.receiveWindowSize ∧
    (c.EnsureMinimumWindowSize w now).baseFlowController.receiveWindowSize
      ≤ c.baseFlowController.maxReceiveWindowSize ∧
    (w ≤ c.baseFlowController.receiveWindowSize → c.EnsureMinimumWindowSize w now = c) := by
  refine ⟨?_, ?_, ?_, ?_, ?_⟩
  · simp only [connectionFlowController.EnsureMinimumWindowSize,
      baseFlowController.startNewAutoTuningEpoch, MinByteCount]
    split_ifs <;> (try dsimp only) <;> omega
  · simp only [connectionFlowController.EnsureMinimumWindowSize,
      baseFlowController.startNewAutoTuningEpoch, MinByteCount]
    split_ifs <;> rfl
  · simp only [connectionFlowController.EnsureMinimumWindowSize,
      baseFlowController.startNewAutoTuningEpoch, MinByteCount]
    split_ifs <;> (try dsimp only) <;> omega
  · simp only [connectionFlowController.EnsureMinimumWindowSize,
      baseFlowController.startNewAutoTuningEpoch, MinByteCount]
    split_ifs <;> (try dsimp only) <;> omega
  · intro hw
    simp only [connectionFlowController.EnsureMinimumWindowSize]
    rw [if_neg (by omega)]

/-- Instance of C38: a controller with the window size 10 and the maximum 20.
A minimum of 15 raises the size to 15, a minimum of 30 to the maximum 20, and a
minimum of 5 changes nothing. -/
theorem EnsureMinimumWindowSize_sets_max_witness :
    ((NewConnectionFlowController 10 20).EnsureMinimumWindowSize 15
        0).baseFlowController.receiveWindowSize = 15 ∧
    ((NewConnectionFlowController 10 20).EnsureMinimumWindowSize 30
        0).baseFlowController.receiveWindowSize = 20 ∧
    ((NewConnectionFlowController 10 20).EnsureMinimumWindowSize 5
        0).baseFlowController.receiveWindowSize = 10 ∧
    ((NewConnectionFlowController 10 20).EnsureMinimumWindowSize 30
        0).baseFlowController.receiveWindowSize
      = max (NewConnectionFlowController 10 20).baseFlowController.receiveWindowSize
          (min 30 (NewConnectionFlowController 10 20).baseFlowController.maxReceiveWindowSize) :=
  ⟨by decide, by decide, by decide,
    (EnsureMinimumWindowSize_sets_max (NewConnectionFlowController 10 20) 30 0 (by decide)).1⟩

end flowcontrol


/-! ## Properties of the configuration functions -/

namespace quic

theorem shift_60 : ((1 <<< 60 : Nat) : Int) = 2 ^ 60 := by
  norm_num [Nat.shiftLeft_eq]

/-- Claim C33. `validateConfig` returns an error exactly when the config is not
nil and `MaxIncomingStreams` or `MaxIncomingUniStreams` is greater than `2^60`;
it accepts nil, and it accepts every config whose two limits are at most `2^60`,
negative limits included. -/
theorem validateConfig_error_iff {F S T : Type} (config : Option (Config F S T)) :
    (validateConfig config ≠ none ↔
      ∃ c, config = some c ∧ (2 ^ 60 < c.MaxIncomingStreams ∨ 2 ^ 60 < c.MaxIncomingUniStreams)) ∧
    validateConfig (none : Option (Config F S T)) = none ∧
    (∀ c : Config F S T, c.MaxIncomingStreams ≤ 2 ^ 60 → c.MaxIncomingUniStreams ≤ 2 ^ 60 →
      validateConfig (some c) = none) := by
  have hsome : ∀ c : Config F S T, validateConfig (some c) ≠ none ↔
      (2 ^ 60 < c.MaxIncomingStreams ∨ 2 ^ 60 < c.MaxIncomingUniStreams) := by
    intro c
    simp only [validateConfig, shift_60]
    split_ifs with h1 h2
    · simp only [ne_eq, reduceCtorEq, not_false_eq_true, true_iff]
      exact Or.inl h1
    · simp only [ne_eq, reduceCtorEq, not_false_eq_true, true_iff]
      exact Or.inr h2
    · simp only [ne_eq, not_true_eq_false, false_iff]
      rintro (h | h)
      · exact h1 h
      · exact h2 h
  refine ⟨?_, rfl, ?_⟩
  · cases config with
    | none => simp [validateConfig]
    | some c =>
      rw [hsome c]
      constructor
      · intro h
        exact ⟨c, rfl, h⟩
      · rintro ⟨c1, hc, h⟩
        cases hc
        exact h
  · intro c h1 h2
    by_contra hne
    rcases (hsome c).1 hne with h | h <;> omega

/-- Claim C34. `populateConfig` maps each of the two stream limits like this: a
negative value becomes 0, the value 0 (not set) becomes the default limit, and a
positive value is kept; for a nil config both limits are the defaults. -/
theorem populateConfig_stream_limits {F S T : Type} (d : Defaults) (c : Config F S T) :
    (c.MaxIncomingStreams < 0 → (populateConfig d (some c)).MaxIncomingStreams = 0) ∧
    (c.MaxIncomingStreams = 0 →
      (populateConfig d (some c)).MaxIncomingStreams = d.DefaultMaxIncomingStreams) ∧
    (0 < c.MaxIncomingStreams →
      (populateConfig d (some c)).MaxIncomingStreams = c.MaxIncomingStreams) ∧
    (c.MaxIncomingUniStreams < 0 → (populateConfig d (some c)).MaxIncomingUniStreams = 0) ∧
    (c.MaxIncomingUniStreams = 0 →
      (populateConfig d (some c)).MaxIncomingUniStreams = d.DefaultMaxIncomingUniStreams) ∧
    (0 < c.MaxIncomingUniStreams →
      (populateConfig d (some c)).MaxIncomingUniStreams = c.MaxIncomingUniStreams) ∧
    (populateConfig d (none : Option (Config F S T))).MaxIncomingStreams
      = d.DefaultMaxIncomingStreams ∧
    (populateConfig d (none : Option (Config F S T))).MaxIncomingUniStreams
      = d.DefaultMaxIncomingUniStreams := by
  refine ⟨?_, ?_, ?_, ?_, ?_, ?_, rfl, rfl⟩ <;> intro h <;> simp only [populateConfig]
  · rw [if_neg (by omega), if_pos h]
  · rw [if_pos h]
  · rw [if_neg (by omega), if_neg (by omega)]
  · rw [if_neg (by omega), if_pos h]
  · rw [if_pos h]
  · rw [if_neg (by omega), if_neg (by omega)]

/-- Claim C35. `populateServerConfig` replaces a `ConnectionIDLength` of 0 by the
default length, and `populateClientConfig` does so when `createdPacketConn` is
false; with `createdPacketConn` true a length of 0 is kept; a non-zero length is
not changed by either function. A nil config counts as one with the length 0. -/
theorem ConnectionIDLength_populated {F S T : Type} (d : Defaults) (defaultAcceptToken : F)
    (c : Config F S T) :
    (c.ConnectionIDLength = 0 →
      (populateServerConfig d defaultAcceptToken (some c)).ConnectionIDLength
        = d.DefaultConnectionIDLength ∧
      (populateClientConfig d (some c) false).ConnectionIDLength = d.DefaultConnectionIDLength ∧
      (populateClientConfig d (some c) true).ConnectionIDLength = 0) ∧
    (c.ConnectionIDLength ≠ 0 →
      (populateServerConfig d defaultAcceptToken (some c)).ConnectionIDLength
        = c.ConnectionIDLength ∧
      (populateClientConfig d (some c) false).ConnectionIDLength = c.ConnectionIDLength ∧
      (populateClientConfig d (some c) true).ConnectionIDLength = c.ConnectionIDLength) ∧
    (populateServerConfig d defaultAcceptToken (none : Option (Config F S T))).ConnectionIDLength
      = d.DefaultConnectionIDLength ∧
    (populateClientConfig d (none : Option (Config F S T)) false).ConnectionIDLength
      = d.DefaultConnectionIDLength ∧
    (populateClientConfig d (none : Option (Config F S T)) true).ConnectionIDLength = 0 := by
  have hpop : (populateConfig d (some c)).ConnectionIDLength = c.ConnectionIDLength := rfl
  have hnil : (populateConfig d (none : Option (Config F S T))).ConnectionIDLength = 0 := rfl
  have hserver : ∀ config : Option (Config F S T),
      (populateServerConfig d defaultAcceptToken config).ConnectionIDLength
        = if (populateConfig d config).ConnectionIDLength = 0 then d.DefaultConnectionIDLength
          else (populateConfig d config).ConnectionIDLength := by
    intro config
    simp only [populateServerConfig]
    split_ifs <;> rfl
  have hclient : ∀ (config : Option (Config F S T)) (created : Bool),
      (populateClientConfig d config created).ConnectionIDLength
        = if (populateConfig d config).ConnectionIDLength = 0 ∧ created = false then
            d.DefaultConnectionIDLength
          else (populateConfig d config).ConnectionIDLength := by
    intro config created
    simp only [populateClientConfig]
    split_ifs <;> rfl
  refine ⟨?_, ?_, ?_, ?_, ?_⟩
  · intro h
    rw [hserver, hclient, hclient, hpop, h]
    simp
  · intro h
    rw [hserver, hclient, hclient, hpop]
    simp [h]
  · rw [hserver, hnil]
    simp
  · rw [hclient, hnil]
    simp
  · rw [hclient, hnil]
    simp

end quic

namespace quic

/-- Claim C39 fails as stated: with the default limit 100, a config with
`MaxIncomingStreams = -1` is populated to the limit 0, and populating the result
again reads the 0 as "not set" and gives the limit 100. -/
theorem populateConfig_twice_differs :
    (populateConfig exampleDefaults (some (exampleConfig (-1)))).MaxIncomingStreams = 0 ∧
    (populateConfig exampleDefaults
      (some (populateConfig exampleDefaults (some (exampleConfig (-1)))))).MaxIncomingStreams
      = 100 ∧
    populateConfig exampleDefaults
        (some (populateConfig exampleDefaults (some (exampleConfig (-1)))))
      ≠ populateConfig exampleDefaults (some (exampleConfig (-1))) := by
  refine ⟨by decide, by decide, ?_⟩
  intro h
  have h1 := congrArg Config.MaxIncomingStreams h
  revert h1
  decide

/-- Claim C39, amended. With default stream limits that are not negative,
`populateConfig` is idempotent on every config whose `MaxIncomingStreams` and
`MaxIncomingUniStreams` are not negative, and on the nil config: populating the
populated config gives the populated config again, field by field. -/
theorem populateConfig_idempotent {F S T : Type} (d : Defaults)
    (hd1 : 0 ≤ d.DefaultMaxIncomingStreams) (hd2 : 0 ≤ d.DefaultMaxIncomingUniStreams)
    (c : Config F S T) (h1 : 0 ≤ c.MaxIncomingStreams) (h2 : 0 ≤ c.MaxIncomingUniStreams) :
    populateConfig d (some (populateConfig d (some c))) = populateConfig d (some c) ∧
    populateConfig d (some (populateConfig d (none : Option (Config F S T))))
      = populateConfig d (none : Option (Config F S T)) := by
  constructor
  · simp only [populateConfig, Config.mk.injEq, and_true, true_and]
    refine ⟨?_, ?_, ?_, ?_, ?_, ?_, ?_⟩
    · split_ifs <;> simp_all
    · split_ifs <;> simp_all
    · split_ifs <;> simp_all
    · split_ifs <;> simp_all
    · split_ifs <;> simp_all
    · split_ifs <;> omega
    · split_ifs <;> omega
  · simp only [populateConfig, emptyConfig, Config.mk.injEq, and_true, true_and]
    refine ⟨?_, ?_, ?_, ?_, ?_, ?_, ?_⟩
    · split_ifs <;> simp_all
    · split_ifs <;> simp_all
    · split_ifs <;> simp_all
    · split_ifs <;> simp_all
    · split_ifs <;> simp_all
    · split_ifs <;> omega
    · split_ifs <;> omega

/-- Instance of C39, amended: a config that allows 7 incoming streams and leaves
everything else unset. -/
theorem populateConfig_idempotent_witness :
    populateConfig exampleDefaults
        (some (populateConfig exampleDefaults (some (exampleConfig 7))))
      = populateConfig exampleDefaults (some (exampleConfig 7)) :=
  (populateConfig_idempotent exampleDefaults (by decide) (by decide) (exampleConfig 7)
    (by decide) (by decide)).1

end quic

/-! ## Properties of the datagram queue -/

namespace quic

theorem copy_make (src : List Nat) : copy (List.replicate src.length 0) src = src := by
  simp [copy]

theorem HandleDatagramFrame_eq (h : datagramQueue) (f : DatagramFrame) :
    h.HandleDatagramFrame f
      = if h.rcvQueue.length < h.rcvQueueLen then { h with rcvQueue := h.rcvQueue ++ [f.Data] }
        else h := by
  simp only [datagramQueue.HandleDatagramFrame, copy_make]

theorem queuedData_append : ∀ (a b : List QueueEvent),
    queuedData (a ++ b) = queuedData a ++ queuedData b
  | [], _ => rfl
  | QueueEvent.queued data :: a, b => by
    show data :: queuedData (a ++ b) = data :: queuedData a ++ queuedData b
    rw [queuedData_append a b]
    rfl
  | QueueEvent.discarded _ :: a, b => by
    show queuedData (a ++ b) = queuedData a ++ queuedData b
    exact queuedData_append a b
  | QueueEvent.handedOut _ :: a, b => by
    show queuedData (a ++ b) = queuedData a ++ queuedData b
    exact queuedData_append a b

theorem handedOutData_append : ∀ (a b : List QueueEvent),
    handedOutData (a ++ b) = handedOutData a ++ handedOutData b
  | [], _ => rfl
  | QueueEvent.queued _ :: a, b => by
    show handedOutData (a ++ b) = handedOutData a ++ handedOutData b
    exact handedOutData_append a b
  | QueueEvent.discarded _ :: a, b => by
    show handedOutData (a ++ b) = handedOutData a ++ handedOutData b
    exact handedOutData_append a b
  | QueueEvent.handedOut data :: a, b => by
    show data :: handedOutData (a ++ b) = data :: handedOutData a ++ handedOutData b
    rw [handedOutData_append a b]
    rfl

/-- What a call of `Receive` does, by the state of the queue. -/
theorem Receive_cases (h : datagramQueue) (rcvFirst : Bool) :
    (h.rcvQueue = [] ∧ h.closed = false ∧ h.Receive rcvFirst = (ReceiveResult.waits, h))
    ∨ (h.closed = true ∧ (h.rcvQueue = [] ∨ rcvFirst = false)
        ∧ h.Receive rcvFirst = (ReceiveResult.returned none h.closeErr, h))
    ∨ (∃ data rest, h.rcvQueue = data :: rest ∧ (h.closed = false ∨ rcvFirst = true)
        ∧ h.Receive rcvFirst
          = (ReceiveResult.returned (some data) none, { h with rcvQueue := rest })) := by
  unfold datagramQueue.Receive
  cases hq : h.rcvQueue with
  | nil =>
    cases hc : h.closed with
    | false => exact Or.inl ⟨rfl, rfl, by simp⟩
    | true => exact Or.inr (Or.inl ⟨rfl, Or.inl rfl, by simp⟩)
  | cons data rest =>
    cases hc : h.closed with
    | false => exact Or.inr (Or.inr ⟨data, rest, rfl, Or.inl rfl, by simp⟩)
    | true =>
      cases rcvFirst with
      | false => exact Or.inr (Or.inl ⟨rfl, Or.inr rfl, by simp⟩)
      | true => exact Or.inr (Or.inr ⟨data, rest, rfl, Or.inr rfl, by simp⟩)

/-- One call keeps the capacity and the bound of the receive queue, and takes
payloads from its front and adds payloads at its back. -/
theorem call_rcvQueue (h h1 : datagramQueue) (c : QueueCall) (events : List QueueEvent)
    (hc : h.call c = some (events, h1)) :
    h1.rcvQueueLen = h.rcvQueueLen
    ∧ (h.rcvQueue.length ≤ h.rcvQueueLen → h1.rcvQueue.length ≤ h1.rcvQueueLen)
    ∧ h.rcvQueue ++ queuedData events = handedOutData events ++ h1.rcvQueue := by
  cases c with
  | AddAndWait f =>
    simp only [datagramQueue.call, Option.some.injEq, Prod.mk.injEq] at hc
    obtain ⟨rfl, rfl⟩ := hc
    simp only [datagramQueue.AddAndWait]
    split <;> simp [queuedData, handedOutData]
  | Get =>
    simp only [datagramQueue.call, Option.some.injEq, Prod.mk.injEq] at hc
    obtain ⟨rfl, rfl⟩ := hc
    simp only [datagramQueue.Get]
    split <;> simp [queuedData, handedOutData]
  | HandleDatagramFrame f =>
    simp only [datagramQueue.call, HandleDatagramFrame_eq] at hc
    split at hc
    · simp only [Option.some.injEq, Prod.mk.injEq] at hc
      obtain ⟨rfl, rfl⟩ := hc
      refine ⟨rfl, fun _ => ?_, by simp [queuedData, handedOutData]⟩
      simp only [List.length_append, List.length_singleton]
      omega
    · simp only [Option.some.injEq, Prod.mk.injEq] at hc
      obtain ⟨rfl, rfl⟩ := hc
      exact ⟨rfl, fun hle => hle, by simp [queuedData, handedOutData]⟩
  | Receive rcvFirst =>
    simp only [datagramQueue.call] at hc
    rcases Receive_cases h rcvFirst with ⟨_, _, hr⟩ | ⟨_, _, hr⟩ | ⟨data, rest, hq, _, hr⟩
    · rw [hr] at hc
      simp only [Option.some.injEq, Prod.mk.injEq] at hc
      obtain ⟨rfl, rfl⟩ := hc
      exact ⟨rfl, fun hle => hle, by simp [queuedData, handedOutData]⟩
    · rw [hr] at hc
      simp only [Option.some.injEq, Prod.mk.injEq] at hc
      obtain ⟨rfl, rfl⟩ := hc
      exact ⟨rfl, fun hle => hle, by simp [queuedData, handedOutData]⟩
    · rw [hr] at hc
      simp only [Option.some.injEq, Prod.mk.injEq] at hc
      obtain ⟨rfl, rfl⟩ := hc
      refine ⟨rfl, fun hle => ?_, by simp [queuedData, handedOutData, hq]⟩
      rw [hq] at hle
      simp only [List.length_cons] at hle
      show rest.length ≤ h.rcvQueueLen
      omega
  | CloseWithError e =>
    simp only [datagramQueue.call, datagramQueue.CloseWithError] at hc
    split at hc
    · rename_i h2 hclose
      split at hclose
      · cases hclose
      · simp only [Option.some.injEq] at hclose
        simp only [Option.some.injEq, Prod.mk.injEq] at hc
        obtain ⟨rfl, rfl⟩ := hc
        subst hclose
        exact ⟨rfl, fun hle => hle, by simp [queuedData, handedOutData]⟩
    · cases hc

theorem queue_run_cons (h : datagramQueue) (c : QueueCall) (calls : List QueueCall)
    (events : List QueueEvent) (h2 : datagramQueue)
    (hrun : h.run (c :: calls) = some (events, h2)) :
    ∃ ev h1 later, h.call c = some (ev, h1) ∧ h1.run calls = some (later, h2)
      ∧ events = ev ++ later := by
  simp only [datagramQueue.run] at hrun
  cases hc : h.call c with
  | none => rw [hc] at hrun; cases hrun
  | some r =>
    obtain ⟨ev, h1⟩ := r
    rw [hc] at hrun
    simp only at hrun
    cases hr : h1.run calls with
    | none => rw [hr] at hrun; cases hrun
    | some r2 =>
      obtain ⟨later, h3⟩ := r2
      rw [hr] at hrun
      simp only [Option.some.injEq, Prod.mk.injEq] at hrun
      obtain ⟨rfl, rfl⟩ := hrun
      exact ⟨ev, h1, later, rfl, hr, rfl⟩

theorem run_rcvQueue : ∀ (calls : List QueueCall) (h h2 : datagramQueue)
    (events : List QueueEvent), h.run calls = some (events, h2) →
    h2.rcvQueueLen = h.rcvQueueLen
    ∧ (h.rcvQueue.length ≤ h.rcvQueueLen → h2.rcvQueue.length ≤ h2.rcvQueueLen)
    ∧ h.rcvQueue ++ queuedData events = handedOutData events ++ h2.rcvQueue
  | [], h, h2, events, hrun => by
    simp only [datagramQueue.run, Option.some.injEq, Prod.mk.injEq] at hrun
    obtain ⟨rfl, rfl⟩ := hrun
    exact ⟨rfl, fun hle => hle, by simp [queuedData, handedOutData]⟩
  | c :: calls, h, h2, events, hrun => by
    obtain ⟨ev, h1, later, hc, hr, rfl⟩ := queue_run_cons h c calls events h2 hrun
    obtain ⟨a1, a2, a3⟩ := call_rcvQueue h h1 c ev hc
    obtain ⟨b1, b2, b3⟩ := run_rcvQueue calls h1 h2 later hr
    refine ⟨b1.trans a1, fun hle => b2 (a2 hle), ?_⟩
    rw [queuedData_append, handedOutData_append, ← List.append_assoc, a3, List.append_assoc, b3,
      List.append_assoc]

end quic

namespace quic

/-- Claim C31. In every state reached from a new datagram queue by calls that do
not panic, the receive queue holds at most `DatagramRcvQueueLen` payloads;
`HandleDatagramFrame` on a full queue leaves the queue as it is, and otherwise
appends a copy of the payload of the frame at the back; a call of `Receive` that
returns a payload returns the one at the front and removes it, and it does so
for every non-empty queue that is not closed; so the payloads handed out so
far, followed by the ones still queued, are the payloads that were put into
the queue, in the order of their arrival. -/
theorem rcvQueue_bounded_and_in_order (DatagramRcvQueueLen : Nat) (calls : List QueueCall)
    (events : List QueueEvent) (h : datagramQueue)
    (hrun : (newDatagramQueue DatagramRcvQueueLen).run calls = some (events, h)) :
    h.rcvQueue.length ≤ DatagramRcvQueueLen ∧
    (∀ f, h.rcvQueue.length = DatagramRcvQueueLen → h.HandleDatagramFrame f = h) ∧
    (∀ f, h.rcvQueue.length < DatagramRcvQueueLen →
      h.HandleDatagramFrame f = { h with rcvQueue := h.rcvQueue ++ [f.Data] }) ∧
    (∀ rcvFirst data err, (h.Receive rcvFirst).1 = ReceiveResult.returned (some data) err →
      ∃ rest, h.rcvQueue = data :: rest ∧ (h.Receive rcvFirst).2 = { h with rcvQueue := rest }) ∧
    (∀ rcvFirst data rest, h.rcvQueue = data :: rest → h.closed = false →
      h.Receive rcvFirst
        = (ReceiveResult.returned (some data) none, { h with rcvQueue := rest })) ∧
    queuedData events = handedOutData events ++ h.rcvQueue := by
  obtain ⟨hlen, hle, hdata⟩ := run_rcvQueue calls _ h events hrun
  have hcap : h.rcvQueueLen = DatagramRcvQueueLen := hlen
  have hbound : h.rcvQueue.length ≤ DatagramRcvQueueLen := by
    rw [← hcap]
    exact hle (Nat.zero_le _)
  refine ⟨hbound, ?_, ?_, ?_, ?_, ?_⟩
  · intro f hfull
    rw [HandleDatagramFrame_eq, if_neg (by omega)]
  · intro f hfree
    rw [HandleDatagramFrame_eq, if_pos (by omega)]
  · intro rcvFirst data err hr
    rcases Receive_cases h rcvFirst with ⟨_, _, h1⟩ | ⟨_, _, h1⟩ | ⟨d, rest, hq, _, h1⟩
    · rw [h1] at hr
      cases hr
    · rw [h1] at hr
      cases hr
    · rw [h1] at hr ⊢
      simp only [ReceiveResult.returned.injEq, Option.some.injEq] at hr
      obtain ⟨rfl, _⟩ := hr
      exact ⟨rest, hq, rfl⟩
  · intro rcvFirst data rest hq hopen
    rcases Receive_cases h rcvFirst with ⟨h0, _, _⟩ | ⟨h0, _, _⟩ | ⟨d, r, hq1, _, h1⟩
    · rw [hq] at h0
      cases h0
    · rw [hopen] at h0
      cases h0
    · rw [hq] at hq1
      simp only [List.cons.injEq] at hq1
      obtain ⟨rfl, rfl⟩ := hq1
      exact h1
  · simpa using hdata

/-- Instance of C31: a queue for two datagrams. Three datagrams arrive, the
third is discarded, and `Receive` hands out the first and then the second. -/
theorem rcvQueue_bounded_and_in_order_witness :
    (newDatagramQueue 2).run arrivalCalls
      = some ([QueueEvent.queued [1], QueueEvent.queued [2], QueueEvent.discarded [3],
          QueueEvent.handedOut [1], QueueEvent.handedOut [2]], newDatagramQueue 2) ∧
    (newDatagramQueue 2).rcvQueue.length ≤ 2 :=
  ⟨by decide, (rcvQueue_bounded_and_in_order 2 arrivalCalls
    [QueueEvent.queued [1], QueueEvent.queued [2], QueueEvent.discarded [3],
      QueueEvent.handedOut [1], QueueEvent.handedOut [2]] (newDatagramQueue 2) (by decide)).1⟩

/-- Calls that do not panic keep a closed queue closed, with its close error. -/
theorem run_closed : ∀ (calls : List QueueCall) (h h2 : datagramQueue)
    (events : List QueueEvent), h.run calls = some (events, h2) → h.closed = true →
    h2.closed = true ∧ h2.closeErr = h.closeErr
  | [], h, h2, events, hrun, hc => by
    simp only [datagramQueue.run, Option.some.injEq, Prod.mk.injEq] at hrun
    obtain ⟨_, rfl⟩ := hrun
    exact ⟨hc, rfl⟩
  | c :: calls, h, h2, events, hrun, hcl => by
    obtain ⟨ev, h1, later, hc, hr, _⟩ := queue_run_cons h c calls events h2 hrun
    have h1c : h1.closed = true ∧ h1.closeErr = h.closeErr := by
      cases c with
      | AddAndWait f =>
        simp only [datagramQueue.call, Option.some.injEq, Prod.mk.injEq] at hc
        obtain ⟨_, rfl⟩ := hc
        simp only [datagramQueue.AddAndWait, hcl, if_true]
        exact ⟨trivial, trivial⟩
      | Get =>
        simp only [datagramQueue.call, Option.some.injEq, Prod.mk.injEq] at hc
        obtain ⟨_, rfl⟩ := hc
        simp only [datagramQueue.Get]
        split <;> exact ⟨hcl, rfl⟩
      | HandleDatagramFrame f =>
        simp only [datagramQueue.call, HandleDatagramFrame_eq] at hc
        split at hc <;>
          (simp only [Option.some.injEq, Prod.mk.injEq] at hc
           obtain ⟨_, rfl⟩ := hc
           exact ⟨hcl, rfl⟩)
      | Receive rcvFirst =>
        simp only [datagramQueue.call] at hc
        rcases Receive_cases h rcvFirst with ⟨_, _, hx⟩ | ⟨_, _, hx⟩ | ⟨_, _, _, _, hx⟩ <;>
          (rw [hx] at hc
           simp only [Option.some.injEq, Prod.mk.injEq] at hc
           obtain ⟨_, rfl⟩ := hc
           exact ⟨hcl, rfl⟩)
      | CloseWithError e =>
        simp only [datagramQueue.call, datagramQueue.CloseWithError, hcl, if_true] at hc
        cases hc
    obtain ⟨k1, k2⟩ := run_closed calls h1 h2 later hr h1c.1
    exact ⟨k1, k2.trans h1c.2⟩

/-- Claim C32 fails as stated: a datagram is queued, the queue is closed with
an error, and the `select` of the next `Receive` finds both of its cases ready;
when it chooses the receive queue, `Receive` returns the datagram and no error. -/
theorem Receive_after_close_returns_data :
    ((newDatagramQueue 1).run
        [QueueCall.HandleDatagramFrame (datagramFrame [1, 2, 3]),
         QueueCall.CloseWithError (some "closed")]).map (fun r => r.2)
      = some closedQueueWithDatagram ∧
    (closedQueueWithDatagram.Receive true).1
      = ReceiveResult.returned (some [1, 2, 3]) none ∧
    (closedQueueWithDatagram.Receive true).1 ≠ ReceiveResult.returned none (some "closed") := by
  decide

/-- Claim C32, amended. After `CloseWithError(e)` and any later calls that do
not panic, every `AddAndWait` returns the error `e`, whatever is queued; every
`Receive` returns the error `e` when no received datagram is queued or when its
`select` chooses the closed channel, and otherwise it returns the datagram at
the front of the receive queue. -/
theorem closed_queue_returns_closeErr (h0 h1 h2 : datagramQueue) (e : Option String)
    (later : List QueueCall) (events : List QueueEvent)
    (hclose : h0.CloseWithError e = some h1) (hrun : h1.run later = some (events, h2)) :
    (∀ f, (h2.AddAndWait f).1 = AddResult.returned e) ∧
    (∀ rcvFirst, (h2.Receive rcvFirst).1 = ReceiveResult.returned none e ∨
      ∃ data rest, h2.rcvQueue = data :: rest ∧ rcvFirst = true ∧
        (h2.Receive rcvFirst).1 = ReceiveResult.returned (some data) none) ∧
    (h2.rcvQueue = [] → ∀ rcvFirst, (h2.Receive rcvFirst).1 = ReceiveResult.returned none e) ∧
    (h2.Receive false).1 = ReceiveResult.returned none e := by
  have h1c : h1.closed = true ∧ h1.closeErr = e := by
    unfold datagramQueue.CloseWithError at hclose
    split at hclose
    · cases hclose
    · simp only [Option.some.injEq] at hclose
      subst hclose
      exact ⟨rfl, rfl⟩
  obtain ⟨hc, he⟩ := run_closed later h1 h2 events hrun h1c.1
  rw [h1c.2] at he
  have hrcv : ∀ rcvFirst, (h2.Receive rcvFirst).1 = ReceiveResult.returned none e ∨
      ∃ data rest, h2.rcvQueue = data :: rest ∧ rcvFirst = true ∧
        (h2.Receive rcvFirst).1 = ReceiveResult.returned (some data) none := by
    intro rcvFirst
    rcases Receive_cases h2 rcvFirst with ⟨_, hx, _⟩ | ⟨_, _, hx⟩ | ⟨data, rest, hq, hor, hx⟩
    · rw [hc] at hx
      cases hx
    · left
      rw [hx, he]
    · right
      rcases hor with hor | hor
      · rw [hc] at hor
        cases hor
      · exact ⟨data, rest, hq, hor, by rw [hx]⟩
  refine ⟨?_, hrcv, ?_, ?_⟩
  · intro f
    simp only [datagramQueue.AddAndWait, hc, if_true, he]
  · intro hq rcvFirst
    rcases hrcv rcvFirst with hx | ⟨data, rest, hq1, _⟩
    · exact hx
    · rw [hq] at hq1
      cases hq1
  · rcases hrcv false with hx | ⟨_, _, _, hf, _⟩
    · exact hx
    · cases hf

/-- Instance of C32, amended: a datagram is queued and the queue is closed with
an error; `AddAndWait` then returns the error, and so does the `Receive` whose
`select` chooses the closed channel. -/
theorem closed_queue_returns_closeErr_witness :
    (closedQueueWithDatagram.AddAndWait (datagramFrame [7])).1
      = AddResult.returned (some "closed") ∧
    (closedQueueWithDatagram.Receive false).1 = ReceiveResult.returned none (some "closed") :=
  ⟨(closed_queue_returns_closeErr queueWithDatagram closedQueueWithDatagram
      closedQueueWithDatagram (some "closed") [] [] (by decide) (by decide)).1
      (datagramFrame [7]),
    by decide⟩

end quic
